import Mathlib

/-!
# SCPI parser: pattern matching, number conversion and the result writer

A shallow embedding of `libscpi/src/utils.c` (the string and pattern helpers,
`matchPattern`, `matchCommand`, `composeCompoundCommand`, the integer to string
converters) and of the result writer and the dispatch of `libscpi/src/parser.c`
(`writeBinHeader`, the `SCPI_Result...` functions, `processCommand`,
`SCPI_Parse`), together with theorems about them.

## Modelling conventions

* A C `char` is a natural number (its byte value); a C string is the list of its
  bytes before the terminating NUL.  Reading at the terminator, or anywhere
  outside the list, yields `0`.
* A pointer that the code only reads forward from is the list of bytes from the
  pointer on; advancing it by `n` is `List.drop n`.  The pattern cursor of
  `matchCommand`, which the code also indexes with a computed signed offset, is
  a `CPtr`: the whole string plus a signed offset.
* C `int` and `size_t` values that hold string lengths and positions are
  modelled by `Int` and `Nat` without wrap-around (strings are assumed shorter
  than `INT_MAX`).  The one conversion that matters, a negative `int` length
  passed as a `size_t`, is made explicit in `toSizeT`.
* `int32_t` cells written through a pointer are passed in and returned
  explicitly; a NULL pointer is `none`.
* Loops whose termination is not evident from the code take fuel; running out
  of fuel is `none`.
-/

namespace Scpi

/-! ## Characters (`<ctype.h>` in the "C" locale) -/

/-- The C library `islower` in the "C" locale: `'a'..'z'`. -/
def islower (c : Nat) : Bool := decide (97 ≤ c) && decide (c ≤ 122)

/-- The C library `isupper` in the "C" locale: `'A'..'Z'`. -/
def isupper (c : Nat) : Bool := decide (65 ≤ c) && decide (c ≤ 90)

/-- The C library `isdigit`: `'0'..'9'`. -/
def isdigit (c : Nat) : Bool := decide (48 ≤ c) && decide (c ≤ 57)

/-- The C library `isspace` in the "C" locale: space, `\t`, `\n`, `\v`, `\f`, `\r`. -/
def isspace (c : Nat) : Bool := c == 32 || (decide (9 ≤ c) && decide (c ≤ 13))

/-- The C library `tolower` in the "C" locale. -/
def tolower (c : Nat) : Nat := if isupper c then c + 32 else c

/-- Bytes of a string literal. -/
def str (s : String) : List Nat := s.toList.map Char.toNat

/-! ## Memory reads -/

/-- The byte `s[i]` of a C string with contents `s`; `0` at the terminator and
outside the string. -/
def byteAt (s : List Nat) (i : Int) : Nat :=
  if i < 0 then 0 else s.getD i.toNat 0

/-- A pointer into a C string: the string and a signed offset into it. -/
structure CPtr where
  /-- The bytes of the whole string. -/
  mem : List Nat
  /-- Offset of the pointer from the start of the string. -/
  off : Int
deriving DecidableEq, Repr

/-- The read `p[j]`. -/
def CPtr.get (p : CPtr) (j : Int) : Nat := byteAt p.mem (p.off + j)

/-- The pointer `p + n`. -/
def CPtr.add (p : CPtr) (n : Int) : CPtr := ⟨p.mem, p.off + n⟩

/-- The bytes from `p` on, as seen by code that only reads forward from `p`. -/
def CPtr.bytes (p : CPtr) : List Nat :=
  if p.off < 0 then List.replicate (-p.off).toNat 0 ++ p.mem else p.mem.drop p.off.toNat

/-- The value of `(size_t) n` for an `int` n: a negative `n` wraps to
`SIZE_MAX + 1 + n` (64-bit `size_t`). -/
def toSizeT (n : Int) : Nat :=
  if n < 0 then (18446744073709551616 + n).toNat else n.toNat

/-! ## String helpers -/

/-- The C library `strlen`: number of bytes before the first NUL. -/
def strlen : List Nat → Nat
  | [] => 0
  | c :: cs => if c = 0 then 0 else strlen cs + 1

/-- Source `BSD_strnlen` (`SCPIDEFINE_strnlen`): number of bytes before the first
NUL, at most `maxlen`. -/
def strnlen : List Nat → Nat → Nat
  | _, 0 => 0
  | [], _ + 1 => 0
  | c :: cs, maxlen + 1 => if c = 0 then 0 else strnlen cs maxlen + 1

/-- Source `strnpbrk`: offset of the first byte of `str`, among its first `size`
bytes and before its terminator, that belongs to `set`; `none` is NULL. -/
def strnpbrk (str : List Nat) (size : Nat) (set : List Nat) : Option Nat :=
  match str, size with
  | _, 0 => none
  | [], _ + 1 => none
  | c :: cs, size + 1 =>
    if c = 0 then none
    else if c ∈ set then some 0
    else (strnpbrk cs size set).map (· + 1)

/-- The POSIX `strncasecmp` (`SCPIDEFINE_strncasecmp`): compares at most `n`
bytes ignoring ASCII case, stopping at a NUL; `0` means equal. -/
def strncasecmp (s1 s2 : List Nat) : Nat → Int
  | 0 => 0
  | n + 1 =>
    let c1 := tolower (s1.headD 0)
    let c2 := tolower (s2.headD 0)
    if c1 ≠ c2 then (c1 : Int) - (c2 : Int)
    else if c1 = 0 then 0
    else strncasecmp s1.tail s2.tail n

/-- Value of a run of decimal digits. -/
def digitsValue (ds : List Nat) : Nat := ds.foldl (fun a d => 10 * a + (d - 48)) 0

/-- The C library `strtol(str, &endptr, 10)` with a 64-bit `long`: skips leading
white space, accepts one optional sign, converts the following digit run and
saturates at `LONG_MIN`/`LONG_MAX`.  Returns the value and `endptr - str`
(`0` when there is no digit run). -/
def strtol (str : List Nat) : Int × Nat :=
  let ws := (str.takeWhile isspace).length
  let s1 := str.drop ws
  let neg := s1.headD 0 == 45
  let sg := if s1.headD 0 == 45 || s1.headD 0 == 43 then 1 else 0
  let ds := (s1.drop sg).takeWhile isdigit
  if ds.length = 0 then (0, 0)
  else
    let v : Int := if neg then -(digitsValue ds : Int) else (digitsValue ds : Int)
    (max (-9223372036854775808) (min 9223372036854775807 v), ws + sg + ds.length)

/-- The conversion of a `long` to `int32_t` (keeps the low 32 bits). -/
def toInt32 (v : Int) : Int := (v + 2147483648) % 4294967296 - 2147483648

/-- Source `strBaseToInt32(str, &val, 10)`: returns the number of bytes used and
the value stored in `*val`. -/
def strBaseToInt32 (str : List Nat) : Nat × Int :=
  ((strtol str).2, toInt32 (strtol str).1)

/-- Source `compareStr`: TRUE if `len1 == len2` and the first `len2` bytes are
equal ignoring case. -/
def compareStr (str1 : List Nat) (len1 : Nat) (str2 : List Nat) (len2 : Nat) : Bool :=
  if len1 ≠ len2 then false
  else if strncasecmp str1 str2 len2 = 0 then true
  else false

/-- Source `compareStrAndNum`: `str2` may be longer than `str1` by a number.  `num`
is the cell `*num` on entry (`none` for a NULL pointer); the result carries the
cell on exit. -/
def compareStrAndNum (str1 : List Nat) (len1 : Nat) (str2 : List Nat) (len2 : Nat)
    (num : Option Int) : Bool × Option Int :=
  if len2 < len1 then (false, num)
  else if strncasecmp str1 str2 len1 = 0 then
    match num with
    | some v =>
      if len1 = len2 then (true, some v)
      else
        let i := len1 + (strBaseToInt32 (str2.drop len1)).1
        if i ≠ len2 then (false, some v)
        else (true, some (strBaseToInt32 (str2.drop len1)).2)
    | none =>
      ((List.range' len1 (len2 - len1)).all (fun i => isdigit (str2.getD i 0)), none)
  else (false, num)

/-- Source `skipWhitespace`: number of white-space bytes at the beginning. -/
def skipWhitespace (cmd : List Nat) (len : Nat) : Nat :=
  ((cmd.take len).takeWhile isspace).length

/-- Source `patternSeparatorShortPos`: position of the first lower-case letter
among the first `len` bytes, or the number of bytes scanned. -/
def patternSeparatorShortPos (pattern : List Nat) (len : Nat) : Nat :=
  match pattern, len with
  | _, 0 => 0
  | [], _ + 1 => 0
  | c :: cs, len + 1 =>
    if c = 0 then 0
    else if islower c then 0
    else patternSeparatorShortPos cs len + 1

/-- Source `patternSeparatorPos`: position of the first of `?:[]`, or `len`.  Both
call sites pass an `int` length and store the result in an `int`: the length
is converted with `toSizeT` for the scan, and a result of `len` converts back
to the `int` it came from. -/
def patternSeparatorPos (pattern : List Nat) (len : Int) : Int :=
  match strnpbrk pattern (toSizeT len) [63, 58, 91, 93] with
  | none => len
  | some i => (i : Int)

/-- Source `cmdSeparatorPos`: position of the first of `:?`, or `len`. -/
def cmdSeparatorPos (cmd : List Nat) (len : Nat) : Nat :=
  match strnpbrk cmd len [58, 63] with
  | none => len
  | some i => i

/-- Source `matchPattern`: match `str` against a pattern `UPPERCASElowercase`,
optionally ending in `#`.  `num` is the cell `*num` on entry (`none` for NULL);
the result carries the cell on exit. -/
def matchPattern (pattern : List Nat) (pattern_len : Nat) (str : List Nat) (str_len : Nat)
    (num : Option Int) : Bool × Option Int :=
  if 0 < pattern_len ∧ pattern.getD (pattern_len - 1) 0 = 35 then
    let new_pattern_len := pattern_len - 1
    let pattern_sep_pos_short := patternSeparatorShortPos pattern new_pattern_len
    let r := compareStrAndNum pattern new_pattern_len str str_len num
    if r.1 then r
    else compareStrAndNum pattern pattern_sep_pos_short str str_len r.2
  else
    let pattern_sep_pos_short := patternSeparatorShortPos pattern pattern_len
    (compareStr pattern pattern_len str str_len ||
      compareStr pattern pattern_sep_pos_short str str_len, num)

/-! ## `matchCommand` -/

/-- The local variables of `matchCommand` that its loops change.  `numbers` is the
caller's array (`none` for NULL). -/
structure MatchState where
  /-- Cursor into the pattern. -/
  pattern_ptr : CPtr
  /-- Remaining pattern length (a C `int`). -/
  pattern_len : Int
  /-- Cursor into the command: the bytes from the cursor on. -/
  cmd_ptr : List Nat
  /-- Remaining command length. -/
  cmd_len : Nat
  /-- Depth of open optional groups. -/
  brackets : Int
  /-- Index of the next numeric suffix. -/
  numbers_idx : Nat
  /-- Contents of the caller's array. -/
  numbers : Option (List Int)
  /-- The variable `result`. -/
  result : Bool
deriving DecidableEq, Repr

/-- Source macro `SKIP_PATTERN(n)`. -/
def SKIP_PATTERN (st : MatchState) (n : Int) : MatchState :=
  { st with pattern_ptr := st.pattern_ptr.add n, pattern_len := st.pattern_len - n }

/-- Source macro `SKIP_CMD(n)`. -/
def SKIP_CMD (st : MatchState) (n : Nat) : MatchState :=
  { st with cmd_ptr := st.cmd_ptr.drop n, cmd_len := st.cmd_len - n }

/-- The body of the inner loop `while (pattern_len)` of `matchCommand` up to and
including `SKIP_PATTERN(pattern_sep_pos + 1)`: find the next separator, count it
if it is a bracket, and step over it. -/
def residualStep (st : MatchState) : MatchState :=
  let pattern_sep_pos := patternSeparatorPos st.pattern_ptr.bytes st.pattern_len
  let c := st.pattern_ptr.get pattern_sep_pos
  let brackets :=
    if c = 91 then st.brackets + 1
    else if c = 93 then st.brackets - 1
    else st.brackets
  SKIP_PATTERN { st with brackets := brackets } (pattern_sep_pos + 1)

/-- The inner loop `while (pattern_len)` of `matchCommand`, run when the command is
complete but the pattern is not: it walks the rest of the pattern counting
brackets.  `none` when the fuel runs out. -/
def residualLoop : Nat → MatchState → Option MatchState
  | 0, _ => none
  | fuel + 1, st =>
    if st.pattern_len = 0 then some st
    else
      let st1 := residualStep st
      if st1.brackets = 0 then
        if 0 < st1.pattern_len ∧ st1.pattern_ptr.get 0 = 91 then residualLoop fuel st1
        else some st1
      else residualLoop fuel st1

/-- Outcome of one pass through the body of the main loop of `matchCommand`. -/
inductive LoopStep where
  /-- The loop goes round again. -/
  | next (st : MatchState)
  /-- The loop is left by `break`. -/
  | done (st : MatchState)
  /-- The inner loop did not finish. -/
  | stuck
deriving DecidableEq, Repr

/-- The body of `if (matchPattern(...)) { ... }` in the main loop of `matchCommand`,
after `SKIP_PATTERN`, `SKIP_CMD` and `result = TRUE`.  `fuel` bounds the inner loop. -/
def loopMatched (fuel : Nat) (st1 : MatchState) : LoopStep :=
  /- command is complete -/
  if st1.pattern_len = 0 ∧ st1.cmd_len = 0 then .done st1
  /- pattern complete, but command not -/
  else if st1.pattern_len = 0 ∧ 0 < st1.cmd_len then .done { st1 with result := false }
  /- command complete, but pattern not -/
  else if st1.cmd_len = 0 then
    match residualLoop fuel st1 with
    | none => .stuck
    | some st2 => .done (if st2.pattern_len ≠ 0 then { st2 with result := false } else st2)
  /- both command and pattern contain a command separator at this position -/
  else if 0 < st1.pattern_len ∧ st1.pattern_ptr.get 0 = st1.cmd_ptr.headD 0
      ∧ st1.pattern_ptr.get 0 = 58 then
    .next (SKIP_CMD (SKIP_PATTERN st1 1) 1)
  else if 1 < st1.pattern_len ∧ st1.pattern_ptr.get 1 = st1.cmd_ptr.headD 0
      ∧ st1.pattern_ptr.get 0 = 91 ∧ st1.pattern_ptr.get 1 = 58 then
    .next { SKIP_CMD (SKIP_PATTERN st1 2) 1 with brackets := st1.brackets + 1 }
  else if 1 < st1.pattern_len ∧ st1.pattern_ptr.get 1 = st1.cmd_ptr.headD 0
      ∧ st1.pattern_ptr.get 0 = 93 ∧ st1.pattern_ptr.get 1 = 58 then
    .next { SKIP_CMD (SKIP_PATTERN st1 2) 1 with brackets := st1.brackets - 1 }
  else if 2 < st1.pattern_len ∧ st1.pattern_ptr.get 2 = st1.cmd_ptr.headD 0
      ∧ st1.pattern_ptr.get 0 = 93 ∧ st1.pattern_ptr.get 1 = 91
      ∧ st1.pattern_ptr.get 2 = 58 then
    .next (SKIP_CMD (SKIP_PATTERN st1 3) 1)
  else .done { st1 with result := false }

/-- The `else` branch of `if (matchPattern(...))` in the main loop of `matchCommand`,
after `SKIP_PATTERN(pattern_sep_pos)`. -/
def loopUnmatched (st1 : MatchState) : LoopStep :=
  if st1.pattern_ptr.get 0 = 93 ∧ st1.pattern_ptr.get 1 = 58 then
    .next { SKIP_PATTERN st1 2 with brackets := st1.brackets - 1 }
  else if 2 < st1.pattern_len ∧ st1.pattern_ptr.get 0 = 93 ∧ st1.pattern_ptr.get 1 = 91
      ∧ st1.pattern_ptr.get 2 = 58 then
    .next (SKIP_PATTERN st1 3)
  else .done { st1 with result := false }

/-- The first part of the body of `while (1)` in `matchCommand`: set `number_ptr`
(writing the default value through it) when the pattern keyword ends in `#`, and
call `matchPattern` on the current pattern and command segments.  Returns the
flag of `matchPattern` and the state with `numbers` and `numbers_idx` updated. -/
def matchStep (numbers_len : Nat) (default_value : Int) (st : MatchState) :
    Bool × MatchState :=
  let pattern_sep_pos := patternSeparatorPos st.pattern_ptr.bytes st.pattern_len
  let cmd_sep_pos := cmdSeparatorPos st.cmd_ptr st.cmd_len
  let hash : Bool := decide (0 < pattern_sep_pos) &&
    (st.pattern_ptr.get (pattern_sep_pos - 1) == 35)
  /- `number_ptr`: the index it points at, `none` for NULL -/
  let number_ptr : Option Nat :=
    if hash && st.numbers.isSome && decide (st.numbers_idx < numbers_len)
    then some st.numbers_idx else none
  /- `*number_ptr = default_value` -/
  let numbers1 : Option (List Int) :=
    match number_ptr with
    | some i => st.numbers.map (fun a => a.set i default_value)
    | none => st.numbers
  let numbers_idx1 := if hash then st.numbers_idx + 1 else st.numbers_idx
  let m := matchPattern st.pattern_ptr.bytes (toSizeT pattern_sep_pos) st.cmd_ptr cmd_sep_pos
    (number_ptr.map (fun _ => default_value))
  /- the cell `*number_ptr` as `matchPattern` left it -/
  let numbers2 : Option (List Int) :=
    match number_ptr, m.2 with
    | some i, some v => numbers1.map (fun a => a.set i v)
    | _, _ => numbers1
  (m.1, { st with numbers := numbers2, numbers_idx := numbers_idx1 })

/-- One pass through the body of `while (1)` in `matchCommand`.  `fuel` bounds the
inner loop. -/
def loopBody (numbers_len : Nat) (default_value : Int) (fuel : Nat) (st : MatchState) :
    LoopStep :=
  let pattern_sep_pos := patternSeparatorPos st.pattern_ptr.bytes st.pattern_len
  let cmd_sep_pos := cmdSeparatorPos st.cmd_ptr st.cmd_len
  let r := matchStep numbers_len default_value st
  if r.1 then
    loopMatched fuel
      { SKIP_CMD (SKIP_PATTERN r.2 pattern_sep_pos) cmd_sep_pos with result := true }
  else
    loopUnmatched (SKIP_PATTERN r.2 pattern_sep_pos)

/-- The main loop `while (1)` of `matchCommand`; `none` when either loop runs out of
fuel. -/
def matchLoop (numbers_len : Nat) (default_value : Int) (innerFuel : Nat) :
    Nat → MatchState → Option MatchState
  | 0, _ => none
  | fuel + 1, st =>
    match loopBody numbers_len default_value innerFuel st with
    | .next st1 => matchLoop numbers_len default_value innerFuel fuel st1
    | .done st1 => some st1
    | .stuck => none

/-- The lines of `matchCommand` that skip a first `[` and a first `:` of the pattern
("now support optional keywords in pattern style"). -/
def skipPatternStart (st : MatchState) : MatchState :=
  /- skip first '[' -/
  let st :=
    if st.pattern_ptr.get 0 = 91
    then { SKIP_PATTERN st 1 with brackets := st.brackets + 1 } else st
  /- skip first ':' -/
  if st.pattern_ptr.get 0 = 58 then SKIP_PATTERN st 1 else st

/-- The local variables of `matchCommand` as its declarations initialise them. -/
def matchCommandInit (pattern cmd : List Nat) (len : Nat) (numbers : Option (List Int)) :
    MatchState :=
  { pattern_ptr := ⟨pattern, 0⟩, pattern_len := (strlen pattern : Int),
    cmd_ptr := cmd, cmd_len := strnlen cmd len,
    brackets := 0, numbers_idx := 0, numbers := numbers, result := false }

/-- The part of `matchCommand` after the query check: skip the start of the pattern,
handle a leading `:` of the command, and run the main loop with `fuel` rounds
for each loop. -/
def matchCommandRest (numbers_len : Nat) (default_value : Int) (fuel : Nat)
    (st : MatchState) : Option MatchState :=
  let st := skipPatternStart st
  if st.cmd_ptr.headD 0 = 58 ∧ 2 ≤ st.cmd_len ∧ st.cmd_ptr.getD 1 0 = 42 then
    /- erroneous ":*IDN?" -/
    some st
  else
    let st :=
      if st.cmd_ptr.headD 0 = 58 ∧ 2 ≤ st.cmd_len then SKIP_CMD st 1 else st
    matchLoop numbers_len default_value fuel fuel st

/-- Source `matchCommand`, returning all its local variables at the `return`.  `none`
when a loop does not finish within `strlen(pattern) + 2` rounds. -/
def matchCommandRun (pattern cmd : List Nat) (len : Nat) (numbers : Option (List Int))
    (numbers_len : Nat) (default_value : Int) : Option MatchState :=
  let st : MatchState := matchCommandInit pattern cmd len numbers
  /- both commands are query commands? -/
  if st.pattern_ptr.get (st.pattern_len - 1) = 63 ∧ byteAt cmd ((st.cmd_len : Int) - 1) ≠ 63 then
    some st
  else
    let st :=
      if st.pattern_ptr.get (st.pattern_len - 1) = 63
      then { st with cmd_len := st.cmd_len - 1, pattern_len := st.pattern_len - 1 } else st
    matchCommandRest numbers_len default_value (strlen pattern + 2) st

/-- Source `matchCommand`: the returned flag (`none` if it does not return). -/
def matchCommand (pattern cmd : List Nat) (len : Nat) (numbers : Option (List Int))
    (numbers_len : Nat) (default_value : Int) : Option Bool :=
  (matchCommandRun pattern cmd len numbers numbers_len default_value).map (fun st => st.result)

/-- Source `matchCommand`: the caller's array after the call. -/
def matchCommandNumbers (pattern cmd : List Nat) (len : Nat) (numbers : Option (List Int))
    (numbers_len : Nat) (default_value : Int) : Option (List Int) :=
  (matchCommandRun pattern cmd len numbers numbers_len default_value).bind (fun st => st.numbers)

/-! ## `composeCompoundCommand` -/

/-- Source `scpi_token_t`: a token is a type code, a pointer into the input buffer
(an offset, `none` for NULL) and a length. -/
structure scpi_token_t where
  /-- The token type code. -/
  type : Nat
  /-- Offset of the first byte in the input buffer. -/
  ptr : Option Int
  /-- Number of bytes. -/
  len : Nat
deriving DecidableEq, Repr

/-- The C library `memmove(buf + dst, buf + src, n)` inside one buffer: byte `dst + k`
receives the old byte `src + k` for every `k < n`. -/
def memmove (buf : List Nat) (dst src : Int) (n : Nat) : List Nat :=
  (List.range buf.length).map fun (j : Nat) =>
    if dst ≤ (j : Int) ∧ (j : Int) < dst + (n : Int) then byteAt buf (src + ((j : Int) - dst))
    else buf.getD j 0

/-- The loop `for (i = prev->len; i > 0; i--) if (prev->ptr[i - 1] == ':') break;` of
`composeCompoundCommand`: the value of `i` after the loop, started at `i`. -/
def lastColonPos (buf : List Nat) (ptr : Int) : Nat → Nat
  | 0 => 0
  | i + 1 => if byteAt buf (ptr + i) = 58 then i + 1 else lastColonPos buf ptr i

/-- Source `composeCompoundCommand`: `buf` is the input buffer both tokens point
into, `current` is `none` for a NULL pointer.  Returns the flag, the buffer and
the current token after the call. -/
def composeCompoundCommand (buf : List Nat) (prev : scpi_token_t)
    (current : Option scpi_token_t) : Bool × List Nat × Option scpi_token_t :=
  match current with
  | none => (false, buf, current)
  | some cur =>
    match cur.ptr with
    | none => (false, buf, current)
    | some cptr =>
      /- Invalid input -/
      if cur.len = 0 then (false, buf, current)
      else
        match prev.ptr with
        | none => (true, buf, current)
        | some pptr =>
          /- no previous command - nothing to do -/
          if prev.len = 0 then (true, buf, current)
          /- Common command or command root - nothing to do -/
          else if byteAt buf cptr = 42 ∨ byteAt buf cptr = 58 then (true, buf, current)
          /- Previous command was common command - nothing to do -/
          else if byteAt buf pptr = 42 then (true, buf, current)
          else
            let i := lastColonPos buf pptr prev.len
            /- Previous command was simple command - nothing to do -/
            if i = 0 then (true, buf, current)
            else
              (true, memmove buf (cptr - i) pptr i,
                some { cur with ptr := some (cptr - i), len := cur.len + i })

/-- The bytes a token covers in the buffer. -/
def tokenBytes (buf : List Nat) (t : scpi_token_t) : List Nat :=
  match t.ptr with
  | none => []
  | some p => (List.range t.len).map fun (k : Nat) => byteAt buf (p + (k : Int))

/-- A header up to and including its last `:` (empty if it has none). -/
def uptoLastColon (header : List Nat) : List Nat :=
  (header.reverse.dropWhile (fun c => c != 58)).reverse

/-! ## Auxiliary notions used in the statements and proofs -/

/-- A byte is an ASCII letter. -/
def isalpha (c : Nat) : Bool := isupper c || islower c

/-- Invariant of the pattern cursor in the main loop of `matchCommand`: the cursor has
not moved before the pattern, the remaining length is not negative, and the
byte at the end of the remaining part is the terminator or the stripped `?`. -/
def PatInv (st : MatchState) : Prop :=
  0 ≤ st.pattern_ptr.off ∧ 0 ≤ st.pattern_len ∧
    (st.pattern_ptr.get st.pattern_len = 0 ∨ st.pattern_ptr.get st.pattern_len = 63)

/-- The command cursor covers a piece of text without NUL followed by a final `?`
that is counted in the remaining length. -/
def CmdQuery (st : MatchState) : Prop :=
  ∃ body : List Nat, st.cmd_ptr = body ++ [63] ∧ st.cmd_len = body.length + 1 ∧ 0 ∉ body

/-- The state with the command text folded to lower case. -/
def MatchState.lowerCmd (st : MatchState) : MatchState :=
  { st with cmd_ptr := st.cmd_ptr.map tolower }

/-- The outcome of a pass with the command text folded to lower case. -/
def LoopStep.lowerCmd : LoopStep → LoopStep
  | .next st => .next st.lowerCmd
  | .done st => .done st.lowerCmd
  | .stuck => .stuck

/-- The state seen through the bytes ahead of its two cursors: the pattern cursor is
inside the pattern with `pbytes` ahead and `plen` of them left to match, the
command cursor has `cbytes` ahead and `clen` of them left. -/
def MatchState.At (st : MatchState) (pbytes : List Nat) (plen : Int) (cbytes : List Nat)
    (clen : Nat) : Prop :=
  0 ≤ st.pattern_ptr.off ∧ st.pattern_ptr.bytes = pbytes ∧ st.pattern_len = plen ∧
    st.cmd_ptr = cbytes ∧ st.cmd_len = clen

/-- The short-form/long-form rule of `matchPattern` for one keyword and one segment of
command text, without a number cell. -/
def kwMatch (K seg : List Nat) : Bool :=
  (matchPattern K K.length seg seg.length none).1

/-- A keyword of letters only: at least one byte, all of them ASCII letters. -/
def IsKeyword (K : List Nat) : Prop := K ≠ [] ∧ ∀ c ∈ K, isalpha c = true

instance (K : List Nat) : Decidable (IsKeyword K) := by
  unfold IsKeyword; exact inferInstance

/-! ## Bracket-free patterns and the segment-wise reference -/

/-- The pattern text `K1:K2:...:Kn` of a list of keywords. -/
def joinColon : List (List Nat) → List Nat
  | [] => []
  | [K] => K
  | K :: K1 :: Ks => K ++ 58 :: joinColon (K1 :: Ks)

/-- The segments of a text split at every `:`. -/
def splitColon : List Nat → List (List Nat)
  | [] => [[]]
  | c :: cs =>
    if c = 58 then [] :: splitColon cs
    else
      match splitColon cs with
      | [] => [[c]]
      | s :: ss => (c :: s) :: ss

/-- There are exactly as many segments as keywords and segment `i` matches keyword
`i` by the short-form/long-form rule. -/
def segmentsMatch : List (List Nat) → List (List Nat) → Bool
  | [], [] => true
  | K :: Ks, s :: segs => kwMatch K s && segmentsMatch Ks segs
  | _, _ => false

/-- A text without its leading `:`, if it has one. -/
def dropLeadingColon : List Nat → List Nat
  | 58 :: t => t
  | l => l

/-- The segment-wise reference, following the words of the specification: the
command and the pattern must share a trailing `?`; after dropping it and one
optional leading `:`, the command must split on `:` into exactly one segment per
keyword, each matching its keyword. -/
def segmentwiseMatch (Ks : List (List Nat)) (query : Bool) (c : List Nat) : Bool :=
  if decide (c.getLast? = some 63) ≠ query then false
  else
    let body := if query then c.dropLast else c
    segmentsMatch Ks (splitColon (dropLeadingColon body))

/-- The pattern text of a list of keywords, ending in `?` for a query. -/
def patternText (Ks : List (List Nat)) (query : Bool) : List Nat :=
  joinColon Ks ++ (if query then [63] else [])

/-! ## Keywords with a numeric suffix -/

/-- One keyword of a pattern together with the command segment that spells it: the
keyword `K` (followed by `#` in the pattern when `hash` is set), the text that
spells the keyword in the command, and the digit run that follows it there. -/
structure KeySeg where
  /-- The letters of the pattern keyword. -/
  K : List Nat
  /-- The pattern keyword is followed by `#`. -/
  hash : Bool
  /-- The spelling of the keyword in the command. -/
  text : List Nat
  /-- The digit run after the keyword in the command. -/
  digits : List Nat
deriving DecidableEq, Repr

/-- The keyword as written in the pattern. -/
def KeySeg.pattern (i : KeySeg) : List Nat := i.K ++ (if i.hash then [35] else [])

/-- The segment as written in the command. -/
def KeySeg.segment (i : KeySeg) : List Nat := i.text ++ i.digits

/-- The keyword is made of letters and begins with an upper-case one, the text is its
short or long form in any case, the digit run consists of digits, is empty
unless the keyword has a `#`, and its value fits an `int32_t`. -/
def KeySeg.Valid (i : KeySeg) : Prop :=
  IsKeyword i.K ∧ isupper (i.K.headD 0) = true ∧ kwMatch i.K i.text = true ∧
    (∀ d ∈ i.digits, isdigit d = true) ∧ (i.hash = false → i.digits = []) ∧
    digitsValue i.digits < 2147483648

instance (i : KeySeg) : Decidable i.Valid := by
  unfold KeySeg.Valid; exact inferInstance

/-- The number the suffix of a segment stands for: the value of its digit run, or the
default when there are no digits. -/
def KeySeg.capture (default_value : Int) (i : KeySeg) : Int :=
  if i.digits = [] then default_value else (digitsValue i.digits : Int)

/-- The captured numbers of the `#` keywords, in order. -/
def captures (default_value : Int) (items : List KeySeg) : List Int :=
  (items.filter (fun i => i.hash)).map (KeySeg.capture default_value)

/-- The numbers array after the keywords `items` have been matched, the first `#`
keyword writing at index `idx`: every `#` keyword stores its number at the next
index (a store outside the array is dropped). -/
def captureInto (default_value : Int) : List KeySeg → Nat → List Int → List Int
  | [], _, nums => nums
  | i :: items, idx, nums =>
    if i.hash then captureInto default_value items (idx + 1)
      (nums.set idx (i.capture default_value))
    else captureInto default_value items idx nums

/-- The state after the loop body has handled the suffix of one segment: a `#`
keyword stores its number at `numbers_idx` and advances the index. -/
def KeySeg.store (default_value : Int) (i : KeySeg) (st : MatchState) : MatchState :=
  if i.hash then
    { st with
      numbers := st.numbers.map (fun a => a.set st.numbers_idx (i.capture default_value)),
      numbers_idx := st.numbers_idx + 1 }
  else st


/-- A pattern of colon-separated keywords, some with a `#`, optionally ending in `?`. -/
def suffixPattern (items : List KeySeg) (query : Bool) : List Nat :=
  joinColon (items.map KeySeg.pattern) ++ (if query then [63] else [])

/-- A command that spells the keywords of `items` one by one, each `#` keyword with its
digit run, after an optional leading `:` and with the same optional `?`. -/
def suffixCommand (items : List KeySeg) (lead query : Bool) : List Nat :=
  (if lead then [58] else []) ++
    (joinColon (items.map KeySeg.segment) ++ (if query then [63] else []))

/-- A pattern `[:G1:...:Gk]:T`: an optional group of keywords followed by one keyword,
optionally ending in `?`. -/
def groupPattern (G : List KeySeg) (T : KeySeg) (query : Bool) : List Nat :=
  (91 :: 58 :: (joinColon (G.map KeySeg.pattern) ++ 93 :: 58 :: T.pattern)) ++
    (if query then [63] else [])

/-- A piece of the part of a pattern that follows a keyword: a further keyword with
its colon, an opening bracket or a closing bracket. -/
inductive PatItem where
  /-- A keyword `:K`. -/
  | key (K : List Nat)
  /-- An opening bracket. -/
  | opn
  /-- A closing bracket. -/
  | cls
deriving DecidableEq, Repr

/-- The bytes of a piece. -/
def PatItem.text : PatItem → List Nat
  | .key K => 58 :: K
  | .opn => [91]
  | .cls => [93]

/-- The bytes of a list of pieces. -/
def residualText : List PatItem → List Nat
  | [] => []
  | t :: ts => t.text ++ residualText ts

/-- A keyword piece holds a non-empty keyword without NUL and without separators. -/
def PatItem.Valid : PatItem → Prop
  | .key K => K ≠ [] ∧ ∀ c ∈ K, c ≠ 0 ∧ c ∉ [63, 58, 91, 93]
  | _ => True

instance (t : PatItem) : Decidable t.Valid := by
  cases t <;> unfold PatItem.Valid <;> exact inferInstance

/-- The brackets of the pieces are balanced when read at bracket depth `d`: no closing
bracket at depth 0, and depth 0 at the end. -/
def balanced : Nat → List PatItem → Bool
  | d, [] => d == 0
  | d, .key _ :: ts => balanced d ts
  | d, .opn :: ts => balanced (d + 1) ts
  | 0, .cls :: _ => false
  | d + 1, .cls :: ts => balanced d ts

/-- Every keyword among the pieces, read at bracket depth `d`, lies inside an optional
group: none of them stands at depth 0. -/
def allOptional : Nat → List PatItem → Bool
  | _, [] => true
  | 0, .key _ :: _ => false
  | d + 1, .key _ :: ts => allOptional (d + 1) ts
  | d, .opn :: ts => allOptional (d + 1) ts
  | d, .cls :: ts => allOptional (d - 1) ts

/-- A pattern that begins with the keywords `items` (behind `[:` when `opened`), goes on
with the pieces `toks`, and optionally ends in `?`. -/
def residualPattern (opened : Bool) (items : List KeySeg) (toks : List PatItem)
    (query : Bool) : List Nat :=
  ((if opened then [91, 58] else []) ++
    (joinColon (items.map KeySeg.pattern) ++ residualText toks)) ++
    (if query then [63] else [])

/-! ## Integer to string (`utils.c`)

`UInt32ToStrBaseSign` and `UInt64ToStrBaseSign` differ only in the width of the
value and in the table of initial divisors, so both run the same loops here,
`removeLeadingZeros` and `writeDigits`.  The characters are stored at
`str[0]`, `str[1]`, ... in order, so the model keeps the list `out` of the
characters stored so far, `pos` being its length.  A division by zero or a
lookup outside the table `digits` is `none`, as is running out of fuel. -/

/-- The table `const char digits[] = "0123456789ABCDEF"` of the converters; `none`
outside its 16 characters. -/
def digits (d : Nat) : Option Nat := (str "0123456789ABCDEF")[d]?

/-- The macro `ADD_CHAR(c)`: `if (pos < len) str[pos++] = (c)`. -/
def ADD_CHAR (len : Nat) (out : List Nat) (c : Nat) : List Nat :=
  if out.length < len then out ++ [c] else out

/-- The `switch (base)` of `UInt32ToStrBaseSign`: the initial divisor `x` and the base
used from there on. -/
def startDivisor32 (base : Int) : Nat × Nat :=
  if base = 2 then (0x80000000, 2)
  else if base = 8 then (0x40000000, 8)
  else if base = 10 then (1000000000, 10)
  else if base = 16 then (0x10000000, 16)
  else (1000000000, 10)

/-- The `switch (base)` of `UInt64ToStrBaseSign`: the initial divisor `x` and the base
used from there on. -/
def startDivisor64 (base : Int) : Nat × Nat :=
  if base = 2 then (0x8000000000000000, 2)
  else if base = 8 then (0x8000000000000000, 8)
  else if base = 10 then (10000000000000000000, 10)
  else if base = 16 then (0x1000000000000000, 16)
  else (10000000000000000000, 10)

/-- The loop `while ((uval / x) == 0) x /= base;` ("remove leading zeros"). -/
def removeLeadingZeros (base uval : Nat) : Nat → Nat → Option Nat
  | 0, _ => none
  | fuel + 1, x =>
    if x = 0 then none
    else if uval / x = 0 then removeLeadingZeros base uval fuel (x / base)
    else some x

/-- The loop `do { ... } while (x && (pos < len));` that stores the digits, on values
of `w` bits. -/
def writeDigits (w base len : Nat) : Nat → Nat → Nat → List Nat → Option (List Nat)
  | 0, _, _, _ => none
  | fuel + 1, uval, x, out =>
    if x = 0 then none
    else
      /- `digit = (uint8_t) (uval / x)` -/
      let digit := (uval / x) % 256
      match digits digit with
      | none => none
      | some c =>
        let out := ADD_CHAR len out c
        /- `uval -= digit * x` -/
        let uval := (uval + 2 ^ w - (digit * x) % 2 ^ w) % 2 ^ w
        let x := x / base
        if x ≠ 0 ∧ out.length < len then writeDigits w base len fuel uval x out
        else some out

/-- The common body of `UInt32ToStrBaseSign` (`w = 32`) and `UInt64ToStrBaseSign`
(`w = 64`), with the `switch` given as `start`.  `val` is the unsigned value;
the result is the list of characters stored at `str[0..pos)`, whose length is
the returned `pos` (a NUL is stored behind them when `pos < len`). -/
def toStrBaseSign (w : Nat) (start : Int → Nat × Nat) (val len : Nat) (base : Int)
    (sign : Bool) : Option (List Nat) :=
  if val = 0 then some (ADD_CHAR len [] 48)
  else
    let x := (start base).1
    let base := (start base).2
    /- add sign for numbers in base 10 -/
    let neg : Bool := sign && decide (2 ^ (w - 1) ≤ val) && (base == 10)
    let uval := if neg then (2 ^ w - val) % 2 ^ w else val
    let out := if neg then ADD_CHAR len [] 45 else []
    /- remove leading zeros -/
    match removeLeadingZeros base uval (w + 1) x with
    | none => none
    | some x => writeDigits w base len (w + 1) uval x out

/-- Source `UInt32ToStrBaseSign(val, str, len, base, sign)` for a `uint32_t val`. -/
def UInt32ToStrBaseSign (val len : Nat) (base : Int) (sign : Bool) : Option (List Nat) :=
  toStrBaseSign 32 startDivisor32 val len base sign

/-- Source `SCPI_Int32ToStr(val, str, len)`; `(uint32_t) val` is `val mod 2^32`. -/
def SCPI_Int32ToStr (val : Int) (len : Nat) : Option (List Nat) :=
  UInt32ToStrBaseSign (val % 4294967296).toNat len 10 true

/-- Source `SCPI_UInt32ToStrBase(val, str, len, base)`. -/
def SCPI_UInt32ToStrBase (val len : Nat) (base : Int) : Option (List Nat) :=
  UInt32ToStrBaseSign val len base false

/-- Source `UInt64ToStrBaseSign(val, str, len, base, sign)` for a `uint64_t val`. -/
def UInt64ToStrBaseSign (val len : Nat) (base : Int) (sign : Bool) : Option (List Nat) :=
  toStrBaseSign 64 startDivisor64 val len base sign

/-- Source `SCPI_Int64ToStr(val, str, len)`; `(uint64_t) val` is `val mod 2^64`. -/
def SCPI_Int64ToStr (val : Int) (len : Nat) : Option (List Nat) :=
  UInt64ToStrBaseSign (val % 18446744073709551616).toNat len 10 true

/-- Source `SCPI_UInt64ToStrBase(val, str, len, base)`. -/
def SCPI_UInt64ToStrBase (val len : Nat) (base : Int) : Option (List Nat) :=
  UInt64ToStrBaseSign val len base false

/-- The character of a digit value: `'0'..'9'`, then `'A'..'F'`. -/
def digitChar (d : Nat) : Nat := if d < 10 then 48 + d else 55 + d

/-- The base-`b` numeral of `v`: its digits, most significant first, without leading
zeros, and `"0"` for zero. -/
def numeral (b v : Nat) : List Nat :=
  if v = 0 then [48] else (Nat.digits b v).reverse.map digitChar

/-- The canonical decimal numeral of an integer: `-` and the numeral of the absolute
value for a negative one. -/
def signedNumeral (n : Int) : List Nat :=
  if n < 0 then 45 :: numeral 10 n.natAbs else numeral 10 n.toNat

/-- The digit values of `u`, most significant first, in exactly `k + 1` places. -/
def msdDigits (b : Nat) : Nat → Nat → List Nat
  | 0, u => [u]
  | k + 1, u => (u / b ^ (k + 1)) :: msdDigits b k (u % b ^ (k + 1))

/-! ## Result writer (`parser.c`)

The fields of `scpi_t` that the writer and `processCommand` use.  The transport
(`context->interface`) and the error queue (`SCPI_ErrorPush`) are not part of
these sources; the context records what is handed to them: the bytes passed to
`write`, the number of `flush` calls and the error codes pushed, each in order.
The counters are `Int` without wrap-around. -/

/-- Modelled from the spec: the error codes the parser pushes ("Error codes
referenced"); their numeric values are not in these sources. -/
inductive scpi_error_t where
  | SCPI_ERROR_INVALID_CHARACTER
  | SCPI_ERROR_UNDEFINED_HEADER
  | SCPI_ERROR_INVALID_SEPARATOR
  | SCPI_ERROR_INVALID_STRING_DATA
  | SCPI_ERROR_MISSING_PARAMETER
  | SCPI_ERROR_PARAMETER_NOT_ALLOWED
  | SCPI_ERROR_SUFFIX_NOT_ALLOWED
  | SCPI_ERROR_DATA_TYPE_ERROR
  | SCPI_ERROR_ILLEGAL_PARAMETER_VALUE
  | SCPI_ERROR_EXECUTION_ERROR
  | SCPI_ERROR_INPUT_BUFFER_OVERRUN
  | SCPI_ERROR_SYSTEM_ERROR
deriving DecidableEq, Repr

/-- The result code of a command callback (`SCPI_RES_OK` or an error). -/
inductive scpi_result_t where
  | SCPI_RES_OK
  | SCPI_RES_ERR
deriving DecidableEq, Repr

/-- Source `lex_state_t`: the buffer of the data segment, the cursor `pos` as an offset
from `buffer`, and the length of the segment. -/
structure lex_state_t where
  /-- The bytes from `buffer` on. -/
  buffer : List Nat
  /-- The cursor, `pos - buffer`. -/
  pos : Nat
  /-- The length of the segment. -/
  len : Nat
deriving DecidableEq, Repr

/-- Source `scpi_t`, the parser context. -/
structure scpi_t where
  /-- The bytes handed to `interface->write` so far. -/
  output : List Nat
  /-- Whether `interface->flush` is set. -/
  flush_present : Bool
  /-- The number of calls of `interface->flush` so far. -/
  flushes : Nat
  /-- Source field `output_count`. -/
  output_count : Int
  /-- Source field `output_binary_count`. -/
  output_binary_count : Int
  /-- Source field `input_count`. -/
  input_count : Int
  /-- Source field `cmd_error`. -/
  cmd_error : Bool
  /-- Source field `binary_output`. -/
  binary_output : Bool
  /-- The codes handed to `SCPI_ErrorPush` so far. -/
  errors : List scpi_error_t
  /-- Source field `param_list.lex_state`. -/
  lex_state : lex_state_t
deriving DecidableEq, Repr

/-- Modelled from the spec: `SCPI_ErrorPush(context, err)` of the error queue, which is
not in these sources; the model records the pushed code and sets `cmd_error`,
the flag "that records whether any error was pushed during the current
command". -/
def SCPI_ErrorPush (context : scpi_t) (err : scpi_error_t) : scpi_t :=
  { context with errors := context.errors ++ [err], cmd_error := true }

/-- Modelled from the spec: the transport sink `interface->write(context, data, len)`,
"a sink that accepts bytes": it takes the first `len` bytes of `data` and
returns `len`. -/
def interface_write (context : scpi_t) (data : List Nat) (len : Nat) : Nat × scpi_t :=
  (len, { context with output := context.output ++ data.take len })

/-- Source `writeData`. -/
def writeData (context : scpi_t) (data : List Nat) (len : Nat) : Nat × scpi_t :=
  interface_write context data len

/-- Source `flushData` for a non-NULL context with an interface. -/
def flushData (context : scpi_t) : scpi_t :=
  if context.flush_present then { context with flushes := context.flushes + 1 } else context

/-- Source `writeDelimiter`: write `,` if `output_count > 0`. -/
def writeDelimiter (context : scpi_t) : Nat × scpi_t :=
  if context.output_count > 0 then writeData context [44] 1 else (0, context)

/-- Source `writeNewLine`; the macro `SCPI_LINE_ENDING` is a parameter. -/
def writeNewLine (SCPI_LINE_ENDING : List Nat) (context : scpi_t) : Nat × scpi_t :=
  if context.output_count > 0 then
    let r := writeData context SCPI_LINE_ENDING (strlen SCPI_LINE_ENDING)
    (r.1, flushData r.2)
  else if context.output_binary_count > 0 then (0, flushData context)
  else (0, context)

/-- Source `writeBinHeader`; `numElems` is a `uint32_t`, `sizeOfElem` a `size_t`, and the
product is taken in `size_t` (64 bits).  `none` if a conversion fails. -/
def writeBinHeader (context : scpi_t) (numElems sizeOfElem : Nat) : Option (Nat × scpi_t) :=
  let numDataBytes := (numElems * sizeOfElem) % 2 ^ 64
  /- Do not allow more than 9 character long size -/
  if numDataBytes > 999999999 then some (0, context)
  else
    (SCPI_UInt32ToStrBase (numDataBytes % 2 ^ 32) 10 10).bind fun numBytes =>
    let len := numBytes.length
    (SCPI_UInt32ToStrBase (len % 2 ^ 32) 2 10).bind fun numOfNumBytes =>
    let r1 := writeData context [35] 1
    let r2 := writeData r1.2 numOfNumBytes 1
    let r3 := writeData r2.2 numBytes len
    some (r1.1 + r2.1 + r3.1, r3.2)

/-- Source `writeSemicolon`: write `;` if `output_count > 0`. -/
def writeSemicolon (context : scpi_t) : Nat × scpi_t :=
  if context.output_count > 0 then writeData context [59] 1 else (0, context)

/-- Source `SCPI_ResultCharacters`. -/
def SCPI_ResultCharacters (context : scpi_t) (data : List Nat) (len : Nat) : Nat × scpi_t :=
  let r1 := writeDelimiter context
  let r2 := writeData r1.2 data len
  (r1.1 + r2.1, { r2.2 with output_count := r2.2.output_count + 1 })

/-- Source `getBasePrefix`; `none` is NULL. -/
def getBasePrefix (base : Int) : Option (List Nat) :=
  if base = 2 then some (str "#B")
  else if base = 8 then some (str "#Q")
  else if base = 16 then some (str "#H")
  else none

/-- The common body of `resultUInt32BaseSign` and `resultUInt64BaseSign`, given the
characters `buffer` that the converter stored. -/
def resultBaseSign (context : scpi_t) (buffer : List Nat) (base : Int) : Nat × scpi_t :=
  let len := buffer.length
  let r1 := writeDelimiter context
  let r2 :=
    match getBasePrefix base with
    | some basePrefix => writeData r1.2 basePrefix 2
    | none => (0, r1.2)
  let r3 := writeData r2.2 buffer len
  (r1.1 + r2.1 + r3.1, { r3.2 with output_count := r3.2.output_count + 1 })

/-- Source `resultUInt32BaseSign`, with its buffer of `32 + 1` bytes. -/
def resultUInt32BaseSign (context : scpi_t) (val : Nat) (base : Int) (sign : Bool) :
    Option (Nat × scpi_t) :=
  (UInt32ToStrBaseSign val 33 base sign).map fun buffer => resultBaseSign context buffer base

/-- Source `resultUInt64BaseSign`, with its buffer of `64 + 1` bytes. -/
def resultUInt64BaseSign (context : scpi_t) (val : Nat) (base : Int) (sign : Bool) :
    Option (Nat × scpi_t) :=
  (UInt64ToStrBaseSign val 65 base sign).map fun buffer => resultBaseSign context buffer base

/-- Source `SCPI_ResultInt32`; the `int32_t` argument is converted to `uint32_t`. -/
def SCPI_ResultInt32 (context : scpi_t) (val : Int) : Option (Nat × scpi_t) :=
  resultUInt32BaseSign context (val % 4294967296).toNat 10 true

/-- Source `SCPI_ResultUInt32Base`. -/
def SCPI_ResultUInt32Base (context : scpi_t) (val : Nat) (base : Int) :
    Option (Nat × scpi_t) :=
  resultUInt32BaseSign context val base false

/-- Source `SCPI_ResultInt64`; the `int64_t` argument is converted to `uint64_t`. -/
def SCPI_ResultInt64 (context : scpi_t) (val : Int) : Option (Nat × scpi_t) :=
  resultUInt64BaseSign context (val % 18446744073709551616).toNat 10 true

/-- Source `SCPI_ResultUInt64Base`. -/
def SCPI_ResultUInt64Base (context : scpi_t) (val : Nat) (base : Int) :
    Option (Nat × scpi_t) :=
  resultUInt64BaseSign context val base false

/-- Source `SCPI_ResultFloat`.  The macro `SCPIDEFINE_floatToStr` behind
`SCPI_FloatToStr` is not in these sources: `SCPI_FloatToStr val len` is a
parameter giving the characters stored in a buffer of `len` bytes, its result
being their number. -/
def SCPI_ResultFloat {F : Type} (SCPI_FloatToStr : F → Nat → List Nat) (context : scpi_t)
    (val : F) : Nat × scpi_t :=
  let buffer := SCPI_FloatToStr val 32
  let len := buffer.length
  let r1 := writeDelimiter context
  let r2 := writeData r1.2 buffer len
  (r1.1 + r2.1, { r2.2 with output_count := r2.2.output_count + 1 })

/-- Source `SCPI_ResultDouble`, with `SCPI_DoubleToStr` a parameter like
`SCPI_FloatToStr` in `SCPI_ResultFloat`. -/
def SCPI_ResultDouble {F : Type} (SCPI_DoubleToStr : F → Nat → List Nat) (context : scpi_t)
    (val : F) : Nat × scpi_t :=
  let buffer := SCPI_DoubleToStr val 32
  let len := buffer.length
  let r1 := writeDelimiter context
  let r2 := writeData r1.2 buffer len
  (r1.1 + r2.1, { r2.2 with output_count := r2.2.output_count + 1 })

/-- Source `SCPI_ResultText`; `data` is a C string. -/
def SCPI_ResultText (context : scpi_t) (data : List Nat) : Nat × scpi_t :=
  let r1 := writeDelimiter context
  let r2 := writeData r1.2 [34] 1
  let r3 := writeData r2.2 data (strlen data)
  let r4 := writeData r3.2 [34] 1
  (r1.1 + r2.1 + r3.1 + r4.1, { r4.2 with output_count := r4.2.output_count + 1 })

/-- The two bytes in memory of `htons(v)` for a `uint16_t v`: network byte order. -/
def htons (v : Nat) : List Nat := [v / 256 % 256, v % 256]

/-- Source `resultBufferInt16Bin`; `data` holds `int16_t` values, `size` is a `size_t`
that `writeBinHeader` receives as a `uint32_t`. -/
def resultBufferInt16Bin (context : scpi_t) (data : List Int) (size : Nat) :
    Option (Nat × scpi_t) :=
  (writeBinHeader context (size % 2 ^ 32) 2).map fun r0 =>
    if r0.1 = 0 then r0
    else
      let r := (List.range size).foldl (fun (acc : Nat × scpi_t) (i : Nat) =>
        let value := htons ((data.getD i 0) % 65536).toNat
        let a := writeData acc.2 value 2
        (acc.1 + a.1, a.2)) r0
      (r.1, { r.2 with output_binary_count := r.2.output_binary_count + 1 })

/-- Source `resultBufferInt16Ascii`; `snprintf` with `"%" PRIi16` stores the decimal
numeral of the value. -/
def resultBufferInt16Ascii (context : scpi_t) (data : List Int) (size : Nat) :
    Nat × scpi_t :=
  let r1 := writeDelimiter context
  let r2 := writeData r1.2 [123] 1
  let r3 := (List.range size).foldl (fun (acc : Nat × scpi_t) (i : Nat) =>
    let buffer := signedNumeral (data.getD i 0)
    let a := writeData acc.2 buffer (strlen buffer)
    let b := if i + 1 < size then writeData a.2 [44] 1 else (0, a.2)
    (acc.1 + a.1 + b.1, b.2)) (r1.1 + r2.1, r2.2)
  let r4 := writeData r3.2 [125] 1
  (r3.1 + r4.1, { r4.2 with output_count := r4.2.output_count + 1 })

/-- Source `SCPI_ResultBufferInt16`. -/
def SCPI_ResultBufferInt16 (context : scpi_t) (data : List Int) (size : Nat) :
    Option (Nat × scpi_t) :=
  if context.binary_output = true then resultBufferInt16Bin context data size
  else some (resultBufferInt16Ascii context data size)

/-- Source `resultBufferFloatBin`.  `hton_f` is not in these sources: the parameter
gives the `sizeof(float)` bytes in memory of `hton_f(v)`. -/
def resultBufferFloatBin {F : Type} [Inhabited F] (hton_f : F → List Nat) (context : scpi_t)
    (data : List F) (size : Nat) : Option (Nat × scpi_t) :=
  (writeBinHeader context (size % 2 ^ 32) 4).map fun r0 =>
    if r0.1 = 0 then r0
    else
      let r := (List.range size).foldl (fun (acc : Nat × scpi_t) (i : Nat) =>
        let value := hton_f (data.getD i default)
        let a := writeData acc.2 value 4
        (acc.1 + a.1, a.2)) r0
      (r.1, { r.2 with output_binary_count := r.2.output_binary_count + 1 })

/-- Source `resultBufferFloatAscii`, with `SCPI_DoubleToStr` a parameter. -/
def resultBufferFloatAscii {F : Type} [Inhabited F] (SCPI_DoubleToStr : F → Nat → List Nat)
    (context : scpi_t) (data : List F) (size : Nat) : Nat × scpi_t :=
  let r1 := writeDelimiter context
  let r2 := writeData r1.2 [123] 1
  let r3 := (List.range size).foldl (fun (acc : Nat × scpi_t) (i : Nat) =>
    let buffer := SCPI_DoubleToStr (data.getD i default) 50
    let a := writeData acc.2 buffer buffer.length
    let b := if i + 1 < size then writeData a.2 [44] 1 else (0, a.2)
    (acc.1 + a.1 + b.1, b.2)) (r1.1 + r2.1, r2.2)
  let r4 := writeData r3.2 [125] 1
  (r3.1 + r4.1, { r4.2 with output_count := r4.2.output_count + 1 })

/-- Source `SCPI_ResultBufferFloat`; `size` is a `uint32_t`. -/
def SCPI_ResultBufferFloat {F : Type} [Inhabited F] (hton_f : F → List Nat)
    (SCPI_DoubleToStr : F → Nat → List Nat) (context : scpi_t) (data : List F) (size : Nat) :
    Option (Nat × scpi_t) :=
  if context.binary_output = true then resultBufferFloatBin hton_f context data size
  else some (resultBufferFloatAscii SCPI_DoubleToStr context data size)

/-- Source `SCPI_ResultArbitraryBlock`.  The numeral of `len` is stored in the ten
bytes from `block_header + 2`; `strlen` finds its end only if the converter had
room for the NUL, otherwise the call is `none`. -/
def SCPI_ResultArbitraryBlock (context : scpi_t) (data : List Nat) (len : Nat) :
    Option (Nat × scpi_t) :=
  (SCPI_UInt32ToStrBase (len % 2 ^ 32) 10 10).bind fun numeralBytes =>
    if numeralBytes.length < 10 then
      let header_len := numeralBytes.length
      let block_header := 35 :: (header_len + 48) :: numeralBytes
      let r1 := writeData context block_header (header_len + 2)
      let r2 := writeData r1.2 data len
      some (r1.1 + r2.1, { r2.2 with output_count := r2.2.output_count + 1 })
    else none

/-- Source `SCPI_ResultBool`. -/
def SCPI_ResultBool (context : scpi_t) (val : Bool) : Option (Nat × scpi_t) :=
  resultUInt32BaseSign context (if val then 1 else 0) 10 false

/-! ## Dispatch (`parser.c`) -/

/-- Source `scpi_command_t`: a pattern and the callback (`none` for NULL).  A callback
receives the context and returns its result code and the context it leaves. -/
structure scpi_command_t where
  /-- The command pattern. -/
  pattern : List Nat
  /-- The callback. -/
  callback : Option (scpi_t → scpi_result_t × scpi_t)

/-- Source `processCommand`; `cmd` is `context->param_list.cmd`. -/
def processCommand (context : scpi_t) (cmd : scpi_command_t) : Bool × scpi_t :=
  /- conditionaly write ; -/
  let context := (writeSemicolon context).2
  let context :=
    { context with
      cmd_error := false, output_count := 0, output_binary_count := 0, input_count := 0 }
  /- if callback exists - call command callback -/
  let r : Bool × scpi_t :=
    match cmd.callback with
    | some callback =>
      let c := callback context
      if c.1 ≠ scpi_result_t.SCPI_RES_OK then
        (false,
          if !c.2.cmd_error then SCPI_ErrorPush c.2 scpi_error_t.SCPI_ERROR_EXECUTION_ERROR
          else c.2)
      else (if c.2.cmd_error then false else true, c.2)
    | none => (true, context)
  /- set error if command callback did not read all parameters -/
  if r.2.lex_state.pos < r.2.lex_state.len ∧ !r.2.cmd_error then
    (false, SCPI_ErrorPush r.2 scpi_error_t.SCPI_ERROR_PARAMETER_NOT_ALLOWED)
  else r

/-- Source `findCommandHeader`: the first entry of the command list (the entries before
the sentinel) whose pattern matches the header; `some none` for FALSE, `none`
if `matchCommand` does not return. -/
def findCommandHeader : List scpi_command_t → List Nat → Nat → Option (Option scpi_command_t)
  | [], _, _ => some none
  | cmd :: cmdlist, header, len =>
    match matchCommand cmd.pattern header len none 0 0 with
    | none => none
    | some true => some (some cmd)
    | some false => findCommandHeader cmdlist header len

/-- Modelled from the spec: the token kind `Invalid`; the values of the enumeration are
not in these sources, only that the kinds differ matters. -/
def SCPI_TOKEN_INVALID : Nat := 23

/-- Modelled from the spec: the token kind `Unknown`. -/
def SCPI_TOKEN_UNKNOWN : Nat := 24

/-- The fields of source `scpi_parser_state_t` that `SCPI_Parse` reads. -/
structure scpi_parser_state_t where
  /-- The program header token. -/
  programHeader : scpi_token_t
  /-- The program data token. -/
  programData : scpi_token_t
deriving DecidableEq, Repr

/-- The loop `while (1)` of `SCPI_Parse`.  `detect buf data len` stands for
`scpiParser_detectProgramMessageUnit(state, data, len)`, which rests on the
lexer (not in these sources): it gives the returned length `r` and the parser
state.  `buf` is the input buffer, `data` the offset of the cursor in it.
Returns the flag, the context and the buffer; `none` without fuel or if a match
does not return. -/
def SCPI_Parse_loop (detect : List Nat → Int → Int → Int × scpi_parser_state_t)
    (cmdlist : List scpi_command_t) :
    Nat → scpi_t → List Nat → Int → Int → scpi_token_t → Bool →
      Option (Bool × scpi_t × List Nat)
  | 0, _, _, _, _, _, _ => none
  | fuel + 1, context, buf, data, len, cmd_prev, result =>
    let d := detect buf data len
    let r := d.1
    let state := d.2
    let step : Option (Bool × scpi_t × List Nat × scpi_token_t) :=
      if state.programHeader.type = SCPI_TOKEN_INVALID then
        some (false, SCPI_ErrorPush context scpi_error_t.SCPI_ERROR_INVALID_CHARACTER, buf,
          cmd_prev)
      else if state.programHeader.len > 0 then
        let c := composeCompoundCommand buf cmd_prev (some state.programHeader)
        let buf := c.2.1
        let programHeader := c.2.2.getD state.programHeader
        match findCommandHeader cmdlist
            (⟨buf, programHeader.ptr.getD 0⟩ : CPtr).bytes programHeader.len with
        | none => none
        | some (some cmd) =>
          let context :=
            { context with
              lex_state :=
                { buffer := (⟨buf, state.programData.ptr.getD 0⟩ : CPtr).bytes, pos := 0,
                  len := state.programData.len } }
          let p := processCommand context cmd
          some (result && p.1, p.2, buf, programHeader)
        | some none =>
          some (false, SCPI_ErrorPush context scpi_error_t.SCPI_ERROR_UNDEFINED_HEADER, buf,
            cmd_prev)
      else some (result, context, buf, cmd_prev)
    match step with
    | none => none
    | some (result, context, buf, cmd_prev) =>
      if r < len then
        SCPI_Parse_loop detect cmdlist fuel context buf (data + r) (len - r) cmd_prev result
      else some (result, context, buf)

/-- Source `SCPI_Parse` for a non-NULL context: `data`, `len` describe the message in
the input buffer `buf`; `fuel` bounds the number of program message units. -/
def SCPI_Parse (detect : List Nat → Int → Int → Int × scpi_parser_state_t)
    (cmdlist : List scpi_command_t) (SCPI_LINE_ENDING : List Nat) (fuel : Nat)
    (context : scpi_t) (buf : List Nat) (data len : Int) :
    Option (Bool × scpi_t × List Nat) :=
  let context := { context with output_count := 0 }
  match SCPI_Parse_loop detect cmdlist fuel context buf data len
      ⟨SCPI_TOKEN_UNKNOWN, none, 0⟩ true with
  | none => none
  | some (result, context, buf) =>
    /- conditionaly write new line -/
    some (result, (writeNewLine SCPI_LINE_ENDING context).2, buf)

/-! ## Auxiliary notions for the result writer -/

/-- The counters and the error flag of two contexts agree. -/
def SameCounters (c c' : scpi_t) : Prop :=
  c'.output_count = c.output_count ∧ c'.output_binary_count = c.output_binary_count ∧
    c'.input_count = c.input_count ∧ c'.cmd_error = c.cmd_error

/-- From `c` to `c'` one result field was counted: `output_count` is one more, and
`output_binary_count`, `input_count` and `cmd_error` are unchanged. -/
def CountsField (c c' : scpi_t) : Prop :=
  c'.output_count = c.output_count + 1 ∧ c'.output_binary_count = c.output_binary_count ∧
    c'.input_count = c.input_count ∧ c'.cmd_error = c.cmd_error

/-- From `c` to `c'` one binary block was counted: `output_binary_count` is one more and
`output_count` is unchanged. -/
def CountsBlock (c c' : scpi_t) : Prop :=
  c'.output_binary_count = c.output_binary_count + 1 ∧ c'.output_count = c.output_count

/-- A call of one of the scalar result functions, with its arguments.  `F` is the type
of floating-point values. -/
inductive ResultCall (F : Type) where
  /-- `SCPI_ResultCharacters(context, data, len)`. -/
  | characters (data : List Nat) (len : Nat)
  /-- `SCPI_ResultInt32(context, val)`. -/
  | int32 (val : Int)
  /-- `SCPI_ResultUInt32Base(context, val, base)`. -/
  | uint32Base (val : Nat) (base : Int)
  /-- `SCPI_ResultInt64(context, val)`. -/
  | int64 (val : Int)
  /-- `SCPI_ResultUInt64Base(context, val, base)`. -/
  | uint64Base (val : Nat) (base : Int)
  /-- `SCPI_ResultFloat(context, val)`. -/
  | float (val : F)
  /-- `SCPI_ResultDouble(context, val)`. -/
  | double (val : F)
  /-- `SCPI_ResultText(context, data)`. -/
  | text (data : List Nat)
  /-- `SCPI_ResultBool(context, val)`. -/
  | bool (val : Bool)

/-- Perform a call on a context; `none` if the function does not return. -/
def ResultCall.run {F : Type} (SCPI_FloatToStr SCPI_DoubleToStr : F → Nat → List Nat) :
    ResultCall F → scpi_t → Option (Nat × scpi_t)
  | .characters data len, c => some (SCPI_ResultCharacters c data len)
  | .int32 val, c => SCPI_ResultInt32 c val
  | .uint32Base val base, c => SCPI_ResultUInt32Base c val base
  | .int64 val, c => SCPI_ResultInt64 c val
  | .uint64Base val base, c => SCPI_ResultUInt64Base c val base
  | .float val, c => some (SCPI_ResultFloat SCPI_FloatToStr c val)
  | .double val, c => some (SCPI_ResultDouble SCPI_DoubleToStr c val)
  | .text data, c => some (SCPI_ResultText c data)
  | .bool val, c => SCPI_ResultBool c val

/-- The arguments of a call are values of their C types: the unsigned ones are below
`2^32` and `2^64`. -/
def ResultCall.Valid {F : Type} : ResultCall F → Prop
  | .uint32Base val _ => val < 2 ^ 32
  | .uint64Base val _ => val < 2 ^ 64
  | _ => True

/-- The field of a call: the bytes it hands to the sink apart from the delimiter, that
is the characters its converter stores, behind the base prefix if there is one,
or the text between its quotes. -/
def ResultCall.field {F : Type} (SCPI_FloatToStr SCPI_DoubleToStr : F → Nat → List Nat) :
    ResultCall F → List Nat
  | .characters data len => data.take len
  | .int32 val => (SCPI_Int32ToStr val 33).getD []
  | .uint32Base val base =>
    (getBasePrefix base).getD [] ++ (SCPI_UInt32ToStrBase val 33 base).getD []
  | .int64 val => (SCPI_Int64ToStr val 65).getD []
  | .uint64Base val base =>
    (getBasePrefix base).getD [] ++ (SCPI_UInt64ToStrBase val 65 base).getD []
  | .float val => SCPI_FloatToStr val 32
  | .double val => SCPI_DoubleToStr val 32
  | .text data => [34] ++ data.take (strlen data) ++ [34]
  | .bool val => (SCPI_UInt32ToStrBase (if val then 1 else 0) 33 10).getD []

/-- Perform a sequence of calls, one after the other. -/
def runCalls {F : Type} (SCPI_FloatToStr SCPI_DoubleToStr : F → Nat → List Nat) :
    List (ResultCall F) → scpi_t → Option scpi_t
  | [], c => some c
  | call :: calls, c =>
    match call.run SCPI_FloatToStr SCPI_DoubleToStr c with
    | none => none
    | some r => runCalls SCPI_FloatToStr SCPI_DoubleToStr calls r.2

/-- The context that `processCommand` has built when it reaches the callback: the
conditional `;` written, the flag and the three counters reset. -/
def processCommandEntry (context : scpi_t) : scpi_t :=
  { (writeSemicolon context).2 with
    cmd_error := false, output_count := 0, output_binary_count := 0, input_count := 0 }

/-- The part of `processCommand` behind the callback, given what the callback returned:
the two checks that set `result` and push `ExecutionError` or
`ParameterNotAllowed`. -/
def processCommandExit (c : scpi_result_t × scpi_t) : Bool × scpi_t :=
  let r : Bool × scpi_t :=
    if c.1 ≠ scpi_result_t.SCPI_RES_OK then
      (false,
        if !c.2.cmd_error then SCPI_ErrorPush c.2 scpi_error_t.SCPI_ERROR_EXECUTION_ERROR
        else c.2)
    else (if c.2.cmd_error then false else true, c.2)
  if r.2.lex_state.pos < r.2.lex_state.len ∧ !r.2.cmd_error then
    (false, SCPI_ErrorPush r.2 scpi_error_t.SCPI_ERROR_PARAMETER_NOT_ALLOWED)
  else r

/-- A command callback that makes one scalar result call and returns `SCPI_RES_OK`. -/
def emitCallback {F : Type} (SCPI_FloatToStr SCPI_DoubleToStr : F → Nat → List Nat)
    (call : ResultCall F) (context : scpi_t) : scpi_result_t × scpi_t :=
  match call.run SCPI_FloatToStr SCPI_DoubleToStr context with
  | some r => (scpi_result_t.SCPI_RES_OK, r.2)
  | none => (scpi_result_t.SCPI_RES_ERR, context)

/-! ## Parameter extraction (`parser.c`) -/

/-- Modelled from the spec: the token kind `Comma`; as for `SCPI_TOKEN_INVALID`, only
that the kinds differ matters. -/
def SCPI_TOKEN_COMMA : Nat := 0

/-- Modelled from the spec: the token kind `HexNum`. -/
def SCPI_TOKEN_HEXNUM : Nat := 4

/-- Modelled from the spec: the token kind `OctNum`. -/
def SCPI_TOKEN_OCTNUM : Nat := 5

/-- Modelled from the spec: the token kind `BinNum`. -/
def SCPI_TOKEN_BINNUM : Nat := 6

/-- Modelled from the spec: the token kind `ProgramMnemonic`. -/
def SCPI_TOKEN_PROGRAM_MNEMONIC : Nat := 7

/-- Modelled from the spec: the token kind `DecimalNumeric`. -/
def SCPI_TOKEN_DECIMAL_NUMERIC_PROGRAM_DATA : Nat := 8

/-- Modelled from the spec: the token kind `DecimalNumericWithSuffix`. -/
def SCPI_TOKEN_DECIMAL_NUMERIC_PROGRAM_DATA_WITH_SUFFIX : Nat := 9

/-- Modelled from the spec: the token kind `ArbitraryBlock`. -/
def SCPI_TOKEN_ARBITRARY_BLOCK_PROGRAM_DATA : Nat := 11

/-- Modelled from the spec: the token kind `SingleQuoteString`. -/
def SCPI_TOKEN_SINGLE_QUOTE_PROGRAM_DATA : Nat := 12

/-- Modelled from the spec: the token kind `DoubleQuoteString`. -/
def SCPI_TOKEN_DOUBLE_QUOTE_PROGRAM_DATA : Nat := 13

/-- Modelled from the spec: the token kind `ProgramExpression`. -/
def SCPI_TOKEN_PROGRAM_EXPRESSION : Nat := 14

/-- Modelled from the spec: the lexer functions that `parser.c` calls.  Each takes the
lexer state and returns its result (a length), the state it leaves and the token it
wrote through its token argument. -/
structure lexer_t where
  /-- The lexer function `scpiLex_WhiteSpace`. -/
  scpiLex_WhiteSpace : lex_state_t → Nat × lex_state_t × scpi_token_t
  /-- The lexer function `scpiLex_NondecimalNumericData`. -/
  scpiLex_NondecimalNumericData : lex_state_t → Nat × lex_state_t × scpi_token_t
  /-- The lexer function `scpiLex_CharacterProgramData`. -/
  scpiLex_CharacterProgramData : lex_state_t → Nat × lex_state_t × scpi_token_t
  /-- The lexer function `scpiLex_DecimalNumericProgramData`. -/
  scpiLex_DecimalNumericProgramData : lex_state_t → Nat × lex_state_t × scpi_token_t
  /-- The lexer function `scpiLex_SuffixProgramData`. -/
  scpiLex_SuffixProgramData : lex_state_t → Nat × lex_state_t × scpi_token_t
  /-- The lexer function `scpiLex_StringProgramData`. -/
  scpiLex_StringProgramData : lex_state_t → Nat × lex_state_t × scpi_token_t
  /-- The lexer function `scpiLex_ArbitraryBlockProgramData`. -/
  scpiLex_ArbitraryBlockProgramData : lex_state_t → Nat × lex_state_t × scpi_token_t
  /-- The lexer function `scpiLex_ProgramExpression`. -/
  scpiLex_ProgramExpression : lex_state_t → Nat × lex_state_t × scpi_token_t
  /-- The lexer function `scpiLex_Comma`. -/
  scpiLex_Comma : lex_state_t → Nat × lex_state_t × scpi_token_t

/-- Source `scpiParser_parseProgramData`: skips white space, tries the kinds of
program data in order until one gives a non-zero length, joins a suffix to a decimal
number, skips white space again.  Returns the length, the state and `*token`. -/
def scpiParser_parseProgramData (L : lexer_t) (state : lex_state_t) :
    Nat × lex_state_t × scpi_token_t :=
  let w := L.scpiLex_WhiteSpace state
  let realLen := w.1
  let r := L.scpiLex_NondecimalNumericData w.2.1
  let r := if r.1 = 0 then L.scpiLex_CharacterProgramData r.2.1 else r
  let r :=
    if r.1 = 0 then
      let d := L.scpiLex_DecimalNumericProgramData r.2.1
      if d.1 ≠ 0 then
        let ws := L.scpiLex_WhiteSpace d.2.1
        let sf := L.scpiLex_SuffixProgramData ws.2.1
        if sf.1 > 0 then
          let len := d.2.2.len + (ws.1 + sf.1)
          (len, sf.2.1,
            { d.2.2 with
              len := len, type := SCPI_TOKEN_DECIMAL_NUMERIC_PROGRAM_DATA_WITH_SUFFIX })
        else (d.1, sf.2.1, d.2.2)
      else d
    else r
  let r := if r.1 = 0 then L.scpiLex_StringProgramData r.2.1 else r
  let r := if r.1 = 0 then L.scpiLex_ArbitraryBlockProgramData r.2.1 else r
  let r := if r.1 = 0 then L.scpiLex_ProgramExpression r.2.1 else r
  let w2 := L.scpiLex_WhiteSpace r.2.1
  (r.1 + (realLen + w2.1), w2.2.1, r.2.2)

/-- Source `invalidateToken`. -/
def invalidateToken (token : scpi_token_t) (ptr : Option Int) : scpi_token_t :=
  { token with len := 0, ptr := ptr, type := SCPI_TOKEN_UNKNOWN }

/-- The token kinds for which the `switch` of `SCPI_Parameter` returns TRUE. -/
def parameterKinds : List Nat :=
  [SCPI_TOKEN_HEXNUM, SCPI_TOKEN_OCTNUM, SCPI_TOKEN_BINNUM, SCPI_TOKEN_PROGRAM_MNEMONIC,
   SCPI_TOKEN_DECIMAL_NUMERIC_PROGRAM_DATA, SCPI_TOKEN_DECIMAL_NUMERIC_PROGRAM_DATA_WITH_SUFFIX,
   SCPI_TOKEN_ARBITRARY_BLOCK_PROGRAM_DATA, SCPI_TOKEN_SINGLE_QUOTE_PROGRAM_DATA,
   SCPI_TOKEN_DOUBLE_QUOTE_PROGRAM_DATA, SCPI_TOKEN_PROGRAM_EXPRESSION]

/-- Source `SCPI_Parameter`: `parameter` is `*parameter` on entry (`none` for NULL);
returns the flag, the context and `*parameter` on exit.  The lexer state of the
context is the one the lexer functions work on. -/
def SCPI_Parameter (L : lexer_t) (context : scpi_t) (parameter : Option scpi_token_t)
    (mandatory : Bool) : Bool × scpi_t × Option scpi_token_t :=
  match parameter with
  | none => (false, SCPI_ErrorPush context scpi_error_t.SCPI_ERROR_SYSTEM_ERROR, none)
  | some parameter =>
    let parameter := invalidateToken parameter none
    let state := context.lex_state
    if state.pos ≥ state.len then
      if mandatory then
        (false, SCPI_ErrorPush context scpi_error_t.SCPI_ERROR_MISSING_PARAMETER,
          some parameter)
      else
        /- TODO: select something different -/
        (false, context, some { parameter with type := SCPI_TOKEN_PROGRAM_MNEMONIC })
    else
      let comma := L.scpiLex_Comma state
      if context.input_count ≠ 0 ∧ comma.2.2.type ≠ SCPI_TOKEN_COMMA then
        (false,
          SCPI_ErrorPush { context with lex_state := comma.2.1 }
            scpi_error_t.SCPI_ERROR_INVALID_SEPARATOR,
          some (invalidateToken comma.2.2 none))
      else
        let state := if context.input_count ≠ 0 then comma.2.1 else state
        let context := { context with input_count := context.input_count + 1 }
        let d := scpiParser_parseProgramData L state
        let context := { context with lex_state := d.2.1 }
        if d.2.2.type ∈ parameterKinds then (true, context, some d.2.2)
        else
          (false, SCPI_ErrorPush context scpi_error_t.SCPI_ERROR_INVALID_STRING_DATA,
            some (invalidateToken d.2.2 none))

/-- Source `SCPI_ParamIsNumber`. -/
def SCPI_ParamIsNumber (parameter : scpi_token_t) (suffixAllowed : Bool) : Bool :=
  if parameter.type = SCPI_TOKEN_HEXNUM ∨ parameter.type = SCPI_TOKEN_OCTNUM ∨
      parameter.type = SCPI_TOKEN_BINNUM ∨
      parameter.type = SCPI_TOKEN_DECIMAL_NUMERIC_PROGRAM_DATA then true
  else if parameter.type = SCPI_TOKEN_DECIMAL_NUMERIC_PROGRAM_DATA_WITH_SUFFIX then
    suffixAllowed
  else false

/-- The bytes at `parameter->ptr`: a token of the parameter list points into the buffer of
the lexer state. -/
def paramBytes (context : scpi_t) (parameter : scpi_token_t) : List Nat :=
  (⟨context.lex_state.buffer, parameter.ptr.getD 0⟩ : CPtr).bytes

/-- The C library conversions that the sources call with a variable base or for
floating point, and the conversions of an unsigned integer to `float` and `double`.
Each string conversion returns the value and `endptr - str`. -/
structure libc_t (F D : Type) where
  /-- The C library `strtoul(str, &endptr, base)`. -/
  strtoul : List Nat → Int → Nat × Nat
  /-- The C library `strtoull(str, &endptr, base)`. -/
  strtoull : List Nat → Int → Nat × Nat
  /-- The C library `strtof(str, &endptr)`. -/
  strtof : List Nat → F × Nat
  /-- The C library `strtod(str, &endptr)`. -/
  strtod : List Nat → D × Nat
  /-- The conversion of a `uint32_t` to `float`. -/
  floatOfUInt32 : Nat → F
  /-- The conversion of a `uint64_t` to `double`. -/
  doubleOfUInt64 : Nat → D

/-- Source `strBaseToUInt32`: the number of bytes used and the value stored in `*val`. -/
def strBaseToUInt32 {F D : Type} (lib : libc_t F D) (str : List Nat) (base : Int) :
    Nat × Int :=
  ((lib.strtoul str base).2, (((lib.strtoul str base).1 % 4294967296 : Nat) : Int))

/-- Source `strBaseToInt64(str, &val, 10)`. -/
def strBaseToInt64 (str : List Nat) : Nat × Int :=
  ((strtol str).2, (strtol str).1)

/-- Source `strBaseToUInt64`. -/
def strBaseToUInt64 {F D : Type} (lib : libc_t F D) (str : List Nat) (base : Int) :
    Nat × Int :=
  ((lib.strtoull str base).2,
    (((lib.strtoull str base).1 % 18446744073709551616 : Nat) : Int))

/-- The conversion of a `uint64_t` bit pattern to `int64_t`. -/
def toInt64 (v : Int) : Int :=
  (v + 9223372036854775808) % 18446744073709551616 - 9223372036854775808

/-- Source `ParamSignToUInt32`.  `value` is the cell `*value` as its owner reads it
(`none` for NULL): with `sign` the owner holds an `int32_t`, so what the unsigned
conversions store is read back as `int32_t`. -/
def ParamSignToUInt32 {F D : Type} (lib : libc_t F D) (context : scpi_t)
    (parameter : scpi_token_t) (value : Option Int) (sign : Bool) :
    Bool × scpi_t × Option Int :=
  match value with
  | none => (false, SCPI_ErrorPush context scpi_error_t.SCPI_ERROR_SYSTEM_ERROR, none)
  | some _ =>
    let stored (r : Nat × Int) : Bool × scpi_t × Option Int :=
      (decide (r.1 > 0), context, some (if sign then toInt32 r.2 else r.2))
    if parameter.type = SCPI_TOKEN_HEXNUM then
      stored (strBaseToUInt32 lib (paramBytes context parameter) 16)
    else if parameter.type = SCPI_TOKEN_OCTNUM then
      stored (strBaseToUInt32 lib (paramBytes context parameter) 8)
    else if parameter.type = SCPI_TOKEN_BINNUM then
      stored (strBaseToUInt32 lib (paramBytes context parameter) 2)
    else if parameter.type = SCPI_TOKEN_DECIMAL_NUMERIC_PROGRAM_DATA ∨
        parameter.type = SCPI_TOKEN_DECIMAL_NUMERIC_PROGRAM_DATA_WITH_SUFFIX then
      if sign then
        (decide ((strBaseToInt32 (paramBytes context parameter)).1 > 0), context,
          some (strBaseToInt32 (paramBytes context parameter)).2)
      else stored (strBaseToUInt32 lib (paramBytes context parameter) 10)
    else (false, context, value)

/-- Source `ParamSignToUInt64`, with `value` as in `ParamSignToUInt32`. -/
def ParamSignToUInt64 {F D : Type} (lib : libc_t F D) (context : scpi_t)
    (parameter : scpi_token_t) (value : Option Int) (sign : Bool) :
    Bool × scpi_t × Option Int :=
  match value with
  | none => (false, SCPI_ErrorPush context scpi_error_t.SCPI_ERROR_SYSTEM_ERROR, none)
  | some _ =>
    let stored (r : Nat × Int) : Bool × scpi_t × Option Int :=
      (decide (r.1 > 0), context, some (if sign then toInt64 r.2 else r.2))
    if parameter.type = SCPI_TOKEN_HEXNUM then
      stored (strBaseToUInt64 lib (paramBytes context parameter) 16)
    else if parameter.type = SCPI_TOKEN_OCTNUM then
      stored (strBaseToUInt64 lib (paramBytes context parameter) 8)
    else if parameter.type = SCPI_TOKEN_BINNUM then
      stored (strBaseToUInt64 lib (paramBytes context parameter) 2)
    else if parameter.type = SCPI_TOKEN_DECIMAL_NUMERIC_PROGRAM_DATA ∨
        parameter.type = SCPI_TOKEN_DECIMAL_NUMERIC_PROGRAM_DATA_WITH_SUFFIX then
      if sign then
        (decide ((strBaseToInt64 (paramBytes context parameter)).1 > 0), context,
          some (strBaseToInt64 (paramBytes context parameter)).2)
      else stored (strBaseToUInt64 lib (paramBytes context parameter) 10)
    else (false, context, value)

/-- Source `SCPI_ParamToInt32`. -/
def SCPI_ParamToInt32 {F D : Type} (lib : libc_t F D) (context : scpi_t)
    (parameter : scpi_token_t) (value : Option Int) : Bool × scpi_t × Option Int :=
  ParamSignToUInt32 lib context parameter value true

/-- Source `SCPI_ParamToUInt32`. -/
def SCPI_ParamToUInt32 {F D : Type} (lib : libc_t F D) (context : scpi_t)
    (parameter : scpi_token_t) (value : Option Int) : Bool × scpi_t × Option Int :=
  ParamSignToUInt32 lib context parameter value false

/-- Source `SCPI_ParamToInt64`. -/
def SCPI_ParamToInt64 {F D : Type} (lib : libc_t F D) (context : scpi_t)
    (parameter : scpi_token_t) (value : Option Int) : Bool × scpi_t × Option Int :=
  ParamSignToUInt64 lib context parameter value true

/-- Source `SCPI_ParamToUInt64`. -/
def SCPI_ParamToUInt64 {F D : Type} (lib : libc_t F D) (context : scpi_t)
    (parameter : scpi_token_t) (value : Option Int) : Bool × scpi_t × Option Int :=
  ParamSignToUInt64 lib context parameter value false

/-- Source `SCPI_ParamToFloat`; the local `valint` starts as 0. -/
def SCPI_ParamToFloat {F D : Type} (lib : libc_t F D) (context : scpi_t)
    (parameter : scpi_token_t) (value : Option F) : Bool × scpi_t × Option F :=
  match value with
  | none => (false, SCPI_ErrorPush context scpi_error_t.SCPI_ERROR_SYSTEM_ERROR, none)
  | some _ =>
    if parameter.type = SCPI_TOKEN_HEXNUM ∨ parameter.type = SCPI_TOKEN_OCTNUM ∨
        parameter.type = SCPI_TOKEN_BINNUM then
      let r := SCPI_ParamToUInt32 lib context parameter (some 0)
      (r.1, r.2.1, some (lib.floatOfUInt32 (r.2.2.getD 0).toNat))
    else if parameter.type = SCPI_TOKEN_DECIMAL_NUMERIC_PROGRAM_DATA ∨
        parameter.type = SCPI_TOKEN_DECIMAL_NUMERIC_PROGRAM_DATA_WITH_SUFFIX then
      (decide ((lib.strtof (paramBytes context parameter)).2 > 0), context,
        some (lib.strtof (paramBytes context parameter)).1)
    else (false, context, value)

/-- Source `SCPI_ParamToDouble`; the local `valint` starts as 0. -/
def SCPI_ParamToDouble {F D : Type} (lib : libc_t F D) (context : scpi_t)
    (parameter : scpi_token_t) (value : Option D) : Bool × scpi_t × Option D :=
  match value with
  | none => (false, SCPI_ErrorPush context scpi_error_t.SCPI_ERROR_SYSTEM_ERROR, none)
  | some _ =>
    if parameter.type = SCPI_TOKEN_HEXNUM ∨ parameter.type = SCPI_TOKEN_OCTNUM ∨
        parameter.type = SCPI_TOKEN_BINNUM then
      let r := SCPI_ParamToUInt64 lib context parameter (some 0)
      (r.1, r.2.1, some (lib.doubleOfUInt64 (r.2.2.getD 0).toNat))
    else if parameter.type = SCPI_TOKEN_DECIMAL_NUMERIC_PROGRAM_DATA ∨
        parameter.type = SCPI_TOKEN_DECIMAL_NUMERIC_PROGRAM_DATA_WITH_SUFFIX then
      (decide ((lib.strtod (paramBytes context parameter)).2 > 0), context,
        some (lib.strtod (paramBytes context parameter)).1)
    else (false, context, value)

/-- The local `scpi_parameter_t param` of an extractor after its call of
`SCPI_Parameter(context, &param, mandatory)`; the call overwrites every field. -/
def paramAfter (p : Bool × scpi_t × Option scpi_token_t) : scpi_token_t :=
  p.2.2.getD ⟨SCPI_TOKEN_UNKNOWN, none, 0⟩

/-- Source `SCPI_ParamFloat`. -/
def SCPI_ParamFloat {F D : Type} (lib : libc_t F D) (L : lexer_t) (context : scpi_t)
    (value : Option F) (mandatory : Bool) : Bool × scpi_t × Option F :=
  match value with
  | none => (false, SCPI_ErrorPush context scpi_error_t.SCPI_ERROR_SYSTEM_ERROR, none)
  | some _ =>
    let p := SCPI_Parameter L context (some ⟨SCPI_TOKEN_UNKNOWN, none, 0⟩) mandatory
    if p.1 then
      if SCPI_ParamIsNumber (paramAfter p) false then
        let r := SCPI_ParamToFloat lib p.2.1 (paramAfter p) value
        (true, r.2.1, r.2.2)
      else if SCPI_ParamIsNumber (paramAfter p) true then
        (false, SCPI_ErrorPush p.2.1 scpi_error_t.SCPI_ERROR_SUFFIX_NOT_ALLOWED, value)
      else (false, SCPI_ErrorPush p.2.1 scpi_error_t.SCPI_ERROR_DATA_TYPE_ERROR, value)
    else (false, p.2.1, value)

/-- Source `SCPI_ParamDouble`. -/
def SCPI_ParamDouble {F D : Type} (lib : libc_t F D) (L : lexer_t) (context : scpi_t)
    (value : Option D) (mandatory : Bool) : Bool × scpi_t × Option D :=
  match value with
  | none => (false, SCPI_ErrorPush context scpi_error_t.SCPI_ERROR_SYSTEM_ERROR, none)
  | some _ =>
    let p := SCPI_Parameter L context (some ⟨SCPI_TOKEN_UNKNOWN, none, 0⟩) mandatory
    if p.1 then
      if SCPI_ParamIsNumber (paramAfter p) false then
        let r := SCPI_ParamToDouble lib p.2.1 (paramAfter p) value
        (true, r.2.1, r.2.2)
      else if SCPI_ParamIsNumber (paramAfter p) true then
        (false, SCPI_ErrorPush p.2.1 scpi_error_t.SCPI_ERROR_SUFFIX_NOT_ALLOWED, value)
      else (false, SCPI_ErrorPush p.2.1 scpi_error_t.SCPI_ERROR_DATA_TYPE_ERROR, value)
    else (false, p.2.1, value)

/-- Source `ParamSignUInt32`. -/
def ParamSignUInt32 {F D : Type} (lib : libc_t F D) (L : lexer_t) (context : scpi_t)
    (value : Option Int) (mandatory sign : Bool) : Bool × scpi_t × Option Int :=
  match value with
  | none => (false, SCPI_ErrorPush context scpi_error_t.SCPI_ERROR_SYSTEM_ERROR, none)
  | some _ =>
    let p := SCPI_Parameter L context (some ⟨SCPI_TOKEN_UNKNOWN, none, 0⟩) mandatory
    if p.1 then
      if SCPI_ParamIsNumber (paramAfter p) false then
        ParamSignToUInt32 lib p.2.1 (paramAfter p) value sign
      else if SCPI_ParamIsNumber (paramAfter p) true then
        (false, SCPI_ErrorPush p.2.1 scpi_error_t.SCPI_ERROR_SUFFIX_NOT_ALLOWED, value)
      else (false, SCPI_ErrorPush p.2.1 scpi_error_t.SCPI_ERROR_DATA_TYPE_ERROR, value)
    else (false, p.2.1, value)

/-- Source `ParamSignUInt64`. -/
def ParamSignUInt64 {F D : Type} (lib : libc_t F D) (L : lexer_t) (context : scpi_t)
    (value : Option Int) (mandatory sign : Bool) : Bool × scpi_t × Option Int :=
  match value with
  | none => (false, SCPI_ErrorPush context scpi_error_t.SCPI_ERROR_SYSTEM_ERROR, none)
  | some _ =>
    let p := SCPI_Parameter L context (some ⟨SCPI_TOKEN_UNKNOWN, none, 0⟩) mandatory
    if p.1 then
      if SCPI_ParamIsNumber (paramAfter p) false then
        ParamSignToUInt64 lib p.2.1 (paramAfter p) value sign
      else if SCPI_ParamIsNumber (paramAfter p) true then
        (false, SCPI_ErrorPush p.2.1 scpi_error_t.SCPI_ERROR_SUFFIX_NOT_ALLOWED, value)
      else (false, SCPI_ErrorPush p.2.1 scpi_error_t.SCPI_ERROR_DATA_TYPE_ERROR, value)
    else (false, p.2.1, value)

/-- Source `SCPI_ParamInt32`. -/
def SCPI_ParamInt32 {F D : Type} (lib : libc_t F D) (L : lexer_t) (context : scpi_t)
    (value : Option Int) (mandatory : Bool) : Bool × scpi_t × Option Int :=
  ParamSignUInt32 lib L context value mandatory true

/-- Source `SCPI_ParamUInt32`. -/
def SCPI_ParamUInt32 {F D : Type} (lib : libc_t F D) (L : lexer_t) (context : scpi_t)
    (value : Option Int) (mandatory : Bool) : Bool × scpi_t × Option Int :=
  ParamSignUInt32 lib L context value mandatory false

/-- Source `SCPI_ParamInt64`. -/
def SCPI_ParamInt64 {F D : Type} (lib : libc_t F D) (L : lexer_t) (context : scpi_t)
    (value : Option Int) (mandatory : Bool) : Bool × scpi_t × Option Int :=
  ParamSignUInt64 lib L context value mandatory true

/-- Source `SCPI_ParamUInt64`. -/
def SCPI_ParamUInt64 {F D : Type} (lib : libc_t F D) (L : lexer_t) (context : scpi_t)
    (value : Option Int) (mandatory : Bool) : Bool × scpi_t × Option Int :=
  ParamSignUInt64 lib L context value mandatory false

/-- The loop of `SCPI_ParamCopyText`: `src` are the bytes at `param.ptr`, `len` is
`param.len`.  Returns `i_to` and the buffer; `none` without fuel. -/
def copyTextLoop (src : List Nat) (len : Nat) (quote : Nat) (buffer_len : Nat) :
    Nat → Nat → Nat → List Nat → Option (Nat × List Nat)
  | 0, _, _, _ => none
  | fuel + 1, i_from, i_to, buffer =>
    if i_from < toSizeT ((len : Int) - 1) then
      if i_from ≥ buffer_len then some (i_to, buffer)
      else
        let buffer := buffer.set i_to (src.getD i_from 0)
        let i_to := i_to + 1
        let i_from := if src.getD i_from 0 = quote then i_from + 1 else i_from
        copyTextLoop src len quote buffer_len fuel (i_from + 1) i_to buffer
    else some (i_to, buffer)

/-- Source `SCPI_ParamCopyText`: `buffer` holds the bytes of the caller's array
(`none` for NULL), `copy_len` is the cell `*copy_len`.  Returns the flag, the
context, the buffer and `*copy_len`. -/
def SCPI_ParamCopyText (L : lexer_t) (context : scpi_t) (buffer : Option (List Nat))
    (buffer_len : Nat) (copy_len : Option Nat) (mandatory : Bool) :
    Option (Bool × scpi_t × Option (List Nat) × Option Nat) :=
  match buffer, copy_len with
  | some buf, some _ =>
    let p := SCPI_Parameter L context (some ⟨SCPI_TOKEN_UNKNOWN, none, 0⟩) mandatory
    if p.1 then
      if (paramAfter p).type = SCPI_TOKEN_SINGLE_QUOTE_PROGRAM_DATA ∨
          (paramAfter p).type = SCPI_TOKEN_DOUBLE_QUOTE_PROGRAM_DATA then
        let quote :=
          if (paramAfter p).type = SCPI_TOKEN_SINGLE_QUOTE_PROGRAM_DATA then 39 else 34
        match copyTextLoop (paramBytes p.2.1 (paramAfter p)) (paramAfter p).len quote
            buffer_len (buffer_len + 1) 1 0 buf with
        | none => none
        | some (i_to, buf) =>
          some (true, p.2.1,
            some (if i_to < buffer_len then buf.set i_to 0 else buf), some i_to)
      else
        some (false, SCPI_ErrorPush p.2.1 scpi_error_t.SCPI_ERROR_DATA_TYPE_ERROR,
          buffer, copy_len)
    else some (false, p.2.1, buffer, copy_len)
  | _, _ =>
    some (false, SCPI_ErrorPush context scpi_error_t.SCPI_ERROR_SYSTEM_ERROR, buffer,
      copy_len)

/-- Source `scpi_choice_def_t`: a name pattern and a tag. -/
structure scpi_choice_def_t where
  /-- The pattern, a C string. -/
  name : List Nat
  /-- The tag. -/
  tag : Int
deriving DecidableEq, Repr

/-- The loop of `SCPI_ParamToChoice` over the entries before the terminating entry:
the tag at which it breaks, `none` if it runs to the end. -/
def choiceLoop (str : List Nat) (len : Nat) : List scpi_choice_def_t → Option Int
  | [] => none
  | o :: options =>
    if (matchPattern o.name (strlen o.name) str len none).1 then some o.tag
    else choiceLoop str len options

/-- Source `SCPI_ParamToChoice`: `options` are the entries before the terminating
entry (`none` for NULL), `value` is the cell `*value`. -/
def SCPI_ParamToChoice (context : scpi_t) (parameter : scpi_token_t)
    (options : Option (List scpi_choice_def_t)) (value : Option Int) :
    Bool × scpi_t × Option Int :=
  match options, value with
  | some options, some _ =>
    if parameter.type = SCPI_TOKEN_PROGRAM_MNEMONIC then
      match choiceLoop (paramBytes context parameter) parameter.len options with
      | some tag => (true, context, some tag)
      | none =>
        (false, SCPI_ErrorPush context scpi_error_t.SCPI_ERROR_ILLEGAL_PARAMETER_VALUE,
          value)
    else (false, SCPI_ErrorPush context scpi_error_t.SCPI_ERROR_DATA_TYPE_ERROR, value)
  | _, _ => (false, SCPI_ErrorPush context scpi_error_t.SCPI_ERROR_SYSTEM_ERROR, value)

/-- The table `bool_options` of `SCPI_ParamBool`. -/
def bool_options : List scpi_choice_def_t := [⟨str "OFF", 0⟩, ⟨str "ON", 1⟩]

/-- Source `SCPI_ParamBool`; the local `intval` starts as 0. -/
def SCPI_ParamBool {F D : Type} (lib : libc_t F D) (L : lexer_t) (context : scpi_t)
    (value : Option Bool) (mandatory : Bool) : Bool × scpi_t × Option Bool :=
  match value with
  | none => (false, SCPI_ErrorPush context scpi_error_t.SCPI_ERROR_SYSTEM_ERROR, none)
  | some _ =>
    let p := SCPI_Parameter L context (some ⟨SCPI_TOKEN_UNKNOWN, none, 0⟩) mandatory
    if p.1 then
      if (paramAfter p).type = SCPI_TOKEN_DECIMAL_NUMERIC_PROGRAM_DATA then
        let r := SCPI_ParamToInt32 lib p.2.1 (paramAfter p) (some 0)
        (true, r.2.1, some (decide (r.2.2.getD 0 ≠ 0)))
      else
        let r := SCPI_ParamToChoice p.2.1 (paramAfter p) (some bool_options) (some 0)
        if r.1 then (true, r.2.1, some (decide (r.2.2.getD 0 ≠ 0)))
        else (false, r.2.1, value)
    else (false, p.2.1, value)

/-- A lexer function that finds nothing: length 0, the state as it was, an `Unknown`
token at the cursor. -/
def lexNothing (state : lex_state_t) : Nat × lex_state_t × scpi_token_t :=
  (0, state, ⟨SCPI_TOKEN_UNKNOWN, some (state.pos : Int), 0⟩)

/-- A lexer function that takes all bytes up to the end of the data as one token of
kind `kind`. -/
def lexRest (kind : Nat) (state : lex_state_t) : Nat × lex_state_t × scpi_token_t :=
  (state.len - state.pos, { state with pos := state.len },
    ⟨kind, some (state.pos : Int), state.len - state.pos⟩)

/-- A lexer whose data has one shape: no white space, no comma, and the rest of the data
is one token of kind `kind`, found by the function `scpiLex_ProgramExpression`. -/
def restLexer (kind : Nat) : lexer_t :=
  { scpiLex_WhiteSpace := lexNothing
    scpiLex_NondecimalNumericData := lexNothing
    scpiLex_CharacterProgramData := lexNothing
    scpiLex_DecimalNumericProgramData := lexNothing
    scpiLex_SuffixProgramData := lexNothing
    scpiLex_StringProgramData := lexNothing
    scpiLex_ArbitraryBlockProgramData := lexNothing
    scpiLex_ProgramExpression := lexRest kind
    scpiLex_Comma := lexNothing }

/-- The libc conversions that read nothing, over a one-point type of floats. -/
def nullLibc : libc_t Unit Unit :=
  { strtoul := fun _ _ => (0, 0)
    strtoull := fun _ _ => (0, 0)
    strtof := fun _ => ((), 0)
    strtod := fun _ => ((), 0)
    floatOfUInt32 := fun _ => ()
    doubleOfUInt64 := fun _ => () }

/-- A lexer that finds no token of any kind, as on data that starts no program data. -/
def nothingLexer : lexer_t :=
  { scpiLex_WhiteSpace := lexNothing
    scpiLex_NondecimalNumericData := lexNothing
    scpiLex_CharacterProgramData := lexNothing
    scpiLex_DecimalNumericProgramData := lexNothing
    scpiLex_SuffixProgramData := lexNothing
    scpiLex_StringProgramData := lexNothing
    scpiLex_ArbitraryBlockProgramData := lexNothing
    scpiLex_ProgramExpression := lexNothing
    scpiLex_Comma := lexNothing }

/-- The escape of a quoted string: the text with every occurrence of the byte `quote`
written twice. -/
def doubleQuotes (quote : Nat) : List Nat → List Nat
  | [] => []
  | c :: cs =>
    if c = quote then c :: c :: doubleQuotes quote cs else c :: doubleQuotes quote cs

/-! ## Reference strings of the converters -/

/-- The characters the converters store when the buffer has room for all of them: `0`
for zero, `-` and the numeral of the magnitude for a negative value in base 10 with
`sign`, the numeral of the value otherwise.  `start` is the `switch (base)`. -/
def convertedNumeral (w : Nat) (start : Int → Nat × Nat) (val : Nat) (base : Int)
    (sign : Bool) : List Nat :=
  if val = 0 then [48]
  else if sign && decide (2 ^ (w - 1) ≤ val) && ((start base).2 == 10) then
    45 :: numeral (start base).2 ((2 ^ w - val) % 2 ^ w)
  else numeral (start base).2 val

/-! ## Patterns with an optional group that the command enters -/

/-- A pattern `K0[:G1:...:Gk` followed by the pieces `toks` (further keywords `:K` and
brackets), optionally ending in `?`: the keyword `K0`, then an optional group that
opens with the keywords `G`. -/
def enteredGroupPattern (K0 : KeySeg) (G : List KeySeg) (toks : List PatItem)
    (query : Bool) : List Nat :=
  (K0.pattern ++ 91 :: 58 :: (joinColon (G.map KeySeg.pattern) ++ residualText toks)) ++
    (if query then [63] else [])

/-! ## Bracket balance of a pattern -/

/-- The count a bracket adds to the bracket depth: `+1` for `[`, `-1` for `]`. -/
def bracketValue (c : Nat) : Int := if c = 91 then 1 else if c = 93 then -1 else 0

/-- The number of `[` minus the number of `]` among the `n` bytes of a string from
offset `o` on. -/
def netRange (p : List Nat) : Nat → Nat → Int
  | _, 0 => 0
  | o, n + 1 => bracketValue (p.getD o 0) + netRange p (o + 1) n

/-- The number of `[` minus the number of `]` in a C string; it is `0` for a pattern
with balanced brackets. -/
def netBrackets (pattern : List Nat) : Int := netRange pattern 0 (strlen pattern)

/-- Invariant of the cursors of `matchCommand`: the pattern cursor is at offset `o` with
the `L - o` bytes up to the end `L` of the pattern left, the bracket depth
balances the brackets that are left, and the command cursor is at offset `k`
with the bytes up to the end `C` of the command left. -/
def CursorInv (pattern cmd : List Nat) (L C : Nat) (st : MatchState) : Prop :=
  ∃ o k : Nat, st.pattern_ptr = ⟨pattern, (o : Int)⟩ ∧ o ≤ L ∧
    st.pattern_len = ((L - o : Nat) : Int) ∧
    st.brackets + netRange pattern o (L - o) = 0 ∧
    st.cmd_ptr = cmd.drop k ∧ k + st.cmd_len = C

/-! ## The message-unit parser and `SCPI_Input` (`parser.c`) -/

/-- Modelled from the spec: the token kind `Semicolon`; as for `SCPI_TOKEN_INVALID`, only
that the kinds differ matters. -/
def SCPI_TOKEN_SEMICOLON : Nat := 1

/-- Modelled from the spec: the token kind `Newline`. -/
def SCPI_TOKEN_NL : Nat := 3

/-- Modelled from the spec: the kind of a program header token. -/
def SCPI_TOKEN_COMPOUND_PROGRAM_HEADER : Nat := 15

/-- Modelled from the spec: the token kind `WhiteSpace`. -/
def SCPI_TOKEN_WS : Nat := 21

/-- Modelled from the spec: the token kind `AllProgramData`. -/
def SCPI_TOKEN_ALL_PROGRAM_DATA : Nat := 22

/-- Modelled from the spec: the message termination of the current unit, "message
termination ∈ {none, semicolon, newline}". -/
inductive scpi_message_termination_t where
  | SCPI_MESSAGE_TERMINATION_NONE
  | SCPI_MESSAGE_TERMINATION_NL
  | SCPI_MESSAGE_TERMINATION_SEMICOLON
deriving DecidableEq, Repr

/-- Modelled from the spec: the lexer functions that the message-unit parser calls
besides those of `lexer_t`.  `scpiLex_ProgramHeader` returns an `int`. -/
structure unit_lexer_t where
  /-- The lexer function `scpiLex_ProgramHeader`. -/
  scpiLex_ProgramHeader : lex_state_t → Int × lex_state_t × scpi_token_t
  /-- The lexer function `scpiLex_NewLine`. -/
  scpiLex_NewLine : lex_state_t → Nat × lex_state_t × scpi_token_t
  /-- The lexer function `scpiLex_Semicolon`. -/
  scpiLex_Semicolon : lex_state_t → Nat × lex_state_t × scpi_token_t
  /-- The lexer function `scpiLex_IsEos`. -/
  scpiLex_IsEos : lex_state_t → Bool

/-- The loop `for (result = 1; result != 0; result = scpiLex_Comma(state, &tmp))` of
`scpiParser_parseAllProgramData`, entered with the value of `result`; `len` is
`token->len`.  Returns the state, `token->type`, `token->len` and `paramCount`
after the loop; `none` without fuel. -/
def parseAllProgramData_loop (L : lexer_t) :
    Nat → Nat → lex_state_t → Int → Int → Option (lex_state_t × Nat × Int × Int)
  | 0, _, _, _, _ => none
  | fuel + 1, result, state, len, paramCount =>
    if result = 0 then some (state, SCPI_TOKEN_ALL_PROGRAM_DATA, len, paramCount)
    else
      let len := len + (result : Int)
      let d := scpiParser_parseProgramData L state
      if d.2.2.type ≠ SCPI_TOKEN_UNKNOWN then
        let len := len + (d.1 : Int)
        let c := L.scpiLex_Comma d.2.1
        parseAllProgramData_loop L fuel c.1 c.2.1 len (paramCount + 1)
      else some (d.2.1, SCPI_TOKEN_UNKNOWN, 0, -1)

/-- Source `scpiParser_parseAllProgramData`: returns `token->len`, the state, `*token`
and `*numberOfParameters`; `none` without fuel. -/
def scpiParser_parseAllProgramData (L : lexer_t) (fuel : Nat) (state : lex_state_t) :
    Option (Int × lex_state_t × scpi_token_t × Int) :=
  match parseAllProgramData_loop L fuel 1 state (-1) 0 with
  | none => none
  | some (state', type, len, paramCount) =>
    let len := if len = -1 then 0 else len
    some (len, state', ⟨type, some (state.pos : Int), len.toNat⟩, paramCount)

/-- Source `scpiParser_detectProgramMessageUnit`: `buffer` holds the bytes from the
argument `buffer` on, token pointers are offsets from it.  Returns the length of the
unit, the parser state, `numberOfParameters` and the termination; `none` without
fuel for the parameter list. -/
def scpiParser_detectProgramMessageUnit (L : lexer_t) (U : unit_lexer_t) (fuel : Nat)
    (buffer : List Nat) (len : Int) :
    Option (Int × scpi_parser_state_t × Int × scpi_message_termination_t) :=
  let lex_state : lex_state_t := ⟨buffer, 0, len.toNat⟩
  /- ignore whitespace at the begginig -/
  let w := L.scpiLex_WhiteSpace lex_state
  let h := U.scpiLex_ProgramHeader w.2.1
  let parsed : Option (lex_state_t × scpi_token_t × scpi_token_t × scpi_token_t × Int) :=
    if h.1 ≥ 0 then
      let w2 := L.scpiLex_WhiteSpace h.2.1
      if w2.1 > 0 then
        match scpiParser_parseAllProgramData L fuel w2.2.1 with
        | none => none
        | some a => some (a.2.1, w2.2.2, h.2.2, a.2.2.1, a.2.2.2)
      else
        some (w2.2.1, w2.2.2, h.2.2,
          invalidateToken ⟨SCPI_TOKEN_UNKNOWN, none, 0⟩ (some (w2.2.1.pos : Int)), 0)
    else
      some (h.2.1, w.2.2, invalidateToken h.2.2 (some 0),
        invalidateToken ⟨SCPI_TOKEN_UNKNOWN, none, 0⟩ (some 0), 0)
  match parsed with
  | none => none
  | some (lex_state, _, programHeader, programData, numberOfParameters) =>
    let n := U.scpiLex_NewLine lex_state
    let s := if n.1 = 0 then U.scpiLex_Semicolon n.2.1 else n
    let result := s.1
    let lex_state := s.2.1
    let tmp := s.2.2
    let r : lex_state_t × scpi_token_t × scpi_token_t :=
      if !U.scpiLex_IsEos lex_state ∧ result = 0 then
        ({ lex_state with pos := lex_state.pos + 1 },
          { programHeader with len := 1, type := SCPI_TOKEN_INVALID },
          invalidateToken programData (some 0))
      else (lex_state, programHeader, programData)
    let termination :=
      if SCPI_TOKEN_SEMICOLON = tmp.type then
        scpi_message_termination_t.SCPI_MESSAGE_TERMINATION_SEMICOLON
      else if SCPI_TOKEN_NL = tmp.type then
        scpi_message_termination_t.SCPI_MESSAGE_TERMINATION_NL
      else scpi_message_termination_t.SCPI_MESSAGE_TERMINATION_NONE
    some ((r.1.pos : Int), ⟨r.2.1, r.2.2⟩, numberOfParameters, termination)

/-- Source `scpi_buffer_t`, the input buffer of the context: `length` is the capacity,
`position` the number of bytes held, `data` the bytes of the memory. -/
structure scpi_buffer_t where
  /-- Source field `length` (a `size_t`). -/
  length : Nat
  /-- Source field `position` (a `size_t`). -/
  position : Nat
  /-- The memory `data` points to. -/
  data : List Nat
deriving DecidableEq, Repr

/-- The value of a `size_t` expression: the integer modulo `2^64`. -/
def toSize (v : Int) : Nat := (v % 18446744073709551616).toNat

/-- The C library `memcpy(buf + dst, data, n)` from a buffer `data` outside `buf`. -/
def memcpy (buf : List Nat) (dst : Nat) (data : List Nat) (n : Nat) : List Nat :=
  (List.range buf.length).map fun (j : Nat) =>
    if dst ≤ j ∧ j < dst + n then data.getD (j - dst) 0 else buf.getD j 0

/-- The loop `while (1)` of `SCPI_Input`.  `detect buf data len` stands for
`scpiParser_detectProgramMessageUnit(&context->parser_state, buf + data, len)` and
gives the returned length, the parser state and its termination.  `totcmdlen` is a
`size_t`, the lengths handed on are `int`.  `none` without fuel or if `SCPI_Parse`
does not return. -/
def SCPI_Input_loop
    (detect : List Nat → Int → Int → Int × scpi_parser_state_t × scpi_message_termination_t)
    (cmdlist : List scpi_command_t) (SCPI_LINE_ENDING : List Nat) (pfuel : Nat) :
    Nat → scpi_t → scpi_buffer_t → Nat → Bool → Option (Bool × scpi_t × scpi_buffer_t)
  | 0, _, _, _, _ => none
  | fuel + 1, context, buffer, totcmdlen, result =>
    let d := detect buffer.data (totcmdlen : Int)
      (toInt32 (toSize ((buffer.position : Int) - (totcmdlen : Int)) : Int))
    let cmdlen := d.1
    let totcmdlen := toSize ((totcmdlen : Int) + cmdlen)
    if d.2.2 = scpi_message_termination_t.SCPI_MESSAGE_TERMINATION_NL then
      match SCPI_Parse (fun b p l => ((detect b p l).1, (detect b p l).2.1)) cmdlist
          SCPI_LINE_ENDING pfuel context buffer.data 0 (toInt32 (totcmdlen : Int)) with
      | none => none
      | some (result, context, data) =>
        SCPI_Input_loop detect cmdlist SCPI_LINE_ENDING pfuel fuel context
          { buffer with
            data := memmove data 0 (totcmdlen : Int)
              (toSize ((buffer.position : Int) - (totcmdlen : Int)))
            position := toSize ((buffer.position : Int) - (totcmdlen : Int)) }
          0 result
    else if d.2.1.programHeader.type = SCPI_TOKEN_UNKNOWN then some (result, context, buffer)
    else if totcmdlen ≥ buffer.position then some (result, context, buffer)
    else SCPI_Input_loop detect cmdlist SCPI_LINE_ENDING pfuel fuel context buffer totcmdlen result

/-- Source `SCPI_Input` for a `len` that is not negative (`memcpy` with a negative `len`
is not modelled: `none`).  `buffer` is `context->buffer`, `data` the caller's
bytes; `buffer_free` is an `int`.  Returns the flag, the context and the buffer. -/
def SCPI_Input
    (detect : List Nat → Int → Int → Int × scpi_parser_state_t × scpi_message_termination_t)
    (cmdlist : List scpi_command_t) (SCPI_LINE_ENDING : List Nat) (fuel : Nat)
    (context : scpi_t) (buffer : scpi_buffer_t) (data : List Nat) (len : Int) :
    Option (Bool × scpi_t × scpi_buffer_t) :=
  if len = 0 then
    let buf := buffer.data.set buffer.position 0
    match SCPI_Parse (fun b p l => ((detect b p l).1, (detect b p l).2.1)) cmdlist
        SCPI_LINE_ENDING fuel context buf 0 (toInt32 (buffer.position : Int)) with
    | none => none
    | some (result, context, buf) => some (result, context, { buffer with data := buf, position := 0 })
  else
    let buffer_free : Int :=
      toInt32 (toSize ((buffer.length : Int) - (buffer.position : Int)) : Int)
    if len > buffer_free - 1 then
      /- Input buffer overrun - invalidate buffer -/
      some (false, SCPI_ErrorPush context scpi_error_t.SCPI_ERROR_INPUT_BUFFER_OVERRUN,
        { buffer with position := 0, data := buffer.data.set 0 0 })
    else if len < 0 then none
    else
      let buf := memcpy buffer.data buffer.position data len.toNat
      let position := toSize ((buffer.position : Int) + len)
      let buf := buf.set position 0
      SCPI_Input_loop detect cmdlist SCPI_LINE_ENDING fuel fuel context
        { buffer with data := buf, position := position } 0 true

/-- The number of `InputBufferOverrun` codes pushed so far. -/
def overruns (context : scpi_t) : Nat :=
  context.errors.count scpi_error_t.SCPI_ERROR_INPUT_BUFFER_OVERRUN

/-! ## A lexer after the recogniser sketches of the specification -/

/-- The bytes a recogniser may read: from the cursor to the end of the data. -/
def lexWindow (state : lex_state_t) : List Nat :=
  (state.buffer.drop state.pos).take (state.len - state.pos)

/-- Modelled from the spec: "Each recogniser either advances the cursor and fills the
token, or leaves both untouched and returns zero": the outcome of a recogniser that
accepts `n` bytes at the cursor as a token of kind `kind`. -/
def lexAccept (kind : Nat) (n : Nat) (state : lex_state_t) :
    Nat × lex_state_t × scpi_token_t :=
  if n = 0 then lexNothing state
  else (n, { state with pos := state.pos + n }, ⟨kind, some (state.pos : Int), n⟩)

/-- Modelled from the spec: the length of a keyword `[A-Za-z_][A-Za-z0-9_]*` at the
start of `w` (0 if there is none). -/
def keywordLen (w : List Nat) : Nat :=
  match w with
  | [] => 0
  | c :: cs =>
    if isalpha c || c == 95 then
      1 + (cs.takeWhile fun x => isalpha x || isdigit x || x == 95).length
    else 0

/-- Modelled from the spec: the length of a "keyword sequence … joined by `:`" at the
start of `w`. -/
def keywordsLen : Nat → List Nat → Nat
  | 0, _ => 0
  | fuel + 1, w =>
    let k := keywordLen w
    if k = 0 then 0
    else
      match w.drop k with
      | 58 :: r =>
        let m := keywordsLen fuel r
        if m = 0 then k else k + 1 + m
      | _ => k

/-- Modelled from the spec: the length of a program header at the start of `w`:
"optional leading `:` or `*`; keyword sequence …; optional trailing `?`". -/
def headerLen (w : List Nat) : Nat :=
  let lead := match w with
    | 58 :: _ => 1
    | 42 :: _ => 1
    | _ => 0
  let k := keywordsLen w.length (w.drop lead)
  if k = 0 then 0
  else
    match w.drop (lead + k) with
    | 63 :: _ => lead + k + 1
    | _ => lead + k

/-- Modelled from the spec: the length of a new line, "optional `\r` then `\n`". -/
def newLineLen (w : List Nat) : Nat :=
  match w with
  | 13 :: 10 :: _ => 2
  | 10 :: _ => 1
  | _ => 0

/-- The length of the literal byte `c` at the start of `w`. -/
def literalLen (c : Nat) (w : List Nat) : Nat :=
  match w with
  | x :: _ => if x = c then 1 else 0
  | [] => 0

/-- Modelled from the spec: a nondecimal number, `#[Hh][0-9A-Fa-f]+`, `#[Qq][0-7]+` or
`#[Bb][01]+`: the kind and the length. -/
def nondecimalLen (w : List Nat) : Nat × Nat :=
  match w with
  | 35 :: b :: r =>
    let run (p : Nat → Bool) (kind : Nat) : Nat × Nat :=
      if (r.takeWhile p).length = 0 then (kind, 0) else (kind, 2 + (r.takeWhile p).length)
    if b = 72 ∨ b = 104 then
      run (fun x => isdigit x || (decide (65 ≤ x) && decide (x ≤ 70)) ||
        (decide (97 ≤ x) && decide (x ≤ 102))) SCPI_TOKEN_HEXNUM
    else if b = 81 ∨ b = 113 then
      run (fun x => decide (48 ≤ x) && decide (x ≤ 55)) SCPI_TOKEN_OCTNUM
    else if b = 66 ∨ b = 98 then run (fun x => x == 48 || x == 49) SCPI_TOKEN_BINNUM
    else (SCPI_TOKEN_UNKNOWN, 0)
  | _ => (SCPI_TOKEN_UNKNOWN, 0)

/-- The length of an optional sign at the start of `w`. -/
def signLen (w : List Nat) : Nat :=
  match w with
  | x :: _ => if x = 43 ∨ x = 45 then 1 else 0
  | [] => 0

/-- Modelled from the spec: the length of a decimal number: "optional sign, digits with
optional fractional `.` and exponent `[eE][+-]?digits`". -/
def decimalLen (w : List Nat) : Nat :=
  let s := signLen w
  let r := w.drop s
  let i := (r.takeWhile isdigit).length
  let f := match r.drop i with
    | 46 :: r2 => 1 + (r2.takeWhile isdigit).length
    | _ => 0
  if i + (f - 1) = 0 then 0
  else
    let e := match r.drop (i + f) with
      | x :: r3 =>
        if x = 69 ∨ x = 101 then
          let d := ((r3.drop (signLen r3)).takeWhile isdigit).length
          if d = 0 then 0 else 1 + signLen r3 + d
        else 0
      | [] => 0
    s + i + f + e

/-- Modelled from the spec: the length of a suffix, "letters, digits, `/`, `-`, `.`". -/
def suffixLen (w : List Nat) : Nat :=
  (w.takeWhile fun x => isalpha x || isdigit x || x == 47 || x == 45 || x == 46).length

/-- Modelled from the spec: the bytes of a string after its opening quote `q`, up to and
with the closing quote, "the inner quote escapable by doubling"; `pending` says
that the byte before was a quote that may close the string.  `none` if the string
is not closed. -/
def stringBodyLen (q : Nat) : Bool → List Nat → Option Nat
  | true, [] => some 0
  | false, [] => none
  | true, c :: cs => if c = q then (stringBodyLen q false cs).map (· + 1) else some 0
  | false, c :: cs =>
    if c = q then (stringBodyLen q true cs).map (· + 1)
    else (stringBodyLen q false cs).map (· + 1)

/-- Modelled from the spec: a string `'...'` or `"..."`: the kind and the length, which
"includes the outer quotes". -/
def stringLen (w : List Nat) : Nat × Nat :=
  match w with
  | q :: r =>
    if q = 39 ∨ q = 34 then
      match stringBodyLen q false r with
      | some n =>
        (if q = 39 then SCPI_TOKEN_SINGLE_QUOTE_PROGRAM_DATA
          else SCPI_TOKEN_DOUBLE_QUOTE_PROGRAM_DATA, 1 + n)
      | none => (SCPI_TOKEN_UNKNOWN, 0)
    else (SCPI_TOKEN_UNKNOWN, 0)
  | [] => (SCPI_TOKEN_UNKNOWN, 0)

/-- Modelled from the spec: an arbitrary block, "`#` digit `d` then `d` decimal digits
giving byte-length `n`, then exactly `n` raw bytes": the length of the header and the
length `n` of the payload, `none` if there is no complete block. -/
def blockLen (w : List Nat) : Option (Nat × Nat) :=
  match w with
  | 35 :: d :: r =>
    if isdigit d ∧ d ≠ 48 then
      let ds := r.take (d - 48)
      let n := ds.foldl (fun a c => 10 * a + (c - 48)) 0
      if ds.length = d - 48 ∧ ds.all isdigit ∧ n ≤ (r.drop (d - 48)).length then
        some (2 + (d - 48), n)
      else none
    else none
  | _ => none

/-- Modelled from the spec: the length of an expression `(` … `)`. -/
def expressionLen (w : List Nat) : Nat :=
  match w with
  | 40 :: r =>
    if (r.takeWhile fun x => x != 41).length < r.length then
      (r.takeWhile fun x => x != 41).length + 2
    else 0
  | _ => 0

/-- Modelled from the spec: the recognisers of §4.1 that the parameter parser calls. -/
def specLexer : lexer_t :=
  { scpiLex_WhiteSpace := fun state =>
      lexAccept SCPI_TOKEN_WS
        ((lexWindow state).takeWhile fun x => x == 32 || x == 9).length state
    scpiLex_NondecimalNumericData := fun state =>
      lexAccept (nondecimalLen (lexWindow state)).1 (nondecimalLen (lexWindow state)).2 state
    scpiLex_CharacterProgramData := fun state =>
      lexAccept SCPI_TOKEN_PROGRAM_MNEMONIC (keywordLen (lexWindow state)) state
    scpiLex_DecimalNumericProgramData := fun state =>
      lexAccept SCPI_TOKEN_DECIMAL_NUMERIC_PROGRAM_DATA (decimalLen (lexWindow state)) state
    scpiLex_SuffixProgramData := fun state =>
      lexAccept 10 (suffixLen (lexWindow state)) state
    scpiLex_StringProgramData := fun state =>
      lexAccept (stringLen (lexWindow state)).1 (stringLen (lexWindow state)).2 state
    scpiLex_ArbitraryBlockProgramData := fun state =>
      match blockLen (lexWindow state) with
      | some (h, n) =>
        (h + n, { state with pos := state.pos + (h + n) },
          ⟨SCPI_TOKEN_ARBITRARY_BLOCK_PROGRAM_DATA, some ((state.pos + h : Nat) : Int), n⟩)
      | none => lexNothing state
    scpiLex_ProgramExpression := fun state =>
      lexAccept SCPI_TOKEN_PROGRAM_EXPRESSION (expressionLen (lexWindow state)) state
    scpiLex_Comma := fun state =>
      lexAccept SCPI_TOKEN_COMMA (literalLen 44 (lexWindow state)) state }

/-- Modelled from the spec: the recognisers of §4.1 that the message-unit parser calls,
and the end of the data. -/
def specUnitLexer : unit_lexer_t :=
  { scpiLex_ProgramHeader := fun state =>
      let r := lexAccept SCPI_TOKEN_COMPOUND_PROGRAM_HEADER (headerLen (lexWindow state)) state
      ((r.1 : Int), r.2)
    scpiLex_NewLine := fun state =>
      lexAccept SCPI_TOKEN_NL (newLineLen (lexWindow state)) state
    scpiLex_Semicolon := fun state =>
      lexAccept SCPI_TOKEN_SEMICOLON (literalLen 59 (lexWindow state)) state
    scpiLex_IsEos := fun state => decide (state.len ≤ state.pos) }

/-- The message-unit parser as `SCPI_Parse` and `SCPI_Input` call it on the buffer `buf`
at the offset `data`: the tokens point into `buf`.  The parameter loop gets one
round for each byte and one more. -/
def detectUnit (L : lexer_t) (U : unit_lexer_t) (buf : List Nat) (data len : Int) :
    Option (Int × scpi_parser_state_t × scpi_message_termination_t) :=
  (scpiParser_detectProgramMessageUnit L U (len.toNat + 1) (⟨buf, data⟩ : CPtr).bytes len).map
    fun r =>
      (r.1,
        ⟨{ r.2.1.programHeader with ptr := r.2.1.programHeader.ptr.map (· + data) },
          { r.2.1.programData with ptr := r.2.1.programData.ptr.map (· + data) }⟩,
        r.2.2.2)

/-- The message-unit parser over the lexer `specLexer`, `specUnitLexer`. -/
def specDetect (buf : List Nat) (data len : Int) :
    Int × scpi_parser_state_t × scpi_message_termination_t :=
  (detectUnit specLexer specUnitLexer buf data len).getD
    (0, ⟨⟨SCPI_TOKEN_UNKNOWN, none, 0⟩, ⟨SCPI_TOKEN_UNKNOWN, none, 0⟩⟩,
      scpi_message_termination_t.SCPI_MESSAGE_TERMINATION_NONE)

/-- A callback that reads all its parameter data and hands the bytes to the sink. -/
def echoCallback (context : scpi_t) : scpi_result_t × scpi_t :=
  (scpi_result_t.SCPI_RES_OK,
    { context with
      output := context.output ++ context.lex_state.buffer.take context.lex_state.len
      lex_state := { context.lex_state with pos := context.lex_state.len } })

/-- A lexer function keeps the length of the data and does not move the cursor back. -/
def LexMono (f : lex_state_t → Nat × lex_state_t × scpi_token_t) : Prop :=
  ∀ s, (f s).2.1.len = s.len ∧ s.pos ≤ (f s).2.1.pos

/-! ## The passes of the main loop of `matchCommand` -/

/-- The state in which `matchCommand` enters its main loop `while (1)`: after the query
check, the skip of a first `[` and `:` of the pattern and of a leading `:` of the
command; `none` when the function returns before the loop. -/
def matchCommandEntry (pattern cmd : List Nat) (len : Nat) (numbers : Option (List Int)) :
    Option MatchState :=
  let st : MatchState := matchCommandInit pattern cmd len numbers
  if st.pattern_ptr.get (st.pattern_len - 1) = 63 ∧ byteAt cmd ((st.cmd_len : Int) - 1) ≠ 63 then
    none
  else
    let st :=
      if st.pattern_ptr.get (st.pattern_len - 1) = 63
      then { st with cmd_len := st.cmd_len - 1, pattern_len := st.pattern_len - 1 } else st
    let st := skipPatternStart st
    if st.cmd_ptr.headD 0 = 58 ∧ 2 ≤ st.cmd_len ∧ st.cmd_ptr.getD 1 0 = 42 then none
    else some (if st.cmd_ptr.headD 0 = 58 ∧ 2 ≤ st.cmd_len then SKIP_CMD st 1 else st)

/-- The states at the head of the passes through the body of the main loop of
`matchCommand`, from the state `st` on. -/
def loopPasses (numbers_len : Nat) (default_value : Int) (innerFuel : Nat) :
    Nat → MatchState → List MatchState
  | 0, _ => []
  | fuel + 1, st =>
    st ::
      (match loopBody numbers_len default_value innerFuel st with
      | .next st1 => loopPasses numbers_len default_value innerFuel fuel st1
      | _ => [])

/-- The states at the head of the passes of the main loop in a call of `matchCommand`. -/
def matchCommandPasses (pattern cmd : List Nat) (len : Nat) (numbers : Option (List Int))
    (numbers_len : Nat) (default_value : Int) : List MatchState :=
  match matchCommandEntry pattern cmd len numbers with
  | none => []
  | some st =>
    loopPasses numbers_len default_value (strlen pattern + 2) (strlen pattern + 2) st

/-- The state of a pass in which `matchPattern` returned TRUE, after `SKIP_PATTERN`,
`SKIP_CMD` and `result = TRUE`: the state at the checks "command is complete",
"pattern complete, but command not", "command complete, but pattern not". -/
def afterMatch (numbers_len : Nat) (default_value : Int) (st : MatchState) : MatchState :=
  { SKIP_CMD
      (SKIP_PATTERN (matchStep numbers_len default_value st).2
        (patternSeparatorPos st.pattern_ptr.bytes st.pattern_len))
      (cmdSeparatorPos st.cmd_ptr st.cmd_len) with result := true }

/-- The bytes of the pattern that a state has still to match. -/
def remainingPattern (st : MatchState) : List Nat :=
  st.pattern_ptr.bytes.take st.pattern_len.toNat

/-- The number of `[` minus the number of `]` in a text. -/
def netList : List Nat → Int
  | [] => 0
  | c :: cs => bracketValue c + netList cs

/-! ## The call of `matchCommand` without a numbers array -/

/-- The trailing digit run of a text: its longest suffix of decimal digits. -/
def trailingDigits (seg : List Nat) : List Nat := (seg.reverse.takeWhile isdigit).reverse

/-- The text in front of the trailing digit run. -/
def beforeDigits (seg : List Nat) : List Nat := (seg.reverse.dropWhile isdigit).reverse

/-- The command segment of a pass: the command bytes from the cursor up to the next
separator, the bytes `matchCommand` hands to `matchPattern`. -/
def passSegment (st : MatchState) : List Nat :=
  st.cmd_ptr.take (cmdSeparatorPos st.cmd_ptr st.cmd_len)

/-- The test of `matchCommand` for a numeric suffix: the pattern keyword of the pass,
the bytes from the cursor up to the next separator, ends in `#`. -/
def passHash (st : MatchState) : Bool :=
  decide (0 < patternSeparatorPos st.pattern_ptr.bytes st.pattern_len) &&
    (st.pattern_ptr.get (patternSeparatorPos st.pattern_ptr.bytes st.pattern_len - 1) == 35)

/-- The pattern keyword of a pass without its last byte (the `#` when `passHash`
holds). -/
def passKeyword (st : MatchState) : List Nat :=
  st.pattern_ptr.bytes.take
    (toSizeT (patternSeparatorPos st.pattern_ptr.bytes st.pattern_len) - 1)

/-- The number of keywords ending in `#` among the first `n` bytes of a pattern: the
positions below `n` that hold `#` and are followed by a separator (`?`, `:`, `[`,
`]`) or by the end of the pattern. -/
def hashCount (pattern : List Nat) : Nat → Nat
  | 0 => 0
  | n + 1 =>
    hashCount pattern n +
      (if pattern.getD n 0 = 35 ∧ pattern.getD (n + 1) 0 ∈ [0, 63, 58, 91, 93] then 1 else 0)

/-- At the state `st` of a call on `pattern` whose pattern bytes end at `L`: the
pattern cursor is at an offset `o ≤ L` with `L - o` bytes left, `numbers_idx` is the
number of keywords ending in `#` before the cursor, and the command bytes that are
left exist and are not NUL. -/
def SuffixInv (pattern : List Nat) (L : Nat) (st : MatchState) : Prop :=
  ∃ o : Nat, st.pattern_ptr = ⟨pattern, (o : Int)⟩ ∧ o ≤ L ∧
    st.pattern_len = ((L - o : Nat) : Int) ∧ st.numbers_idx = hashCount pattern o ∧
    st.cmd_len ≤ st.cmd_ptr.length ∧ ∀ j, j < st.cmd_len → st.cmd_ptr.getD j 0 ≠ 0
/-! ## Theorems: characters and string helpers -/

theorem tolower_ne_zero_of_ne_zero {c : Nat} (h : c ≠ 0) : tolower c ≠ 0 := by
  unfold tolower; split <;> omega

theorem strncasecmp_eq_zero_iff (K : List Nat) (hK : ∀ c ∈ K, c ≠ 0) (rest s : List Nat) :
    strncasecmp (K ++ rest) s K.length = 0 ↔
      K.length ≤ s.length ∧ (s.take K.length).map tolower = K.map tolower := by
  induction K generalizing s with
  | nil => simp [strncasecmp]
  | cons k K ih =>
    have hk : k ≠ 0 := hK k (by simp)
    have hk' := tolower_ne_zero_of_ne_zero hk
    have ih' := ih (fun c hc => hK c (by simp [hc]))
    cases s with
    | nil =>
      simp only [List.length_cons, strncasecmp, List.cons_append, List.headD_cons, List.headD_nil]
      have : tolower 0 = 0 := by decide
      rw [this]
      simp [hk']
    | cons a s =>
      simp only [List.length_cons, strncasecmp, List.cons_append, List.headD_cons, List.tail_cons]
      by_cases hak : tolower k = tolower a
      · rw [if_neg (by simpa using hak), if_neg hk', ih']
        simp [hak]
      · rw [if_pos (by simpa using hak)]
        constructor
        · intro h; exact absurd (by omega) hak
        · intro h; simp at h; exact absurd h.2.1.symm hak

theorem patternSeparatorShortPos_upper_lower (S L : List Nat)
    (hS : ∀ c ∈ S, isupper c = true) (hL : ∀ c ∈ L, islower c = true) :
    patternSeparatorShortPos (S ++ L) (S ++ L).length = S.length := by
  induction S with
  | nil =>
    cases L with
    | nil => simp [patternSeparatorShortPos]
    | cons l L =>
      have hl := hL l (by simp)
      have : l ≠ 0 := by
        intro h; subst h; simp [islower] at hl
      simp [patternSeparatorShortPos, hl, this]
  | cons c S ih =>
    have hc := hS c (by simp)
    have h0 : c ≠ 0 := by
      intro h; subst h; simp [isupper] at hc
    have hl : islower c = false := by
      simp only [isupper, islower, Bool.and_eq_true, decide_eq_true_eq] at hc ⊢
      simp only [Bool.and_eq_false_iff, decide_eq_false_iff_not]
      omega
    have ih' := ih (fun c hc => hS c (by simp [hc]))
    simp only [List.cons_append, List.length_cons, patternSeparatorShortPos, h0, hl, if_false]
    simpa using ih'

theorem compareStr_eq_true_iff (K : List Nat) (hK : ∀ c ∈ K, c ≠ 0) (rest s : List Nat)
    (m : Nat) :
    compareStr (K ++ rest) K.length s m = true ↔
      m = K.length ∧ K.length ≤ s.length ∧ (s.take K.length).map tolower = K.map tolower := by
  unfold compareStr
  by_cases hm : K.length = m
  · subst hm
    simp [strncasecmp_eq_zero_iff K hK rest s]
  · simp [hm]
    intro h; exact absurd h.symm hm

theorem isupper_ne_zero {c : Nat} (h : isupper c = true) : c ≠ 0 := by
  intro h0; subst h0; simp [isupper] at h

theorem islower_ne_zero {c : Nat} (h : islower c = true) : c ≠ 0 := by
  intro h0; subst h0; simp [islower] at h

theorem matchPattern_upper_lower_iff (S L s : List Nat)
    (hS : ∀ c ∈ S, isupper c = true) (hL : ∀ c ∈ L, islower c = true) :
    (matchPattern (S ++ L) (S ++ L).length s s.length none).1 = true ↔
      (s.map tolower = S.map tolower ∨ s.map tolower = (S ++ L).map tolower) := by
  have hne : ∀ c ∈ S ++ L, c ≠ 0 := by
    intro c hc
    rcases List.mem_append.1 hc with h | h
    · exact isupper_ne_zero (hS c h)
    · exact islower_ne_zero (hL c h)
  have hneS : ∀ c ∈ S, c ≠ 0 := fun c hc => hne c (List.mem_append_left _ hc)
  have hhash : ¬ (0 < (S ++ L).length ∧ (S ++ L).getD ((S ++ L).length - 1) 0 = 35) := by
    rintro ⟨hpos, h35⟩
    have hlt : (S ++ L).length - 1 < (S ++ L).length := by omega
    have hmem : (S ++ L).getD ((S ++ L).length - 1) 0 ∈ S ++ L := by
      rw [List.getD_eq_getElem _ _ hlt]
      exact List.getElem_mem _
    rw [h35] at hmem
    rcases List.mem_append.1 hmem with h | h
    · have := hS _ h; simp [isupper] at this
    · have := hL _ h; simp [islower] at this
  have hlong := compareStr_eq_true_iff (S ++ L) hne [] s s.length
  have hshort := compareStr_eq_true_iff S hneS L s s.length
  rw [List.append_nil] at hlong
  unfold matchPattern
  rw [if_neg hhash]
  simp only [patternSeparatorShortPos_upper_lower S L hS hL, Bool.or_eq_true, hlong, hshort]
  constructor
  · rintro (⟨h1, _, h3⟩ | ⟨h1, _, h3⟩)
    · right; rw [← h1, List.take_length] at h3; exact h3
    · left; rw [← h1, List.take_length] at h3; exact h3
  · rintro (h | h)
    · right
      have hl : s.length = S.length := by simpa using congrArg List.length h
      exact ⟨hl, by omega, by rw [← hl, List.take_length]; exact h⟩
    · left
      have hl : s.length = (S ++ L).length := by simpa using congrArg List.length h
      exact ⟨hl, by omega, by rw [← hl, List.take_length]; exact h⟩

/-- C1: a keyword pattern made of an upper-case prefix `S` followed by lower-case
letters `L` (no `#`) is matched by `matchPattern`, without a number cell, exactly
by the strings that equal `S` or `S ++ L` up to ASCII case; in particular
every string whose length lies strictly between the two is rejected. -/
theorem matchPattern_short_long_form (S L s : List Nat)
    (hS : ∀ c ∈ S, isupper c = true) (hL : ∀ c ∈ L, islower c = true) :
    ((matchPattern (S ++ L) (S ++ L).length s s.length none).1 = true ↔
      (s.map tolower = S.map tolower ∨ s.map tolower = (S ++ L).map tolower)) ∧
    (S.length < s.length → s.length < (S ++ L).length →
      (matchPattern (S ++ L) (S ++ L).length s s.length none).1 = false) := by
  refine ⟨matchPattern_upper_lower_iff S L s hS hL, fun h1 h2 => ?_⟩
  rw [Bool.eq_false_iff]
  intro h
  rcases (matchPattern_upper_lower_iff S L s hS hL).1 h with h | h
  · have := congrArg List.length h
    simp at this; omega
  · have := congrArg List.length h
    simp at this; simp at h2; omega

theorem matchPattern_short_long_form_witness :
    (∀ c ∈ str "KEY", isupper c = true) ∧ (∀ c ∈ str "word", islower c = true) ∧
    (((matchPattern (str "KEY" ++ str "word") (str "KEY" ++ str "word").length
        (str "keyw") (str "keyw").length none).1 = true ↔
      ((str "keyw").map tolower = (str "KEY").map tolower ∨
        (str "keyw").map tolower = (str "KEY" ++ str "word").map tolower)) ∧
    ((str "KEY").length < (str "keyw").length →
      (str "keyw").length < (str "KEY" ++ str "word").length →
      (matchPattern (str "KEY" ++ str "word") (str "KEY" ++ str "word").length
        (str "keyw") (str "keyw").length none).1 = false)) :=
  ⟨by decide, by decide,
    matchPattern_short_long_form (str "KEY") (str "word") (str "keyw") (by decide) (by decide)⟩


/-! ## Theorems: cursors and separators -/

theorem CPtr.get_add (p : CPtr) (n j : Int) : (p.add n).get j = p.get (n + j) := by
  simp [CPtr.get, CPtr.add, Int.add_assoc]

theorem CPtr.add_off (p : CPtr) (n : Int) : (p.add n).off = p.off + n := rfl

theorem strnpbrk_some_lt (s : List Nat) (n : Nat) (set : List Nat) (i : Nat)
    (h : strnpbrk s n set = some i) : i < n ∧ i < s.length := by
  induction s generalizing n i with
  | nil => cases n <;> simp [strnpbrk] at h
  | cons c cs ih =>
    cases n with
    | zero => simp [strnpbrk] at h
    | succ n =>
      simp only [strnpbrk] at h
      split at h
      · simp at h
      · split at h
        · simp at h; subst h; simp
        · simp only [Option.map_eq_some'] at h
          obtain ⟨j, hj, rfl⟩ := h
          have := ih n j hj
          simp; omega

theorem toSizeT_of_nonneg (n : Int) (h : 0 ≤ n) : toSizeT n = n.toNat := by
  simp [toSizeT, Int.not_lt.2 h]

theorem patternSeparatorPos_bounds (s : List Nat) (len : Int) (h : 0 ≤ len) :
    0 ≤ patternSeparatorPos s len ∧ patternSeparatorPos s len ≤ len := by
  unfold patternSeparatorPos
  cases hs : strnpbrk s (toSizeT len) [63, 58, 91, 93] with
  | none => simp [h]
  | some i =>
    have := (strnpbrk_some_lt _ _ _ _ hs).1
    rw [toSizeT_of_nonneg len h] at this
    simp only
    omega

theorem cmdSeparatorPos_le (s : List Nat) (n : Nat) : cmdSeparatorPos s n ≤ n := by
  unfold cmdSeparatorPos
  cases hs : strnpbrk s n [58, 63] with
  | none => simp
  | some i => have := (strnpbrk_some_lt _ _ _ _ hs).1; simp only; omega

theorem strnpbrk_query (body : List Nat) (h0 : 0 ∉ body) :
    ∃ i, i ≤ body.length ∧ strnpbrk (body ++ [63]) (body.length + 1) [58, 63] = some i := by
  induction body with
  | nil => exact ⟨0, by simp, by simp [strnpbrk]⟩
  | cons b body ih =>
    have hb : b ≠ 0 := fun h => h0 (by simp [h])
    obtain ⟨i, hi, hs⟩ := ih (fun h => h0 (by simp [h]))
    by_cases hmem : b ∈ [58, 63]
    · exact ⟨0, by simp, by simp only [List.cons_append, List.length_cons, strnpbrk, hb, hmem, if_true, if_false]⟩
    · refine ⟨i + 1, by simp; omega, ?_⟩
      simp only [List.cons_append, List.length_cons, strnpbrk, hb, hmem, if_false,
        List.append_eq, hs, Option.map_some']

theorem cmdSeparatorPos_query (body : List Nat) (h0 : 0 ∉ body) :
    cmdSeparatorPos (body ++ [63]) (body.length + 1) ≤ body.length := by
  obtain ⟨i, hi, hs⟩ := strnpbrk_query body h0
  simp [cmdSeparatorPos, hs, hi]

theorem PatInv.skip {st : MatchState} (h : PatInv st) (n : Int) (h0 : 0 ≤ n)
    (hn : n ≤ st.pattern_len) : PatInv (SKIP_PATTERN st n) := by
  obtain ⟨h1, h2, h3⟩ := h
  refine ⟨?_, ?_, ?_⟩
  · simp only [SKIP_PATTERN, CPtr.add_off]; omega
  · simp only [SKIP_PATTERN]; omega
  · simp only [SKIP_PATTERN, CPtr.get_add]
    have : n + (st.pattern_len - n) = st.pattern_len := by omega
    rw [this]; exact h3

theorem PatInv.len_pos_of_get {st : MatchState} (h : PatInv st) (j : Int)
    (hall : ∀ i, 0 ≤ i → i ≤ j → st.pattern_ptr.get i ≠ 0 ∧ st.pattern_ptr.get i ≠ 63) :
    j < st.pattern_len := by
  obtain ⟨_, h2, h3⟩ := h
  by_contra hlt
  have := hall st.pattern_len h2 (by omega)
  rcases h3 with h3 | h3
  · exact this.1 h3
  · exact this.2 h3

/-! ## Theorems: one pass of the main loop -/

theorem loopUnmatched_cases (st1 : MatchState) (h : PatInv st1) :
    (∃ s, loopUnmatched st1 = .done s ∧ s.result = false) ∨
    (∃ s, loopUnmatched st1 = .next s ∧ PatInv s ∧ s.pattern_len < st1.pattern_len ∧
      s.cmd_ptr = st1.cmd_ptr ∧ s.cmd_len = st1.cmd_len) := by
  unfold loopUnmatched
  by_cases c1 : st1.pattern_ptr.get 0 = 93 ∧ st1.pattern_ptr.get 1 = 58
  · right
    have hlen : 1 < st1.pattern_len := by
      apply h.len_pos_of_get
      intro i hi0 hi1
      have : i = 0 ∨ i = 1 := by omega
      rcases this with rfl | rfl
      · rw [c1.1]; simp
      · rw [c1.2]; simp
    rw [if_pos c1]
    refine ⟨_, rfl, ?_, ?_, rfl, rfl⟩
    · exact h.skip 2 (by omega) (by omega)
    · simp only [SKIP_PATTERN]; omega
  · rw [if_neg c1]
    by_cases c2 : 2 < st1.pattern_len ∧ st1.pattern_ptr.get 0 = 93 ∧ st1.pattern_ptr.get 1 = 91
        ∧ st1.pattern_ptr.get 2 = 58
    · right
      rw [if_pos c2]
      refine ⟨_, rfl, h.skip 3 (by omega) (by omega), ?_, rfl, rfl⟩
      simp only [SKIP_PATTERN]; omega
    · left
      rw [if_neg c2]
      exact ⟨_, rfl, rfl⟩

theorem loopMatched_cases (fuel : Nat) (st1 : MatchState) (h : PatInv st1)
    (hc : st1.cmd_len ≠ 0) :
    (∃ s, loopMatched fuel st1 = .done s ∧ s.result = false) ∨
    (∃ s, loopMatched fuel st1 = .next s ∧ PatInv s ∧ s.pattern_len < st1.pattern_len ∧
      st1.cmd_ptr.headD 0 = 58 ∧ s.cmd_ptr = st1.cmd_ptr.drop 1 ∧
      s.cmd_len = st1.cmd_len - 1) := by
  unfold loopMatched
  have c1 : ¬ (st1.pattern_len = 0 ∧ st1.cmd_len = 0) := fun h => hc h.2
  rw [if_neg c1]
  by_cases c2 : st1.pattern_len = 0 ∧ 0 < st1.cmd_len
  · left; rw [if_pos c2]; exact ⟨_, rfl, rfl⟩
  rw [if_neg c2, if_neg hc]
  by_cases c4 : 0 < st1.pattern_len ∧ st1.pattern_ptr.get 0 = st1.cmd_ptr.headD 0
      ∧ st1.pattern_ptr.get 0 = 58
  · right; rw [if_pos c4]
    refine ⟨_, rfl, ?_, ?_, ?_, rfl, rfl⟩
    · exact (h.skip 1 (by omega) (by omega))
    · simp only [SKIP_CMD, SKIP_PATTERN]; omega
    · rw [← c4.2.1, c4.2.2]
  rw [if_neg c4]
  by_cases c5 : 1 < st1.pattern_len ∧ st1.pattern_ptr.get 1 = st1.cmd_ptr.headD 0
      ∧ st1.pattern_ptr.get 0 = 91 ∧ st1.pattern_ptr.get 1 = 58
  · right; rw [if_pos c5]
    refine ⟨_, rfl, ?_, ?_, ?_, rfl, rfl⟩
    · exact (h.skip 2 (by omega) (by omega))
    · simp only [SKIP_CMD, SKIP_PATTERN]; omega
    · rw [← c5.2.1, c5.2.2.2]
  rw [if_neg c5]
  by_cases c6 : 1 < st1.pattern_len ∧ st1.pattern_ptr.get 1 = st1.cmd_ptr.headD 0
      ∧ st1.pattern_ptr.get 0 = 93 ∧ st1.pattern_ptr.get 1 = 58
  · right; rw [if_pos c6]
    refine ⟨_, rfl, ?_, ?_, ?_, rfl, rfl⟩
    · exact (h.skip 2 (by omega) (by omega))
    · simp only [SKIP_CMD, SKIP_PATTERN]; omega
    · rw [← c6.2.1, c6.2.2.2]
  rw [if_neg c6]
  by_cases c7 : 2 < st1.pattern_len ∧ st1.pattern_ptr.get 2 = st1.cmd_ptr.headD 0
      ∧ st1.pattern_ptr.get 0 = 93 ∧ st1.pattern_ptr.get 1 = 91
      ∧ st1.pattern_ptr.get 2 = 58
  · right; rw [if_pos c7]
    refine ⟨_, rfl, ?_, ?_, ?_, rfl, rfl⟩
    · exact (h.skip 3 (by omega) (by omega))
    · simp only [SKIP_CMD, SKIP_PATTERN]; omega
    · rw [← c7.2.1, c7.2.2.2.2]
  rw [if_neg c7]
  left; exact ⟨_, rfl, rfl⟩
theorem loopBody_cases (numbers_len : Nat) (default_value : Int) (fuel : Nat)
    (st : MatchState) :
    ∃ st1 : MatchState,
      st1.pattern_ptr =
        st.pattern_ptr.add (patternSeparatorPos st.pattern_ptr.bytes st.pattern_len) ∧
      st1.pattern_len =
        st.pattern_len - patternSeparatorPos st.pattern_ptr.bytes st.pattern_len ∧
      st1.brackets = st.brackets ∧
      ((loopBody numbers_len default_value fuel st = loopMatched fuel st1 ∧
          st1.cmd_ptr = st.cmd_ptr.drop (cmdSeparatorPos st.cmd_ptr st.cmd_len) ∧
          st1.cmd_len = st.cmd_len - cmdSeparatorPos st.cmd_ptr st.cmd_len ∧
          st1.result = true) ∨
        (loopBody numbers_len default_value fuel st = loopUnmatched st1 ∧
          st1.cmd_ptr = st.cmd_ptr ∧ st1.cmd_len = st.cmd_len)) := by
  by_cases hm : (matchStep numbers_len default_value st).1 = true
  · refine ⟨_, ?_, ?_, ?_, Or.inl ⟨(if_pos hm : loopBody numbers_len default_value fuel st = _),
      rfl, rfl, rfl⟩⟩ <;> rfl
  · refine ⟨_, ?_, ?_, ?_, Or.inr ⟨(if_neg hm : loopBody numbers_len default_value fuel st = _),
      rfl, rfl⟩⟩ <;> rfl

theorem loopBody_query_mismatch (numbers_len : Nat) (default_value : Int) (fuel : Nat)
    (st : MatchState) (hp : PatInv st) (hq : CmdQuery st) :
    (∃ s, loopBody numbers_len default_value fuel st = .done s ∧ s.result = false) ∨
    (∃ s, loopBody numbers_len default_value fuel st = .next s ∧ PatInv s ∧ CmdQuery s ∧
      s.pattern_len < st.pattern_len) := by
  obtain ⟨body, hb1, hb2, hb3⟩ := hq
  obtain ⟨st1, h1, h2, _, h⟩ := loopBody_cases numbers_len default_value fuel st
  have hsep := patternSeparatorPos_bounds st.pattern_ptr.bytes st.pattern_len hp.2.1
  have hp1 : PatInv st1 := by
    have := hp.skip _ hsep.1 hsep.2
    unfold PatInv at this ⊢
    rw [h1, h2]; exact this
  have hlt1 : st1.pattern_len ≤ st.pattern_len := by omega
  have hcsep : cmdSeparatorPos st.cmd_ptr st.cmd_len ≤ body.length := by
    rw [hb1, hb2]; exact cmdSeparatorPos_query body hb3
  generalize cmdSeparatorPos st.cmd_ptr st.cmd_len = csep at hcsep h
  rcases h with ⟨he, hc1, hc2, _⟩ | ⟨he, hc1, hc2⟩
  · rw [he]
    have hcl : st1.cmd_len ≠ 0 := by rw [hc2, hb2]; omega
    have hq1 : st1.cmd_ptr = body.drop csep ++ [63] := by
      rw [hc1, hb1, List.drop_append_of_le_length hcsep]
    rcases loopMatched_cases fuel st1 hp1 hcl with h | ⟨s, hs, hps, hlt, hhead, hcp, hcn⟩
    · exact Or.inl h
    · right
      refine ⟨s, hs, hps, ?_, by omega⟩
      rw [hq1] at hhead hcp
      cases hd : body.drop csep with
      | nil => rw [hd] at hhead; simp at hhead
      | cons x xs =>
        rw [hd] at hcp
        refine ⟨xs, by simpa using hcp, ?_, ?_⟩
        · have hl := congrArg List.length hd
          simp at hl
          rw [hcn, hc2, hb2]; omega
        · intro hmem
          apply hb3
          have : 0 ∈ body.drop csep := by
            rw [hd]; simp [hmem]
          exact List.mem_of_mem_drop this
  · rw [he]
    rcases loopUnmatched_cases st1 hp1 with h | ⟨s, hs, hps, hlt, hcp, hcn⟩
    · exact Or.inl h
    · right
      refine ⟨s, hs, hps, ⟨body, ?_, ?_, hb3⟩, by omega⟩
      · rw [hcp, hc1, hb1]
      · rw [hcn, hc2, hb2]

theorem matchLoop_query_mismatch (numbers_len : Nat) (default_value : Int) (innerFuel : Nat)
    (fuel : Nat) (st : MatchState) (hp : PatInv st) (hq : CmdQuery st)
    (hfuel : st.pattern_len < fuel) :
    ∃ s, matchLoop numbers_len default_value innerFuel fuel st = some s ∧ s.result = false := by
  induction fuel generalizing st with
  | zero => exact absurd hfuel (by have := hp.2.1; omega)
  | succ fuel ih =>
    unfold matchLoop
    rcases loopBody_query_mismatch numbers_len default_value innerFuel st hp hq with
      ⟨s, hs, hr⟩ | ⟨s, hs, hps, hqs, hlt⟩
    · rw [hs]; exact ⟨s, rfl, hr⟩
    · rw [hs]; exact ih s hps hqs (by omega)

/-! ## Theorems: query agreement -/

theorem strlen_of_no_nul (p : List Nat) (h : 0 ∉ p) : strlen p = p.length := by
  induction p with
  | nil => rfl
  | cons a p ih =>
    have ha : a ≠ 0 := fun h0 => h (by simp [h0])
    simp [strlen, ha, ih (fun h0 => h (by simp [h0]))]

theorem strnlen_of_no_nul (c : List Nat) (h : 0 ∉ c) : strnlen c c.length = c.length := by
  induction c with
  | nil => rfl
  | cons a c ih =>
    have ha : a ≠ 0 := fun h0 => h (by simp [h0])
    simp [strnlen, ha, ih (fun h0 => h (by simp [h0]))]

theorem byteAt_last_iff (c : List Nat) (x : Nat) (hx : x ≠ 0) :
    byteAt c ((c.length : Int) - 1) = x ↔ c.getLast? = some x := by
  rcases List.eq_nil_or_concat' c with rfl | ⟨body, a, rfl⟩
  · simp [byteAt]; exact fun h => hx h.symm
  · have h1 : ¬ (((body ++ [a]).length : Int) - 1 < 0) := by simp
    have h2 : (((body ++ [a]).length : Int) - 1).toNat = body.length := by simp
    have h3 : ¬ ((body.length : Int) < 0) := by omega
    simp [byteAt, h1, h2, h3]

theorem byteAt_length (p : List Nat) : byteAt p (p.length : Int) = 0 := by
  simp [byteAt]

theorem skipPatternStart_spec (st : MatchState) (h : PatInv st) :
    PatInv (skipPatternStart st) ∧ (skipPatternStart st).pattern_len ≤ st.pattern_len ∧
    (skipPatternStart st).cmd_ptr = st.cmd_ptr ∧ (skipPatternStart st).cmd_len = st.cmd_len ∧
    (skipPatternStart st).result = st.result := by
  have step : ∀ s : MatchState, PatInv s → ∀ x : Nat, x ≠ 0 → x ≠ 63 → s.pattern_ptr.get 0 = x →
      1 ≤ s.pattern_len := by
    intro s hs x hx0 hx63 hget
    have := hs.len_pos_of_get 0 (fun i h0 h1 => by
      have : i = 0 := by omega
      subst this; rw [hget]; exact ⟨hx0, hx63⟩)
    omega
  unfold skipPatternStart
  by_cases h1 : st.pattern_ptr.get 0 = 91
  · have hl := step st h 91 (by decide) (by decide) h1
    have hp1 : PatInv { SKIP_PATTERN st 1 with brackets := st.brackets + 1 } :=
      h.skip 1 (by omega) hl
    simp only [h1, if_true]
    split
    · rename_i h2
      have hl2 := step _ hp1 58 (by decide) (by decide) h2
      refine ⟨hp1.skip 1 (by omega) hl2, ?_, rfl, rfl, rfl⟩
      simp only [SKIP_PATTERN]; omega
    · refine ⟨hp1, ?_, rfl, rfl, rfl⟩
      simp only [SKIP_PATTERN]; omega
  · simp only [h1, if_false]
    split
    · rename_i h2
      have hl2 := step _ h 58 (by decide) (by decide) h2
      refine ⟨h.skip 1 (by omega) hl2, ?_, rfl, rfl, rfl⟩
      simp only [SKIP_PATTERN]; omega
    · exact ⟨h, le_refl _, rfl, rfl, rfl⟩

theorem matchCommand_query_mismatch (p c : List Nat) (numbers : Option (List Int))
    (numbers_len : Nat) (default_value : Int) (hp0 : 0 ∉ p) (hc0 : 0 ∉ c)
    (h : (p.getLast? = some 63 ∧ c.getLast? ≠ some 63) ∨
      (p.getLast? ≠ some 63 ∧ c.getLast? = some 63)) :
    matchCommand p c c.length numbers numbers_len default_value = some false := by
  have hq : (matchCommandInit p c c.length numbers).pattern_ptr.get
      ((matchCommandInit p c c.length numbers).pattern_len - 1) = 63 ↔ p.getLast? = some 63 := by
    simp only [matchCommandInit, strlen_of_no_nul p hp0, CPtr.get, Int.zero_add]
    exact byteAt_last_iff p 63 (by decide)
  have hcq : byteAt c (((matchCommandInit p c c.length numbers).cmd_len : Int) - 1) = 63 ↔
      c.getLast? = some 63 := by
    simp only [matchCommandInit, strnlen_of_no_nul c hc0]
    exact byteAt_last_iff c 63 (by decide)
  unfold matchCommand matchCommandRun matchCommandRest
  simp only [hq, hcq, ne_eq]
  rcases h with ⟨h1, h2⟩ | ⟨h1, h2⟩
  · simp [h1, h2, matchCommandInit]
  · simp only [h1, h2, not_true_eq_false, and_false, if_false]
    -- the state before the colon check
    have hinit : PatInv (matchCommandInit p c c.length numbers) := by
      refine ⟨le_refl _, by simp [matchCommandInit], Or.inl ?_⟩
      simp only [matchCommandInit, CPtr.get, Int.zero_add, strlen_of_no_nul p hp0]
      exact byteAt_length p
    obtain ⟨hps, hle, hcp, hcl, hres⟩ := skipPatternStart_spec _ hinit
    generalize skipPatternStart (matchCommandInit p c c.length numbers) = st
      at hps hle hcp hcl hres
    simp only [matchCommandInit] at hle hcp hcl hres
    rw [strnlen_of_no_nul c hc0] at hcl
    obtain ⟨body, hbody⟩ : ∃ body, c = body ++ [63] := by
      rcases List.eq_nil_or_concat' c with rfl | ⟨body, a, rfl⟩
      · simp at h2
      · simp at h2; exact ⟨body, by rw [h2]⟩
    have hb0 : 0 ∉ body := fun hm => hc0 (by rw [hbody]; simp [hm])
    have hq0 : CmdQuery st := ⟨body, by rw [hcp, hbody], by rw [hcl, hbody]; simp, hb0⟩
    split
    · simp [hres]
    · rename_i hstar
      have hfuel : st.pattern_len < ((strlen p + 2 : Nat) : Int) := by push_cast; omega
      by_cases hcol : st.cmd_ptr.headD 0 = 58 ∧ 2 ≤ st.cmd_len
      · rw [if_pos hcol]
        have hq1 : CmdQuery (SKIP_CMD st 1) := by
          cases body with
          | nil =>
            rw [hcl, hbody] at hcol; simp at hcol
          | cons x xs =>
            refine ⟨xs, ?_, ?_, fun hm => hb0 (by simp [hm])⟩
            · simp [SKIP_CMD, hcp, hbody]
            · simp [SKIP_CMD, hcl, hbody]
        obtain ⟨s, hs, hr⟩ := matchLoop_query_mismatch numbers_len default_value
          (strlen p + 2) (strlen p + 2) (SKIP_CMD st 1) hps hq1 hfuel
        rw [hs]; simp [hr]
      · rw [if_neg hcol]
        obtain ⟨s, hs, hr⟩ := matchLoop_query_mismatch numbers_len default_value
          (strlen p + 2) (strlen p + 2) st hps hq0 hfuel
        rw [hs]; simp [hr]

/-- C4: query agreement.  For a non-empty pattern and a non-empty command (C strings,
so without NUL), if exactly one of them ends with `?` then `matchCommand` returns
FALSE. -/
theorem matchCommand_query_agreement (p c : List Nat) (numbers : Option (List Int))
    (numbers_len : Nat) (default_value : Int) (hp0 : 0 ∉ p) (hc0 : 0 ∉ c)
    (_hp : p ≠ []) (_hc : c ≠ [])
    (h : (p.getLast? = some 63 ∧ c.getLast? ≠ some 63) ∨
      (p.getLast? ≠ some 63 ∧ c.getLast? = some 63)) :
    matchCommand p c c.length numbers numbers_len default_value = some false :=
  matchCommand_query_mismatch p c numbers numbers_len default_value hp0 hc0 h

theorem matchCommand_query_agreement_witness :
    0 ∉ str "MEASure:VOLTage?" ∧ 0 ∉ str "MEAS:VOLT" ∧ str "MEASure:VOLTage?" ≠ [] ∧
    str "MEAS:VOLT" ≠ [] ∧
    (((str "MEASure:VOLTage?").getLast? = some 63 ∧ (str "MEAS:VOLT").getLast? ≠ some 63) ∨
      ((str "MEASure:VOLTage?").getLast? ≠ some 63 ∧ (str "MEAS:VOLT").getLast? = some 63)) ∧
    matchCommand (str "MEASure:VOLTage?") (str "MEAS:VOLT") (str "MEAS:VOLT").length
      none 0 0 = some false :=
  ⟨by decide, by decide, by decide, by decide, Or.inl ⟨by decide, by decide⟩,
    matchCommand_query_agreement (str "MEASure:VOLTage?") (str "MEAS:VOLT") none 0 0
      (by decide) (by decide) (by decide) (by decide) (Or.inl ⟨by decide, by decide⟩)⟩

/-! ## Theorems: case-insensitivity in the command -/

theorem tolower_tolower (x : Nat) : tolower (tolower x) = tolower x := by
  unfold tolower isupper
  by_cases h : 65 ≤ x ∧ x ≤ 90
  · have : ¬ (65 ≤ x + 32 ∧ x + 32 ≤ 90) := by omega
    simp only [h, and_self, decide_True, Bool.and_self, if_true]
    rw [if_neg]
    simpa using this
  · simp [h]

theorem tolower_eq_iff_of_not_alpha (x k : Nat) (hk : isalpha k = false) :
    tolower x = k ↔ x = k := by
  simp only [isalpha, isupper, islower, Bool.or_eq_false_iff, Bool.and_eq_false_iff,
    decide_eq_false_iff_not] at hk
  unfold tolower isupper
  by_cases h : 65 ≤ x ∧ x ≤ 90
  · simp [h]; omega
  · simp [h]

theorem isspace_tolower (x : Nat) : isspace (tolower x) = isspace x := by
  unfold tolower isupper isspace
  by_cases h : 65 ≤ x ∧ x ≤ 90
  · simp only [h, and_self, decide_True, Bool.and_self, if_true]
    have h1 : ¬ (x + 32 = 32) := by omega
    have h2 : ¬ (x = 32) := by omega
    have h3 : ¬ (x + 32 ≤ 13) := by omega
    have h4 : ¬ (x ≤ 13) := by omega
    have h5 : ¬ (x = 0) := by omega
    simp [h1, h2, h3, h4, h5]
  · simp [h]

theorem isdigit_tolower (x : Nat) : isdigit (tolower x) = isdigit x := by
  unfold tolower isupper isdigit
  by_cases h : 65 ≤ x ∧ x ≤ 90
  · simp only [h, and_self, decide_True, Bool.and_self, if_true]
    have h3 : ¬ (x + 32 ≤ 57) := by omega
    have h4 : ¬ (x ≤ 57) := by omega
    simp [h3, h4]
  · simp [h]

theorem tolower_of_isdigit (x : Nat) (h : isdigit x = true) : tolower x = x := by
  unfold tolower isupper
  simp only [isdigit, Bool.and_eq_true, decide_eq_true_eq] at h
  have : ¬ (65 ≤ x ∧ x ≤ 90) := by omega
  simp [this]

theorem tolower_zero : tolower 0 = 0 := by decide

theorem headD_map_tolower (a : List Nat) : (a.map tolower).headD 0 = tolower (a.headD 0) := by
  cases a <;> simp [tolower_zero]

theorem getD_map_tolower (a : List Nat) (i : Nat) :
    (a.map tolower).getD i 0 = tolower (a.getD i 0) := by
  simp only [List.getD_eq_getElem?_getD, List.getElem?_map]
  cases a[i]? <;> simp [tolower_zero]

theorem strnlen_map_tolower (a : List Nat) (n : Nat) :
    strnlen (a.map tolower) n = strnlen a n := by
  induction a generalizing n with
  | nil => cases n <;> rfl
  | cons x a ih =>
    cases n with
    | zero => rfl
    | succ n =>
      simp only [List.map_cons, strnlen, ih, tolower_eq_iff_of_not_alpha x 0 (by decide)]

theorem strnpbrk_map_tolower (a : List Nat) (n : Nat) :
    strnpbrk (a.map tolower) n [58, 63] = strnpbrk a n [58, 63] := by
  induction a generalizing n with
  | nil => cases n <;> rfl
  | cons x a ih =>
    cases n with
    | zero => rfl
    | succ n =>
      simp only [List.map_cons, strnpbrk, ih, tolower_eq_iff_of_not_alpha x 0 (by decide),
        List.mem_cons, List.mem_singleton, tolower_eq_iff_of_not_alpha x 58 (by decide),
        tolower_eq_iff_of_not_alpha x 63 (by decide), List.not_mem_nil, or_false]

theorem cmdSeparatorPos_map_tolower (a : List Nat) (n : Nat) :
    cmdSeparatorPos (a.map tolower) n = cmdSeparatorPos a n := by
  simp [cmdSeparatorPos, strnpbrk_map_tolower]

theorem strncasecmp_map_tolower (s a : List Nat) (n : Nat) :
    strncasecmp s (a.map tolower) n = strncasecmp s a n := by
  induction n generalizing s a with
  | zero => rfl
  | succ n ih =>
    simp only [strncasecmp, headD_map_tolower, tolower_tolower, ← List.map_tail, ih]
theorem takeWhile_isspace_map_tolower (l : List Nat) :
    ((l.map tolower).takeWhile isspace).length = (l.takeWhile isspace).length := by
  induction l with
  | nil => rfl
  | cons x l ih =>
    simp only [List.map_cons, List.takeWhile_cons, isspace_tolower]
    split <;> simp [ih]

theorem takeWhile_isdigit_map_tolower (l : List Nat) :
    (l.map tolower).takeWhile isdigit = l.takeWhile isdigit := by
  induction l with
  | nil => rfl
  | cons x l ih =>
    simp only [List.map_cons, List.takeWhile_cons, isdigit_tolower]
    by_cases h : isdigit x = true
    · simp [h, ih, tolower_of_isdigit x h]
    · simp [h]

theorem strtol_map_tolower (a : List Nat) : strtol (a.map tolower) = strtol a := by
  unfold strtol
  simp only [takeWhile_isspace_map_tolower, ← List.map_drop, headD_map_tolower,
    takeWhile_isdigit_map_tolower, beq_iff_eq, tolower_eq_iff_of_not_alpha _ 45 (by decide),
    tolower_eq_iff_of_not_alpha _ 43 (by decide), Bool.or_eq_true, decide_eq_true_eq]

theorem strBaseToInt32_map_tolower (a : List Nat) :
    strBaseToInt32 (a.map tolower) = strBaseToInt32 a := by
  simp [strBaseToInt32, strtol_map_tolower]

theorem compareStr_map_tolower (s : List Nat) (n : Nat) (a : List Nat) (m : Nat) :
    compareStr s n (a.map tolower) m = compareStr s n a m := by
  simp [compareStr, strncasecmp_map_tolower]

theorem compareStrAndNum_map_tolower (s : List Nat) (n : Nat) (a : List Nat) (m : Nat)
    (num : Option Int) :
    compareStrAndNum s n (a.map tolower) m num = compareStrAndNum s n a m num := by
  unfold compareStrAndNum
  simp only [strncasecmp_map_tolower, ← List.map_drop, strBaseToInt32_map_tolower,
    getD_map_tolower, isdigit_tolower]

theorem matchPattern_map_tolower (s : List Nat) (n : Nat) (a : List Nat) (m : Nat)
    (num : Option Int) :
    matchPattern s n (a.map tolower) m num = matchPattern s n a m num := by
  unfold matchPattern
  simp only [compareStrAndNum_map_tolower, compareStr_map_tolower]
theorem SKIP_CMD_lowerCmd (st : MatchState) (n : Nat) :
    SKIP_CMD st.lowerCmd n = (SKIP_CMD st n).lowerCmd := by
  simp [SKIP_CMD, MatchState.lowerCmd, List.map_drop]

theorem residualLoop_lowerCmd (fuel : Nat) (st : MatchState) :
    residualLoop fuel st.lowerCmd = (residualLoop fuel st).map MatchState.lowerCmd := by
  induction fuel generalizing st with
  | zero => rfl
  | succ fuel ih =>
    unfold residualLoop
    by_cases h0 : st.pattern_len = 0
    · have h0' : st.lowerCmd.pattern_len = 0 := h0
      simp [h0, h0']
    · have h0' : ¬ st.lowerCmd.pattern_len = 0 := h0
      simp only [h0, h0', if_false]
      show (if (residualStep st).brackets = 0 then
            if 0 < (residualStep st).pattern_len ∧ (residualStep st).pattern_ptr.get 0 = 91
            then residualLoop fuel (residualStep st).lowerCmd
            else some (residualStep st).lowerCmd
          else residualLoop fuel (residualStep st).lowerCmd) = _
      split
      · split
        · exact ih _
        · rfl
      · exact ih _

theorem headD_eq_colon_iff (a : List Nat) (x : Nat) :
    (x = (a.map tolower).headD 0 ∧ x = 58) ↔ (x = a.headD 0 ∧ x = 58) := by
  rw [headD_map_tolower]
  constructor
  · rintro ⟨h1, h2⟩
    subst h2
    exact ⟨((tolower_eq_iff_of_not_alpha _ 58 (by decide)).1 h1.symm).symm, rfl⟩
  · rintro ⟨h1, h2⟩
    subst h2
    exact ⟨((tolower_eq_iff_of_not_alpha _ 58 (by decide)).2 h1.symm).symm, rfl⟩

theorem loopUnmatched_lowerCmd (st : MatchState) :
    loopUnmatched st.lowerCmd = (loopUnmatched st).lowerCmd := by
  unfold loopUnmatched
  show (if st.pattern_ptr.get 0 = 93 ∧ st.pattern_ptr.get 1 = 58 then _ else
    if 2 < st.pattern_len ∧ st.pattern_ptr.get 0 = 93 ∧ st.pattern_ptr.get 1 = 91
        ∧ st.pattern_ptr.get 2 = 58 then _ else _) = _
  split
  · rfl
  · split <;> rfl
theorem loopMatched_lowerCmd (fuel : Nat) (st : MatchState) :
    loopMatched fuel st.lowerCmd = (loopMatched fuel st).lowerCmd := by
  have hd : ∀ x : Nat, (x = (st.cmd_ptr.map tolower).headD 0 ∧ x = 58) ↔
      (x = st.cmd_ptr.headD 0 ∧ x = 58) := headD_eq_colon_iff st.cmd_ptr
  have c4 : (0 < st.pattern_len ∧ st.pattern_ptr.get 0 = (st.cmd_ptr.map tolower).headD 0
      ∧ st.pattern_ptr.get 0 = 58) ↔ (0 < st.pattern_len ∧
      st.pattern_ptr.get 0 = st.cmd_ptr.headD 0 ∧ st.pattern_ptr.get 0 = 58) := by
    rw [hd]
  have c5 : (1 < st.pattern_len ∧ st.pattern_ptr.get 1 = (st.cmd_ptr.map tolower).headD 0
      ∧ st.pattern_ptr.get 0 = 91 ∧ st.pattern_ptr.get 1 = 58) ↔ (1 < st.pattern_len ∧
      st.pattern_ptr.get 1 = st.cmd_ptr.headD 0 ∧ st.pattern_ptr.get 0 = 91 ∧
      st.pattern_ptr.get 1 = 58) := by
    have := hd (st.pattern_ptr.get 1)
    constructor
    · rintro ⟨a, b, c, d⟩; exact ⟨a, (this.1 ⟨b, d⟩).1, c, d⟩
    · rintro ⟨a, b, c, d⟩; exact ⟨a, (this.2 ⟨b, d⟩).1, c, d⟩
  have c6 : (1 < st.pattern_len ∧ st.pattern_ptr.get 1 = (st.cmd_ptr.map tolower).headD 0
      ∧ st.pattern_ptr.get 0 = 93 ∧ st.pattern_ptr.get 1 = 58) ↔ (1 < st.pattern_len ∧
      st.pattern_ptr.get 1 = st.cmd_ptr.headD 0 ∧ st.pattern_ptr.get 0 = 93 ∧
      st.pattern_ptr.get 1 = 58) := by
    have := hd (st.pattern_ptr.get 1)
    constructor
    · rintro ⟨a, b, c, d⟩; exact ⟨a, (this.1 ⟨b, d⟩).1, c, d⟩
    · rintro ⟨a, b, c, d⟩; exact ⟨a, (this.2 ⟨b, d⟩).1, c, d⟩
  have c7 : (2 < st.pattern_len ∧ st.pattern_ptr.get 2 = (st.cmd_ptr.map tolower).headD 0
      ∧ st.pattern_ptr.get 0 = 93 ∧ st.pattern_ptr.get 1 = 91 ∧ st.pattern_ptr.get 2 = 58) ↔
      (2 < st.pattern_len ∧ st.pattern_ptr.get 2 = st.cmd_ptr.headD 0
      ∧ st.pattern_ptr.get 0 = 93 ∧ st.pattern_ptr.get 1 = 91 ∧ st.pattern_ptr.get 2 = 58) := by
    have := hd (st.pattern_ptr.get 2)
    constructor
    · rintro ⟨a, b, c, d, e⟩; exact ⟨a, (this.1 ⟨b, e⟩).1, c, d, e⟩
    · rintro ⟨a, b, c, d, e⟩; exact ⟨a, (this.2 ⟨b, e⟩).1, c, d, e⟩
  unfold loopMatched
  simp only [MatchState.lowerCmd, c4, c5, c6, c7]
  split
  · rfl
  split
  · rfl
  split
  · have := residualLoop_lowerCmd fuel st
    simp only [MatchState.lowerCmd] at this
    rw [this]
    cases residualLoop fuel st with
    | none => rfl
    | some s2 =>
      simp only [Option.map_some']
      by_cases h0 : s2.pattern_len = 0
      · have h0' : s2.lowerCmd.pattern_len = 0 := h0
        simp [h0, h0', LoopStep.lowerCmd]
      · have h0' : ¬ s2.lowerCmd.pattern_len = 0 := h0
        simp [h0, h0', LoopStep.lowerCmd, MatchState.lowerCmd]
  split
  · simp [LoopStep.lowerCmd, SKIP_CMD, SKIP_PATTERN, List.map_drop, MatchState.lowerCmd]
  split
  · simp [LoopStep.lowerCmd, SKIP_CMD, SKIP_PATTERN, List.map_drop, MatchState.lowerCmd]
  split
  · simp [LoopStep.lowerCmd, SKIP_CMD, SKIP_PATTERN, List.map_drop, MatchState.lowerCmd]
  split
  · simp [LoopStep.lowerCmd, SKIP_CMD, SKIP_PATTERN, List.map_drop, MatchState.lowerCmd]
  · rfl

theorem matchStep_lowerCmd (numbers_len : Nat) (default_value : Int) (st : MatchState) :
    matchStep numbers_len default_value st.lowerCmd =
      ((matchStep numbers_len default_value st).1,
        (matchStep numbers_len default_value st).2.lowerCmd) := by
  unfold matchStep
  simp only [MatchState.lowerCmd, cmdSeparatorPos_map_tolower, matchPattern_map_tolower]

theorem loopBody_lowerCmd (numbers_len : Nat) (default_value : Int) (fuel : Nat)
    (st : MatchState) :
    loopBody numbers_len default_value fuel st.lowerCmd =
      (loopBody numbers_len default_value fuel st).lowerCmd := by
  unfold loopBody
  simp only [matchStep_lowerCmd]
  simp only [MatchState.lowerCmd, cmdSeparatorPos_map_tolower]
  by_cases hm : (matchStep numbers_len default_value st).1 = true
  · rw [if_pos hm, if_pos hm, ← loopMatched_lowerCmd]
    simp [MatchState.lowerCmd, SKIP_CMD, SKIP_PATTERN, List.map_drop]
  · rw [if_neg hm, if_neg hm, ← loopUnmatched_lowerCmd]
    rfl

theorem matchLoop_lowerCmd (numbers_len : Nat) (default_value : Int) (innerFuel fuel : Nat)
    (st : MatchState) :
    matchLoop numbers_len default_value innerFuel fuel st.lowerCmd =
      (matchLoop numbers_len default_value innerFuel fuel st).map MatchState.lowerCmd := by
  induction fuel generalizing st with
  | zero => rfl
  | succ fuel ih =>
    unfold matchLoop
    rw [loopBody_lowerCmd]
    cases loopBody numbers_len default_value innerFuel st with
    | next s => exact ih s
    | done s => rfl
    | stuck => rfl
theorem byteAt_map_tolower (a : List Nat) (i : Int) :
    byteAt (a.map tolower) i = tolower (byteAt a i) := by
  unfold byteAt
  split
  · exact tolower_zero.symm
  · exact getD_map_tolower a _

theorem skipPatternStart_lowerCmd (st : MatchState) :
    skipPatternStart st.lowerCmd = (skipPatternStart st).lowerCmd := by
  by_cases h1 : st.pattern_ptr.get 0 = 91
  · by_cases h2 : (st.pattern_ptr.add 1).get 0 = 58
    · simp [skipPatternStart, MatchState.lowerCmd, SKIP_PATTERN, h1, h2]
    · simp [skipPatternStart, MatchState.lowerCmd, SKIP_PATTERN, h1, h2]
  · by_cases h2 : st.pattern_ptr.get 0 = 58
    · simp [skipPatternStart, MatchState.lowerCmd, SKIP_PATTERN, h1, h2]
    · simp [skipPatternStart, MatchState.lowerCmd, SKIP_PATTERN, h1, h2]

theorem matchCommandRun_map_tolower (p c : List Nat) (len : Nat) (numbers : Option (List Int))
    (numbers_len : Nat) (default_value : Int) :
    matchCommandRun p (c.map tolower) len numbers numbers_len default_value =
      (matchCommandRun p c len numbers numbers_len default_value).map MatchState.lowerCmd := by
  have hinit : matchCommandInit p (c.map tolower) len numbers =
      (matchCommandInit p c len numbers).lowerCmd := by
    simp [matchCommandInit, MatchState.lowerCmd, strnlen_map_tolower]
  unfold matchCommandRun matchCommandRest
  simp only [hinit, byteAt_map_tolower, ne_eq, tolower_eq_iff_of_not_alpha _ 63 (by decide)]
  generalize matchCommandInit p c len numbers = st0
  have hq : ∀ s : MatchState, s.lowerCmd.pattern_ptr.get (s.lowerCmd.pattern_len - 1) =
      s.pattern_ptr.get (s.pattern_len - 1) := fun _ => rfl
  have hl : ∀ s : MatchState, s.lowerCmd.cmd_len = s.cmd_len := fun _ => rfl
  simp only [hq, hl]
  by_cases hc : st0.pattern_ptr.get (st0.pattern_len - 1) = 63 ∧ ¬ byteAt c (↑st0.cmd_len - 1) = 63
  · rw [if_pos hc, if_pos hc]; rfl
  · rw [if_neg hc, if_neg hc]
    have hstrip : ∀ s0 : MatchState,
        (if s0.pattern_ptr.get (s0.pattern_len - 1) = 63 then
          ({ s0.lowerCmd with
              cmd_len := s0.cmd_len - 1, pattern_len := s0.lowerCmd.pattern_len - 1 } : MatchState)
        else s0.lowerCmd) =
        (if s0.pattern_ptr.get (s0.pattern_len - 1) = 63 then
          ({ s0 with cmd_len := s0.cmd_len - 1, pattern_len := s0.pattern_len - 1 } : MatchState)
        else s0).lowerCmd := by
      intro s0
      split <;> rfl
    rw [hstrip, skipPatternStart_lowerCmd]
    generalize skipPatternStart (if st0.pattern_ptr.get (st0.pattern_len - 1) = 63 then
          ({ st0 with cmd_len := st0.cmd_len - 1, pattern_len := st0.pattern_len - 1 } : MatchState)
        else st0) = st
    have hh : st.lowerCmd.cmd_ptr.headD 0 = 58 ↔ st.cmd_ptr.headD 0 = 58 := by
      show (st.cmd_ptr.map tolower).headD 0 = 58 ↔ _
      rw [headD_map_tolower, tolower_eq_iff_of_not_alpha _ 58 (by decide)]
    have hg : st.lowerCmd.cmd_ptr.getD 1 0 = 42 ↔ st.cmd_ptr.getD 1 0 = 42 := by
      show (st.cmd_ptr.map tolower).getD 1 0 = 42 ↔ _
      rw [getD_map_tolower, tolower_eq_iff_of_not_alpha _ 42 (by decide)]
    simp only [hh, hg, hl]
    by_cases hs : st.cmd_ptr.headD 0 = 58 ∧ 2 ≤ st.cmd_len ∧ st.cmd_ptr.getD 1 0 = 42
    · rw [if_pos hs, if_pos hs]; rfl
    · rw [if_neg hs, if_neg hs, ← matchLoop_lowerCmd]
      congr 1
      by_cases hk : st.cmd_ptr.headD 0 = 58 ∧ 2 ≤ st.cmd_len
      · rw [if_pos hk, if_pos hk]; exact SKIP_CMD_lowerCmd st 1
      · rw [if_neg hk, if_neg hk]

/-- C3: `matchCommand` is case-insensitive on the command text: two commands that
differ only in the case of ASCII letters (they agree byte for byte after
`tolower`) get the same answer, and leave the same numbers, for every pattern. -/
theorem matchCommand_case_insensitive (p c c' : List Nat) (len : Nat)
    (numbers : Option (List Int)) (numbers_len : Nat) (default_value : Int)
    (h : c.map tolower = c'.map tolower) :
    matchCommand p c len numbers numbers_len default_value =
      matchCommand p c' len numbers numbers_len default_value ∧
    matchCommandNumbers p c len numbers numbers_len default_value =
      matchCommandNumbers p c' len numbers numbers_len default_value := by
  have h1 := matchCommandRun_map_tolower p c len numbers numbers_len default_value
  have h2 := matchCommandRun_map_tolower p c' len numbers numbers_len default_value
  rw [h] at h1
  rw [h2] at h1
  unfold matchCommand matchCommandNumbers
  cases hr : matchCommandRun p c len numbers numbers_len default_value <;>
  cases hr' : matchCommandRun p c' len numbers numbers_len default_value <;>
  rw [hr, hr'] at h1 <;> simp at h1
  · simp
  · rename_i s s'
    have e1 : s.result = s'.result := by
      have := congrArg MatchState.result h1; exact this.symm
    have e2 : s.numbers = s'.numbers := by
      have := congrArg MatchState.numbers h1; exact this.symm
    simp [e1, e2]

theorem matchCommand_case_insensitive_witness :
    (str "meas:VoLt?").map tolower = (str "MEAS:volt?").map tolower ∧
    matchCommand (str "MEASure:VOLTage?") (str "meas:VoLt?") 10 none 0 0 =
      matchCommand (str "MEASure:VOLTage?") (str "MEAS:volt?") 10 none 0 0 ∧
    matchCommandNumbers (str "MEASure:VOLTage?") (str "meas:VoLt?") 10 none 0 0 =
      matchCommandNumbers (str "MEASure:VOLTage?") (str "MEAS:volt?") 10 none 0 0 :=
  ⟨by decide, matchCommand_case_insensitive (str "MEASure:VOLTage?") (str "meas:VoLt?")
    (str "MEAS:volt?") 10 none 0 0 (by decide)⟩

theorem isalpha_ne {a : Nat} (h : isupper a = true ∨ islower a = true) :
    a ≠ 0 ∧ a ≠ 58 ∧ a ≠ 42 ∧ a ≠ 63 := by
  simp only [isupper, islower, Bool.and_eq_true, decide_eq_true_eq] at h
  omega

theorem byteAt_cons_succ (x : Nat) (s : List Nat) (i : Int) (h : 0 ≤ i) :
    byteAt (x :: s) (i + 1) = byteAt s i := by
  obtain ⟨k, rfl⟩ := Int.eq_ofNat_of_zero_le h
  have h1 : ¬ ((k : Int) + 1 < 0) := by omega
  have h2 : ¬ ((k : Int) < 0) := by omega
  have h3 : ((k : Int) + 1).toNat = k + 1 := by omega
  simp [byteAt, h1, h2, h3]

theorem strnlen_pos (a : Nat) (rest : List Nat) (n : Nat) (ha : a ≠ 0) :
    0 < strnlen (a :: rest) (n + 1) := by
  simp [strnlen, ha]

theorem matchCommand_colon_letter (p : List Nat) (a : Nat) (rest : List Nat)
    (numbers : Option (List Int)) (numbers_len : Nat) (default_value : Int)
    (ha : isupper a = true ∨ islower a = true) :
    matchCommand p (58 :: a :: rest) (rest.length + 2) numbers numbers_len default_value =
      matchCommand p (a :: rest) (rest.length + 1) numbers numbers_len default_value := by
  obtain ⟨ha0, ha58, ha42, ha63⟩ := isalpha_ne ha
  have hL : 0 < strnlen (a :: rest) (rest.length + 1) := strnlen_pos a rest _ ha0
  have hlen : strnlen (58 :: a :: rest) (rest.length + 2) =
      strnlen (a :: rest) (rest.length + 1) + 1 := by
    simp [strnlen]
  have hbyte : byteAt (58 :: a :: rest) (((strnlen (a :: rest) (rest.length + 1) + 1 : Nat) : Int) - 1)
      = byteAt (a :: rest) (((strnlen (a :: rest) (rest.length + 1) : Nat) : Int) - 1) := by
    have := byteAt_cons_succ 58 (a :: rest)
      (((strnlen (a :: rest) (rest.length + 1) : Nat) : Int) - 1) (by omega)
    rw [← this]; congr 1; push_cast; ring
  unfold matchCommand matchCommandRun matchCommandRest matchCommandInit
  simp only [hlen, hbyte]
  generalize strnlen (a :: rest) (rest.length + 1) = L at hL
  by_cases hq : (⟨p, 0⟩ : CPtr).get ((strlen p : Int) - 1) = 63
  · by_cases hcq : byteAt (a :: rest) ((L : Int) - 1) = 63
    · have hL2 : 2 ≤ L := by
        rcases Nat.lt_or_ge L 2 with h | h
        · have : L = 1 := by omega
          subst this
          simp [byteAt] at hcq
          exact absurd hcq ha63
        · exact h
      have e1 : L + 1 - 1 - 1 = L - 1 := by omega
      have e2 : 2 ≤ L + 1 - 1 := by omega
      by_cases h1 : (⟨p, 0⟩ : CPtr).get 0 = 91 <;>
      by_cases h2 : (⟨p, 0⟩ : CPtr).get 0 = 58 <;>
      by_cases h3 : ((⟨p, 0⟩ : CPtr).add 1).get 0 = 58 <;>
      simp [hq, hcq, h1, h2, h3, skipPatternStart, SKIP_PATTERN, SKIP_CMD, ha58, ha42, e1, e2, hL2]
    · simp [hq, hcq]
  · have e2 : 2 ≤ L + 1 := by omega
    by_cases h1 : (⟨p, 0⟩ : CPtr).get 0 = 91 <;>
    by_cases h2 : (⟨p, 0⟩ : CPtr).get 0 = 58 <;>
    by_cases h3 : ((⟨p, 0⟩ : CPtr).add 1).get 0 = 58 <;>
    simp [hq, h1, h2, h3, skipPatternStart, SKIP_PATTERN, SKIP_CMD, ha58, ha42, e2, (show 1 ≤ L from hL)]

theorem matchCommand_colon_star (p : List Nat) (rest : List Nat)
    (numbers : Option (List Int)) (numbers_len : Nat) (default_value : Int) :
    matchCommand p (58 :: 42 :: rest) (rest.length + 2) numbers numbers_len default_value =
      some false := by
  have hlen : strnlen (58 :: 42 :: rest) (rest.length + 2) = strnlen rest rest.length + 2 := by
    simp [strnlen]
  unfold matchCommand matchCommandRun matchCommandRest matchCommandInit
  simp only [hlen]
  generalize strnlen rest rest.length = L
  by_cases hq : (⟨p, 0⟩ : CPtr).get ((strlen p : Int) - 1) = 63
  · by_cases hcq : byteAt (58 :: 42 :: rest) (((L + 2 : Nat) : Int) - 1) = 63
    · have hL : L ≠ 0 := by
        intro h; subst h; simp [byteAt] at hcq
      have e2 : 2 ≤ L + 2 - 1 := by omega
      have hcq1 : byteAt (58 :: 42 :: rest) ((L : Int) + 2 - 1) = 63 := by
        rw [← hcq]; congr 1
      by_cases h1 : (⟨p, 0⟩ : CPtr).get 0 = 91 <;>
      by_cases h2 : (⟨p, 0⟩ : CPtr).get 0 = 58 <;>
      by_cases h3 : ((⟨p, 0⟩ : CPtr).add 1).get 0 = 58 <;>
      simp [hq, hcq, hcq1, h1, h2, h3, skipPatternStart, SKIP_PATTERN, SKIP_CMD, e2, (show 1 ≤ L by omega)]
    · have hcq1 : ¬ byteAt (58 :: 42 :: rest) ((L : Int) + 2 - 1) = 63 := by
        intro h; apply hcq; rw [← h]; congr 1
      simp [hq, hcq, hcq1]
  · by_cases h1 : (⟨p, 0⟩ : CPtr).get 0 = 91 <;>
    by_cases h2 : (⟨p, 0⟩ : CPtr).get 0 = 58 <;>
    by_cases h3 : ((⟨p, 0⟩ : CPtr).add 1).get 0 = 58 <;>
    simp [hq, h1, h2, h3, skipPatternStart, SKIP_PATTERN, SKIP_CMD]
/-- C5: a leading `:` in the command is tolerated: for a non-empty pattern and a
command that begins with a letter, `matchCommand` gives the same answer with
and without a `:` in front of the command; and a command that begins with `:*`
is never matched. -/
theorem matchCommand_leading_colon (p : List Nat) (a : Nat) (rest : List Nat)
    (numbers : Option (List Int)) (numbers_len : Nat) (default_value : Int)
    (_hp : p ≠ []) (ha : isalpha a = true) :
    matchCommand p (58 :: a :: rest) (58 :: a :: rest).length numbers numbers_len default_value =
      matchCommand p (a :: rest) (a :: rest).length numbers numbers_len default_value ∧
    matchCommand p (58 :: 42 :: rest) (58 :: 42 :: rest).length numbers numbers_len
      default_value = some false := by
  have ha' : isupper a = true ∨ islower a = true := by
    simpa [isalpha] using ha
  exact ⟨matchCommand_colon_letter p a rest numbers numbers_len default_value ha',
    matchCommand_colon_star p rest numbers numbers_len default_value⟩

theorem matchCommand_leading_colon_witness :
    str "MEASure:VOLTage?" ≠ [] ∧ isalpha 77 = true ∧
    matchCommand (str "MEASure:VOLTage?") (58 :: 77 :: str "EAS:VOLT?")
        (58 :: 77 :: str "EAS:VOLT?").length none 0 0 =
      matchCommand (str "MEASure:VOLTage?") (77 :: str "EAS:VOLT?")
        (77 :: str "EAS:VOLT?").length none 0 0 ∧
    matchCommand (str "MEASure:VOLTage?") (58 :: 42 :: str "EAS:VOLT?")
      (58 :: 42 :: str "EAS:VOLT?").length none 0 0 = some false :=
  ⟨by decide, by decide,
    matchCommand_leading_colon (str "MEASure:VOLTage?") 77 (str "EAS:VOLT?") none 0 0
      (by decide) (by decide)⟩

/-! ## Theorems: symbolic execution of the loop body -/

theorem CPtr.get_of_nonneg (p : CPtr) (h : 0 ≤ p.off) (j : Nat) :
    p.get (j : Int) = p.bytes.getD j 0 := by
  obtain ⟨k, hk⟩ := Int.eq_ofNat_of_zero_le h
  have h1 : ¬ (p.off + (j : Int) < 0) := by omega
  have h2 : ¬ (p.off < 0) := by omega
  have h3 : (p.off + (j : Int)).toNat = p.off.toNat + j := by omega
  simp only [CPtr.get, byteAt, CPtr.bytes, h1, h2, if_false, h3, List.getD_eq_getElem?_getD,
    List.getElem?_drop]

theorem CPtr.get_zero (p : CPtr) (h : 0 ≤ p.off) : p.get 0 = p.bytes.getD 0 0 :=
  p.get_of_nonneg h 0

theorem CPtr.get_one (p : CPtr) (h : 0 ≤ p.off) : p.get 1 = p.bytes.getD 1 0 :=
  p.get_of_nonneg h 1

theorem CPtr.get_two (p : CPtr) (h : 0 ≤ p.off) : p.get 2 = p.bytes.getD 2 0 :=
  p.get_of_nonneg h 2

theorem CPtr.bytes_add (p : CPtr) (h : 0 ≤ p.off) (n : Nat) :
    (p.add (n : Int)).bytes = p.bytes.drop n := by
  have h1 : ¬ (p.off + (n : Int) < 0) := by omega
  have h2 : ¬ (p.off < 0) := by omega
  have h3 : (p.off + (n : Int)).toNat = p.off.toNat + n := by omega
  simp only [CPtr.bytes, CPtr.add, h1, h2, if_false, h3, List.drop_drop]

theorem strnpbrk_append (K : List Nat) (set : List Nat) (hK : ∀ c ∈ K, c ≠ 0 ∧ c ∉ set)
    (rest : List Nat) (n : Nat) :
    strnpbrk (K ++ rest) (K.length + n) set = (strnpbrk rest n set).map (· + K.length) := by
  induction K with
  | nil => simp
  | cons k K ih =>
    have hk := hK k (by simp)
    have ih' := ih (fun c hc => hK c (by simp [hc]))
    have e : (k :: K).length + n = (K.length + n) + 1 := by simp; omega
    rw [e]
    simp only [List.cons_append, strnpbrk, hk.1, hk.2, if_false, List.append_eq, ih',
      Option.map_map]
    congr 1

theorem strnpbrk_head (s : Nat) (r : List Nat) (n : Nat) (set : List Nat) (hs0 : s ≠ 0)
    (hs : s ∈ set) : strnpbrk (s :: r) (n + 1) set = some 0 := by
  simp [strnpbrk, hs0, hs]

theorem strnpbrk_size_zero (l : List Nat) (set : List Nat) : strnpbrk l 0 set = none := by
  cases l <;> rfl

theorem patternSeparatorPos_keyword (K rest : List Nat) (len : Int)
    (hK : ∀ c ∈ K, c ≠ 0 ∧ c ∉ [63, 58, 91, 93])
    (h : len = K.length ∨ ((K.length : Int) < len ∧ ∃ s r, rest = s :: r ∧ s ∈ [63, 58, 91, 93])) :
    patternSeparatorPos (K ++ rest) len = K.length := by
  unfold patternSeparatorPos
  rcases h with h | ⟨h, s, r, hr, hs⟩
  · subst h
    rw [toSizeT_of_nonneg _ (by omega)]
    have := strnpbrk_append K _ hK rest 0
    simp only [Nat.add_zero] at this
    simp [this, strnpbrk_size_zero]
  · have hlen : 0 ≤ len := by omega
    rw [toSizeT_of_nonneg _ hlen]
    obtain ⟨m, hm⟩ : ∃ m : Nat, len.toNat = K.length + (m + 1) := ⟨len.toNat - K.length - 1, by omega⟩
    have hs0 : s ≠ 0 := by
      intro h0; subst h0; simp at hs
    rw [hm, strnpbrk_append K _ hK, hr, strnpbrk_head s r m _ hs0 hs]
    simp

theorem cmdSeparatorPos_segment (seg rest : List Nat) (n : Nat)
    (hseg : ∀ c ∈ seg, c ≠ 0 ∧ c ∉ [58, 63])
    (h : n = seg.length ∨ (seg.length < n ∧ ∃ s r, rest = s :: r ∧ s ∈ [58, 63])) :
    cmdSeparatorPos (seg ++ rest) n = seg.length := by
  unfold cmdSeparatorPos
  rcases h with h | ⟨h, s, r, hr, hs⟩
  · subst h
    have := strnpbrk_append seg _ hseg rest 0
    simp only [Nat.add_zero] at this
    simp [this, strnpbrk_size_zero]
  · obtain ⟨m, hm⟩ : ∃ m : Nat, n = seg.length + (m + 1) := ⟨n - seg.length - 1, by omega⟩
    have hs0 : s ≠ 0 := by
      intro h0; subst h0; simp at hs
    rw [hm, strnpbrk_append seg _ hseg, hr, strnpbrk_head s r m _ hs0 hs]
    simp
theorem strncasecmp_append (a b x y : List Nat) (n : Nat) (ha : n ≤ a.length)
    (hb : n ≤ b.length) : strncasecmp (a ++ x) (b ++ y) n = strncasecmp a b n := by
  induction n generalizing a b with
  | zero => rfl
  | succ n ih =>
    cases a with
    | nil => simp at ha
    | cons a0 a =>
      cases b with
      | nil => simp at hb
      | cons b0 b =>
        simp only [List.length_cons, Nat.add_le_add_iff_right] at ha hb
        simp only [strncasecmp, List.cons_append, List.headD_cons, List.tail_cons, ih a b ha hb]

theorem patternSeparatorShortPos_append (K r : List Nat) :
    patternSeparatorShortPos (K ++ r) K.length = patternSeparatorShortPos K K.length := by
  induction K with
  | nil => cases r <;> rfl
  | cons k K ih =>
    simp only [List.cons_append, List.length_cons, patternSeparatorShortPos, List.append_eq, ih]

theorem patternSeparatorShortPos_le (K : List Nat) (n : Nat) :
    patternSeparatorShortPos K n ≤ n := by
  induction K generalizing n with
  | nil => cases n <;> simp [patternSeparatorShortPos]
  | cons k K ih =>
    cases n with
    | zero => simp [patternSeparatorShortPos]
    | succ n =>
      simp only [patternSeparatorShortPos]
      split
      · omega
      · split
        · omega
        · have := ih n; omega

theorem compareStr_append (K r seg cr : List Nat) (n : Nat) (hn : n ≤ K.length) :
    compareStr (K ++ r) n (seg ++ cr) seg.length = compareStr K n seg seg.length := by
  unfold compareStr
  by_cases h : n = seg.length
  · subst h
    simp only [ne_eq, not_true_eq_false, if_false]
    rw [strncasecmp_append K seg r cr seg.length hn (le_refl _)]
  · simp [h]

theorem isalpha_ne_hash {c : Nat} (h : isalpha c = true) : c ≠ 35 ∧ c ≠ 0 := by
  simp only [isalpha, isupper, islower, Bool.or_eq_true, Bool.and_eq_true,
    decide_eq_true_eq] at h
  omega

theorem IsKeyword.getLast_ne_hash {K : List Nat} (hK : IsKeyword K) (r : List Nat) :
    ¬ (0 < K.length ∧ (K ++ r).getD (K.length - 1) 0 = 35) := by
  rintro ⟨hpos, h⟩
  have hlt : K.length - 1 < K.length := by omega
  rw [List.getD_eq_getElem?_getD, List.getElem?_append_left hlt] at h
  have hmem : K[K.length - 1] ∈ K := List.getElem_mem _
  have := (isalpha_ne_hash (hK.2 _ hmem)).1
  apply this
  simpa [List.getElem?_eq_getElem hlt] using h

theorem matchPattern_keyword (K r seg cr : List Nat) (num : Option Int) (hK : IsKeyword K) :
    matchPattern (K ++ r) K.length (seg ++ cr) seg.length num = (kwMatch K seg, num) := by
  have h1 := hK.getLast_ne_hash r
  have h2 := hK.getLast_ne_hash []
  rw [List.append_nil] at h2
  have hs := patternSeparatorShortPos_le K K.length
  unfold kwMatch matchPattern
  rw [if_neg h1, if_neg h2]
  simp only [patternSeparatorShortPos_append, compareStr_append K r seg cr _ (le_refl _),
    compareStr_append K r seg cr _ hs]
theorem MatchState.At.skipPattern {st : MatchState} {pb : List Nat} {pl : Int} {cb : List Nat}
    {cl : Nat} (h : st.At pb pl cb cl) (n : Nat) :
    (SKIP_PATTERN st (n : Int)).At (pb.drop n) (pl - n) cb cl := by
  obtain ⟨h1, h2, h3, h4, h5⟩ := h
  refine ⟨?_, ?_, ?_, h4, h5⟩
  · simp only [SKIP_PATTERN, CPtr.add_off]; omega
  · simp only [SKIP_PATTERN]; rw [CPtr.bytes_add _ h1, h2]
  · simp only [SKIP_PATTERN, h3]

theorem MatchState.At.skipCmd {st : MatchState} {pb : List Nat} {pl : Int} {cb : List Nat}
    {cl : Nat} (h : st.At pb pl cb cl) (n : Nat) :
    (SKIP_CMD st n).At pb pl (cb.drop n) (cl - n) := by
  obtain ⟨h1, h2, h3, h4, h5⟩ := h
  exact ⟨h1, h2, h3, by simp only [SKIP_CMD, h4], by simp only [SKIP_CMD, h5]⟩

theorem MatchState.At.get0 {st : MatchState} {pb : List Nat} {pl : Int} {cb : List Nat}
    {cl : Nat} (h : st.At pb pl cb cl) : st.pattern_ptr.get 0 = pb.getD 0 0 := by
  rw [CPtr.get_zero _ h.1, h.2.1]

theorem MatchState.At.get1 {st : MatchState} {pb : List Nat} {pl : Int} {cb : List Nat}
    {cl : Nat} (h : st.At pb pl cb cl) : st.pattern_ptr.get 1 = pb.getD 1 0 := by
  rw [CPtr.get_one _ h.1, h.2.1]

theorem MatchState.At.get2 {st : MatchState} {pb : List Nat} {pl : Int} {cb : List Nat}
    {cl : Nat} (h : st.At pb pl cb cl) : st.pattern_ptr.get 2 = pb.getD 2 0 := by
  rw [CPtr.get_two _ h.1, h.2.1]

theorem loopMatched_complete (fuel : Nat) (st : MatchState) (h1 : st.pattern_len = 0)
    (h2 : st.cmd_len = 0) : loopMatched fuel st = .done st := by
  simp [loopMatched, h1, h2]

theorem loopMatched_pattern_complete (fuel : Nat) (st : MatchState) (h1 : st.pattern_len = 0)
    (h2 : 0 < st.cmd_len) : loopMatched fuel st = .done { st with result := false } := by
  have : st.cmd_len ≠ 0 := by omega
  simp [loopMatched, h1, h2, this]

theorem loopMatched_cmd_complete (fuel : Nat) (st : MatchState) (h1 : st.pattern_len ≠ 0)
    (h2 : st.cmd_len = 0) :
    loopMatched fuel st =
      match residualLoop fuel st with
      | none => .stuck
      | some st2 => .done (if st2.pattern_len ≠ 0 then { st2 with result := false } else st2) := by
  simp [loopMatched, h1, h2]

theorem loopMatched_colon (fuel : Nat) (st : MatchState) (p : List Nat) (pl : Int)
    (c : List Nat) (cl : Nat) (h : st.At (58 :: p) pl (58 :: c) cl) (hpl : 0 < pl)
    (hcl : 0 < cl) : loopMatched fuel st = .next (SKIP_CMD (SKIP_PATTERN st 1) 1) := by
  have g0 := h.get0
  obtain ⟨_, _, h3, h4, h5⟩ := h
  have e1 : st.pattern_len ≠ 0 := by omega
  have e2 : st.cmd_len ≠ 0 := by omega
  have e3 : 0 < st.pattern_len := by omega
  simp [loopMatched, e1, e2, e3, g0, h4]

theorem loopMatched_colon_fail (fuel : Nat) (st : MatchState) (p : List Nat) (pl : Int)
    (x : Nat) (c : List Nat) (cl : Nat) (h : st.At (58 :: p) pl (x :: c) cl) (hx : x ≠ 58)
    (hcl : 0 < cl) (hpl : 0 < pl) : loopMatched fuel st = .done { st with result := false } := by
  have g0 := h.get0
  obtain ⟨_, _, h3, h4, h5⟩ := h
  have e1 : st.pattern_len ≠ 0 := by omega
  have e2 : st.cmd_len ≠ 0 := by omega
  have hx' : ¬ (58 = x) := fun h => hx h.symm
  simp [loopMatched, e1, e2, g0, h4, hx']

theorem loopMatched_open (fuel : Nat) (st : MatchState) (p : List Nat) (pl : Int)
    (c : List Nat) (cl : Nat) (h : st.At (91 :: 58 :: p) pl (58 :: c) cl) (hpl : 1 < pl)
    (hcl : 0 < cl) :
    loopMatched fuel st =
      .next { SKIP_CMD (SKIP_PATTERN st 2) 1 with brackets := st.brackets + 1 } := by
  have g0 := h.get0
  have g1 := h.get1
  obtain ⟨_, _, h3, h4, h5⟩ := h
  have e1 : st.pattern_len ≠ 0 := by omega
  have e2 : st.cmd_len ≠ 0 := by omega
  have e3 : 1 < st.pattern_len := by omega
  simp [loopMatched, e1, e2, e3, g0, g1, h4]

theorem loopMatched_close (fuel : Nat) (st : MatchState) (p : List Nat) (pl : Int)
    (c : List Nat) (cl : Nat) (h : st.At (93 :: 58 :: p) pl (58 :: c) cl) (hpl : 1 < pl)
    (hcl : 0 < cl) :
    loopMatched fuel st =
      .next { SKIP_CMD (SKIP_PATTERN st 2) 1 with brackets := st.brackets - 1 } := by
  have g0 := h.get0
  have g1 := h.get1
  obtain ⟨_, _, h3, h4, h5⟩ := h
  have e1 : st.pattern_len ≠ 0 := by omega
  have e2 : st.cmd_len ≠ 0 := by omega
  have e3 : 1 < st.pattern_len := by omega
  simp [loopMatched, e1, e2, e3, g0, g1, h4]

theorem loopMatched_close_open (fuel : Nat) (st : MatchState) (p : List Nat) (pl : Int)
    (c : List Nat) (cl : Nat) (h : st.At (93 :: 91 :: 58 :: p) pl (58 :: c) cl) (hpl : 2 < pl)
    (hcl : 0 < cl) :
    loopMatched fuel st = .next (SKIP_CMD (SKIP_PATTERN st 3) 1) := by
  have g0 := h.get0
  have g1 := h.get1
  have g2 := h.get2
  obtain ⟨_, _, h3, h4, h5⟩ := h
  have e1 : st.pattern_len ≠ 0 := by omega
  have e2 : st.cmd_len ≠ 0 := by omega
  have e3 : 2 < st.pattern_len := by omega
  simp [loopMatched, e1, e2, e3, g0, g1, g2, h4]

theorem loopUnmatched_close (st : MatchState) (p : List Nat) (pl : Int)
    (c : List Nat) (cl : Nat) (h : st.At (93 :: 58 :: p) pl c cl) :
    loopUnmatched st = .next { SKIP_PATTERN st 2 with brackets := st.brackets - 1 } := by
  simp [loopUnmatched, h.get0, h.get1]

theorem loopUnmatched_close_open (st : MatchState) (p : List Nat) (pl : Int)
    (c : List Nat) (cl : Nat) (h : st.At (93 :: 91 :: 58 :: p) pl c cl) (hpl : 2 < pl) :
    loopUnmatched st = .next (SKIP_PATTERN st 3) := by
  have h3 := h.2.2.1
  have e3 : 2 < st.pattern_len := by omega
  simp [loopUnmatched, h.get0, h.get1, h.get2, e3]

theorem loopUnmatched_fail (st : MatchState) (p : List Nat) (pl : Int)
    (c : List Nat) (cl : Nat) (h : st.At p pl c cl) (hp : p.getD 0 0 ≠ 93) :
    loopUnmatched st = .done { st with result := false } := by
  have g0 : ¬ st.pattern_ptr.get 0 = 93 := by rw [h.get0]; exact hp
  simp [loopUnmatched, g0]
theorem isalpha_not_sep {c : Nat} (h : isalpha c = true) :
    c ≠ 0 ∧ c ∉ [63, 58, 91, 93] := by
  simp only [isalpha, isupper, islower, Bool.or_eq_true, Bool.and_eq_true,
    decide_eq_true_eq] at h
  simp only [List.mem_cons, List.mem_singleton, List.not_mem_nil, or_false, not_or]
  omega

theorem matchStep_keyword (numbers_len : Nat) (default_value : Int) (st : MatchState)
    (K prest : List Nat) (pl : Int) (seg crest : List Nat) (cl : Nat) (hK : IsKeyword K)
    (h : st.At (K ++ prest) pl (seg ++ crest) cl)
    (hp : pl = K.length ∨
      ((K.length : Int) < pl ∧ ∃ s r, prest = s :: r ∧ s ∈ [63, 58, 91, 93]))
    (hseg : ∀ c ∈ seg, c ≠ 0 ∧ c ∉ [58, 63])
    (hc : cl = seg.length ∨ (seg.length < cl ∧ ∃ s r, crest = s :: r ∧ s ∈ [58, 63])) :
    patternSeparatorPos st.pattern_ptr.bytes st.pattern_len = K.length ∧
    cmdSeparatorPos st.cmd_ptr st.cmd_len = seg.length ∧
    matchStep numbers_len default_value st = (kwMatch K seg, st) := by
  obtain ⟨h1, h2, h3, h4, h5⟩ := h
  have hps : patternSeparatorPos st.pattern_ptr.bytes st.pattern_len = K.length := by
    rw [h2, h3]
    exact patternSeparatorPos_keyword K prest pl (fun c hc => isalpha_not_sep (hK.2 c hc)) hp
  have hcs : cmdSeparatorPos st.cmd_ptr st.cmd_len = seg.length := by
    rw [h4, h5]
    exact cmdSeparatorPos_segment seg crest cl hseg hc
  refine ⟨hps, hcs, ?_⟩
  have hKpos : 0 < K.length := List.length_pos.2 hK.1
  have hcast : ((K.length : Int) - 1) = ((K.length - 1 : Nat) : Int) := by omega
  have hhash : (decide (0 < (K.length : Int)) &&
      (st.pattern_ptr.get ((K.length : Int) - 1) == 35)) = false := by
    rw [hcast, CPtr.get_of_nonneg _ h1, h2]
    have := hK.getLast_ne_hash prest
    simp only [not_and] at this
    have h35 := this hKpos
    simp only [Bool.and_eq_false_iff, decide_eq_false_iff_not, beq_eq_false_iff_ne, ne_eq]
    exact Or.inr h35
  unfold matchStep
  simp only [hps, hcs, hhash, Bool.false_and, Bool.false_eq_true, if_false, Option.map_none']
  rw [toSizeT_of_nonneg _ (by omega), h2]
  have hm : matchPattern (K ++ prest) K.length st.cmd_ptr seg.length none =
      (kwMatch K seg, none) := by
    rw [h4]; exact matchPattern_keyword K prest seg crest none hK
  simp only [Int.toNat_ofNat, hm]

theorem loopBody_keyword (numbers_len : Nat) (default_value : Int) (fuel : Nat)
    (st : MatchState)
    (K prest : List Nat) (pl : Int) (seg crest : List Nat) (cl : Nat) (hK : IsKeyword K)
    (h : st.At (K ++ prest) pl (seg ++ crest) cl)
    (hp : pl = K.length ∨
      ((K.length : Int) < pl ∧ ∃ s r, prest = s :: r ∧ s ∈ [63, 58, 91, 93]))
    (hseg : ∀ c ∈ seg, c ≠ 0 ∧ c ∉ [58, 63])
    (hc : cl = seg.length ∨ (seg.length < cl ∧ ∃ s r, crest = s :: r ∧ s ∈ [58, 63])) :
    loopBody numbers_len default_value fuel st =
      if kwMatch K seg = true then
        loopMatched fuel
          { SKIP_CMD (SKIP_PATTERN st (K.length : Int)) seg.length with result := true }
      else loopUnmatched (SKIP_PATTERN st (K.length : Int)) := by
  obtain ⟨e1, e2, e3⟩ := matchStep_keyword numbers_len default_value st K prest pl seg crest cl
    hK h hp hseg hc
  unfold loopBody
  simp only [e1, e2, e3]

theorem MatchState.At.after_keyword {st : MatchState} {K prest : List Nat} {pl : Int}
    {seg crest : List Nat} {cl : Nat} (h : st.At (K ++ prest) pl (seg ++ crest) cl) :
    ({ SKIP_CMD (SKIP_PATTERN st (K.length : Int)) seg.length with result := true } :
      MatchState).At prest (pl - K.length) crest (cl - seg.length) := by
  have := (h.skipPattern K.length).skipCmd seg.length
  simpa using this

theorem MatchState.At.after_mismatch {st : MatchState} {K prest : List Nat} {pl : Int}
    {c : List Nat} {cl : Nat} (h : st.At (K ++ prest) pl c cl) :
    (SKIP_PATTERN st (K.length : Int)).At prest (pl - K.length) c cl := by
  have := h.skipPattern K.length
  simpa using this

/-! ## Theorems: bracket-free patterns -/

theorem splitColon_ne_nil (l : List Nat) : splitColon l ≠ [] := by
  cases l with
  | nil => simp [splitColon]
  | cons c cs =>
    simp only [splitColon]
    split
    · simp
    · split <;> simp

theorem splitColon_no_colon (seg : List Nat) (h : 58 ∉ seg) : splitColon seg = [seg] := by
  induction seg with
  | nil => rfl
  | cons c cs ih =>
    have hc : c ≠ 58 := fun h0 => h (by simp [h0])
    simp [splitColon, hc, ih (fun h0 => h (by simp [h0]))]

theorem splitColon_append_colon (seg r : List Nat) (h : 58 ∉ seg) :
    splitColon (seg ++ 58 :: r) = seg :: splitColon r := by
  induction seg with
  | nil => simp [splitColon]
  | cons c cs ih =>
    have hc : c ≠ 58 := fun h0 => h (by simp [h0])
    simp [splitColon, hc, ih (fun h0 => h (by simp [h0]))]

theorem splitColon_head_mem (l : List Nat) (x : Nat) (hx : x ≠ 58) (pre r : List Nat)
    (hl : l = pre ++ x :: r) (hpre : 58 ∉ pre) :
    ∃ first more, splitColon l = first :: more ∧ x ∈ first := by
  subst hl
  induction pre with
  | nil =>
    simp only [List.nil_append, splitColon, hx, if_false]
    cases h : splitColon r with
    | nil => exact ⟨[x], [], rfl, by simp⟩
    | cons s ss => exact ⟨x :: s, ss, rfl, by simp⟩
  | cons c cs ih =>
    have hc : c ≠ 58 := fun h0 => hpre (by simp [h0])
    obtain ⟨first, more, h1, h2⟩ := ih (fun h0 => hpre (by simp [h0]))
    refine ⟨c :: first, more, ?_, by simp [h2]⟩
    simp [splitColon, hc, h1]

theorem isalpha_of_tolower_eq {a b : Nat} (h : tolower a = tolower b) (hb : isalpha b = true) :
    isalpha a = true := by
  simp only [isalpha, isupper, islower, Bool.or_eq_true, Bool.and_eq_true,
    decide_eq_true_eq] at hb ⊢
  unfold tolower isupper at h
  by_cases h1 : 65 ≤ a ∧ a ≤ 90 <;> by_cases h2 : 65 ≤ b ∧ b ≤ 90 <;> simp [h1, h2] at h <;> omega

theorem isalpha_of_map_tolower_eq (s K : List Nat) (h : s.map tolower = K.map tolower)
    (hK : ∀ c ∈ K, isalpha c = true) : ∀ c ∈ s, isalpha c = true := by
  induction s generalizing K with
  | nil => simp
  | cons a s ih =>
    cases K with
    | nil => simp at h
    | cons k K =>
      simp only [List.map_cons, List.cons.injEq] at h
      intro c hc
      rcases List.mem_cons.1 hc with rfl | hc
      · exact isalpha_of_tolower_eq h.1 (hK k (by simp))
      · exact ih K h.2 (fun c hc => hK c (by simp [hc])) c hc

theorem kwMatch_alpha (K s : List Nat) (hK : IsKeyword K) (h : kwMatch K s = true) :
    ∀ c ∈ s, isalpha c = true := by
  have h2 := hK.getLast_ne_hash []
  rw [List.append_nil] at h2
  unfold kwMatch matchPattern at h
  rw [if_neg h2] at h
  simp only [Bool.or_eq_true] at h
  have key : ∀ n, n ≤ K.length → compareStr K n s s.length = true → ∀ c ∈ s, isalpha c = true := by
    intro n hn hc
    have hsplit : K = K.take n ++ K.drop n := (List.take_append_drop n K).symm
    have hlen : (K.take n).length = n := by simp [hn]
    have hne : ∀ c ∈ K.take n, c ≠ 0 :=
      fun c hc => (isalpha_ne_hash (hK.2 c (List.mem_of_mem_take hc))).2
    rw [hsplit] at hc
    have := (compareStr_eq_true_iff (K.take n) hne (K.drop n) s s.length).1
      (by rw [hlen]; exact hc)
    rw [hlen] at this
    obtain ⟨e1, _, e3⟩ := this
    subst e1
    rw [List.take_length] at e3
    exact isalpha_of_map_tolower_eq s _ e3 (fun c hc => hK.2 c (List.mem_of_mem_take hc))
  rcases h with h | h
  · exact key K.length (le_refl _) h
  · exact key _ (patternSeparatorShortPos_le K K.length) h

theorem kwMatch_no_sep (K s : List Nat) (hK : IsKeyword K) (h : kwMatch K s = true) :
    58 ∉ s ∧ 63 ∉ s := by
  have := kwMatch_alpha K s hK h
  constructor
  · intro hm; have := this 58 hm; simp [isalpha, isupper, islower] at this
  · intro hm; have := this 63 hm; simp [isalpha, isupper, islower] at this
theorem segment_decompose (body : List Nat) (h0 : 0 ∉ body) :
    ∃ seg rest, body = seg ++ rest ∧ (∀ c ∈ seg, c ≠ 0 ∧ c ∉ [58, 63]) ∧
      (rest = [] ∨ ∃ s r, rest = s :: r ∧ s ∈ [58, 63]) := by
  induction body with
  | nil => exact ⟨[], [], rfl, by simp, Or.inl rfl⟩
  | cons b body ih =>
    have hb : b ≠ 0 := fun h => h0 (by simp [h])
    by_cases hs : b ∈ [58, 63]
    · exact ⟨[], b :: body, rfl, by simp, Or.inr ⟨b, body, rfl, hs⟩⟩
    · obtain ⟨seg, rest, h1, h2, h3⟩ := ih (fun h => h0 (by simp [h]))
      refine ⟨b :: seg, rest, by simp [h1], ?_, h3⟩
      intro c hc
      rcases List.mem_cons.1 hc with rfl | hc
      · exact ⟨hb, hs⟩
      · exact h2 c hc

theorem segmentsMatch_split (K : List Nat) (Ks : List (List Nat)) (hK : IsKeyword K)
    (seg rest : List Nat) (hseg : ∀ c ∈ seg, c ≠ 0 ∧ c ∉ [58, 63]) :
    (rest = [] → segmentsMatch (K :: Ks) (splitColon (seg ++ rest)) =
      (kwMatch K seg && decide (Ks = []))) ∧
    (∀ r, rest = 58 :: r → segmentsMatch (K :: Ks) (splitColon (seg ++ rest)) =
      (kwMatch K seg && segmentsMatch Ks (splitColon r))) ∧
    (∀ r, rest = 63 :: r → segmentsMatch (K :: Ks) (splitColon (seg ++ rest)) = false) := by
  have h58 : 58 ∉ seg := fun h => (hseg 58 h).2 (by simp)
  refine ⟨?_, ?_, ?_⟩
  · rintro rfl
    rw [List.append_nil, splitColon_no_colon seg h58]
    cases Ks <;> simp [segmentsMatch]
  · rintro r rfl
    rw [splitColon_append_colon seg r h58]
    simp [segmentsMatch]
  · rintro r rfl
    obtain ⟨first, more, h1, h2⟩ :=
      splitColon_head_mem (seg ++ 63 :: r) 63 (by decide) seg r rfl h58
    rw [h1]
    simp only [segmentsMatch, Bool.and_eq_false_iff]
    left
    rw [Bool.eq_false_iff]
    intro hm
    exact (kwMatch_no_sep K first hK hm).2 h2

theorem joinColon_cons_head (K : List Nat) (Ks : List (List Nat)) (hK : IsKeyword K) :
    ∃ a t, joinColon (K :: Ks) = a :: t ∧ isalpha a = true := by
  obtain ⟨hne, hall⟩ := hK
  cases K with
  | nil => exact absurd rfl hne
  | cons a K =>
    cases Ks with
    | nil => exact ⟨a, K, rfl, hall a (by simp)⟩
    | cons K1 Ks => exact ⟨a, _, rfl, hall a (by simp)⟩

theorem residualStep_separator (st : MatchState) (K : List Nat) (s : Nat) (r : List Nat)
    (pl : Int) (c : List Nat) (cl : Nat) (h : st.At (K ++ s :: r) pl c cl)
    (hK : ∀ c ∈ K, c ≠ 0 ∧ c ∉ [63, 58, 91, 93]) (hs : s ∈ [63, 58, 91, 93])
    (hpl : (K.length : Int) < pl) :
    residualStep st =
      SKIP_PATTERN { st with brackets :=
        if s = 91 then st.brackets + 1 else if s = 93 then st.brackets - 1 else st.brackets }
        ((K.length : Int) + 1) ∧
    (residualStep st).At r (pl - K.length - 1) c cl := by
  have hsep : patternSeparatorPos st.pattern_ptr.bytes st.pattern_len = K.length := by
    rw [h.2.1, h.2.2.1]
    exact patternSeparatorPos_keyword K (s :: r) pl hK (Or.inr ⟨hpl, s, r, rfl, hs⟩)
  have hget : st.pattern_ptr.get (K.length : Int) = s := by
    rw [CPtr.get_of_nonneg _ h.1, h.2.1, List.getD_eq_getElem?_getD,
      List.getElem?_append_right (le_refl _)]
    simp
  have e : residualStep st =
      SKIP_PATTERN { st with brackets :=
        if s = 91 then st.brackets + 1 else if s = 93 then st.brackets - 1 else st.brackets }
        ((K.length : Int) + 1) := by
    unfold residualStep
    simp only [hsep, hget]
  refine ⟨e, ?_⟩
  rw [e]
  have h' : ({ st with brackets :=
        if s = 91 then st.brackets + 1 else if s = 93 then st.brackets - 1 else st.brackets } :
        MatchState).At (K ++ s :: r) pl c cl := h
  have := h'.skipPattern (K.length + 1)
  have e2 : List.drop (K.length + 1) (K ++ s :: r) = r := by
    rw [← List.drop_drop]; simp
  rw [e2] at this
  have e3 : pl - ((K.length + 1 : Nat) : Int) = pl - K.length - 1 := by push_cast; omega
  rw [e3] at this
  exact this
theorem residualLoop_mandatory (fuel : Nat) (st : MatchState) (a : Nat) (t : List Nat)
    (pl : Int) (c : List Nat) (cl : Nat) (h : st.At (58 :: a :: t) pl c cl)
    (ha : a ≠ 91) (hpl : 1 < pl) (hbr : st.brackets = 0) :
    ∃ s, residualLoop (fuel + 1) st = some s ∧ s.pattern_len ≠ 0 ∧ s.numbers = st.numbers := by
  have hstep := residualStep_separator st [] 58 (a :: t) pl c cl h (by simp) (by simp)
    (by simpa using (by omega : (0 : Int) < pl))
  obtain ⟨e, hat⟩ := hstep
  have hpl0 : st.pattern_len ≠ 0 := by rw [h.2.2.1]; omega
  have hb : (residualStep st).brackets = 0 := by
    rw [e]; simp [SKIP_PATTERN, hbr]
  have hg : ¬ (0 < (residualStep st).pattern_len ∧ (residualStep st).pattern_ptr.get 0 = 91) := by
    rintro ⟨_, h2⟩
    rw [hat.get0] at h2
    exact ha (by simpa using h2)
  refine ⟨residualStep st, ?_, ?_, ?_⟩
  · unfold residualLoop
    simp only [hpl0, if_false, hb, if_true, hg]
  · rw [hat.2.2.1]; simp; omega
  · rw [e]; rfl

theorem matchLoop_bracket_free (numbers_len : Nat) (default_value : Int) (ifuel : Nat) :
    ∀ (Ks : List (List Nat)) (K : List Nat), (∀ k ∈ K :: Ks, IsKeyword k) →
    ∀ (tail : List Nat), tail.getD 0 0 ≠ 93 →
    ∀ (body ctail : List Nat), 0 ∉ body →
    ∀ (fuel : Nat), Ks.length + 1 ≤ fuel →
    ∀ (st : MatchState),
      st.At (joinColon (K :: Ks) ++ tail) (joinColon (K :: Ks)).length (body ++ ctail)
        body.length →
      st.brackets = 0 →
      ∃ s, matchLoop numbers_len default_value (ifuel + 1) fuel st = some s ∧
        s.result = segmentsMatch (K :: Ks) (splitColon body) ∧ s.numbers = st.numbers := by
  intro Ks
  induction Ks with
  | nil =>
    intro K hall tail htail body ctail hb fuel hfuel st hst hbr
    have hK : IsKeyword K := hall K (by simp)
    obtain ⟨seg, rest, hbody, hseg, hrest⟩ := segment_decompose body hb
    obtain ⟨f, rfl⟩ : ∃ f, fuel = f + 1 := ⟨fuel - 1, by simp at hfuel; omega⟩
    obtain ⟨r1, r2, r3⟩ := segmentsMatch_split K [] hK seg rest hseg
    subst hbody
    have hst' : st.At (K ++ tail) (K.length : Int) (seg ++ (rest ++ ctail))
        (seg ++ rest).length := by
      simpa [joinColon, List.append_assoc] using hst
    have hc : (seg ++ rest).length = seg.length ∨ (seg.length < (seg ++ rest).length ∧
        ∃ s r, rest ++ ctail = s :: r ∧ s ∈ [58, 63]) := by
      rcases hrest with rfl | ⟨s, r, rfl, hs⟩
      · left; simp
      · right; exact ⟨by simp, s, r ++ ctail, rfl, hs⟩
    have hbody := loopBody_keyword numbers_len default_value (ifuel + 1) st K tail _ seg _ _ hK
      hst' (Or.inl rfl) hseg hc
    have hat := hst'.after_keyword
    have hatm := hst'.after_mismatch
    unfold matchLoop
    rw [hbody]
    by_cases hm : kwMatch K seg = true
    · rw [if_pos hm]
      rcases hrest with rfl | ⟨s, r, rfl, hs⟩
      · rw [loopMatched_complete _ _ (by rw [hat.2.2.1]; simp) (by rw [hat.2.2.2.2]; simp)]
        exact ⟨_, rfl, by rw [r1 rfl, hm]; rfl, rfl⟩
      · rw [loopMatched_pattern_complete _ _ (by rw [hat.2.2.1]; simp)
          (by rw [hat.2.2.2.2]; simp)]
        refine ⟨_, rfl, ?_, rfl⟩
        simp only [List.mem_cons, List.mem_singleton, List.not_mem_nil, or_false] at hs
        rcases hs with rfl | rfl
        · rw [r2 r rfl]
          have := splitColon_ne_nil r
          cases hsp : splitColon r with
          | nil => exact absurd hsp this
          | cons x xs => simp [segmentsMatch]
        · rw [r3 r rfl]
    · rw [if_neg hm]
      rw [loopUnmatched_fail _ _ _ _ _ hatm htail]
      refine ⟨_, rfl, ?_, rfl⟩
      have hm' : kwMatch K seg = false := by simpa using hm
      rcases hrest with rfl | ⟨s, r, rfl, hs⟩
      · rw [r1 rfl, hm']; rfl
      · simp only [List.mem_cons, List.mem_singleton, List.not_mem_nil, or_false] at hs
        rcases hs with rfl | rfl
        · rw [r2 r rfl, hm']; rfl
        · rw [r3 r rfl]
  | cons K1 Ks ih =>
    intro K hall tail htail body ctail hb fuel hfuel st hst hbr
    have hK : IsKeyword K := hall K (by simp)
    have hall1 : ∀ k ∈ K1 :: Ks, IsKeyword k := fun k hk => hall k (by simp [hk])
    obtain ⟨seg, rest, hbody, hseg, hrest⟩ := segment_decompose body hb
    obtain ⟨f, rfl⟩ : ∃ f, fuel = f + 1 := ⟨fuel - 1, by simp at hfuel; omega⟩
    obtain ⟨r1, r2, r3⟩ := segmentsMatch_split K (K1 :: Ks) hK seg rest hseg
    obtain ⟨a, t, hjoin, ha⟩ := joinColon_cons_head K1 Ks (hall1 K1 (by simp))
    subst hbody
    have hst' : st.At (K ++ (58 :: (joinColon (K1 :: Ks) ++ tail)))
        ((K.length : Int) + 1 + (joinColon (K1 :: Ks)).length) (seg ++ (rest ++ ctail))
        (seg ++ rest).length := by
      have e : ((joinColon (K :: K1 :: Ks)).length : Int) =
          (K.length : Int) + 1 + (joinColon (K1 :: Ks)).length := by
        simp [joinColon]; omega
      rw [← e]
      simpa [joinColon, List.append_assoc] using hst
    have hc : (seg ++ rest).length = seg.length ∨ (seg.length < (seg ++ rest).length ∧
        ∃ s r, rest ++ ctail = s :: r ∧ s ∈ [58, 63]) := by
      rcases hrest with rfl | ⟨s, r, rfl, hs⟩
      · left; simp
      · right; exact ⟨by simp, s, r ++ ctail, rfl, hs⟩
    have hbody := loopBody_keyword numbers_len default_value (ifuel + 1) st K _ _ seg _ _ hK
      hst' (Or.inr ⟨by omega, 58, _, rfl, by simp⟩) hseg hc
    have hat := hst'.after_keyword
    have hatm := hst'.after_mismatch
    have hpl : (K.length : Int) + 1 + (joinColon (K1 :: Ks)).length - K.length =
        1 + (joinColon (K1 :: Ks)).length := by omega
    rw [hpl] at hat hatm
    have hjl : 0 < (joinColon (K1 :: Ks)).length := by rw [hjoin]; simp
    unfold matchLoop
    rw [hbody]
    by_cases hm : kwMatch K seg = true
    · rw [if_pos hm]
      rcases hrest with rfl | ⟨s, r, rfl, hs⟩
      · -- the command is complete, the pattern is not
        have hat' := hat
        rw [hjoin] at hat'
        obtain ⟨s2, hs2, hne, hnum⟩ := residualLoop_mandatory ifuel _ a (t ++ tail) _ _ _
          (by simpa using hat')
          (by intro h; subst h; simp [isalpha, isupper, islower] at ha) (by omega)
          (by simpa [SKIP_CMD, SKIP_PATTERN] using hbr)
        rw [loopMatched_cmd_complete _ _ (by rw [hat.2.2.1]; omega)
          (by rw [hat.2.2.2.2]; simp)]
        rw [hs2]
        simp only [hne, ne_eq, not_false_eq_true, if_true]
        exact ⟨_, rfl, by rw [r1 rfl]; simp, hnum⟩
      · simp only [List.mem_cons, List.mem_singleton, List.not_mem_nil, or_false] at hs
        rcases hs with rfl | rfl
        · -- both continue with a colon
          rw [loopMatched_colon _ _ _ _ _ _ (by simpa using hat) (by omega) (by simp)]
          have hnext := (hat.skipPattern 1).skipCmd 1
          simp only [List.cons_append, List.drop_succ_cons, List.drop_zero] at hnext
          have hb' : 0 ∉ r := fun h => hb (by simp [h])
          obtain ⟨s2, hs2, hres, hnum⟩ := ih K1 hall1 tail htail r ctail hb' f
            (by simp at hfuel ⊢; omega) _
            (by
              have e1 : (1 : Int) + (joinColon (K1 :: Ks)).length - ((1 : Nat) : Int) =
                  (joinColon (K1 :: Ks)).length := by push_cast; omega
              have e2 : (seg ++ 58 :: r).length - seg.length - 1 = r.length := by simp
              rw [e1, e2] at hnext
              exact hnext)
            (by simpa [SKIP_CMD, SKIP_PATTERN] using hbr)
          exact ⟨s2, hs2, by rw [hres, r2 r rfl, hm]; rfl, hnum⟩
        · rw [loopMatched_colon_fail _ _ _ _ 63 _ _ (by simpa using hat) (by decide)
            (by simp) (by omega)]
          exact ⟨_, rfl, by rw [r3 r rfl], rfl⟩
    · rw [if_neg hm]
      rw [loopUnmatched_fail _ _ _ _ _ hatm (by simp)]
      refine ⟨_, rfl, ?_, rfl⟩
      have hm' : kwMatch K seg = false := by simpa using hm
      rcases hrest with rfl | ⟨s, r, rfl, hs⟩
      · rw [r1 rfl, hm']; rfl
      · simp only [List.mem_cons, List.mem_singleton, List.not_mem_nil, or_false] at hs
        rcases hs with rfl | rfl
        · rw [r2 r rfl, hm']; rfl
        · rw [r3 r rfl]
theorem joinColon_no_nul (Ks : List (List Nat)) (h : ∀ k ∈ Ks, IsKeyword k) :
    0 ∉ joinColon Ks := by
  induction Ks with
  | nil => simp [joinColon]
  | cons K Ks ih =>
    have hK := h K (by simp)
    have hK0 : 0 ∉ K := fun hm => (isalpha_ne_hash (hK.2 0 hm)).2 rfl
    cases Ks with
    | nil => simpa [joinColon] using hK0
    | cons K1 Ks =>
      have := ih (fun k hk => h k (by simp [hk]))
      simp only [joinColon, List.mem_append, List.mem_cons, not_or]
      exact ⟨hK0, by decide, this⟩

theorem joinColon_length_ge (Ks : List (List Nat)) (h : ∀ k ∈ Ks, IsKeyword k) :
    Ks.length ≤ (joinColon Ks).length := by
  induction Ks with
  | nil => simp
  | cons K Ks ih =>
    have hK := h K (by simp)
    have hpos : 0 < K.length := List.length_pos.2 hK.1
    cases Ks with
    | nil => simp [joinColon]; omega
    | cons K1 Ks =>
      have := ih (fun k hk => h k (by simp [hk]))
      simp only [joinColon, List.length_append, List.length_cons] at this ⊢
      omega

theorem joinColon_mem (Ks : List (List Nat)) (h : ∀ k ∈ Ks, IsKeyword k) :
    ∀ c ∈ joinColon Ks, isalpha c = true ∨ c = 58 := by
  induction Ks with
  | nil => simp [joinColon]
  | cons K Ks ih =>
    have hK := h K (by simp)
    cases Ks with
    | nil =>
      intro c hc
      exact Or.inl (hK.2 c (by simpa [joinColon] using hc))
    | cons K1 Ks =>
      have := ih (fun k hk => h k (by simp [hk]))
      intro c hc
      simp only [joinColon, List.mem_append, List.mem_cons] at hc
      rcases hc with hc | rfl | hc
      · exact Or.inl (hK.2 c hc)
      · exact Or.inr rfl
      · exact this c hc

theorem joinColon_getLast_ne (Ks : List (List Nat))
    (h : ∀ k ∈ Ks, IsKeyword k) : (joinColon Ks).getLast? ≠ some 63 := by
  intro hl
  have hm : 63 ∈ joinColon Ks := List.mem_of_getLast?_eq_some hl
  rcases joinColon_mem Ks h 63 hm with h1 | h1
  · simp [isalpha, isupper, islower] at h1
  · simp at h1

theorem kwMatch_nil (K : List Nat) (hK : IsKeyword K) (hup : islower (K.headD 0) = false) :
    kwMatch K [] = false := by
  have h2 := hK.getLast_ne_hash []
  rw [List.append_nil] at h2
  cases K with
  | nil => exact absurd rfl hK.1
  | cons a K =>
    simp only [List.headD_cons] at hup
    have h0 : a ≠ 0 := (isalpha_ne_hash (hK.2 a (by simp))).2
    have hs : patternSeparatorShortPos (a :: K) (K.length + 1) ≠ 0 := by
      simp [patternSeparatorShortPos, h0, hup]
    unfold kwMatch matchPattern
    rw [if_neg h2]
    simp [compareStr, hs]
theorem skipPatternStart_letter (st : MatchState) (a : Nat) (t : List Nat) (pl : Int)
    (c : List Nat) (cl : Nat) (h : st.At (a :: t) pl c cl) (h91 : a ≠ 91) (h58 : a ≠ 58) :
    skipPatternStart st = st := by
  have g0 : st.pattern_ptr.get 0 = a := by rw [h.get0]; rfl
  simp [skipPatternStart, g0, h91, h58]

theorem dropLeadingColon_cons_ne (x : Nat) (t : List Nat) (hx : x ≠ 58) :
    dropLeadingColon (x :: t) = x :: t := by
  unfold dropLeadingColon
  split
  · rename_i heq
    simp only [List.cons.injEq] at heq
    exact absurd heq.1 hx
  · rfl

theorem segmentsMatch_first_not_alpha (K : List Nat) (Ks : List (List Nat)) (hK : IsKeyword K)
    (x : Nat) (r : List Nat) (hx : isalpha x = false) (hx58 : x ≠ 58) :
    segmentsMatch (K :: Ks) (splitColon (x :: r)) = false := by
  obtain ⟨first, more, h1, h2⟩ := splitColon_head_mem (x :: r) x hx58 [] r rfl (by simp)
  rw [h1]
  simp only [segmentsMatch, Bool.and_eq_false_iff]
  left
  rw [Bool.eq_false_iff]
  intro hm
  have := kwMatch_alpha K first hK hm x h2
  rw [hx] at this
  exact absurd this (by simp)

theorem matchCommandRest_bracket_free (numbers_len : Nat) (default_value : Int)
    (K : List Nat) (Ks : List (List Nat)) (hall : ∀ k ∈ K :: Ks, IsKeyword k)
    (hup : islower (K.headD 0) = false) (tail : List Nat) (htail : tail.getD 0 0 ≠ 93)
    (body0 ctail : List Nat) (hb : 0 ∉ body0) (fuel : Nat) (hfuel : Ks.length + 1 ≤ fuel)
    (st : MatchState)
    (hst : st.At (joinColon (K :: Ks) ++ tail) (joinColon (K :: Ks)).length (body0 ++ ctail)
      body0.length)
    (hbr : st.brackets = 0) (hres : st.result = false) :
    ∃ s, matchCommandRest numbers_len default_value fuel st = some s ∧
      s.result = segmentsMatch (K :: Ks) (splitColon (dropLeadingColon body0)) ∧
      s.numbers = st.numbers := by
  have hK : IsKeyword K := hall K (by simp)
  obtain ⟨a, t, hjoin, ha⟩ := joinColon_cons_head K Ks hK
  obtain ⟨f, rfl⟩ : ∃ f, fuel = f + 1 := ⟨fuel - 1, by omega⟩
  have hskip : skipPatternStart st = st := by
    have h' : st.At (a :: (t ++ tail)) (joinColon (K :: Ks)).length (body0 ++ ctail)
        body0.length := by
      have := hst
      rw [hjoin, List.cons_append] at this
      rw [hjoin]; exact this
    refine skipPatternStart_letter st a _ _ _ _ h' ?_ ?_
    · intro h; subst h; simp [isalpha, isupper, islower] at ha
    · intro h; subst h; simp [isalpha, isupper, islower] at ha
  have hcp := hst.2.2.2.1
  have hcl := hst.2.2.2.2
  have loop := matchLoop_bracket_free numbers_len default_value f Ks K hall tail htail
  have hknil := kwMatch_nil K hK hup
  unfold matchCommandRest
  simp only [hskip]
  by_cases hcol : st.cmd_ptr.headD 0 = 58 ∧ 2 ≤ st.cmd_len
  · -- the command begins with a colon and has at least two bytes
    obtain ⟨y, r, rfl⟩ : ∃ y r, body0 = 58 :: y :: r := by
      rw [hcp, hcl] at hcol
      match body0, hcol with
      | [], h => simp at h
      | [x], h => simp at h
      | x :: y :: r, h =>
        simp only [List.cons_append, List.headD_cons] at h
        exact ⟨y, r, by rw [h.1]⟩
    have hy : st.cmd_ptr.getD 1 0 = y := by rw [hcp]; rfl
    by_cases hstar : y = 42
    · subst hstar
      rw [if_pos ⟨hcol.1, hcol.2, hy⟩]
      refine ⟨st, rfl, ?_, rfl⟩
      rw [hres]
      exact (segmentsMatch_first_not_alpha K Ks hK 42 r (by decide) (by decide)).symm
    · rw [if_neg (fun h => hstar (hy ▸ h.2.2)), if_pos hcol]
      have hnext := hst.skipCmd 1
      simp only [List.cons_append, List.drop_succ_cons, List.drop_zero, List.length_cons] at hnext
      have e : r.length + 1 + 1 - 1 = (y :: r).length := by simp
      rw [e] at hnext
      exact loop (y :: r) ctail (fun h => hb (by simp [h])) (f + 1) hfuel _
        (by simpa using hnext) (by simpa [SKIP_CMD] using hbr)
  · rw [if_neg (fun h => hcol ⟨h.1, h.2.1⟩), if_neg hcol]
    obtain ⟨s, hs, hr, hn⟩ := loop body0 ctail hb (f + 1) hfuel st hst hbr
    refine ⟨s, hs, ?_, hn⟩
    rw [hr]
    match body0, hcol, hcp, hcl with
    | [], _, _, _ => rfl
    | [x], _, _, _ =>
      by_cases hx : x = 58
      · subst hx
        simp [splitColon, segmentsMatch, hknil, dropLeadingColon]
      · rw [dropLeadingColon_cons_ne x [] hx]
    | x :: y :: r, hcol, hcp, hcl =>
      have hx : x ≠ 58 := by
        intro hx
        apply hcol
        rw [hcp, hcl]
        simp [hx]
      rw [dropLeadingColon_cons_ne x _ hx]
theorem first_colon_decompose (body : List Nat) :
    58 ∉ body ∨ ∃ seg r, body = seg ++ 58 :: r ∧ 58 ∉ seg := by
  induction body with
  | nil => left; simp
  | cons b body ih =>
    by_cases hb : b = 58
    · right; exact ⟨[], body, by simp [hb], by simp⟩
    · rcases ih with h | ⟨seg, r, h1, h2⟩
      · left; simp [h, Ne.symm hb]
      · right
        exact ⟨b :: seg, r, by simp [h1], by simp [h2, Ne.symm hb]⟩

theorem segmentsMatch_question (Ks : List (List Nat)) (hall : ∀ k ∈ Ks, IsKeyword k)
    (body : List Nat) (h : 63 ∈ body) : segmentsMatch Ks (splitColon body) = false := by
  induction Ks generalizing body with
  | nil =>
    cases hs : splitColon body with
    | nil => exact absurd hs (splitColon_ne_nil body)
    | cons x xs => rfl
  | cons K Ks ih =>
    have hK := hall K (by simp)
    rcases first_colon_decompose body with h58 | ⟨seg, r, rfl, h58⟩
    · rw [splitColon_no_colon body h58]
      simp only [segmentsMatch, Bool.and_eq_false_iff]
      left
      rw [Bool.eq_false_iff]
      intro hm
      exact (kwMatch_no_sep K body hK hm).2 h
    · rw [splitColon_append_colon seg r h58]
      simp only [segmentsMatch, Bool.and_eq_false_iff]
      by_cases hseg : 63 ∈ seg
      · left
        rw [Bool.eq_false_iff]
        intro hm
        exact (kwMatch_no_sep K seg hK hm).2 hseg
      · right
        apply ih (fun k hk => hall k (by simp [hk]))
        simp only [List.mem_append, List.mem_cons] at h
        rcases h with h | h | h
        · exact absurd h hseg
        · exact absurd h (by decide)
        · exact h

theorem dropLeadingColon_question (c : List Nat) (h : c.getLast? = some 63) :
    63 ∈ dropLeadingColon c := by
  cases c with
  | nil => simp at h
  | cons x t =>
    by_cases hx : x = 58
    · subst hx
      show 63 ∈ t
      cases t with
      | nil => simp at h
      | cons y t =>
        rw [List.getLast?_cons_cons] at h
        exact List.mem_of_getLast?_eq_some h
    · rw [dropLeadingColon_cons_ne x t hx]
      exact List.mem_of_getLast?_eq_some h
theorem CPtr.bytes_zero (p : List Nat) : (⟨p, 0⟩ : CPtr).bytes = p := by
  simp [CPtr.bytes]

theorem matchCommandRun_bracket_free (K : List Nat) (Ks : List (List Nat)) (query : Bool)
    (c : List Nat) (numbers : Option (List Int)) (numbers_len : Nat) (default_value : Int)
    (hall : ∀ k ∈ K :: Ks, IsKeyword k) (hup : islower (K.headD 0) = false) (hc0 : 0 ∉ c) :
    ∃ s, matchCommandRun (patternText (K :: Ks) query) c c.length numbers numbers_len
        default_value = some s ∧
      s.result = segmentwiseMatch (K :: Ks) query c ∧ s.numbers = numbers := by
  have hj0 := joinColon_no_nul (K :: Ks) hall
  have hjlast := joinColon_getLast_ne (K :: Ks) hall
  have hjlen := joinColon_length_ge (K :: Ks) hall
  have hP0 : 0 ∉ patternText (K :: Ks) query := by
    unfold patternText
    cases query <;> simp [hj0]
  have hPlast : (patternText (K :: Ks) query).getLast? = some 63 ↔ query = true := by
    unfold patternText
    cases query
    · simpa using hjlast
    · simp
  have hPlen : strlen (patternText (K :: Ks) query) = (patternText (K :: Ks) query).length :=
    strlen_of_no_nul _ hP0
  have hclen : strnlen c c.length = c.length := strnlen_of_no_nul c hc0
  have hq : (matchCommandInit (patternText (K :: Ks) query) c c.length numbers).pattern_ptr.get
      ((matchCommandInit (patternText (K :: Ks) query) c c.length numbers).pattern_len - 1) = 63
      ↔ query = true := by
    simp only [matchCommandInit, hPlen, CPtr.get, Int.zero_add]
    rw [byteAt_last_iff _ 63 (by decide)]
    exact hPlast
  have hcq : byteAt c (((matchCommandInit (patternText (K :: Ks) query) c c.length
      numbers).cmd_len : Int) - 1) = 63 ↔ c.getLast? = some 63 := by
    simp only [matchCommandInit, hclen]
    exact byteAt_last_iff c 63 (by decide)
  have hfuel : Ks.length + 1 ≤ strlen (patternText (K :: Ks) query) + 2 := by
    rw [hPlen]
    unfold patternText
    simp only [List.length_append, List.length_cons] at hjlen ⊢
    omega
  unfold matchCommandRun
  simp only [hq, hcq, ne_eq]
  cases query with
  | true =>
    by_cases hcl : c.getLast? = some 63
    · -- both are queries
      obtain ⟨body0, rfl⟩ : ∃ body0, c = body0 ++ [63] := by
        rcases List.eq_nil_or_concat' c with rfl | ⟨b, x, rfl⟩
        · simp at hcl
        · simp at hcl; exact ⟨b, by rw [hcl]⟩
      have hb0 : 0 ∉ body0 := fun h => hc0 (by simp [h])
      simp only [hcl, not_true_eq_false, and_false, if_false, if_true]
      have hat : ({ matchCommandInit (patternText (K :: Ks) true) (body0 ++ [63])
            (body0 ++ [63]).length numbers with
          cmd_len := (matchCommandInit (patternText (K :: Ks) true) (body0 ++ [63])
            (body0 ++ [63]).length numbers).cmd_len - 1,
          pattern_len := (matchCommandInit (patternText (K :: Ks) true) (body0 ++ [63])
            (body0 ++ [63]).length numbers).pattern_len - 1 } : MatchState).At
          (joinColon (K :: Ks) ++ [63]) (joinColon (K :: Ks)).length (body0 ++ [63])
          body0.length := by
        refine ⟨le_refl _, ?_, ?_, rfl, ?_⟩
        · simp [matchCommandInit, CPtr.bytes_zero, patternText]
        · simp only [matchCommandInit, hPlen]
          simp [patternText]
        · simp only [matchCommandInit, hclen]
          simp
      obtain ⟨s, hs, hr, hn⟩ := matchCommandRest_bracket_free numbers_len default_value K Ks
        hall hup [63] (by decide) body0 [63] hb0 _ hfuel _ hat rfl rfl
      refine ⟨s, hs, ?_, hn⟩
      rw [hr]
      simp [segmentwiseMatch, hcl]
    · simp only [hcl, not_false_eq_true, and_self, if_true]
      refine ⟨_, rfl, ?_, rfl⟩
      simp [segmentwiseMatch, hcl, matchCommandInit]
  | false =>
    simp only [Bool.false_eq_true, false_and, if_false]
    have hat : (matchCommandInit (patternText (K :: Ks) false) c c.length numbers).At
        (joinColon (K :: Ks) ++ []) (joinColon (K :: Ks)).length (c ++ []) c.length := by
      refine ⟨le_refl _, ?_, ?_, by simp [matchCommandInit], ?_⟩
      · simp [matchCommandInit, CPtr.bytes_zero, patternText]
      · simp only [matchCommandInit, hPlen]
        simp [patternText]
      · simp only [matchCommandInit, hclen]
    obtain ⟨s, hs, hr, hn⟩ := matchCommandRest_bracket_free numbers_len default_value K Ks
      hall hup [] (by decide) c [] hc0 _ hfuel _ hat rfl rfl
    refine ⟨s, hs, ?_, hn⟩
    rw [hr]
    by_cases hcl : c.getLast? = some 63
    · -- the command is a query, the pattern is not: some segment holds the `?`
      rw [segmentsMatch_question (K :: Ks) hall _ (dropLeadingColon_question c hcl)]
      simp [segmentwiseMatch, hcl]
    · simp [segmentwiseMatch, hcl]

/-- C2 (as amended): for a bracket-free pattern `K1:K2:...:Kn` of keywords of letters
only, optionally ending in `?`, whose first keyword begins with an upper-case
letter, and for every command (a C string, so without NUL), `matchCommand` without
a numbers array returns TRUE exactly when the segment-wise reference does: the
command shares the trailing `?` with the pattern and, after dropping it and one
optional leading `:`, splits on `:` into exactly `n` segments, segment `i`
matching `Ki` by the short-form/long-form rule of `matchPattern`. -/
theorem matchCommand_bracket_free_segmentwise (K : List Nat) (Ks : List (List Nat))
    (query : Bool) (c : List Nat) (hall : ∀ k ∈ K :: Ks, IsKeyword k)
    (hup : isupper (K.headD 0) = true) (hc0 : 0 ∉ c) :
    matchCommand (patternText (K :: Ks) query) c c.length none 0 0 =
      some (segmentwiseMatch (K :: Ks) query c) := by
  have hlow : islower (K.headD 0) = false := by
    simp only [isupper, islower, Bool.and_eq_true, decide_eq_true_eq, Bool.and_eq_false_iff,
      decide_eq_false_iff_not] at hup ⊢
    omega
  obtain ⟨s, hs, hr, _⟩ := matchCommandRun_bracket_free K Ks query c none 0 0 hall hlow hc0
  simp [matchCommand, hs, hr]

theorem matchCommand_bracket_free_segmentwise_witness :
    (∀ k ∈ [str "MEASure", str "VOLTage", str "DC"], IsKeyword k) ∧
    isupper ((str "MEASure").headD 0) = true ∧ 0 ∉ str ":meas:voltage:dc?" ∧
    matchCommand (patternText [str "MEASure", str "VOLTage", str "DC"] true)
        (str ":meas:voltage:dc?") (str ":meas:voltage:dc?").length none 0 0 =
      some (segmentwiseMatch [str "MEASure", str "VOLTage", str "DC"] true
        (str ":meas:voltage:dc?")) :=
  ⟨by decide, by decide, by decide,
    matchCommand_bracket_free_segmentwise (str "MEASure") [str "VOLTage", str "DC"] true
      (str ":meas:voltage:dc?") (by decide) (by decide) (by decide)⟩

/-- C2, counterexample to the claim as stated: the one-keyword pattern `a` (letters
only, but with an empty short form) and the command `:`.  The code keeps the
colon of a one-byte command, finds the pattern complete and the command not,
and returns FALSE; the segment-wise reference drops the leading colon and accepts
the empty segment as the short form. -/
theorem matchCommand_bracket_free_lowercase_counterexample :
    IsKeyword (str "a") ∧ 0 ∉ str ":" ∧
    matchCommand (patternText [str "a"] false) (str ":") (str ":").length none 0 0 =
      some false ∧
    segmentwiseMatch [str "a"] false (str ":") = true := by
  decide

/-! ## Theorems: numeric suffixes -/

theorem isdigit_props {d : Nat} (h : isdigit d = true) :
    isspace d = false ∧ d ≠ 45 ∧ d ≠ 43 ∧ d ≠ 0 ∧ isalpha d = false := by
  simp only [isdigit, Bool.and_eq_true, decide_eq_true_eq] at h
  refine ⟨?_, by omega, by omega, by omega, ?_⟩
  · simp only [isspace, Bool.or_eq_false_iff, beq_eq_false_iff_ne, ne_eq, Bool.and_eq_false_iff,
      decide_eq_false_iff_not]
    omega
  · simp only [isalpha, isupper, islower, Bool.or_eq_false_iff, Bool.and_eq_false_iff,
      decide_eq_false_iff_not]
    omega

theorem takeWhile_append_stop (p : Nat → Bool) (l r : List Nat) (hl : ∀ a ∈ l, p a = true)
    (hr : r = [] ∨ ∃ s t, r = s :: t ∧ p s = false) : (l ++ r).takeWhile p = l := by
  induction l with
  | nil =>
    rcases hr with rfl | ⟨s, t, rfl, hs⟩
    · rfl
    · simp [List.takeWhile, hs]
  | cons a l ih =>
    simp [List.takeWhile, hl a (by simp), ih (fun b hb => hl b (by simp [hb]))]

theorem toInt32_clamp (v : Nat) (h : v < 2147483648) :
    toInt32 (max (-9223372036854775808) (min 9223372036854775807 (v : Int))) = v := by
  have h1 : min (9223372036854775807 : Int) (v : Int) = v := by
    apply min_eq_right; omega
  have h2 : max (-9223372036854775808 : Int) (v : Int) = v := by
    apply max_eq_right; omega
  rw [h1, h2]
  unfold toInt32
  omega

theorem strBaseToInt32_digits (digits crest : List Nat) (hd : ∀ d ∈ digits, isdigit d = true)
    (hne : digits ≠ []) (hcrest : crest = [] ∨ ∃ s t, crest = s :: t ∧ isdigit s = false)
    (hv : digitsValue digits < 2147483648) :
    strBaseToInt32 (digits ++ crest) = (digits.length, (digitsValue digits : Int)) := by
  obtain ⟨d, ds, rfl⟩ := List.exists_cons_of_ne_nil hne
  obtain ⟨hsp, h45, h43, _, _⟩ := isdigit_props (hd d (by simp))
  have hws : ((d :: ds ++ crest).takeWhile isspace).length = 0 := by
    simp [List.takeWhile, hsp]
  have hds : (d :: ds ++ crest).takeWhile isdigit = d :: ds :=
    takeWhile_append_stop isdigit (d :: ds) crest hd hcrest
  have e1 : (d == 45) = false := by simpa using h45
  have e2 : (d == 43) = false := by simpa using h43
  have hst : strtol (d :: ds ++ crest) =
      (max (-9223372036854775808) (min 9223372036854775807 ((digitsValue (d :: ds) : Nat) : Int)),
        (d :: ds).length) := by
    unfold strtol
    simp only [hws, List.drop_zero]
    have hh : (d :: ds ++ crest).headD 0 = d := rfl
    simp only [hh, e1, e2, Bool.or_self, Bool.false_eq_true, if_false, List.drop_zero, hds]
    simp
  unfold strBaseToInt32
  rw [hst, toInt32_clamp _ hv]
theorem kwMatch_cases (K text : List Nat) (hK : IsKeyword K) (h : kwMatch K text = true) :
    ∃ n, (n = K.length ∨ n = patternSeparatorShortPos K K.length) ∧ n ≤ K.length ∧
      text.length = n ∧ text.map tolower = (K.take n).map tolower := by
  have h2 := hK.getLast_ne_hash []
  rw [List.append_nil] at h2
  unfold kwMatch matchPattern at h
  rw [if_neg h2] at h
  simp only [Bool.or_eq_true] at h
  have key : ∀ n, n ≤ K.length → compareStr K n text text.length = true →
      text.length = n ∧ text.map tolower = (K.take n).map tolower := by
    intro n hn hc
    have hsplit : K = K.take n ++ K.drop n := (List.take_append_drop n K).symm
    have hlen : (K.take n).length = n := by simp [hn]
    have hne : ∀ c ∈ K.take n, c ≠ 0 :=
      fun c hc => (isalpha_ne_hash (hK.2 c (List.mem_of_mem_take hc))).2
    rw [hsplit] at hc
    have := (compareStr_eq_true_iff (K.take n) hne (K.drop n) text text.length).1
      (by rw [hlen]; exact hc)
    rw [hlen] at this
    obtain ⟨e1, _, e3⟩ := this
    refine ⟨e1, ?_⟩
    rw [← e1, List.take_length] at e3
    rw [← e1]; exact e3
  rcases h with h | h
  · exact ⟨K.length, Or.inl rfl, le_refl _, key _ (le_refl _) h⟩
  · exact ⟨_, Or.inr rfl, patternSeparatorShortPos_le K K.length,
      key _ (patternSeparatorShortPos_le K K.length) h⟩

theorem compareStrAndNum_accept (K prest text digits crest : List Nat) (num : Option Int)
    (hK : IsKeyword K) (n : Nat) (hn : n ≤ K.length) (hlen : text.length = n)
    (htext : text.map tolower = (K.take n).map tolower)
    (hd : ∀ d ∈ digits, isdigit d = true)
    (hcrest : crest = [] ∨ ∃ s t, crest = s :: t ∧ isdigit s = false)
    (hv : digitsValue digits < 2147483648) :
    compareStrAndNum (K ++ 35 :: prest) n (text ++ (digits ++ crest)) (n + digits.length) num =
      (true, num.map (fun v => if digits = [] then v else (digitsValue digits : Int))) := by
  have hsplit : K ++ 35 :: prest = K.take n ++ (K.drop n ++ 35 :: prest) := by
    rw [← List.append_assoc, List.take_append_drop]
  have hlenK : (K.take n).length = n := by simp [hn]
  have hne : ∀ c ∈ K.take n, c ≠ 0 :=
    fun c hc => (isalpha_ne_hash (hK.2 c (List.mem_of_mem_take hc))).2
  have hcmp : strncasecmp (K ++ 35 :: prest) (text ++ (digits ++ crest)) n = 0 := by
    have := (strncasecmp_eq_zero_iff (K.take n) hne (K.drop n ++ 35 :: prest)
      (text ++ (digits ++ crest))).2
    rw [hlenK, ← hsplit] at this
    apply this
    refine ⟨by simp; omega, ?_⟩
    subst hlen
    rw [List.take_left']
    · exact htext
    · rfl
  have hdrop : (text ++ (digits ++ crest)).drop n = digits ++ crest := by
    rw [← hlen]; simp
  unfold compareStrAndNum
  rw [if_neg (by omega), if_pos hcmp]
  cases num with
  | none =>
    simp only [Option.map_none', Prod.mk.injEq, and_true]
    rw [List.all_eq_true]
    intro i hi
    rw [List.mem_range'_1] at hi
    have hi2 : i < n + digits.length := by omega
    have : (text ++ (digits ++ crest)).getD i 0 ∈ digits := by
      rw [List.getD_eq_getElem?_getD, List.getElem?_append_right (by omega),
        List.getElem?_append_left (by omega)]
      rw [List.getElem?_eq_getElem (by omega)]
      simp only [Option.getD_some]
      exact List.getElem_mem _
    exact hd _ this
  | some v =>
    simp only [Option.map_some']
    by_cases he : digits = []
    · subst he
      simp
    · have hlen0 : digits.length ≠ 0 := by
        intro h0; exact he (List.length_eq_zero.1 h0)
      rw [if_neg (by omega), hdrop, strBaseToInt32_digits digits crest hd he hcrest hv]
      simp [he]

theorem compareStrAndNum_reject_long (K prest text digits crest : List Nat) (num : Option Int)
    (hK : IsKeyword K) (n : Nat) (hn : n < K.length) (hlen : text.length = n)
    (hd : ∀ d ∈ digits, isdigit d = true)
    (hcrest : crest = [] ∨ ∃ s t, crest = s :: t ∧ isalpha s = false) :
    compareStrAndNum (K ++ 35 :: prest) K.length (text ++ (digits ++ crest)) (n + digits.length)
      num = (false, num) := by
  have hne : ∀ c ∈ K, c ≠ 0 := fun c hc => (isalpha_ne_hash (hK.2 c hc)).2
  have hcmp : ¬ strncasecmp (K ++ 35 :: prest) (text ++ (digits ++ crest)) K.length = 0 := by
    intro h0
    obtain ⟨hle, hmap⟩ := (strncasecmp_eq_zero_iff K hne (35 :: prest) _).1 h0
    have hget := congrArg (fun l => l[n]?) hmap
    simp only [List.getElem?_map, List.getElem?_take, hn, if_true,
      List.getElem?_eq_getElem hn, Option.map_some'] at hget
    rw [List.getElem?_append_right (by omega)] at hget
    have hKn : isalpha K[n] = true := hK.2 _ (List.getElem_mem _)
    have hidx : n - text.length = 0 := by omega
    rw [hidx] at hget
    -- the byte of the command at position `n` is a digit, a separator or the end
    cases digits with
    | nil =>
      rcases hcrest with rfl | ⟨s, t, rfl, hs⟩
      · simp at hget
      · simp only [List.nil_append, List.getElem?_cons_zero, Option.map_some',
          Option.some.injEq] at hget
        have := isalpha_of_tolower_eq hget hKn
        rw [hs] at this; exact absurd this (by simp)
    | cons d ds =>
      simp only [List.cons_append, List.getElem?_cons_zero, Option.map_some',
        Option.some.injEq] at hget
      have := isalpha_of_tolower_eq hget hKn
      rw [(isdigit_props (hd d (by simp))).2.2.2.2] at this
      exact absurd this (by simp)
  unfold compareStrAndNum
  split
  · rfl
  · simp only [hcmp, if_false]
theorem matchPattern_hash (K prest text digits crest : List Nat) (num : Option Int)
    (hK : IsKeyword K) (hkw : kwMatch K text = true) (hd : ∀ d ∈ digits, isdigit d = true)
    (hcrest : crest = [] ∨ ∃ s t, crest = s :: t ∧ s ∈ [58, 63])
    (hv : digitsValue digits < 2147483648) :
    matchPattern (K ++ 35 :: prest) (K.length + 1) (text ++ (digits ++ crest))
        (text.length + digits.length) num =
      (true, num.map (fun v => if digits = [] then v else (digitsValue digits : Int))) := by
  have hc1 : crest = [] ∨ ∃ s t, crest = s :: t ∧ isdigit s = false := by
    rcases hcrest with h | ⟨s, t, h, hs⟩
    · exact Or.inl h
    · refine Or.inr ⟨s, t, h, ?_⟩
      simp only [List.mem_cons, List.mem_singleton, List.not_mem_nil, or_false] at hs
      rcases hs with rfl | rfl <;> decide
  have hc2 : crest = [] ∨ ∃ s t, crest = s :: t ∧ isalpha s = false := by
    rcases hcrest with h | ⟨s, t, h, hs⟩
    · exact Or.inl h
    · refine Or.inr ⟨s, t, h, ?_⟩
      simp only [List.mem_cons, List.mem_singleton, List.not_mem_nil, or_false] at hs
      rcases hs with rfl | rfl <;> decide
  obtain ⟨n, hn, hnle, hlen, hmap⟩ := kwMatch_cases K text hK hkw
  have hcond : 0 < K.length + 1 ∧ (K ++ 35 :: prest).getD (K.length + 1 - 1) 0 = 35 := by
    refine ⟨by omega, ?_⟩
    rw [Nat.add_sub_cancel, List.getD_eq_getElem?_getD,
      List.getElem?_append_right (le_refl _)]
    simp
  have hshort : patternSeparatorShortPos (K ++ 35 :: prest) K.length =
      patternSeparatorShortPos K K.length := patternSeparatorShortPos_append K _
  unfold matchPattern
  rw [if_pos hcond]
  simp only [Nat.add_sub_cancel, hshort]
  by_cases hlong : n = K.length
  · -- the long form is spelled out
    have hacc := compareStrAndNum_accept K prest text digits crest num hK n hnle hlen hmap hd
      hc1 hv
    rw [hlong] at hacc
    have e : text.length = K.length := by omega
    rw [e, hacc]
    simp
  · -- the short form: the first comparison fails, the second succeeds
    have hns : n = patternSeparatorShortPos K K.length := by
      rcases hn with h | h
      · exact absurd h hlong
      · exact h
    have hrej := compareStrAndNum_reject_long K prest text digits crest num hK n (by omega)
      hlen hd hc2
    have hacc := compareStrAndNum_accept K prest text digits crest num hK n hnle hlen hmap hd
      hc1 hv
    rw [hlen, hrej]
    simp only [Bool.false_eq_true, if_false]
    rw [← hns, hacc]

theorem KeySeg.Valid.text_ne_nil {i : KeySeg} (h : i.Valid) : i.text ≠ [] := by
  obtain ⟨hK, hup, hkw, _⟩ := h
  intro he
  have hlow : islower (i.K.headD 0) = false := by
    simp only [isupper, islower, Bool.and_eq_true, decide_eq_true_eq, Bool.and_eq_false_iff,
      decide_eq_false_iff_not] at hup ⊢
    omega
  have := kwMatch_nil i.K hK hlow
  rw [he] at hkw
  rw [this] at hkw
  exact absurd hkw (by simp)

theorem KeySeg.Valid.segment_props {i : KeySeg} (h : i.Valid) :
    (∀ c ∈ i.segment, c ≠ 0 ∧ c ∉ [58, 63]) ∧ ∃ a t, i.segment = a :: t ∧ a ≠ 58 := by
  obtain ⟨hK, hup, hkw, hd, _, _⟩ := h
  have halpha := kwMatch_alpha i.K i.text hK hkw
  have hmem : ∀ c ∈ i.segment, c ≠ 0 ∧ c ∉ [58, 63] := by
    intro c hc
    simp only [KeySeg.segment, List.mem_append] at hc
    rcases hc with hc | hc
    · have := halpha c hc
      have h1 := isalpha_not_sep this
      refine ⟨h1.1, ?_⟩
      intro hm
      apply h1.2
      simp only [List.mem_cons, List.mem_singleton, List.not_mem_nil, or_false] at hm ⊢
      rcases hm with rfl | rfl <;> simp
    · have := hd c hc
      simp only [isdigit, Bool.and_eq_true, decide_eq_true_eq] at this
      refine ⟨by omega, ?_⟩
      simp only [List.mem_cons, List.mem_singleton, List.not_mem_nil, or_false]
      omega
  refine ⟨hmem, ?_⟩
  have hne := KeySeg.Valid.text_ne_nil ⟨hK, hup, hkw, hd, ‹_›, ‹_›⟩
  obtain ⟨a, t, ht⟩ := List.exists_cons_of_ne_nil hne
  refine ⟨a, t ++ i.digits, by simp [KeySeg.segment, ht], ?_⟩
  have := (hmem a (by simp [KeySeg.segment, ht])).2
  intro h58; apply this; simp [h58]
theorem KeySeg.store_at (default_value : Int) (i : KeySeg) (st : MatchState) (pb : List Nat)
    (pl : Int) (cb : List Nat) (cl : Nat) (h : st.At pb pl cb cl) :
    (i.store default_value st).At pb pl cb cl := by
  unfold KeySeg.store
  split
  · exact h
  · exact h

theorem matchStep_keyseg (numbers_len : Nat) (default_value : Int) (st : MatchState)
    (i : KeySeg) (hi : i.Valid) (prest : List Nat) (pl : Int) (crest : List Nat) (cl : Nat)
    (h : st.At (i.pattern ++ prest) pl (i.segment ++ crest) cl)
    (hp : pl = i.pattern.length ∨
      ((i.pattern.length : Int) < pl ∧ ∃ s r, prest = s :: r ∧ s ∈ [63, 58, 91, 93]))
    (hcrest : crest = [] ∨ ∃ s r, crest = s :: r ∧ s ∈ [58, 63])
    (hc : cl = i.segment.length ∨ (i.segment.length < cl ∧ crest ≠ []))
    (hnum : ∀ nums, st.numbers = some nums → nums.length = numbers_len) :
    patternSeparatorPos st.pattern_ptr.bytes st.pattern_len = i.pattern.length ∧
    cmdSeparatorPos st.cmd_ptr st.cmd_len = i.segment.length ∧
    matchStep numbers_len default_value st = (true, i.store default_value st) := by
  have hseg := hi.segment_props.1
  obtain ⟨hK, hup, hkw, hd, hnd, hv⟩ := hi
  have hc' : cl = i.segment.length ∨
      (i.segment.length < cl ∧ ∃ s r, crest = s :: r ∧ s ∈ [58, 63]) := by
    rcases hc with h1 | ⟨h1, h2⟩
    · exact Or.inl h1
    · rcases hcrest with h3 | h3
      · exact absurd h3 h2
      · exact Or.inr ⟨h1, h3⟩
  cases hh : i.hash with
  | false =>
    have hpat : i.pattern = i.K := by simp [KeySeg.pattern, hh]
    have hsg : i.segment = i.text := by simp [KeySeg.segment, hnd hh]
    rw [hpat, hsg] at h
    rw [hpat] at hp
    rw [hsg] at hc' hseg
    obtain ⟨e1, e2, e3⟩ := matchStep_keyword numbers_len default_value st i.K prest pl i.text
      crest cl hK h hp hseg hc'
    rw [hpat, hsg]
    refine ⟨e1, e2, ?_⟩
    rw [e3, hkw]
    simp [KeySeg.store, hh]
  | true =>
    have hpat : i.pattern = i.K ++ [35] := by simp [KeySeg.pattern, hh]
    obtain ⟨h1, h2, h3, h4, h5⟩ := h
    have hKh : ∀ c ∈ i.K ++ [35], c ≠ 0 ∧ c ∉ [63, 58, 91, 93] := by
      intro c hc
      rcases List.mem_append.1 hc with hc | hc
      · exact isalpha_not_sep (hK.2 c hc)
      · simp only [List.mem_singleton] at hc; subst hc; decide
    have hps : patternSeparatorPos st.pattern_ptr.bytes st.pattern_len = i.pattern.length := by
      rw [h2, h3, hpat]
      rw [hpat] at hp
      exact patternSeparatorPos_keyword (i.K ++ [35]) prest pl hKh hp
    have hcs : cmdSeparatorPos st.cmd_ptr st.cmd_len = i.segment.length := by
      rw [h4, h5]
      exact cmdSeparatorPos_segment i.segment crest cl hseg hc'
    refine ⟨hps, hcs, ?_⟩
    have hplen : i.pattern.length = i.K.length + 1 := by simp [hpat]
    have hcast : ((i.pattern.length : Nat) : Int) - 1 = ((i.K.length : Nat) : Int) := by
      rw [hplen]; push_cast; omega
    have hhash : (decide (0 < ((i.pattern.length : Nat) : Int)) &&
        (st.pattern_ptr.get (((i.pattern.length : Nat) : Int) - 1) == 35)) = true := by
      rw [hcast, CPtr.get_of_nonneg _ h1, h2, hpat, List.getD_eq_getElem?_getD,
        List.append_assoc, List.getElem?_append_right (le_refl _)]
      simp [hplen]
    have hbytes : st.pattern_ptr.bytes = i.K ++ 35 :: prest := by
      rw [h2, hpat]; simp
    have hcmd : st.cmd_ptr = i.text ++ (i.digits ++ crest) := by
      rw [h4]; simp [KeySeg.segment]
    have hm : ∀ num, matchPattern st.pattern_ptr.bytes (i.K.length + 1) st.cmd_ptr
        (i.text.length + i.digits.length) num =
        (true, num.map (fun v => if i.digits = [] then v else (digitsValue i.digits : Int))) := by
      intro num
      rw [hbytes, hcmd]
      exact matchPattern_hash i.K prest i.text i.digits crest num hK hkw hd hcrest hv
    unfold matchStep
    simp only [hps, hcs, hhash, Bool.true_and, if_true]
    rw [toSizeT_of_nonneg _ (by omega)]
    have hseglen : i.segment.length = i.text.length + i.digits.length := by
      simp [KeySeg.segment]
    simp only [Int.toNat_ofNat, hplen, hseglen, hm]
    -- the three cases of `number_ptr`
    cases hn : st.numbers with
    | none =>
      simp [KeySeg.store, hh, hn]
    | some nums =>
      have hl := hnum nums hn
      by_cases hidx : st.numbers_idx < numbers_len
      · simp [KeySeg.store, hh, hn, hidx, KeySeg.capture]
      · have hge : nums.length ≤ st.numbers_idx := by omega
        simp [KeySeg.store, hh, hn, hidx, List.set_eq_of_length_le hge]
theorem loopBody_keyseg (numbers_len : Nat) (default_value : Int) (fuel : Nat)
    (st : MatchState)
    (i : KeySeg) (hi : i.Valid) (prest : List Nat) (pl : Int) (crest : List Nat) (cl : Nat)
    (h : st.At (i.pattern ++ prest) pl (i.segment ++ crest) cl)
    (hp : pl = i.pattern.length ∨
      ((i.pattern.length : Int) < pl ∧ ∃ s r, prest = s :: r ∧ s ∈ [63, 58, 91, 93]))
    (hcrest : crest = [] ∨ ∃ s r, crest = s :: r ∧ s ∈ [58, 63])
    (hc : cl = i.segment.length ∨ (i.segment.length < cl ∧ crest ≠ []))
    (hnum : ∀ nums, st.numbers = some nums → nums.length = numbers_len) :
    loopBody numbers_len default_value fuel st =
      loopMatched fuel
        { SKIP_CMD (SKIP_PATTERN (i.store default_value st) (i.pattern.length : Int))
            i.segment.length with result := true } := by
  obtain ⟨e1, e2, e3⟩ := matchStep_keyseg numbers_len default_value st i hi prest pl crest cl
    h hp hcrest hc hnum
  unfold loopBody
  simp only [e1, e2, e3, if_true]

theorem KeySeg.store_numbers_length (default_value : Int) (i : KeySeg) (st : MatchState)
    (n : Nat) (hnum : ∀ nums, st.numbers = some nums → nums.length = n) :
    ∀ nums, (i.store default_value st).numbers = some nums → nums.length = n := by
  intro nums h
  unfold KeySeg.store at h
  split at h
  · simp only [Option.map_eq_some'] at h
    obtain ⟨a, ha, rfl⟩ := h
    simp [hnum a ha]
  · exact hnum nums h

theorem KeySeg.store_captureInto (default_value : Int) (i : KeySeg) (items : List KeySeg)
    (st : MatchState) :
    (i.store default_value st).numbers.map
        (captureInto default_value items (i.store default_value st).numbers_idx) =
      st.numbers.map (captureInto default_value (i :: items) st.numbers_idx) := by
  unfold KeySeg.store
  cases hh : i.hash
  · simp [captureInto, hh]
  · cases st.numbers <;> simp [captureInto, hh]

theorem matchLoop_keysegs (numbers_len : Nat) (default_value : Int) (ifuel : Nat) :
    ∀ (items : List KeySeg) (i : KeySeg), (∀ k ∈ i :: items, k.Valid) →
    ∀ (tail ctail : List Nat), (ctail = [] ∨ ∃ s r, ctail = s :: r ∧ s ∈ [58, 63]) →
    ∀ (fuel : Nat), items.length + 1 ≤ fuel →
    ∀ (st : MatchState),
      st.At (joinColon ((i :: items).map KeySeg.pattern) ++ tail)
        (joinColon ((i :: items).map KeySeg.pattern)).length
        (joinColon ((i :: items).map KeySeg.segment) ++ ctail)
        (joinColon ((i :: items).map KeySeg.segment)).length →
      (∀ nums, st.numbers = some nums → nums.length = numbers_len) →
      ∃ s, matchLoop numbers_len default_value ifuel fuel st = some s ∧ s.result = true ∧
        s.numbers = st.numbers.map (captureInto default_value (i :: items) st.numbers_idx) := by
  intro items
  induction items with
  | nil =>
    intro i hall tail ctail hct fuel hfuel st hst hnum
    have hi := hall i (by simp)
    obtain ⟨f, rfl⟩ : ∃ f, fuel = f + 1 := ⟨fuel - 1, by simp at hfuel; omega⟩
    have hst' : st.At (i.pattern ++ tail) (i.pattern.length : Int) (i.segment ++ ctail)
        i.segment.length := by
      simpa [joinColon] using hst
    have hbody := loopBody_keyseg numbers_len default_value ifuel st i hi tail _ ctail _ hst'
      (Or.inl rfl) hct (Or.inl rfl) hnum
    have hat := ((KeySeg.store_at default_value i st _ _ _ _ hst').skipPattern
      i.pattern.length).skipCmd i.segment.length
    unfold matchLoop
    rw [hbody, loopMatched_complete _ _ (by simp [hat.2.2.1]) (by simp [hat.2.2.2.2])]
    refine ⟨_, rfl, rfl, ?_⟩
    have := KeySeg.store_captureInto default_value i [] st
    simp only [captureInto, Option.map_id'] at this
    simpa [SKIP_CMD, SKIP_PATTERN, captureInto] using this
  | cons j items ih =>
    intro i hall tail ctail hct fuel hfuel st hst hnum
    have hi := hall i (by simp)
    have hall1 : ∀ k ∈ j :: items, k.Valid := fun k hk => hall k (by simp [hk])
    obtain ⟨f, rfl⟩ : ∃ f, fuel = f + 1 := ⟨fuel - 1, by simp at hfuel; omega⟩
    -- abbreviations for the rest of the pattern and of the command
    generalize hP : joinColon ((j :: items).map KeySeg.pattern) = P at *
    generalize hC : joinColon ((j :: items).map KeySeg.segment) = C at *
    have hst' : st.At (i.pattern ++ (58 :: (P ++ tail)))
        ((i.pattern.length : Int) + 1 + P.length) (i.segment ++ (58 :: (C ++ ctail)))
        (i.segment.length + 1 + C.length) := by
      have e1 : joinColon ((i :: j :: items).map KeySeg.pattern) = i.pattern ++ 58 :: P := by
        rw [← hP]; rfl
      have e2 : joinColon ((i :: j :: items).map KeySeg.segment) = i.segment ++ 58 :: C := by
        rw [← hC]; rfl
      rw [e1, e2] at hst
      have e3 : ((i.pattern ++ 58 :: P).length : Int) = (i.pattern.length : Int) + 1 + P.length := by
        simp; omega
      have e4 : (i.segment ++ 58 :: C).length = i.segment.length + 1 + C.length := by
        simp; omega
      rw [e3, e4] at hst
      simpa [List.append_assoc] using hst
    have hbody := loopBody_keyseg numbers_len default_value ifuel st i hi _ _ _ _ hst'
      (Or.inr ⟨by omega, 58, _, rfl, by simp⟩) (Or.inr ⟨58, _, rfl, by simp⟩)
      (Or.inr ⟨by omega, by simp⟩) hnum
    have hat := ((KeySeg.store_at default_value i st _ _ _ _ hst').skipPattern
      i.pattern.length).skipCmd i.segment.length
    simp only [List.drop_left', List.drop_left] at hat
    have hat1 : ({ SKIP_CMD (SKIP_PATTERN (i.store default_value st) (i.pattern.length : Int))
        i.segment.length with result := true } : MatchState).At (58 :: (P ++ tail))
        (1 + P.length) (58 :: (C ++ ctail)) (1 + C.length) := by
      have e5 : (i.pattern.length : Int) + 1 + P.length - i.pattern.length = 1 + P.length := by
        omega
      have e6 : i.segment.length + 1 + C.length - i.segment.length = 1 + C.length := by omega
      rw [e5, e6] at hat
      exact hat
    unfold matchLoop
    rw [hbody, loopMatched_colon _ _ _ _ _ _ hat1 (by omega) (by omega)]
    have hnext := (hat1.skipPattern 1).skipCmd 1
    simp only [List.drop_succ_cons, List.drop_zero] at hnext
    have e7 : (1 : Int) + P.length - ((1 : Nat) : Int) = P.length := by push_cast; omega
    have e8 : 1 + C.length - 1 = C.length := by omega
    rw [e7, e8] at hnext
    have hnumN : ∀ nums, (SKIP_CMD (SKIP_PATTERN
        ({ SKIP_CMD (SKIP_PATTERN (i.store default_value st) (i.pattern.length : Int))
            i.segment.length with result := true } : MatchState) ((1 : Nat) : Int)) 1).numbers
          = some nums → nums.length = numbers_len :=
      KeySeg.store_numbers_length default_value i st numbers_len hnum
    obtain ⟨s, hs, hr, hn⟩ := ih j hall1 tail ctail hct f (by simp at hfuel ⊢; omega)
      (SKIP_CMD (SKIP_PATTERN
        ({ SKIP_CMD (SKIP_PATTERN (i.store default_value st) (i.pattern.length : Int))
            i.segment.length with result := true } : MatchState) ((1 : Nat) : Int)) 1)
      (by rw [hP, hC]; exact hnext) hnumN
    refine ⟨s, hs, hr, ?_⟩
    rw [hn]
    exact KeySeg.store_captureInto default_value i (j :: items) st
theorem joinColon_mem_parts (P : Nat → Prop) (h58 : P 58) (Ks : List (List Nat))
    (h : ∀ k ∈ Ks, ∀ c ∈ k, P c) : ∀ c ∈ joinColon Ks, P c := by
  induction Ks with
  | nil => simp [joinColon]
  | cons K Ks ih =>
    cases Ks with
    | nil =>
      intro c hc
      exact h K (by simp) c (by simpa [joinColon] using hc)
    | cons K1 Ks =>
      have := ih (fun k hk => h k (by simp [hk]))
      intro c hc
      simp only [joinColon, List.mem_append, List.mem_cons] at hc
      rcases hc with hc | rfl | hc
      · exact h K (by simp) c hc
      · exact h58
      · exact this c hc

theorem joinColon_length_ge_parts (Ks : List (List Nat)) (h : ∀ k ∈ Ks, k ≠ []) :
    Ks.length ≤ (joinColon Ks).length := by
  induction Ks with
  | nil => simp
  | cons K Ks ih =>
    have hpos : 0 < K.length := List.length_pos.2 (h K (by simp))
    cases Ks with
    | nil => simp [joinColon]; omega
    | cons K1 Ks =>
      have := ih (fun k hk => h k (by simp [hk]))
      simp only [joinColon, List.length_append, List.length_cons] at this ⊢
      omega

theorem KeySeg.Valid.pattern_props {i : KeySeg} (h : i.Valid) :
    (∀ c ∈ i.pattern, c ≠ 0 ∧ c ≠ 63) ∧
      ∃ a t, i.pattern = a :: t ∧ a ≠ 91 ∧ a ≠ 58 := by
  obtain ⟨hK, hup, _⟩ := h
  constructor
  · intro c hc
    simp only [KeySeg.pattern, List.mem_append] at hc
    rcases hc with hc | hc
    · have h1 := isalpha_not_sep (hK.2 c hc)
      refine ⟨h1.1, ?_⟩
      intro hm
      exact h1.2 (by simp [hm])
    · cases hh : i.hash
      · simp [hh] at hc
      · simp [hh] at hc; subst hc; decide
  · obtain ⟨hne, hall⟩ := hK
    cases hKe : i.K with
    | nil => exact absurd hKe hne
    | cons a t =>
      refine ⟨a, t ++ (if i.hash then [35] else []), by simp [KeySeg.pattern, hKe], ?_⟩
      have h1 := isalpha_not_sep (hall a (by simp [hKe]))
      constructor
      · intro hm; exact h1.2 (by simp [hm])
      · intro hm; exact h1.2 (by simp [hm])

theorem KeySeg.Valid.segment_head {i : KeySeg} (h : i.Valid) :
    ∃ a t, i.segment = a :: t ∧ a ≠ 58 ∧ a ≠ 42 := by
  have hne := h.text_ne_nil
  obtain ⟨hK, _, hkw, _⟩ := h
  have halpha := kwMatch_alpha i.K i.text hK hkw
  cases hte : i.text with
  | nil => exact absurd hte hne
  | cons a t =>
    refine ⟨a, t ++ i.digits, by simp [KeySeg.segment, hte], ?_⟩
    have ha := halpha a (by simp [hte])
    have h1 := isalpha_not_sep ha
    constructor
    · intro hm; exact h1.2 (by simp [hm])
    · intro hm; subst hm; simp [isalpha, isupper, islower] at ha

theorem joinColon_head (K : List Nat) (Ks : List (List Nat)) (a : Nat) (t : List Nat)
    (h : K = a :: t) : ∃ r, joinColon (K :: Ks) = a :: r := by
  subst h
  cases Ks with
  | nil => exact ⟨t, rfl⟩
  | cons K1 Ks => exact ⟨t ++ 58 :: joinColon (K1 :: Ks), rfl⟩

theorem matchCommandRest_keysegs (numbers_len : Nat) (default_value : Int)
    (i : KeySeg) (items : List KeySeg) (hall : ∀ k ∈ i :: items, k.Valid)
    (tail ctail : List Nat) (hct : ctail = [] ∨ ∃ s r, ctail = s :: r ∧ s ∈ [58, 63])
    (lead : Bool) (fuel : Nat) (hfuel : items.length + 1 ≤ fuel) (st : MatchState)
    (hst : st.At (joinColon ((i :: items).map KeySeg.pattern) ++ tail)
      (joinColon ((i :: items).map KeySeg.pattern)).length
      ((if lead then [58] else []) ++ (joinColon ((i :: items).map KeySeg.segment) ++ ctail))
      ((if lead then 1 else 0) + (joinColon ((i :: items).map KeySeg.segment)).length))
    (hnum : ∀ nums, st.numbers = some nums → nums.length = numbers_len) :
    ∃ s, matchCommandRest numbers_len default_value fuel st = some s ∧ s.result = true ∧
      s.numbers = st.numbers.map (captureInto default_value (i :: items) st.numbers_idx) := by
  have hi := hall i (by simp)
  obtain ⟨a, t, hpa, ha91, ha58⟩ := hi.pattern_props.2
  obtain ⟨b, u, hsb, hb58, hb42⟩ := hi.segment_head
  obtain ⟨r, hr⟩ := joinColon_head i.pattern (items.map KeySeg.pattern) a t hpa
  obtain ⟨v, hv⟩ := joinColon_head i.segment (items.map KeySeg.segment) b u hsb
  simp only [List.map_cons] at hst ⊢
  have hskip : skipPatternStart st = st := by
    have h' := hst
    rw [hr, List.cons_append] at h'
    exact skipPatternStart_letter st a _ _ _ _ h' ha91 ha58
  have loop := matchLoop_keysegs numbers_len default_value fuel items i hall tail ctail hct
    fuel hfuel
  simp only [List.map_cons] at loop
  unfold matchCommandRest
  simp only [hskip]
  cases lead with
  | true =>
    simp only [if_true, List.singleton_append] at hst
    have hcp := hst.2.2.2.1
    have hcl := hst.2.2.2.2
    have h0 : st.cmd_ptr.headD 0 = 58 := by rw [hcp]; rfl
    have h1 : st.cmd_ptr.getD 1 0 = b := by rw [hcp, hv]; rfl
    have h2 : 2 ≤ st.cmd_len := by rw [hcl, hv]; simp; omega
    rw [if_neg (fun h => hb42 (h1 ▸ h.2.2)), if_pos ⟨h0, h2⟩]
    have hnext := hst.skipCmd 1
    simp only [List.drop_succ_cons, List.drop_zero, Nat.add_sub_cancel_left] at hnext
    exact loop _ hnext hnum
  | false =>
    simp only [Bool.false_eq_true, if_false, List.nil_append, Nat.zero_add] at hst
    have hcp := hst.2.2.2.1
    have h0 : st.cmd_ptr.headD 0 ≠ 58 := by rw [hcp, hv]; exact hb58
    rw [if_neg (fun h => h0 h.1), if_neg (fun h => h0 h.1)]
    exact loop st hst hnum
theorem captureInto_length (default_value : Int) (items : List KeySeg) :
    ∀ (idx : Nat) (nums : List Int),
      (captureInto default_value items idx nums).length = nums.length := by
  induction items with
  | nil => intro idx nums; rfl
  | cons i items ih =>
    intro idx nums
    unfold captureInto
    by_cases hh : i.hash = true
    · rw [if_pos hh, ih]; simp
    · rw [if_neg hh, ih]

theorem captureInto_below (default_value : Int) (items : List KeySeg) :
    ∀ (idx : Nat) (nums : List Int) (j : Nat), j < idx →
      (captureInto default_value items idx nums)[j]? = nums[j]? := by
  induction items with
  | nil => intro idx nums j _; rfl
  | cons i items ih =>
    intro idx nums j hj
    unfold captureInto
    by_cases hh : i.hash = true
    · rw [if_pos hh, ih (idx + 1) _ j (by omega)]
      exact List.getElem?_set_ne (by omega)
    · rw [if_neg hh, ih idx nums j hj]

theorem captureInto_getElem (default_value : Int) (items : List KeySeg) :
    ∀ (idx : Nat) (nums : List Int) (j : Nat) (k : KeySeg),
      (items.filter (fun i => i.hash))[j]? = some k → idx + j < nums.length →
      (captureInto default_value items idx nums)[idx + j]? =
        some (k.capture default_value) := by
  induction items with
  | nil => intro idx nums j k h; simp at h
  | cons i items ih =>
    intro idx nums j k h hlt
    unfold captureInto
    by_cases hh : i.hash = true
    · rw [if_pos hh]
      rw [List.filter_cons_of_pos hh] at h
      cases j with
      | zero =>
        simp only [List.getElem?_cons_zero, Option.some.injEq] at h
        subst h
        have hlt0 : idx < nums.length := by simpa using hlt
        show (captureInto default_value items (idx + 1) _)[idx]? = _
        rw [captureInto_below default_value items (idx + 1) _ idx (by omega)]
        simp [List.getElem?_set_self, hlt0]
      | succ j =>
        simp only [List.getElem?_cons_succ] at h
        have := ih (idx + 1) (nums.set idx (i.capture default_value)) j k h
          (by simp; omega)
        rw [show idx + (j + 1) = idx + 1 + j by omega]
        exact this
    · rw [if_neg hh]
      rw [List.filter_cons_of_neg hh] at h
      exact ih idx nums j k h hlt
theorem matchCommandRun_keysegs (i : KeySeg) (items : List KeySeg) (lead query : Bool)
    (numbers : Option (List Int)) (numbers_len : Nat) (default_value : Int)
    (hall : ∀ k ∈ i :: items, k.Valid)
    (hnum : ∀ nums, numbers = some nums → nums.length = numbers_len) :
    ∃ s, matchCommandRun (suffixPattern (i :: items) query)
        (suffixCommand (i :: items) lead query) (suffixCommand (i :: items) lead query).length
        numbers numbers_len default_value = some s ∧ s.result = true ∧
      s.numbers = numbers.map (captureInto default_value (i :: items) 0) := by
  generalize hP : joinColon ((i :: items).map KeySeg.pattern) = P
  generalize hC : joinColon ((i :: items).map KeySeg.segment) = C
  have hP' : joinColon (i.pattern :: items.map KeySeg.pattern) = P := hP
  have hC' : joinColon (i.segment :: items.map KeySeg.segment) = C := hC
  have hPm : ∀ c ∈ P, c ≠ 0 ∧ c ≠ 63 := by
    rw [← hP]
    refine joinColon_mem_parts (fun c => c ≠ 0 ∧ c ≠ 63) (by decide) _ ?_
    intro k hk c hc
    obtain ⟨x, hx, rfl⟩ := List.mem_map.1 hk
    exact (hall x hx).pattern_props.1 c hc
  have hCm : ∀ c ∈ C, c ≠ 0 := by
    rw [← hC]
    refine joinColon_mem_parts (fun c => c ≠ 0) (by decide) _ ?_
    intro k hk c hc
    obtain ⟨x, hx, rfl⟩ := List.mem_map.1 hk
    exact ((hall x hx).segment_props.1 c hc).1
  have hPlenge : items.length + 1 ≤ P.length := by
    rw [← hP]
    have := joinColon_length_ge_parts ((i :: items).map KeySeg.pattern) (by
      intro k hk
      obtain ⟨x, hx, rfl⟩ := List.mem_map.1 hk
      obtain ⟨a, t, e, _⟩ := (hall x hx).pattern_props.2
      rw [e]; simp)
    simpa using this
  have hP0 : 0 ∉ suffixPattern (i :: items) query := by
    unfold suffixPattern
    rw [hP]
    intro h
    rcases List.mem_append.1 h with h | h
    · exact (hPm 0 h).1 rfl
    · cases query <;> simp at h
  have hc0 : 0 ∉ suffixCommand (i :: items) lead query := by
    unfold suffixCommand
    rw [hC]
    intro h
    rcases List.mem_append.1 h with h | h
    · cases lead <;> simp at h
    · rcases List.mem_append.1 h with h | h
      · exact hCm 0 h rfl
      · cases query <;> simp at h
  have hPlen := strlen_of_no_nul _ hP0
  have hclen := strnlen_of_no_nul _ hc0
  have hPlast : (suffixPattern (i :: items) query).getLast? = some 63 ↔ query = true := by
    unfold suffixPattern
    rw [hP]
    cases query
    · simp only [Bool.false_eq_true, if_false, List.append_nil, iff_false]
      intro hl
      exact (hPm 63 (List.mem_of_getLast?_eq_some hl)).2 rfl
    · simp
  have hClast : query = true → (suffixCommand (i :: items) lead query).getLast? = some 63 := by
    intro hq
    subst hq
    unfold suffixCommand
    simp only [if_true, ← List.append_assoc]
    simp
  have hq : (matchCommandInit (suffixPattern (i :: items) query)
      (suffixCommand (i :: items) lead query) (suffixCommand (i :: items) lead query).length
      numbers).pattern_ptr.get
      ((matchCommandInit (suffixPattern (i :: items) query)
      (suffixCommand (i :: items) lead query) (suffixCommand (i :: items) lead query).length
      numbers).pattern_len - 1) = 63 ↔ query = true := by
    simp only [matchCommandInit, hPlen, CPtr.get, Int.zero_add]
    rw [byteAt_last_iff _ 63 (by decide)]
    exact hPlast
  have hcq : byteAt (suffixCommand (i :: items) lead query)
      (((matchCommandInit (suffixPattern (i :: items) query)
      (suffixCommand (i :: items) lead query) (suffixCommand (i :: items) lead query).length
      numbers).cmd_len : Int) - 1) = 63 ↔
      (suffixCommand (i :: items) lead query).getLast? = some 63 := by
    simp only [matchCommandInit, hclen]
    exact byteAt_last_iff _ 63 (by decide)
  have hfuel : items.length + 1 ≤ strlen (suffixPattern (i :: items) query) + 2 := by
    rw [hPlen]
    unfold suffixPattern
    rw [hP]
    simp only [List.length_append]
    omega
  unfold matchCommandRun
  simp only [hq, hcq, ne_eq]
  cases query with
  | true =>
    simp only [hClast rfl, not_true_eq_false, and_false, if_false, if_true]
    refine matchCommandRest_keysegs numbers_len default_value i items hall [63] [63]
      (Or.inr ⟨63, [], rfl, by simp⟩) lead _ hfuel _ ?_ hnum
    rw [hP, hC]
    refine ⟨le_refl _, ?_, ?_, ?_, ?_⟩
    · simp [matchCommandInit, CPtr.bytes_zero, suffixPattern, hP']
    · simp only [matchCommandInit, hPlen]
      simp [suffixPattern, hP']
    · simp [matchCommandInit, suffixCommand, hC']
    · simp only [matchCommandInit, hclen]
      cases lead <;> simp [suffixCommand, hC']
      omega
  | false =>
    simp only [Bool.false_eq_true, false_and, if_false]
    refine matchCommandRest_keysegs numbers_len default_value i items hall [] []
      (Or.inl rfl) lead _ hfuel _ ?_ hnum
    rw [hP, hC]
    refine ⟨le_refl _, ?_, ?_, ?_, ?_⟩
    · simp [matchCommandInit, CPtr.bytes_zero, suffixPattern, hP']
    · simp only [matchCommandInit, hPlen]
      simp [suffixPattern, hP']
    · simp [matchCommandInit, suffixCommand, hC']
    · simp only [matchCommandInit, hclen]
      cases lead <;> simp [suffixCommand, hC']
      omega

/-- Patterns without brackets: take a pattern of colon-separated keywords (letters only, each
beginning with an upper-case letter), some of them ending in `#`, optionally
closed by `?`, and a command that spells every keyword in its short or long form,
a `#` keyword followed by a possibly empty run of decimal digits whose value
is below `2^31`.  Called with a numbers array of `numbers_len` cells,
`matchCommand` returns TRUE and leaves the array with its length unchanged and,
for every `j` below that length, cell `j` equal to the decimal value of the digit
run of the segment matched by the `j`-th `#` keyword (counting from 0) when the
run is non-empty, and equal to `default_value` when it is empty. -/
theorem matchCommand_numeric_suffix_capture (i : KeySeg) (items : List KeySeg)
    (lead query : Bool) (nums : List Int) (default_value : Int)
    (hall : ∀ k ∈ i :: items, k.Valid) :
    matchCommand (suffixPattern (i :: items) query) (suffixCommand (i :: items) lead query)
        (suffixCommand (i :: items) lead query).length (some nums) nums.length default_value =
      some true ∧
    ∃ out, matchCommandNumbers (suffixPattern (i :: items) query)
        (suffixCommand (i :: items) lead query) (suffixCommand (i :: items) lead query).length
        (some nums) nums.length default_value = some out ∧ out.length = nums.length ∧
      ∀ (j : Nat) (k : KeySeg), ((i :: items).filter (fun x => x.hash))[j]? = some k →
        j < nums.length →
        out[j]? = some (if k.digits = [] then default_value else (digitsValue k.digits : Int)) := by
  obtain ⟨s, hs, hr, hn⟩ := matchCommandRun_keysegs i items lead query (some nums) nums.length
    default_value hall (by intro n h; cases h; rfl)
  refine ⟨by simp [matchCommand, hs, hr], captureInto default_value (i :: items) 0 nums,
    by simp [matchCommandNumbers, hs, hn], captureInto_length _ _ _ _, ?_⟩
  intro j k hk hj
  have := captureInto_getElem default_value (i :: items) 0 nums j k hk (by omega)
  rw [Nat.zero_add] at this
  exact this

theorem matchCommand_numeric_suffix_capture_witness :
    (∀ k ∈ [(⟨str "CONFigure", false, str "CONF", []⟩ : KeySeg),
        ⟨str "CHANnel", true, str "chan", str "5"⟩], k.Valid) ∧
    suffixPattern [⟨str "CONFigure", false, str "CONF", []⟩,
        ⟨str "CHANnel", true, str "chan", str "5"⟩] true = str "CONFigure:CHANnel#?" ∧
    suffixCommand [⟨str "CONFigure", false, str "CONF", []⟩,
        ⟨str "CHANnel", true, str "chan", str "5"⟩] false true = str "CONF:chan5?" ∧
    (matchCommand (suffixPattern [⟨str "CONFigure", false, str "CONF", []⟩,
          ⟨str "CHANnel", true, str "chan", str "5"⟩] true)
        (suffixCommand [⟨str "CONFigure", false, str "CONF", []⟩,
          ⟨str "CHANnel", true, str "chan", str "5"⟩] false true)
        (suffixCommand [⟨str "CONFigure", false, str "CONF", []⟩,
          ⟨str "CHANnel", true, str "chan", str "5"⟩] false true).length
        (some [0, 0]) ([0, 0] : List Int).length 1 = some true ∧
      ∃ out, matchCommandNumbers (suffixPattern [⟨str "CONFigure", false, str "CONF", []⟩,
          ⟨str "CHANnel", true, str "chan", str "5"⟩] true)
        (suffixCommand [⟨str "CONFigure", false, str "CONF", []⟩,
          ⟨str "CHANnel", true, str "chan", str "5"⟩] false true)
        (suffixCommand [⟨str "CONFigure", false, str "CONF", []⟩,
          ⟨str "CHANnel", true, str "chan", str "5"⟩] false true).length
        (some [0, 0]) ([0, 0] : List Int).length 1 = some out ∧
        out.length = ([0, 0] : List Int).length ∧
        ∀ (j : Nat) (k : KeySeg),
          (([⟨str "CONFigure", false, str "CONF", []⟩,
            ⟨str "CHANnel", true, str "chan", str "5"⟩] : List KeySeg).filter
              (fun x => x.hash))[j]? = some k →
          j < ([0, 0] : List Int).length →
          out[j]? = some (if k.digits = [] then 1 else (digitsValue k.digits : Int))) :=
  ⟨by decide, by decide, by decide,
    matchCommand_numeric_suffix_capture ⟨str "CONFigure", false, str "CONF", []⟩
      [⟨str "CHANnel", true, str "chan", str "5"⟩] false true [0, 0] 1 (by decide)⟩


theorem captureInto_numbers_length (default_value : Int) (items : List KeySeg) (idx : Nat)
    (numbers : Option (List Int)) (n : Nat)
    (hnum : ∀ nums, numbers = some nums → nums.length = n) :
    ∀ nums, numbers.map (captureInto default_value items idx) = some nums →
      nums.length = n := by
  intro nums h
  simp only [Option.map_eq_some'] at h
  obtain ⟨a, ha, rfl⟩ := h
  rw [captureInto_length]
  exact hnum a ha

/-- The main loop on a pattern that begins with the keywords `i :: items` and a command
that begins with their segments: after the last of them the loop is at the
`if (matchPattern(...))` body with the rest of the pattern and of the command. -/
theorem matchLoop_keysegs_prefix (numbers_len : Nat) (default_value : Int) (ifuel : Nat) :
    ∀ (items : List KeySeg) (i : KeySeg), (∀ k ∈ i :: items, k.Valid) →
    ∀ (ptail ctail : List Nat) (n m : Nat),
      (n = 0 ∨ ∃ s r, ptail = s :: r ∧ s ∈ [63, 58, 91, 93]) →
      (ctail = [] ∨ ∃ s r, ctail = s :: r ∧ s ∈ [58, 63]) → (m = 0 ∨ ctail ≠ []) →
    ∀ (fuel : Nat) (st : MatchState),
      st.At (joinColon ((i :: items).map KeySeg.pattern) ++ ptail)
        (((joinColon ((i :: items).map KeySeg.pattern)).length : Int) + n)
        (joinColon ((i :: items).map KeySeg.segment) ++ ctail)
        ((joinColon ((i :: items).map KeySeg.segment)).length + m) →
      (∀ nums, st.numbers = some nums → nums.length = numbers_len) →
      ∃ st1 : MatchState, st1.At ptail n ctail m ∧ st1.brackets = st.brackets ∧
        st1.result = true ∧
        st1.numbers = st.numbers.map (captureInto default_value (i :: items) st.numbers_idx) ∧
        matchLoop numbers_len default_value ifuel (fuel + items.length + 1) st =
          match loopMatched ifuel st1 with
          | .next s1 => matchLoop numbers_len default_value ifuel fuel s1
          | .done s1 => some s1
          | .stuck => none := by
  intro items
  induction items with
  | nil =>
    intro i hall ptail ctail n m hn hct hm fuel st hst hnum
    have hi := hall i (by simp)
    have hst' : st.At (i.pattern ++ ptail) ((i.pattern.length : Int) + n) (i.segment ++ ctail)
        (i.segment.length + m) := by
      simpa [joinColon] using hst
    have hbody := loopBody_keyseg numbers_len default_value ifuel st i hi ptail _ ctail _ hst'
      (by rcases Nat.eq_zero_or_pos n with h0 | h0
          · left; subst h0; simp
          · right
            rcases hn with h | h
            · omega
            · exact ⟨by omega, h⟩)
      hct
      (by rcases hm with h | h
          · left; subst h; rfl
          · rcases Nat.eq_zero_or_pos m with h0 | h0
            · left; subst h0; rfl
            · right; exact ⟨by omega, h⟩) hnum
    have hat := ((KeySeg.store_at default_value i st _ _ _ _ hst').skipPattern
      i.pattern.length).skipCmd i.segment.length
    simp only [List.drop_left', List.drop_left] at hat
    have e5 : (i.pattern.length : Int) + n - i.pattern.length = n := by omega
    have e6 : i.segment.length + m - i.segment.length = m := by omega
    rw [e5, e6] at hat
    refine ⟨{ SKIP_CMD (SKIP_PATTERN (i.store default_value st) (i.pattern.length : Int))
        i.segment.length with result := true }, hat, ?_, rfl, ?_, ?_⟩
    · simp only [SKIP_CMD, SKIP_PATTERN, KeySeg.store]
      split <;> rfl
    · have := KeySeg.store_captureInto default_value i [] st
      simp only [captureInto, Option.map_id'] at this
      simpa [SKIP_CMD, SKIP_PATTERN, captureInto] using this
    · simp only [List.length_nil, Nat.add_zero]
      rw [matchLoop, hbody]
  | cons j items ih =>
    intro i hall ptail ctail n m hn hct hm fuel st hst hnum
    have hi := hall i (by simp)
    have hall1 : ∀ k ∈ j :: items, k.Valid := fun k hk => hall k (by simp [hk])
    generalize hP : joinColon ((j :: items).map KeySeg.pattern) = P at *
    generalize hC : joinColon ((j :: items).map KeySeg.segment) = C at *
    have hst' : st.At (i.pattern ++ (58 :: (P ++ ptail)))
        ((i.pattern.length : Int) + 1 + (P.length + n)) (i.segment ++ (58 :: (C ++ ctail)))
        (i.segment.length + 1 + (C.length + m)) := by
      have e1 : joinColon ((i :: j :: items).map KeySeg.pattern) = i.pattern ++ 58 :: P := by
        rw [← hP]; rfl
      have e2 : joinColon ((i :: j :: items).map KeySeg.segment) = i.segment ++ 58 :: C := by
        rw [← hC]; rfl
      rw [e1, e2] at hst
      have e3 : ((i.pattern ++ 58 :: P).length : Int) + n =
          (i.pattern.length : Int) + 1 + (P.length + n) := by
        simp; omega
      have e4 : (i.segment ++ 58 :: C).length + m = i.segment.length + 1 + (C.length + m) := by
        simp; omega
      rw [e3, e4] at hst
      simpa [List.append_assoc] using hst
    have hbody := loopBody_keyseg numbers_len default_value ifuel st i hi _ _ _ _ hst'
      (Or.inr ⟨by omega, 58, _, rfl, by simp⟩) (Or.inr ⟨58, _, rfl, by simp⟩)
      (Or.inr ⟨by omega, by simp⟩) hnum
    have hat := ((KeySeg.store_at default_value i st _ _ _ _ hst').skipPattern
      i.pattern.length).skipCmd i.segment.length
    simp only [List.drop_left', List.drop_left] at hat
    have hat1 : ({ SKIP_CMD (SKIP_PATTERN (i.store default_value st) (i.pattern.length : Int))
        i.segment.length with result := true } : MatchState).At (58 :: (P ++ ptail))
        (1 + (P.length + n)) (58 :: (C ++ ctail)) (1 + (C.length + m)) := by
      have e5 : (i.pattern.length : Int) + 1 + (P.length + n) - i.pattern.length =
          1 + (P.length + n) := by omega
      have e6 : i.segment.length + 1 + (C.length + m) - i.segment.length =
          1 + (C.length + m) := by omega
      rw [e5, e6] at hat
      exact hat
    have hnext := (hat1.skipPattern 1).skipCmd 1
    simp only [List.drop_succ_cons, List.drop_zero] at hnext
    have e7 : (1 : Int) + (P.length + n) - ((1 : Nat) : Int) = (P.length : Int) + n := by
      push_cast; omega
    have e8 : 1 + (C.length + m) - 1 = C.length + m := by omega
    rw [e7, e8] at hnext
    have hnumN : ∀ nums, (SKIP_CMD (SKIP_PATTERN
        ({ SKIP_CMD (SKIP_PATTERN (i.store default_value st) (i.pattern.length : Int))
            i.segment.length with result := true } : MatchState) ((1 : Nat) : Int)) 1).numbers
          = some nums → nums.length = numbers_len :=
      KeySeg.store_numbers_length default_value i st numbers_len hnum
    obtain ⟨st1, h1, h2, h3, h4, h5⟩ := ih j hall1 ptail ctail n m hn hct hm fuel
      (SKIP_CMD (SKIP_PATTERN
        ({ SKIP_CMD (SKIP_PATTERN (i.store default_value st) (i.pattern.length : Int))
            i.segment.length with result := true } : MatchState) ((1 : Nat) : Int)) 1)
      (by rw [hP, hC]; exact hnext) hnumN
    refine ⟨st1, h1, ?_, h3, ?_, ?_⟩
    · rw [h2]
      simp only [SKIP_CMD, SKIP_PATTERN, KeySeg.store]
      split <;> rfl
    · rw [h4]
      exact KeySeg.store_captureInto default_value i (j :: items) st
    · rw [← h5]
      have e9 : fuel + (j :: items).length + 1 = (fuel + items.length + 1) + 1 := by
        simp; omega
      rw [e9, matchLoop, hbody, loopMatched_colon _ _ _ _ _ _ hat1 (by omega) (by omega)]
      rfl
/-- The start of `matchCommand` on a pattern `pb` and a command `cb` that both end in
`?` or both do not: the query check passes and the rest runs on the texts without
the `?`. -/
theorem matchCommandRun_frame (pb cb : List Nat) (query : Bool)
    (numbers : Option (List Int)) (numbers_len : Nat) (default_value : Int)
    (hp0 : 0 ∉ pb) (hc0 : 0 ∉ cb) (hplast : pb.getLast? ≠ some 63) :
    matchCommandRun (pb ++ (if query then [63] else [])) (cb ++ (if query then [63] else []))
        (cb ++ (if query then [63] else [])).length numbers numbers_len default_value =
      matchCommandRest numbers_len default_value
        (strlen (pb ++ (if query then [63] else [])) + 2)
        { pattern_ptr := ⟨pb ++ (if query then [63] else []), 0⟩,
          pattern_len := (pb.length : Int),
          cmd_ptr := cb ++ (if query then [63] else []), cmd_len := cb.length,
          brackets := 0, numbers_idx := 0, numbers := numbers, result := false } := by
  cases query with
  | true =>
    simp only [if_true]
    have hP0 : 0 ∉ pb ++ [63] := by simp [hp0]
    have hC0 : 0 ∉ cb ++ [63] := by simp [hc0]
    have hPlen := strlen_of_no_nul _ hP0
    have hClen := strnlen_of_no_nul _ hC0
    have hq : byteAt (pb ++ [63]) (((pb ++ [63]).length : Int) - 1) = 63 :=
      (byteAt_last_iff _ 63 (by decide)).2 (by simp)
    have hcq : byteAt (cb ++ [63]) (((cb ++ [63]).length : Int) - 1) = 63 :=
      (byteAt_last_iff _ 63 (by decide)).2 (by simp)
    unfold matchCommandRun
    simp only [matchCommandInit, hPlen, hClen, CPtr.get, Int.zero_add, hq, hcq, ne_eq,
      not_true_eq_false, and_false, if_false, if_true]
    congr 1
    simp
  | false =>
    simp only [Bool.false_eq_true, if_false, List.append_nil]
    have hPlen := strlen_of_no_nul _ hp0
    have hClen := strnlen_of_no_nul _ hc0
    have hq : byteAt pb ((pb.length : Int) - 1) ≠ 63 := by
      rw [ne_eq, byteAt_last_iff _ 63 (by decide)]
      exact hplast
    unfold matchCommandRun
    simp only [matchCommandInit, hPlen, hClen, CPtr.get, Int.zero_add, hq, ne_eq,
      false_and, if_false]

theorem skipPatternStart_open (st : MatchState) (p : List Nat) (pl : Int)
    (c : List Nat) (cl : Nat) (h : st.At (91 :: 58 :: p) pl c cl) :
    (skipPatternStart st).At p (pl - 2) c cl ∧
      (skipPatternStart st).brackets = st.brackets + 1 ∧
      (skipPatternStart st).numbers = st.numbers ∧
      (skipPatternStart st).numbers_idx = st.numbers_idx := by
  have g0 : st.pattern_ptr.get 0 = 91 := by rw [h.get0]; rfl
  have h1 := h.skipPattern 1
  simp only [List.drop_succ_cons, List.drop_zero] at h1
  have g1 : (SKIP_PATTERN st 1).pattern_ptr.get 0 = 58 := by
    have := h1.get0
    exact this
  have h2 := h1.skipPattern 1
  simp only [List.drop_succ_cons, List.drop_zero] at h2
  have e : pl - ((1 : Nat) : Int) - ((1 : Nat) : Int) = pl - 2 := by push_cast; omega
  rw [e] at h2
  have hs : skipPatternStart st =
      { SKIP_PATTERN (SKIP_PATTERN st 1) 1 with brackets := st.brackets + 1 } := by
    simp only [skipPatternStart, g0, if_true]
    have g1' : ({ SKIP_PATTERN st 1 with brackets := st.brackets + 1 } :
        MatchState).pattern_ptr.get 0 = 58 := g1
    rw [if_pos g1']
    rfl
  rw [hs]
  exact ⟨h2, rfl, rfl, rfl⟩

/-- The part of `matchCommand` between the query check and the main loop, for a
command that begins with an optional `:` and then a byte that is neither `:`
nor `*`: the leading colon is skipped and the main loop starts. -/
theorem matchCommandRest_lead (numbers_len : Nat) (default_value : Int) (fuel : Nat)
    (st : MatchState) (lead : Bool) (b : Nat) (u : List Nat) (cl : Nat)
    (hcp : (skipPatternStart st).cmd_ptr = (if lead then [58] else []) ++ b :: u)
    (hcl : (skipPatternStart st).cmd_len = (if lead then 1 else 0) + (cl + 1))
    (hb58 : b ≠ 58) (hb42 : b ≠ 42) :
    matchCommandRest numbers_len default_value fuel st =
      matchLoop numbers_len default_value fuel fuel
        (if lead then SKIP_CMD (skipPatternStart st) 1 else skipPatternStart st) := by
  unfold matchCommandRest
  cases lead with
  | true =>
    simp only [if_true, List.singleton_append] at hcp hcl ⊢
    have h0 : (skipPatternStart st).cmd_ptr.headD 0 = 58 := by rw [hcp]; rfl
    have h1 : (skipPatternStart st).cmd_ptr.getD 1 0 = b := by rw [hcp]; rfl
    have h2 : 2 ≤ (skipPatternStart st).cmd_len := by rw [hcl]; omega
    simp only [h0, h1, h2, hb42, and_false, and_self, if_false, if_true]
  | false =>
    simp only [Bool.false_eq_true, if_false, List.nil_append] at hcp ⊢
    have h0 : (skipPatternStart st).cmd_ptr.headD 0 ≠ 58 := by rw [hcp]; exact hb58
    simp only [h0, false_and, if_false]
theorem SKIP_CMD_lead_at (st : MatchState) (lead : Bool) (p : List Nat) (pl : Int)
    (c : List Nat) (cl : Nat)
    (h : st.At p pl ((if lead then [58] else []) ++ c) ((if lead then 1 else 0) + cl)) :
    (if lead then SKIP_CMD st 1 else st).At p pl c cl ∧
      (if lead then SKIP_CMD st 1 else st).brackets = st.brackets ∧
      (if lead then SKIP_CMD st 1 else st).numbers = st.numbers ∧
      (if lead then SKIP_CMD st 1 else st).numbers_idx = st.numbers_idx := by
  cases lead with
  | true =>
    simp only [if_true, List.singleton_append] at h ⊢
    have := h.skipCmd 1
    simp only [List.drop_succ_cons, List.drop_zero, Nat.add_sub_cancel_left] at this
    exact ⟨this, rfl, rfl, rfl⟩
  | false =>
    simp only [Bool.false_eq_true, if_false, List.nil_append, Nat.zero_add] at h ⊢
    exact ⟨h, trivial, trivial, trivial⟩

/-- The run of `matchCommand` up to the main loop, for a pattern that begins with `[:`. -/
theorem matchCommandRun_start_open (p : List Nat) (lead query : Bool) (b : Nat)
    (u : List Nat) (numbers : Option (List Int)) (numbers_len : Nat) (default_value : Int)
    (hp0 : 0 ∉ p) (hc0 : 0 ∉ b :: u) (hplast : (91 :: 58 :: p).getLast? ≠ some 63)
    (hb58 : b ≠ 58) (hb42 : b ≠ 42) :
    ∃ st2 : MatchState,
      st2.At (p ++ (if query then [63] else [])) p.length
        (b :: u ++ (if query then [63] else [])) (u.length + 1) ∧
      st2.brackets = 1 ∧ st2.numbers = numbers ∧ st2.numbers_idx = 0 ∧
      matchCommandRun ((91 :: 58 :: p) ++ (if query then [63] else []))
          (((if lead then [58] else []) ++ b :: u) ++ (if query then [63] else []))
          (((if lead then [58] else []) ++ b :: u) ++ (if query then [63] else [])).length
          numbers numbers_len default_value =
        matchLoop numbers_len default_value
          (strlen ((91 :: 58 :: p) ++ (if query then [63] else [])) + 2)
          (strlen ((91 :: 58 :: p) ++ (if query then [63] else [])) + 2) st2 := by
  have hP0 : 0 ∉ 91 :: 58 :: p := by simp [hp0]
  have hC0 : 0 ∉ (if lead then [58] else []) ++ b :: u := by
    intro h
    rcases List.mem_append.1 h with h | h
    · cases lead <;> simp at h
    · exact hc0 h
  rw [matchCommandRun_frame _ _ query numbers numbers_len default_value hP0 hC0 hplast]
  generalize hst : MatchState.mk ⟨(91 :: 58 :: p) ++ (if query then [63] else []), 0⟩
    ((91 :: 58 :: p).length : Int)
    (((if lead then [58] else []) ++ b :: u) ++ (if query then [63] else []))
    ((if lead then [58] else []) ++ b :: u).length 0 0 numbers false = st
  have hat : st.At (91 :: 58 :: (p ++ (if query then [63] else []))) ((p.length : Int) + 2)
      ((if lead then [58] else []) ++ (b :: u ++ (if query then [63] else [])))
      ((if lead then 1 else 0) + (u.length + 1)) := by
    subst hst
    refine ⟨le_refl _, by simp [CPtr.bytes_zero], ?_, by simp, ?_⟩
    · simp only [List.length_cons]; push_cast; omega
    · cases lead <;> simp
      omega
  have hbr : st.brackets = 0 := by subst hst; rfl
  have hn : st.numbers = numbers := by subst hst; rfl
  have hidx : st.numbers_idx = 0 := by subst hst; rfl
  obtain ⟨h1, h2, h3, h4⟩ := skipPatternStart_open st _ _ _ _ hat
  have e : (p.length : Int) + 2 - 2 = p.length := by omega
  rw [e] at h1
  obtain ⟨k1, k2, k3, k4⟩ := SKIP_CMD_lead_at (skipPatternStart st) lead _ _ _ _ h1
  refine ⟨_, k1, by rw [k2, h2, hbr]; rfl, by rw [k3, h3, hn], by rw [k4, h4, hidx], ?_⟩
  exact matchCommandRest_lead numbers_len default_value _ st lead b
    (u ++ (if query then [63] else [])) u.length
    (h1.2.2.2.1.trans (by rw [List.cons_append]))
    h1.2.2.2.2 hb58 hb42

/-- The run of `matchCommand` up to the main loop, for a pattern that begins with a byte
other than `[` and `:`. -/
theorem matchCommandRun_start_plain (a : Nat) (t : List Nat) (lead query : Bool) (b : Nat)
    (u : List Nat) (numbers : Option (List Int)) (numbers_len : Nat) (default_value : Int)
    (hp0 : 0 ∉ a :: t) (hc0 : 0 ∉ b :: u) (hplast : (a :: t).getLast? ≠ some 63)
    (ha91 : a ≠ 91) (ha58 : a ≠ 58) (hb58 : b ≠ 58) (hb42 : b ≠ 42) :
    ∃ st2 : MatchState,
      st2.At (a :: t ++ (if query then [63] else [])) (t.length + 1)
        (b :: u ++ (if query then [63] else [])) (u.length + 1) ∧
      st2.brackets = 0 ∧ st2.numbers = numbers ∧ st2.numbers_idx = 0 ∧
      matchCommandRun ((a :: t) ++ (if query then [63] else []))
          (((if lead then [58] else []) ++ b :: u) ++ (if query then [63] else []))
          (((if lead then [58] else []) ++ b :: u) ++ (if query then [63] else [])).length
          numbers numbers_len default_value =
        matchLoop numbers_len default_value
          (strlen ((a :: t) ++ (if query then [63] else [])) + 2)
          (strlen ((a :: t) ++ (if query then [63] else [])) + 2) st2 := by
  have hC0 : 0 ∉ (if lead then [58] else []) ++ b :: u := by
    intro h
    rcases List.mem_append.1 h with h | h
    · cases lead <;> simp at h
    · exact hc0 h
  rw [matchCommandRun_frame _ _ query numbers numbers_len default_value hp0 hC0 hplast]
  generalize hst : MatchState.mk ⟨(a :: t) ++ (if query then [63] else []), 0⟩
    ((a :: t).length : Int)
    (((if lead then [58] else []) ++ b :: u) ++ (if query then [63] else []))
    ((if lead then [58] else []) ++ b :: u).length 0 0 numbers false = st
  have hat : st.At (a :: (t ++ (if query then [63] else []))) ((t.length : Int) + 1)
      ((if lead then [58] else []) ++ (b :: u ++ (if query then [63] else [])))
      ((if lead then 1 else 0) + (u.length + 1)) := by
    subst hst
    refine ⟨le_refl _, by simp [CPtr.bytes_zero], by simp, by simp, ?_⟩
    cases lead <;> simp
    omega
  have hbr : st.brackets = 0 := by subst hst; rfl
  have hn : st.numbers = numbers := by subst hst; rfl
  have hidx : st.numbers_idx = 0 := by subst hst; rfl
  have hskip : skipPatternStart st = st := skipPatternStart_letter st a _ _ _ _ hat ha91 ha58
  obtain ⟨k1, k2, k3, k4⟩ := SKIP_CMD_lead_at st lead _ _ _ _ hat
  refine ⟨_, k1, by rw [k2, hbr], by rw [k3, hn], by rw [k4, hidx], ?_⟩
  have := matchCommandRest_lead numbers_len default_value
    (strlen ((a :: t) ++ (if query then [63] else [])) + 2) st lead b
    (u ++ (if query then [63] else [])) u.length
    (by rw [hskip]
        exact hat.2.2.2.1.trans (by rw [List.cons_append]))
    (by rw [hskip]; exact hat.2.2.2.2) hb58 hb42
  rw [hskip] at this
  exact this
theorem joinColon_append_singleton (K : List Nat) :
    ∀ (Ks : List (List Nat)), Ks ≠ [] → joinColon (Ks ++ [K]) = joinColon Ks ++ 58 :: K := by
  intro Ks
  induction Ks with
  | nil => intro h; exact absurd rfl h
  | cons a Ks ih =>
    intro _
    cases Ks with
    | nil => rfl
    | cons b Ks =>
      have := ih (by simp)
      simp only [List.cons_append] at this ⊢
      simp only [joinColon, this, List.append_assoc, List.cons_append]

theorem keysegs_pattern_mem (items : List KeySeg) (hall : ∀ k ∈ items, k.Valid) :
    ∀ c ∈ joinColon (items.map KeySeg.pattern), c ≠ 0 ∧ c ≠ 63 := by
  refine joinColon_mem_parts (fun c => c ≠ 0 ∧ c ≠ 63) (by decide) _ ?_
  intro k hk c hc
  obtain ⟨x, hx, rfl⟩ := List.mem_map.1 hk
  exact (hall x hx).pattern_props.1 c hc

theorem keysegs_segment_mem (items : List KeySeg) (hall : ∀ k ∈ items, k.Valid) :
    ∀ c ∈ joinColon (items.map KeySeg.segment), c ≠ 0 := by
  refine joinColon_mem_parts (fun c => c ≠ 0) (by decide) _ ?_
  intro k hk c hc
  obtain ⟨x, hx, rfl⟩ := List.mem_map.1 hk
  exact ((hall x hx).segment_props.1 c hc).1

theorem keysegs_pattern_length (items : List KeySeg) (hall : ∀ k ∈ items, k.Valid) :
    items.length ≤ (joinColon (items.map KeySeg.pattern)).length := by
  have := joinColon_length_ge_parts (items.map KeySeg.pattern) (by
    intro k hk
    obtain ⟨x, hx, rfl⟩ := List.mem_map.1 hk
    obtain ⟨a, t, e, _⟩ := (hall x hx).pattern_props.2
    rw [e]; simp)
  simpa using this

theorem getLast_ne_of_forall (l : List Nat) (x : Nat) (h : ∀ c ∈ l, c ≠ x) :
    l.getLast? ≠ some x := fun hl => h x (List.mem_of_getLast?_eq_some hl) rfl
theorem matchLoop_last_keyseg (numbers_len : Nat) (default_value : Int) (ifuel : Nat)
    (T : KeySeg) (hT : T.Valid) (tail ctail : List Nat)
    (hct : ctail = [] ∨ ∃ s r, ctail = s :: r ∧ s ∈ [58, 63]) (fuel : Nat) (st : MatchState)
    (hst : st.At (T.pattern ++ tail) T.pattern.length (T.segment ++ ctail) T.segment.length)
    (hnum : ∀ nums, st.numbers = some nums → nums.length = numbers_len) :
    ∃ s, matchLoop numbers_len default_value ifuel (fuel + 1) st = some s ∧
      s.result = true := by
  obtain ⟨s, h1, h2, _⟩ := matchLoop_keysegs numbers_len default_value ifuel [] T
    (by intro k hk; simp at hk; subst hk; exact hT) tail ctail hct (fuel + 1) (by simp) st
    (by simpa [joinColon] using hst) hnum
  exact ⟨s, h1, h2⟩

theorem matchCommandRun_group_spelled (g : KeySeg) (G : List KeySeg) (T : KeySeg)
    (lead query : Bool) (numbers : Option (List Int)) (numbers_len : Nat)
    (default_value : Int) (hall : ∀ k ∈ g :: G, k.Valid) (hT : T.Valid)
    (hnum : ∀ nums, numbers = some nums → nums.length = numbers_len) :
    ∃ s, matchCommandRun (groupPattern (g :: G) T query)
        (suffixCommand (g :: G ++ [T]) lead query)
        (suffixCommand (g :: G ++ [T]) lead query).length numbers numbers_len default_value =
      some s ∧ s.result = true := by
  have hi := hall g (by simp)
  have hJm := keysegs_pattern_mem (g :: G) hall
  have hCm := keysegs_segment_mem (g :: G) hall
  have hJlen := keysegs_pattern_length (g :: G) hall
  obtain ⟨b, u0, hsb, hb58, hb42⟩ := hi.segment_head
  obtain ⟨u, hv⟩ := joinColon_head g.segment (G.map KeySeg.segment) b u0 hsb
  have hseg : joinColon ((g :: G ++ [T]).map KeySeg.segment) =
      joinColon ((g :: G).map KeySeg.segment) ++ 58 :: T.segment := by
    have := joinColon_append_singleton T.segment ((g :: G).map KeySeg.segment) (by simp)
    simpa using this
  generalize hJ : joinColon ((g :: G).map KeySeg.pattern) = J at *
  generalize hC : joinColon ((g :: G).map KeySeg.segment) = C at *
  have hC' : joinColon (g.segment :: G.map KeySeg.segment) = C := hC
  rw [hC'] at hv
  have hTp := hT.pattern_props.1
  have hTs := hT.segment_props.1
  have hp0 : 0 ∉ J ++ 93 :: 58 :: T.pattern := by
    intro h
    simp only [List.mem_append, List.mem_cons] at h
    rcases h with h | h | h | h
    · exact (hJm 0 h).1 rfl
    · omega
    · omega
    · exact (hTp 0 h).1 rfl
  have hplast : (91 :: 58 :: (J ++ 93 :: 58 :: T.pattern)).getLast? ≠ some 63 := by
    apply getLast_ne_of_forall
    intro c h
    simp only [List.mem_append, List.mem_cons] at h
    rcases h with h | h | h | h | h | h
    · omega
    · omega
    · exact (hJm c h).2
    · omega
    · omega
    · exact (hTp c h).2
  have hc0 : 0 ∉ b :: (u ++ 58 :: T.segment) := by
    intro h
    have h' : (0 : Nat) ∈ C ++ 58 :: T.segment := by rw [hv]; simpa using h
    simp only [List.mem_append, List.mem_cons] at h'
    rcases h' with h' | h' | h'
    · exact hCm 0 h' rfl
    · omega
    · exact (hTs 0 h').1 rfl
  obtain ⟨st2, hat, hbr, hn2, _, hrun⟩ := matchCommandRun_start_open
    (J ++ 93 :: 58 :: T.pattern) lead query b (u ++ 58 :: T.segment) numbers numbers_len
    default_value hp0 hc0 hplast hb58 hb42
  have hpat : groupPattern (g :: G) T query =
      (91 :: 58 :: (J ++ 93 :: 58 :: T.pattern)) ++ (if query then [63] else []) := by
    unfold groupPattern
    rw [hJ]
  have hcmd : suffixCommand (g :: G ++ [T]) lead query =
      ((if lead then [58] else []) ++ b :: (u ++ 58 :: T.segment)) ++
        (if query then [63] else []) := by
    unfold suffixCommand
    rw [hseg, hv]
    simp
  rw [hpat, hcmd, hrun]
  -- the main loop: the group keywords, then `]:`, then the last keyword
  have hplen : strlen ((91 :: 58 :: (J ++ 93 :: 58 :: T.pattern)) ++
      (if query then [63] else [])) = ((91 :: 58 :: (J ++ 93 :: 58 :: T.pattern)) ++
      (if query then [63] else [])).length := by
    apply strlen_of_no_nul
    intro h
    rcases List.mem_append.1 h with h | h
    · simp only [List.mem_cons] at h
      rcases h with h | h | h
      · omega
      · omega
      · exact hp0 h
    · cases query <;> simp at h
  generalize hF : strlen ((91 :: 58 :: (J ++ 93 :: 58 :: T.pattern)) ++
      (if query then [63] else [])) + 2 = F at *
  have hFge : G.length + 1 + 2 ≤ F := by
    rw [← hF, hplen]
    simp only [List.length_append, List.length_cons] at hJlen ⊢
    omega
  obtain ⟨f, hf⟩ : ∃ f, F = (f + 1) + G.length + 1 := ⟨F - G.length - 2, by omega⟩
  have hat' : st2.At (J ++ (93 :: 58 :: (T.pattern ++ (if query then [63] else []))))
      ((J.length : Int) + (2 + T.pattern.length : Nat))
      (C ++ (58 :: (T.segment ++ (if query then [63] else []))))
      (C.length + (1 + T.segment.length)) := by
    obtain ⟨a1, a2, a3, a4, a5⟩ := hat
    refine ⟨a1, ?_, ?_, ?_, ?_⟩
    · rw [a2]; simp
    · rw [a3]; simp only [List.length_append, List.length_cons]; push_cast; omega
    · rw [a4, hv]; simp
    · rw [a5, hv]; simp only [List.length_append, List.length_cons]; omega
  obtain ⟨st1, h1, h2, h3, h4, h5⟩ := matchLoop_keysegs_prefix numbers_len default_value F G g
    hall (93 :: 58 :: (T.pattern ++ (if query then [63] else [])))
    (58 :: (T.segment ++ (if query then [63] else []))) (2 + T.pattern.length)
    (1 + T.segment.length) (Or.inr ⟨93, _, rfl, by simp⟩) (Or.inr ⟨58, _, rfl, by simp⟩)
    (Or.inr (by simp)) (f + 1) st2 (by rw [hJ, hC]; exact hat')
    (by intro nums h; rw [hn2] at h; exact hnum nums h)
  rw [← hf] at h5
  rw [h5, loopMatched_close _ _ _ _ _ _ h1 (by push_cast; omega) (by omega)]
  have hnext := (h1.skipPattern 2).skipCmd 1
  simp only [List.drop_succ_cons, List.drop_zero] at hnext
  have e1 : ((2 + T.pattern.length : Nat) : Int) - ((2 : Nat) : Int) = T.pattern.length := by
    push_cast; omega
  have e2 : 1 + T.segment.length - 1 = T.segment.length := by omega
  rw [e1, e2] at hnext
  refine matchLoop_last_keyseg numbers_len default_value F T hT _ _
    (by cases query <;> simp) f _ hnext ?_
  intro nums h
  have h' : st1.numbers = some nums := h
  rw [h4, hn2] at h'
  exact captureInto_numbers_length default_value _ _ numbers numbers_len hnum nums h'
theorem matchCommandRun_group_skipped (g T : KeySeg)
    (lead query : Bool) (numbers : Option (List Int)) (numbers_len : Nat)
    (default_value : Int) (hg : g.Valid) (hT : T.Valid) (hhash : g.hash = false)
    (hmis : kwMatch g.K T.segment = false)
    (hnum : ∀ nums, numbers = some nums → nums.length = numbers_len) :
    ∃ s, matchCommandRun (groupPattern [g] T query) (suffixCommand [T] lead query)
        (suffixCommand [T] lead query).length numbers numbers_len default_value =
      some s ∧ s.result = true := by
  have hK : IsKeyword g.K := hg.1
  have hgp : g.pattern = g.K := by simp [KeySeg.pattern, hhash]
  have hKm : ∀ c ∈ g.K, c ≠ 0 ∧ c ≠ 63 := by
    intro c hc
    exact hg.pattern_props.1 c (by rw [hgp]; exact hc)
  obtain ⟨b, u, hsb, hb58, hb42⟩ := hT.segment_head
  have hTp := hT.pattern_props.1
  have hTs := hT.segment_props.1
  have hp0 : 0 ∉ g.K ++ 93 :: 58 :: T.pattern := by
    intro h
    simp only [List.mem_append, List.mem_cons] at h
    rcases h with h | h | h | h
    · exact (hKm 0 h).1 rfl
    · omega
    · omega
    · exact (hTp 0 h).1 rfl
  have hplast : (91 :: 58 :: (g.K ++ 93 :: 58 :: T.pattern)).getLast? ≠ some 63 := by
    apply getLast_ne_of_forall
    intro c h
    simp only [List.mem_append, List.mem_cons] at h
    rcases h with h | h | h | h | h | h
    · omega
    · omega
    · exact (hKm c h).2
    · omega
    · omega
    · exact (hTp c h).2
  have hc0 : 0 ∉ b :: u := by
    intro h
    exact (hTs 0 (by rw [hsb]; exact h)).1 rfl
  obtain ⟨st2, hat, hbr, hn2, _, hrun⟩ := matchCommandRun_start_open
    (g.K ++ 93 :: 58 :: T.pattern) lead query b u numbers numbers_len
    default_value hp0 hc0 hplast hb58 hb42
  have hpat : groupPattern [g] T query =
      (91 :: 58 :: (g.K ++ 93 :: 58 :: T.pattern)) ++ (if query then [63] else []) := by
    unfold groupPattern
    simp [joinColon, hgp]
  have hcmd : suffixCommand [T] lead query =
      ((if lead then [58] else []) ++ b :: u) ++ (if query then [63] else []) := by
    unfold suffixCommand
    simp [joinColon, hsb]
  rw [hpat, hcmd, hrun]
  generalize hF : strlen ((91 :: 58 :: (g.K ++ 93 :: 58 :: T.pattern)) ++
      (if query then [63] else [])) + 2 = F at *
  obtain ⟨f, hf⟩ : ∃ f, F = (f + 1) + 1 := ⟨F - 2, by omega⟩
  have hat' : st2.At (g.K ++ (93 :: 58 :: (T.pattern ++ (if query then [63] else []))))
      ((g.K.length : Int) + 2 + T.pattern.length)
      (T.segment ++ (if query then [63] else [])) T.segment.length := by
    obtain ⟨a1, a2, a3, a4, a5⟩ := hat
    refine ⟨a1, ?_, ?_, ?_, ?_⟩
    · rw [a2]; simp
    · rw [a3]; simp only [List.length_append, List.length_cons]; push_cast; omega
    · rw [a4, hsb]
    · rw [a5, hsb]; simp
  have hbody := loopBody_keyword numbers_len default_value F st2 g.K _ _ T.segment _ _ hK hat'
    (Or.inr ⟨by omega, 93, _, rfl, by simp⟩) hTs (Or.inl rfl)
  rw [hmis] at hbody
  simp only [Bool.false_eq_true, if_false] at hbody
  have hmm := hat'.after_mismatch
  have e0 : (g.K.length : Int) + 2 + T.pattern.length - g.K.length =
      ((2 + T.pattern.length : Nat) : Int) := by push_cast; omega
  rw [e0] at hmm
  rw [loopUnmatched_close _ _ _ _ _ hmm] at hbody
  have hnext := hmm.skipPattern 2
  simp only [List.drop_succ_cons, List.drop_zero] at hnext
  have e1 : ((2 + T.pattern.length : Nat) : Int) - ((2 : Nat) : Int) = T.pattern.length := by
    push_cast; omega
  rw [e1] at hnext
  have hF2 : matchLoop numbers_len default_value F F st2 =
      matchLoop numbers_len default_value F (f + 1)
        { SKIP_PATTERN (SKIP_PATTERN st2 (g.K.length : Int)) 2 with
          brackets := (SKIP_PATTERN st2 (g.K.length : Int)).brackets - 1 } := by
    have step : matchLoop numbers_len default_value F (f + 1 + 1) st2 =
        matchLoop numbers_len default_value F (f + 1)
          { SKIP_PATTERN (SKIP_PATTERN st2 (g.K.length : Int)) 2 with
            brackets := (SKIP_PATTERN st2 (g.K.length : Int)).brackets - 1 } := by
      rw [matchLoop, hbody]
    rw [← hf] at step
    exact step
  rw [hF2]
  refine matchLoop_last_keyseg numbers_len default_value F T hT _ _
    (by cases query <;> simp) f _ hnext ?_
  intro nums h
  have h' : st2.numbers = some nums := h
  rw [hn2] at h'
  exact hnum nums h'


/-- C6 (as amended): for a pattern `[:G1:...:Gk]:T` (keywords of letters, each
beginning with an upper-case letter, possibly with a `#`; an optional `?` at the
end) `matchCommand` returns TRUE on the command that spells out `G1:...:Gk:T`,
for every `k ≥ 1`; and it returns TRUE on the command that consists of `T`
alone when the group holds a single keyword without `#` which the text of that
command does not itself match. -/
theorem matchCommand_optional_group (g : KeySeg) (G : List KeySeg) (T : KeySeg)
    (lead query : Bool) (numbers : Option (List Int)) (numbers_len : Nat)
    (default_value : Int) (hall : ∀ k ∈ g :: G, k.Valid) (hT : T.Valid)
    (hnum : ∀ nums, numbers = some nums → nums.length = numbers_len) :
    matchCommand (groupPattern (g :: G) T query) (suffixCommand (g :: G ++ [T]) lead query)
        (suffixCommand (g :: G ++ [T]) lead query).length numbers numbers_len default_value =
      some true ∧
    (G = [] → g.hash = false → kwMatch g.K T.segment = false →
      matchCommand (groupPattern [g] T query) (suffixCommand [T] lead query)
        (suffixCommand [T] lead query).length numbers numbers_len default_value =
      some true) := by
  constructor
  · obtain ⟨s, hs, hr⟩ := matchCommandRun_group_spelled g G T lead query numbers numbers_len
      default_value hall hT hnum
    rw [matchCommand, hs, Option.map_some', hr]
  · intro _ hhash hmis
    obtain ⟨s, hs, hr⟩ := matchCommandRun_group_skipped g T lead query numbers numbers_len
      default_value (hall g (by simp)) hT hhash hmis hnum
    rw [matchCommand, hs, Option.map_some', hr]

theorem matchCommand_optional_group_witness :
    (∀ k ∈ [(⟨str "MEASure", false, str "meas", []⟩ : KeySeg)], k.Valid) ∧
    (⟨str "VOLTage", false, str "VOLT", []⟩ : KeySeg).Valid ∧
    groupPattern [⟨str "MEASure", false, str "meas", []⟩]
      ⟨str "VOLTage", false, str "VOLT", []⟩ true = str "[:MEASure]:VOLTage?" ∧
    suffixCommand [⟨str "MEASure", false, str "meas", []⟩,
      ⟨str "VOLTage", false, str "VOLT", []⟩] false true = str "meas:VOLT?" ∧
    suffixCommand [⟨str "VOLTage", false, str "VOLT", []⟩] false true = str "VOLT?" ∧
    (matchCommand (groupPattern [⟨str "MEASure", false, str "meas", []⟩]
          ⟨str "VOLTage", false, str "VOLT", []⟩ true)
        (suffixCommand ([⟨str "MEASure", false, str "meas", []⟩] ++
          [⟨str "VOLTage", false, str "VOLT", []⟩]) false true)
        (suffixCommand ([⟨str "MEASure", false, str "meas", []⟩] ++
          [⟨str "VOLTage", false, str "VOLT", []⟩]) false true).length none 0 0 =
      some true ∧
    (([] : List KeySeg) = [] → (⟨str "MEASure", false, str "meas", []⟩ : KeySeg).hash = false →
      kwMatch (⟨str "MEASure", false, str "meas", []⟩ : KeySeg).K
        (⟨str "VOLTage", false, str "VOLT", []⟩ : KeySeg).segment = false →
      matchCommand (groupPattern [⟨str "MEASure", false, str "meas", []⟩]
          ⟨str "VOLTage", false, str "VOLT", []⟩ true)
        (suffixCommand [⟨str "VOLTage", false, str "VOLT", []⟩] false true)
        (suffixCommand [⟨str "VOLTage", false, str "VOLT", []⟩] false true).length none 0 0 =
      some true)) :=
  ⟨by decide, by decide, by decide, by decide, by decide,
    matchCommand_optional_group ⟨str "MEASure", false, str "meas", []⟩ []
      ⟨str "VOLTage", false, str "VOLT", []⟩ false true none 0 0 (by decide) (by decide)
      (by intro nums h; cases h)⟩

/-- C6, counterexample to the claim as stated: the pattern `[:A:B]:T`, whose optional
group holds two keywords, and the command `T`.  After the mismatch of `A` the code
only looks for `]:` or `][:` right behind that keyword, finds `:B`, and returns
FALSE: the group is not skipped. -/
theorem matchCommand_optional_group_two_keywords_counterexample :
    (∀ k ∈ [(⟨str "A", false, str "A", []⟩ : KeySeg), ⟨str "B", false, str "B", []⟩],
      k.Valid) ∧ (⟨str "T", false, str "T", []⟩ : KeySeg).Valid ∧
    groupPattern [⟨str "A", false, str "A", []⟩, ⟨str "B", false, str "B", []⟩]
      ⟨str "T", false, str "T", []⟩ false = str "[:A:B]:T" ∧
    suffixCommand [⟨str "T", false, str "T", []⟩] false false = str "T" ∧
    matchCommand (str "[:A:B]:T") (str "T") (str "T").length none 0 0 = some false := by
  decide

theorem residualText_length_ge (toks : List PatItem) :
    toks.length ≤ (residualText toks).length := by
  induction toks with
  | nil => simp
  | cons t ts ih =>
    cases t <;> simp only [residualText, PatItem.text, List.length_append, List.length_cons,
      List.length_nil] <;> omega

theorem residualText_head (t : PatItem) (ts : List PatItem) :
    ∃ s r, residualText (t :: ts) = s :: r ∧ s ∈ [63, 58, 91, 93] := by
  cases t with
  | key K => exact ⟨58, K ++ residualText ts, rfl, by simp⟩
  | opn => exact ⟨91, residualText ts, rfl, by simp⟩
  | cls => exact ⟨93, residualText ts, rfl, by simp⟩
theorem residualLoop_succ (fuel : Nat) (st : MatchState) (h : st.pattern_len ≠ 0) :
    residualLoop (fuel + 1) st =
      if (residualStep st).brackets = 0 then
        if 0 < (residualStep st).pattern_len ∧ (residualStep st).pattern_ptr.get 0 = 91
        then residualLoop fuel (residualStep st) else some (residualStep st)
      else residualLoop fuel (residualStep st) := by
  rw [residualLoop, if_neg h]

theorem balanced_ne_nil (d : Nat) (ts : List PatItem) (h : balanced (d + 1) ts = true) :
    ts ≠ [] := by
  intro e
  subst e
  simp [balanced] at h

theorem residualStep_item (st : MatchState) (pend : List Nat)
    (c : List Nat) (cl : Nat) (n : Nat)
    (hpend : ∀ x ∈ pend, x ≠ 0 ∧ x ∉ [63, 58, 91, 93])
    (s : Nat) (r : List Nat) (hs : s ∈ [63, 58, 91, 93])
    (h : st.At (pend ++ s :: r) ((pend.length : Int) + 1 + n) c cl) :
    (residualStep st).At r n c cl ∧
      (residualStep st).brackets =
        (if s = 91 then st.brackets + 1 else if s = 93 then st.brackets - 1 else st.brackets) ∧
      (residualStep st).numbers = st.numbers ∧ (residualStep st).result = st.result := by
  obtain ⟨e, hat⟩ := residualStep_separator st pend s r _ c cl h hpend hs (by omega)
  have e1 : (pend.length : Int) + 1 + n - pend.length - 1 = n := by omega
  rw [e1] at hat
  refine ⟨hat, ?_, ?_, ?_⟩ <;> rw [e] <;> rfl
/-- The inner loop of `matchCommand` on the rest of a pattern made of the pieces `toks`
behind `pend`, the bytes of a keyword whose colon has been stepped over: it ends,
and it ends with `pattern_len = 0` exactly when no keyword piece stands at
bracket depth 0. -/
theorem residualLoop_items :
    ∀ (toks : List PatItem) (d : Nat) (pend tail c : List Nat) (cl : Nat) (fuel : Nat)
      (st : MatchState),
      toks ≠ [] → (∀ t ∈ toks, t.Valid) → balanced d toks = true →
      (∀ x ∈ pend, x ≠ 0 ∧ x ∉ [63, 58, 91, 93]) → (d = 0 → pend = []) →
      toks.length + 1 ≤ fuel →
      st.At (pend ++ (residualText toks ++ tail))
        ((pend.length : Int) + (residualText toks).length) c cl →
      st.brackets = d →
      ∃ s, residualLoop fuel st = some s ∧ (s.pattern_len = 0 ↔ allOptional d toks = true) ∧
        s.numbers = st.numbers ∧ s.result = st.result := by
  intro toks
  induction toks with
  | nil => intro d pend tail c cl fuel st h; exact absurd rfl h
  | cons t ts ih =>
    intro d pend tail c cl fuel st _ hval hbal hpend hd hfuel hst hbr
    obtain ⟨f, rfl⟩ : ∃ f, fuel = f + 1 := ⟨fuel - 1, by simp at hfuel; omega⟩
    have hvts : ∀ t ∈ ts, t.Valid := fun x hx => hval x (by simp [hx])
    have hlen0 : st.pattern_len ≠ 0 := by
      rw [hst.2.2.1]
      have := residualText_length_ge (t :: ts)
      simp only [List.length_cons] at this
      omega
    rw [residualLoop_succ f st hlen0]
    cases t with
    | key K =>
      have hK := hval (.key K) (by simp)
      simp only [PatItem.Valid] at hK
      have hst' : st.At (pend ++ 58 :: (K ++ (residualText ts ++ tail)))
          ((pend.length : Int) + 1 + (K.length + (residualText ts).length : Nat)) c cl := by
        have := hst
        simp only [residualText, PatItem.text, List.cons_append, List.length_cons,
          List.length_append, List.append_assoc] at this
        have e : (pend.length : Int) + ((K.length + (residualText ts).length + 1 : Nat) : Int) =
            (pend.length : Int) + 1 + ((K.length + (residualText ts).length : Nat) : Int) := by
          push_cast; omega
        rw [e] at this
        exact this
      obtain ⟨hat, hb, hn, hr⟩ := residualStep_item st pend c cl _ hpend 58 _ (by simp) hst'
      simp only [show (58 : Nat) ≠ 91 by decide, show (58 : Nat) ≠ 93 by decide, if_false]
        at hb
      cases d with
      | zero =>
        have hb0 : (residualStep st).brackets = 0 := by rw [hb, hbr]; rfl
        obtain ⟨a, K', rfl⟩ : ∃ a K', K = a :: K' := by
          cases K with
          | nil => exact absurd rfl hK.1
          | cons a K' => exact ⟨a, K', rfl⟩
        have ha : a ≠ 91 := by
          intro e
          exact (hK.2 a (by simp)).2 (by simp [e])
        have g0 : (residualStep st).pattern_ptr.get 0 = a := by rw [hat.get0]; rfl
        rw [if_pos hb0, if_neg (by rw [g0]; exact fun h => ha h.2)]
        refine ⟨_, rfl, ?_, hn, hr⟩
        rw [hat.2.2.1]
        simp [allOptional]
        omega
      | succ d =>
        have hb1 : (residualStep st).brackets ≠ 0 := by rw [hb, hbr]; push_cast; omega
        rw [if_neg hb1]
        have hbal' : balanced (d + 1) ts = true := by simpa [balanced] using hbal
        obtain ⟨s, h1, h2, h3, h4⟩ := ih (d + 1) K tail c cl f (residualStep st)
          (balanced_ne_nil d ts hbal') hvts hbal' hK.2 (by omega)
          (by simp at hfuel ⊢; omega)
          (by have := hat; push_cast at this; exact this) (by rw [hb, hbr])
        exact ⟨s, h1, by rw [h2]; simp [allOptional], by rw [h3, hn], by rw [h4, hr]⟩
    | opn =>
      have hst' : st.At (pend ++ 91 :: (residualText ts ++ tail))
          ((pend.length : Int) + 1 + ((residualText ts).length : Nat)) c cl := by
        have := hst
        simp only [residualText, PatItem.text, List.cons_append, List.length_cons,
          List.length_append, List.append_assoc, List.nil_append, List.length_nil] at this
        have e : (pend.length : Int) + (((residualText ts).length + 1 : Nat) : Int) =
            (pend.length : Int) + 1 + (((residualText ts).length : Nat) : Int) := by
          push_cast; omega
        rw [e] at this
        exact this
      obtain ⟨hat, hb, hn, hr⟩ := residualStep_item st pend c cl _ hpend 91 _ (by simp) hst'
      simp only [if_true] at hb
      have hb1 : (residualStep st).brackets ≠ 0 := by rw [hb, hbr]; omega
      rw [if_neg hb1]
      have hbal' : balanced (d + 1) ts = true := by simpa [balanced] using hbal
      obtain ⟨s, h1, h2, h3, h4⟩ := ih (d + 1) [] tail c cl f (residualStep st)
        (balanced_ne_nil d ts hbal') hvts hbal' (by simp) (by omega)
        (by simp at hfuel ⊢; omega)
        (by simpa using hat) (by rw [hb, hbr]; rfl)
      exact ⟨s, h1, by rw [h2]; simp [allOptional], by rw [h3, hn], by rw [h4, hr]⟩
    | cls =>
      have hst' : st.At (pend ++ 93 :: (residualText ts ++ tail))
          ((pend.length : Int) + 1 + ((residualText ts).length : Nat)) c cl := by
        have := hst
        simp only [residualText, PatItem.text, List.cons_append, List.length_cons,
          List.length_append, List.append_assoc, List.nil_append, List.length_nil] at this
        have e : (pend.length : Int) + (((residualText ts).length + 1 : Nat) : Int) =
            (pend.length : Int) + 1 + (((residualText ts).length : Nat) : Int) := by
          push_cast; omega
        rw [e] at this
        exact this
      obtain ⟨hat, hb, hn, hr⟩ := residualStep_item st pend c cl _ hpend 93 _ (by simp) hst'
      simp only [show (93 : Nat) ≠ 91 by decide, if_false, if_true] at hb
      cases d with
      | zero => simp [balanced] at hbal
      | succ d =>
        have hbal' : balanced d ts = true := by simpa [balanced] using hbal
        have hopt : allOptional (d + 1) (.cls :: ts) = allOptional d ts := by
          simp [allOptional]
        rw [hopt]
        have hbd : (residualStep st).brackets = (d : Int) := by
          rw [hb, hbr]; push_cast; omega
        cases d with
        | succ d =>
          have hb1 : (residualStep st).brackets ≠ 0 := by rw [hbd]; push_cast; omega
          rw [if_neg hb1]
          obtain ⟨s, h1, h2, h3, h4⟩ := ih (d + 1) [] tail c cl f (residualStep st)
            (balanced_ne_nil d ts hbal') hvts hbal' (by simp) (by omega)
            (by simp at hfuel ⊢; omega)
            (by simpa using hat) hbd
          exact ⟨s, h1, h2, by rw [h3, hn], by rw [h4, hr]⟩
        | zero =>
          have hb0 : (residualStep st).brackets = 0 := by rw [hbd]; rfl
          rw [if_pos hb0]
          cases ts with
          | nil =>
            have hl : (residualStep st).pattern_len = 0 := by rw [hat.2.2.1]; rfl
            rw [if_neg (by rw [hl]; exact fun h => absurd h.1 (by decide))]
            exact ⟨_, rfl, by simp [hl, allOptional], hn, hr⟩
          | cons t2 ts2 =>
            have hl : 0 < (residualStep st).pattern_len := by
              rw [hat.2.2.1]
              have := residualText_length_ge (t2 :: ts2)
              simp only [List.length_cons] at this
              omega
            cases t2 with
            | cls => simp [balanced] at hbal'
            | key K2 =>
              have g0 : (residualStep st).pattern_ptr.get 0 = 58 := by rw [hat.get0]; rfl
              rw [if_neg (by rw [g0]; exact fun h => absurd h.2 (by decide))]
              refine ⟨_, rfl, ?_, hn, hr⟩
              simp only [allOptional, Bool.false_eq_true, iff_false]
              omega
            | opn =>
              have g0 : (residualStep st).pattern_ptr.get 0 = 91 := by rw [hat.get0]; rfl
              rw [if_pos ⟨hl, g0⟩]
              obtain ⟨s, h1, h2, h3, h4⟩ := ih 0 [] tail c cl f (residualStep st)
                (by simp) hvts hbal' (by simp) (by simp)
                (by simp at hfuel ⊢; omega)
                (by simpa using hat) hbd
              exact ⟨s, h1, h2, by rw [h3, hn], by rw [h4, hr]⟩
theorem residualText_mem (toks : List PatItem) (hval : ∀ t ∈ toks, t.Valid) :
    ∀ c ∈ residualText toks, c ≠ 0 ∧ c ≠ 63 := by
  induction toks with
  | nil => intro c hc; simp [residualText] at hc
  | cons t ts ih =>
    intro c hc
    simp only [residualText, List.mem_append] at hc
    rcases hc with hc | hc
    · cases t with
      | key K =>
        have hK := hval (.key K) (by simp)
        simp only [PatItem.Valid] at hK
        simp only [PatItem.text, List.mem_cons] at hc
        rcases hc with rfl | hc
        · decide
        · have := hK.2 c hc
          exact ⟨this.1, fun e => this.2 (by simp [e])⟩
      | opn => simp only [PatItem.text, List.mem_singleton] at hc; subst hc; decide
      | cls => simp only [PatItem.text, List.mem_singleton] at hc; subst hc; decide
    · exact ih (fun x hx => hval x (by simp [hx])) c hc

/-- The main loop on a pattern that begins with the keywords `i :: items` and goes on
with the pieces `toks`, and a command that spells exactly those keywords: the
result is TRUE exactly when no keyword piece stands at bracket depth 0. -/
theorem matchLoop_residual (numbers_len : Nat) (default_value : Int) (ifuel : Nat)
    (i : KeySeg) (items : List KeySeg) (hall : ∀ k ∈ i :: items, k.Valid)
    (toks : List PatItem) (hne : toks ≠ []) (hval : ∀ t ∈ toks, t.Valid) (d : Nat)
    (hbal : balanced d toks = true) (hifuel : toks.length + 1 ≤ ifuel)
    (qt : List Nat) (hqt : qt = [] ∨ qt = [63]) (fuel : Nat)
    (hfuel : items.length + 1 ≤ fuel) (st : MatchState)
    (hst : st.At (joinColon ((i :: items).map KeySeg.pattern) ++ (residualText toks ++ qt))
      (((joinColon ((i :: items).map KeySeg.pattern)).length : Int) +
        (residualText toks).length)
      (joinColon ((i :: items).map KeySeg.segment) ++ qt)
      (joinColon ((i :: items).map KeySeg.segment)).length)
    (hbr : st.brackets = d)
    (hnum : ∀ nums, st.numbers = some nums → nums.length = numbers_len) :
    ∃ s, matchLoop numbers_len default_value ifuel fuel st = some s ∧
      s.result = allOptional d toks := by
  obtain ⟨t, ts, rfl⟩ : ∃ t ts, toks = t :: ts := by
    cases toks with
    | nil => exact absurd rfl hne
    | cons t ts => exact ⟨t, ts, rfl⟩
  obtain ⟨f, hf⟩ : ∃ f, fuel = f + items.length + 1 := ⟨fuel - items.length - 1, by omega⟩
  obtain ⟨st1, h1, h2, h3, _, h5⟩ := matchLoop_keysegs_prefix numbers_len default_value ifuel
    items i hall (residualText (t :: ts) ++ qt) qt (residualText (t :: ts)).length 0
    (Or.inr (by
      obtain ⟨s, r, e, hs⟩ := residualText_head t ts
      exact ⟨s, r ++ qt, by rw [e]; rfl, hs⟩))
    (by rcases hqt with h | h
        · exact Or.inl h
        · exact Or.inr ⟨63, [], h, by simp⟩)
    (Or.inl rfl) f st hst hnum
  rw [hf, h5]
  have hpl : st1.pattern_len ≠ 0 := by
    rw [h1.2.2.1]
    have := residualText_length_ge (t :: ts)
    simp only [List.length_cons] at this
    omega
  rw [loopMatched_cmd_complete ifuel st1 hpl h1.2.2.2.2]
  obtain ⟨s, k1, k2, _, k4⟩ := residualLoop_items (t :: ts) d [] qt qt 0 ifuel st1 hne hval hbal
    (by simp) (by simp) hifuel (by simpa using h1) (by rw [h2, hbr])
  rw [k1]
  by_cases hp : s.pattern_len = 0
  · refine ⟨s, by simp [hp], ?_⟩
    rw [k4, h3, k2.1 hp]
  · refine ⟨{ s with result := false }, by simp [hp], ?_⟩
    have : allOptional d (t :: ts) ≠ true := fun h => hp (k2.2 h)
    simp only [Bool.not_eq_true] at this
    rw [this]
theorem matchCommandRun_residual (opened : Bool) (i : KeySeg) (items : List KeySeg)
    (toks : List PatItem) (lead query : Bool) (numbers : Option (List Int))
    (numbers_len : Nat) (default_value : Int)
    (hall : ∀ k ∈ i :: items, k.Valid) (hne : toks ≠ []) (hval : ∀ t ∈ toks, t.Valid)
    (hbal : balanced (if opened then 1 else 0) toks = true)
    (hnum : ∀ nums, numbers = some nums → nums.length = numbers_len) :
    ∃ s, matchCommandRun (residualPattern opened (i :: items) toks query)
        (suffixCommand (i :: items) lead query) (suffixCommand (i :: items) lead query).length
        numbers numbers_len default_value = some s ∧
      s.result = allOptional (if opened then 1 else 0) toks := by
  have hi := hall i (by simp)
  have hJm := keysegs_pattern_mem (i :: items) hall
  have hCm := keysegs_segment_mem (i :: items) hall
  have hJlen := keysegs_pattern_length (i :: items) hall
  have hRm := residualText_mem toks hval
  have hRlen := residualText_length_ge toks
  obtain ⟨a, t0, hpa, ha91, ha58⟩ := hi.pattern_props.2
  obtain ⟨t, hr⟩ := joinColon_head i.pattern (items.map KeySeg.pattern) a t0 hpa
  obtain ⟨b, u0, hsb, hb58, hb42⟩ := hi.segment_head
  obtain ⟨u, hv⟩ := joinColon_head i.segment (items.map KeySeg.segment) b u0 hsb
  generalize hJ : joinColon ((i :: items).map KeySeg.pattern) = J at *
  generalize hC : joinColon ((i :: items).map KeySeg.segment) = C at *
  have hJ' : joinColon (i.pattern :: items.map KeySeg.pattern) = J := hJ
  have hC' : joinColon (i.segment :: items.map KeySeg.segment) = C := hC
  rw [hJ'] at hr
  rw [hC'] at hv
  have hp0 : 0 ∉ J ++ residualText toks := by
    intro h
    rcases List.mem_append.1 h with h | h
    · exact (hJm 0 h).1 rfl
    · exact (hRm 0 h).1 rfl
  have hp63 : ∀ c ∈ J ++ residualText toks, c ≠ 63 := by
    intro c h
    rcases List.mem_append.1 h with h | h
    · exact (hJm c h).2
    · exact (hRm c h).2
  have hc0 : 0 ∉ b :: u := by
    rw [← hv]
    exact fun h => hCm 0 h rfl
  have hcmd : suffixCommand (i :: items) lead query =
      ((if lead then [58] else []) ++ b :: u) ++ (if query then [63] else []) := by
    unfold suffixCommand
    rw [hC, hv]
    simp
  have hqt : (if query then [63] else ([] : List Nat)) = [] ∨
      (if query then [63] else ([] : List Nat)) = [63] := by
    cases query <;> simp
  rw [hcmd]
  cases opened with
  | true =>
    have hpat : residualPattern true (i :: items) toks query =
        (91 :: 58 :: (J ++ residualText toks)) ++ (if query then [63] else []) := by
      unfold residualPattern
      rw [hJ]
      simp
    have hplast : (91 :: 58 :: (J ++ residualText toks)).getLast? ≠ some 63 := by
      apply getLast_ne_of_forall
      intro c h
      simp only [List.mem_cons] at h
      rcases h with h | h | h
      · omega
      · omega
      · exact hp63 c h
    obtain ⟨st2, hat, hbr, hn2, _, hrun⟩ := matchCommandRun_start_open
      (J ++ residualText toks) lead query b u numbers numbers_len
      default_value hp0 hc0 hplast hb58 hb42
    rw [hpat, hrun]
    have hplen : strlen ((91 :: 58 :: (J ++ residualText toks)) ++
        (if query then [63] else [])) = ((91 :: 58 :: (J ++ residualText toks)) ++
        (if query then [63] else [])).length := by
      apply strlen_of_no_nul
      intro h
      rcases List.mem_append.1 h with h | h
      · simp only [List.mem_cons] at h
        rcases h with h | h | h
        · omega
        · omega
        · exact hp0 h
      · cases query <;> simp at h
    refine matchLoop_residual numbers_len default_value _ i items hall toks hne hval 1 hbal
      ?_ _ hqt _ ?_ st2 ?_ hbr (by intro nums h; rw [hn2] at h; exact hnum nums h)
    · rw [hplen]
      simp only [List.length_append, List.length_cons]
      omega
    · rw [hplen]
      simp only [List.length_append, List.length_cons] at hJlen ⊢
      omega
    · rw [hJ, hC]
      obtain ⟨a1, a2, a3, a4, a5⟩ := hat
      refine ⟨a1, ?_, ?_, ?_, ?_⟩
      · rw [a2]; simp
      · rw [a3]; simp
      · rw [a4, hv]
      · rw [a5, hv]; simp
  | false =>
    have hpat : residualPattern false (i :: items) toks query =
        (a :: (t ++ residualText toks)) ++ (if query then [63] else []) := by
      unfold residualPattern
      rw [hJ, hr]
      simp
    have hp0' : 0 ∉ a :: (t ++ residualText toks) := by
      have := hp0
      rw [hr] at this
      simpa using this
    have hplast : (a :: (t ++ residualText toks)).getLast? ≠ some 63 := by
      apply getLast_ne_of_forall
      intro c h
      exact hp63 c (by rw [hr]; simpa using h)
    obtain ⟨st2, hat, hbr, hn2, _, hrun⟩ := matchCommandRun_start_plain a
      (t ++ residualText toks) lead query b u numbers numbers_len
      default_value hp0' hc0 hplast ha91 ha58 hb58 hb42
    rw [hpat, hrun]
    have hplen : strlen ((a :: (t ++ residualText toks)) ++
        (if query then [63] else [])) = ((a :: (t ++ residualText toks)) ++
        (if query then [63] else [])).length := by
      apply strlen_of_no_nul
      intro h
      rcases List.mem_append.1 h with h | h
      · exact hp0' h
      · cases query <;> simp at h
    have hJl : J.length = t.length + 1 := by rw [hr]; simp
    refine matchLoop_residual numbers_len default_value _ i items hall toks hne hval 0 hbal
      ?_ _ hqt _ ?_ st2 ?_ hbr (by intro nums h; rw [hn2] at h; exact hnum nums h)
    · rw [hplen]
      simp only [List.length_append, List.length_cons]
      omega
    · rw [hplen]
      simp only [List.length_append, List.length_cons] at hJlen ⊢
      omega
    · rw [hJ, hC]
      obtain ⟨a1, a2, a3, a4, a5⟩ := hat
      refine ⟨a1, ?_, ?_, ?_, ?_⟩
      · rw [a2, hr]; simp
      · rw [a3, hr]; simp only [List.length_append, List.length_cons]; push_cast; omega
      · rw [a4, hv]
      · rw [a5, hv]; simp


/-- The rest of a pattern behind spelled keywords: take a pattern that begins, possibly
behind an initial `[:`, with the keywords
`K1:...:Km` and goes on with a non-empty, bracket-balanced rest made of further
keywords `:K`, opening brackets and closing brackets, optionally closed by `?`;
and a command that spells exactly `K1:...:Km` (and the same `?`), so that it is
exhausted after a proper prefix of the pattern's keywords.  Then `matchCommand`
returns, and it returns TRUE if and only if every keyword of the rest lies inside
an optional `[...]` group. -/
theorem matchCommand_residual_pattern (opened : Bool) (i : KeySeg) (items : List KeySeg)
    (toks : List PatItem) (lead query : Bool) (numbers : Option (List Int))
    (numbers_len : Nat) (default_value : Int)
    (hall : ∀ k ∈ i :: items, k.Valid) (hne : toks ≠ []) (hval : ∀ t ∈ toks, t.Valid)
    (hbal : balanced (if opened then 1 else 0) toks = true)
    (hnum : ∀ nums, numbers = some nums → nums.length = numbers_len) :
    matchCommand (residualPattern opened (i :: items) toks query)
        (suffixCommand (i :: items) lead query) (suffixCommand (i :: items) lead query).length
        numbers numbers_len default_value =
      some (allOptional (if opened then 1 else 0) toks) := by
  obtain ⟨s, hs, hr⟩ := matchCommandRun_residual opened i items toks lead query numbers
    numbers_len default_value hall hne hval hbal hnum
  rw [matchCommand, hs, Option.map_some', hr]

theorem matchCommand_residual_pattern_witness :
    (residualPattern false [⟨str "SYSTem", false, str "SYST", []⟩,
        ⟨str "ERRor", false, str "ERR", []⟩] [.opn, .key (str "NEXT"), .cls] true =
      str "SYSTem:ERRor[:NEXT]?" ∧
    suffixCommand [⟨str "SYSTem", false, str "SYST", []⟩,
        ⟨str "ERRor", false, str "ERR", []⟩] false true = str "SYST:ERR?" ∧
    allOptional 0 [.opn, .key (str "NEXT"), .cls] = true ∧
    matchCommand (residualPattern false [⟨str "SYSTem", false, str "SYST", []⟩,
        ⟨str "ERRor", false, str "ERR", []⟩] [.opn, .key (str "NEXT"), .cls] true)
      (suffixCommand [⟨str "SYSTem", false, str "SYST", []⟩,
        ⟨str "ERRor", false, str "ERR", []⟩] false true)
      (suffixCommand [⟨str "SYSTem", false, str "SYST", []⟩,
        ⟨str "ERRor", false, str "ERR", []⟩] false true).length none 0 0 =
      some (allOptional (if false then 1 else 0) [.opn, .key (str "NEXT"), .cls])) ∧
    (residualPattern false [⟨str "A", false, str "A", []⟩] [.key (str "B")] false =
      str "A:B" ∧
    matchCommand (residualPattern false [⟨str "A", false, str "A", []⟩] [.key (str "B")]
        false)
      (suffixCommand [⟨str "A", false, str "A", []⟩] false false)
      (suffixCommand [⟨str "A", false, str "A", []⟩] false false).length none 0 0 =
      some (allOptional (if false then 1 else 0) [.key (str "B")])) ∧
    (residualPattern false [⟨str "A", false, str "A", []⟩]
        [.opn, .key (str "B"), .cls, .key (str "C")] false = str "A[:B]:C" ∧
    allOptional 0 [.opn, .key (str "B"), .cls, .key (str "C")] = false ∧
    matchCommand (residualPattern false [⟨str "A", false, str "A", []⟩]
        [.opn, .key (str "B"), .cls, .key (str "C")] false)
      (suffixCommand [⟨str "A", false, str "A", []⟩] false false)
      (suffixCommand [⟨str "A", false, str "A", []⟩] false false).length none 0 0 =
      some (allOptional (if false then 1 else 0)
        [.opn, .key (str "B"), .cls, .key (str "C")])) :=
  ⟨⟨by decide, by decide, by decide,
    matchCommand_residual_pattern false ⟨str "SYSTem", false, str "SYST", []⟩
      [⟨str "ERRor", false, str "ERR", []⟩] [.opn, .key (str "NEXT"), .cls] false true none 0 0
      (by decide) (by decide) (by decide) (by decide) (by intro nums h; cases h)⟩,
   ⟨by decide,
    matchCommand_residual_pattern false ⟨str "A", false, str "A", []⟩ [] [.key (str "B")]
      false false none 0 0 (by decide) (by decide) (by decide) (by decide)
      (by intro nums h; cases h)⟩,
   ⟨by decide, by decide,
    matchCommand_residual_pattern false ⟨str "A", false, str "A", []⟩ []
      [.opn, .key (str "B"), .cls, .key (str "C")] false false none 0 0 (by decide)
      (by decide) (by decide) (by decide) (by intro nums h; cases h)⟩⟩

/-! ## Theorems: `composeCompoundCommand` -/

theorem uptoLastColon_append_singleton (l : List Nat) (c : Nat) :
    uptoLastColon (l ++ [c]) = if c = 58 then l ++ [c] else uptoLastColon l := by
  unfold uptoLastColon
  by_cases h : c = 58
  · simp [h, List.dropWhile]
  · simp [h, List.dropWhile]

theorem lastColonPos_spec (buf : List Nat) (p : Int) (n : Nat) :
    (List.range (lastColonPos buf p n)).map (fun (k : Nat) => byteAt buf (p + k)) =
      uptoLastColon ((List.range n).map (fun (k : Nat) => byteAt buf (p + k))) := by
  induction n with
  | zero => simp [lastColonPos, uptoLastColon]
  | succ n ih =>
    rw [List.range_succ, List.map_append, List.map_singleton, uptoLastColon_append_singleton]
    by_cases h : byteAt buf (p + n) = 58
    · simp [lastColonPos, h, List.range_succ]
    · simp [lastColonPos, h, ih]

theorem byteAt_memmove (buf : List Nat) (dst src : Int) (n : Nat) (j : Int)
    (h0 : 0 ≤ j) (h1 : j < buf.length) :
    byteAt (memmove buf dst src n) j =
      if dst ≤ j ∧ j < dst + n then byteAt buf (src + (j - dst)) else byteAt buf j := by
  obtain ⟨k, rfl⟩ := Int.eq_ofNat_of_zero_le h0
  have hk : k < buf.length := by exact_mod_cast h1
  simp only [byteAt, memmove]
  simp [hk, List.getD_eq_getElem?_getD]
  have : ¬ ((k : Int) < 0) := by omega
  simp [this]

/-- C9: a current header of non-zero length that begins with `*` or `:` is left alone
by `composeCompoundCommand`: the call returns TRUE and the buffer and the token
are unchanged, whatever the previous token is. -/
theorem composeCompoundCommand_common_or_absolute (buf : List Nat) (prev cur : scpi_token_t)
    (cptr : Int) (hptr : cur.ptr = some cptr) (hlen : 0 < cur.len)
    (hfirst : byteAt buf cptr = 42 ∨ byteAt buf cptr = 58) :
    composeCompoundCommand buf prev (some cur) = (true, buf, some cur) := by
  have hl : cur.len ≠ 0 := by omega
  unfold composeCompoundCommand
  simp only [hptr, hl, if_false]
  cases prev.ptr with
  | none => rfl
  | some pptr =>
    simp only
    by_cases hp : prev.len = 0
    · simp [hp]
    · simp [hp, hfirst]

theorem composeCompoundCommand_common_or_absolute_witness :
    (⟨0, some 11, 6⟩ : scpi_token_t).ptr = some 11 ∧
    0 < (⟨0, some 11, 6⟩ : scpi_token_t).len ∧
    (byteAt (str "MEAS:VOLT?;:CURR?") 11 = 42 ∨ byteAt (str "MEAS:VOLT?;:CURR?") 11 = 58) ∧
    composeCompoundCommand (str "MEAS:VOLT?;:CURR?") ⟨0, some 0, 10⟩ (some ⟨0, some 11, 6⟩) =
      (true, str "MEAS:VOLT?;:CURR?", some ⟨0, some 11, 6⟩) :=
  ⟨rfl, by decide, by decide,
    composeCompoundCommand_common_or_absolute (str "MEAS:VOLT?;:CURR?") ⟨0, some 0, 10⟩
      ⟨0, some 11, 6⟩ 11 rfl (by decide) (by decide)⟩
theorem lastColonPos_le (buf : List Nat) (p : Int) (n : Nat) : lastColonPos buf p n ≤ n := by
  induction n with
  | zero => simp [lastColonPos]
  | succ n ih =>
    unfold lastColonPos
    split <;> omega

theorem lastColonPos_eq_zero_iff (buf : List Nat) (p : Int) (n : Nat) :
    lastColonPos buf p n = 0 ↔
      58 ∉ (List.range n).map (fun (k : Nat) => byteAt buf (p + k)) := by
  induction n with
  | zero => simp [lastColonPos]
  | succ n ih =>
    by_cases h : byteAt buf (p + n) = 58
    · simp only [lastColonPos, h, if_true, List.range_succ, List.map_append, List.map_singleton,
        List.mem_append, List.mem_singleton, not_or]
      simp
    · simp only [lastColonPos, h, if_false, ih, List.range_succ, List.map_append,
        List.map_singleton, List.mem_append, List.mem_singleton, not_or]
      constructor
      · intro h1; exact ⟨h1, fun h2 => h h2.symm⟩
      · intro h1; exact h1.1

/-- C10: prefix inheritance.  For a current header of non-zero length: if the previous
header is non-empty, does not begin with `*`, contains a `:` and lies in the
buffer before the current header, which begins with neither `*` nor `:`, then
after `composeCompoundCommand` the current token covers the previous header up to
and including its last `:` followed by the original bytes of the current header,
and its length has grown by the length of that part; if the previous header is
NULL or empty, begins with `*` or contains no `:`, buffer and token are unchanged. -/
theorem composeCompoundCommand_inherits_colon_part (buf : List Nat) (prev cur : scpi_token_t)
    (cptr : Int) (hc : cur.ptr = some cptr) (hclen : 0 < cur.len) :
    (∀ pptr : Int, prev.ptr = some pptr → 0 ≤ pptr → pptr + prev.len ≤ cptr →
      cptr + cur.len ≤ buf.length → 0 < prev.len → byteAt buf pptr ≠ 42 →
      byteAt buf cptr ≠ 42 → byteAt buf cptr ≠ 58 → 58 ∈ tokenBytes buf prev →
      ∃ buf1 cur1, composeCompoundCommand buf prev (some cur) = (true, buf1, some cur1) ∧
        tokenBytes buf1 cur1 = uptoLastColon (tokenBytes buf prev) ++ tokenBytes buf cur ∧
        cur1.len = cur.len + (uptoLastColon (tokenBytes buf prev)).length ∧
        cur1.ptr = some (cptr - (uptoLastColon (tokenBytes buf prev)).length)) ∧
    ((prev.ptr = none ∨ prev.len = 0 ∨ prev.ptr.map (byteAt buf) = some 42 ∨
        58 ∉ tokenBytes buf prev) →
      composeCompoundCommand buf prev (some cur) = (true, buf, some cur)) := by
  have hl : cur.len ≠ 0 := by omega
  constructor
  · intro pptr hp hp0 hlater hin hplen hpstar hc1 hc2 hcolon
    have hbytes : tokenBytes buf prev =
        (List.range prev.len).map (fun (k : Nat) => byteAt buf (pptr + k)) := by
      simp [tokenBytes, hp]
    have hi0 : lastColonPos buf pptr prev.len ≠ 0 := by
      rw [Ne, lastColonPos_eq_zero_iff, ← hbytes]; exact fun h => h hcolon
    have hile := lastColonPos_le buf pptr prev.len
    have hspec := lastColonPos_spec buf pptr prev.len
    rw [← hbytes] at hspec
    have hlen : (uptoLastColon (tokenBytes buf prev)).length = lastColonPos buf pptr prev.len := by
      rw [← hspec]; simp
    have hpl : prev.len ≠ 0 := by omega
    refine ⟨memmove buf (cptr - lastColonPos buf pptr prev.len) pptr (lastColonPos buf pptr prev.len),
      { cur with ptr := some (cptr - lastColonPos buf pptr prev.len),
                 len := cur.len + lastColonPos buf pptr prev.len }, ?_, ?_, ?_, ?_⟩
    · unfold composeCompoundCommand
      simp [hc, hl, hp, hpl, hc1, hc2, hpstar, hi0]
    · rw [← hspec]
      generalize lastColonPos buf pptr prev.len = i at hile hi0
      simp only [tokenBytes, hc]
      rw [Nat.add_comm cur.len i, List.range_add, List.map_append, List.map_map]
      congr 1
      · apply List.map_congr_left
        intro k hk
        have hk' : k < i := List.mem_range.1 hk
        rw [byteAt_memmove _ _ _ _ _ (by omega) (by omega)]
        rw [if_pos (by omega)]
        congr 1; omega
      · apply List.map_congr_left
        intro k hk
        have hk' : k < cur.len := List.mem_range.1 hk
        simp only [Function.comp]
        rw [byteAt_memmove _ _ _ _ _ (by push_cast; omega) (by push_cast; omega)]
        rw [if_neg (by push_cast; omega)]
        congr 1; push_cast; omega
    · simp [hlen]
    · simp [hlen]
  · intro h
    unfold composeCompoundCommand
    simp only [hc, hl, if_false]
    cases hpp : prev.ptr with
    | none => rfl
    | some pptr =>
      simp only
      rcases h with h | h | h | h
      · simp [hpp] at h
      · simp [h]
      · have h42 : byteAt buf pptr = 42 := by simpa [hpp] using h
        by_cases h0 : prev.len = 0
        · simp [h0]
        · simp [h0, h42]
      · have hbytes : tokenBytes buf prev =
            (List.range prev.len).map (fun (k : Nat) => byteAt buf (pptr + k)) := by
          simp [tokenBytes, hpp]
        have hi0 : lastColonPos buf pptr prev.len = 0 := by
          rw [lastColonPos_eq_zero_iff, ← hbytes]; exact h
        by_cases h0 : prev.len = 0
        · simp [h0]
        · by_cases h1 : byteAt buf cptr = 42 ∨ byteAt buf cptr = 58
          · simp [h0, h1]
          · by_cases h2 : byteAt buf pptr = 42
            · simp [h0, h1, h2]
            · simp [h0, h1, h2, hi0]
theorem composeCompoundCommand_inherits_colon_part_witness :
    (∃ buf1 cur1,
      composeCompoundCommand (str "MEAS:VOLT?;CURR?") ⟨0, some 0, 10⟩ (some ⟨0, some 11, 5⟩) =
        (true, buf1, some cur1) ∧
      tokenBytes buf1 cur1 = str "MEAS:CURR?" ∧ cur1.len = 5 + 5 ∧ cur1.ptr = some (11 - 5)) ∧
    composeCompoundCommand (str "*CLS;CURR?") ⟨0, some 0, 4⟩ (some ⟨0, some 5, 5⟩) =
      (true, str "*CLS;CURR?", some ⟨0, some 5, 5⟩) := by
  constructor
  · obtain ⟨b, c, h1, h2, h3, h4⟩ :=
      (composeCompoundCommand_inherits_colon_part (str "MEAS:VOLT?;CURR?") ⟨0, some 0, 10⟩
        ⟨0, some 11, 5⟩ 11 rfl (by decide)).1 0 rfl (by decide) (by decide) (by decide)
        (by decide) (by decide) (by decide) (by decide) (by decide)
    have e : uptoLastColon (tokenBytes (str "MEAS:VOLT?;CURR?") ⟨0, some 0, 10⟩) ++
        tokenBytes (str "MEAS:VOLT?;CURR?") ⟨0, some 11, 5⟩ = str "MEAS:CURR?" := by decide
    have e2 : (uptoLastColon (tokenBytes (str "MEAS:VOLT?;CURR?") ⟨0, some 0, 10⟩)).length = 5 := by
      decide
    exact ⟨b, c, h1, h2.trans e, by rw [h3, e2], by rw [h4, e2]; rfl⟩
  · exact (composeCompoundCommand_inherits_colon_part (str "*CLS;CURR?") ⟨0, some 0, 4⟩
      ⟨0, some 5, 5⟩ 5 rfl (by decide)).2 (Or.inr (Or.inr (Or.inl (by decide))))

theorem digitChar_isdigit (d : Nat) (h : d < 10) :
    isdigit (digitChar d) = true ∧ digitChar d - 48 = d := by
  simp only [digitChar, if_pos h, isdigit, Bool.and_eq_true, decide_eq_true_eq]
  omega

theorem digitsValue_foldl (L : List Nat) (hL : ∀ d ∈ L, d < 10) :
    ∀ acc : Nat, (L.map digitChar).foldl (fun a d => 10 * a + (d - 48)) acc =
      acc * 10 ^ L.length + Nat.ofDigits 10 L.reverse := by
  induction L with
  | nil => intro acc; simp
  | cons d L ih =>
    intro acc
    have hd := (digitChar_isdigit d (hL d (by simp))).2
    simp only [List.map_cons, List.foldl_cons, hd, List.length_cons, List.reverse_cons,
      Nat.ofDigits_append, Nat.ofDigits_singleton, List.length_reverse]
    rw [ih (fun x hx => hL x (by simp [hx]))]
    ring

theorem numeral_ten (v : Nat) :
    (∀ c ∈ numeral 10 v, isdigit c = true) ∧ numeral 10 v ≠ [] ∧
      digitsValue (numeral 10 v) = v := by
  by_cases hv : v = 0
  · subst hv
    simp [numeral, isdigit, digitsValue]
  · have hlt : ∀ d ∈ (Nat.digits 10 v).reverse, d < 10 := fun d hd =>
      Nat.digits_lt_base (by omega) (List.mem_reverse.1 hd)
    refine ⟨?_, ?_, ?_⟩
    · intro c hc
      rw [numeral, if_neg hv] at hc
      obtain ⟨d, hd, rfl⟩ := List.mem_map.1 hc
      exact (digitChar_isdigit d (hlt d hd)).1
    · rw [numeral, if_neg hv]
      simp [Nat.digits_ne_nil_iff_ne_zero.2 hv]
    · rw [numeral, if_neg hv, digitsValue, digitsValue_foldl _ hlt 0]
      simp [Nat.ofDigits_digits]

theorem strBaseToInt32_negative (ds crest : List Nat) (hd : ∀ d ∈ ds, isdigit d = true)
    (hne : ds ≠ []) (hcrest : crest = [] ∨ ∃ s t, crest = s :: t ∧ isdigit s = false)
    (hv : digitsValue ds ≤ 2147483648) :
    strBaseToInt32 (45 :: (ds ++ crest)) = (ds.length + 1, -(digitsValue ds : Int)) := by
  have hws : ((45 :: (ds ++ crest)).takeWhile isspace).length = 0 := by
    simp [List.takeWhile, isspace]
  have hds : (ds ++ crest).takeWhile isdigit = ds := takeWhile_append_stop isdigit ds crest hd hcrest
  have hlen : ds.length ≠ 0 := fun h => hne (List.length_eq_zero.1 h)
  have hst : strtol (45 :: (ds ++ crest)) =
      (max (-9223372036854775808) (min 9223372036854775807 (-(digitsValue ds : Int))),
        ds.length + 1) := by
    unfold strtol
    simp only [hws, List.drop_zero, List.cons_append, List.headD_cons, beq_self_eq_true,
      Bool.true_or, if_true, List.drop_succ_cons, hds, hlen, if_false, Nat.zero_add]
    rw [Nat.add_comm]
  unfold strBaseToInt32
  rw [hst]
  simp only [Prod.mk.injEq, true_and]
  have h1 : min (9223372036854775807 : Int) (-(digitsValue ds : Int)) = -(digitsValue ds : Int) := by
    apply min_eq_right; omega
  have h2 : max (-9223372036854775808 : Int) (-(digitsValue ds : Int)) =
      -(digitsValue ds : Int) := by
    apply max_eq_right; omega
  rw [h1, h2]
  unfold toInt32
  omega

/-- The signed base-10 conversion reads back the canonical numeral of an `int32_t`. -/
theorem strBaseToInt32_signedNumeral (n : Int) (crest : List Nat)
    (hlo : -2147483648 ≤ n) (hhi : n < 2147483648)
    (hcrest : crest = [] ∨ ∃ s t, crest = s :: t ∧ isdigit s = false) :
    strBaseToInt32 (signedNumeral n ++ crest) = ((signedNumeral n).length, n) := by
  unfold signedNumeral
  by_cases hn : n < 0
  · rw [if_pos hn]
    obtain ⟨h1, h2, h3⟩ := numeral_ten n.natAbs
    rw [List.cons_append, strBaseToInt32_negative _ crest h1 h2 hcrest (by rw [h3]; omega), h3]
    simp only [List.length_cons, Prod.mk.injEq, true_and]
    omega
  · rw [if_neg hn]
    obtain ⟨h1, h2, h3⟩ := numeral_ten n.toNat
    rw [strBaseToInt32_digits _ crest h1 h2 hcrest (by rw [h3]; omega), h3]
    simp only [Prod.mk.injEq, true_and]
    omega

theorem digits_of_lt (d : Nat) (h : d < 16) : digits d = some (digitChar d) := by
  interval_cases d <;> rfl

theorem msdDigits_length (b : Nat) : ∀ (k u : Nat), (msdDigits b k u).length = k + 1 := by
  intro k
  induction k with
  | zero => intro u; rfl
  | succ k ih => intro u; simp [msdDigits, ih]

theorem msdDigits_lt (b : Nat) (hb : 0 < b) :
    ∀ (k u : Nat), u < b ^ (k + 1) → ∀ d ∈ msdDigits b k u, d < b := by
  intro k
  induction k with
  | zero =>
    intro u hu d hd
    simp only [msdDigits, List.mem_singleton] at hd
    subst hd
    simpa using hu
  | succ k ih =>
    intro u hu d hd
    simp only [msdDigits, List.mem_cons] at hd
    rcases hd with rfl | hd
    · rw [Nat.div_lt_iff_lt_mul (Nat.pow_pos hb)]
      calc u < b ^ (k + 1 + 1) := hu
        _ = b * b ^ (k + 1) := by ring
    · exact ih _ (Nat.mod_lt _ (Nat.pow_pos hb)) d hd

theorem msdDigits_ofDigits (b : Nat) :
    ∀ (k u : Nat), Nat.ofDigits b (msdDigits b k u).reverse = u := by
  intro k
  induction k with
  | zero => intro u; simp [msdDigits]
  | succ k ih =>
    intro u
    simp only [msdDigits, List.reverse_cons, Nat.ofDigits_append, ih, List.length_reverse,
      msdDigits_length, Nat.ofDigits_singleton]
    exact Nat.mod_add_div u (b ^ (k + 1))

theorem msdDigits_head (b k u : Nat) : (msdDigits b k u).head? = some (u / b ^ k) := by
  cases k <;> simp [msdDigits]

/-- The digits stored by the converters are the digits of the value. -/
theorem digits_eq_msdDigits (b k u : Nat) (hb : 1 < b) (hlo : b ^ k ≤ u)
    (hhi : u < b ^ (k + 1)) : Nat.digits b u = (msdDigits b k u).reverse := by
  have h := Nat.digits_ofDigits b hb (msdDigits b k u).reverse
    (by intro l hl; exact msdDigits_lt b (by omega) k u hhi l (List.mem_reverse.1 hl))
    (by
      intro hne
      rw [List.getLast_reverse]
      have hh := msdDigits_head b k u
      have h2 := List.head?_eq_head (l := msdDigits b k u) (by simpa using hne)
      rw [hh] at h2
      rw [← Option.some.inj h2]
      have : 0 < u / b ^ k := Nat.div_pos hlo (Nat.pow_pos (by omega))
      omega)
  rw [msdDigits_ofDigits] at h
  exact h
theorem removeLeadingZeros_pow (b uval : Nat) (hb : 1 < b) (hu : 0 < uval) :
    ∀ (K fuel : Nat), K + 1 ≤ fuel → uval < b ^ (K + 1) →
      ∃ k, k ≤ K ∧ b ^ k ≤ uval ∧ uval < b ^ (k + 1) ∧
        removeLeadingZeros b uval fuel (b ^ K) = some (b ^ k) := by
  intro K
  induction K with
  | zero =>
    intro fuel hf hlt
    obtain ⟨f, rfl⟩ : ∃ f, fuel = f + 1 := ⟨fuel - 1, by omega⟩
    refine ⟨0, le_refl _, by simpa using hu, hlt, ?_⟩
    simp only [removeLeadingZeros, pow_zero, Nat.div_one]
    rw [if_neg (by omega), if_neg (by omega)]
  | succ K ih =>
    intro fuel hf hlt
    obtain ⟨f, rfl⟩ : ∃ f, fuel = f + 1 := ⟨fuel - 1, by omega⟩
    have hpos : 0 < b ^ (K + 1) := Nat.pow_pos (by omega)
    by_cases hz : uval / b ^ (K + 1) = 0
    · have hlt' : uval < b ^ (K + 1) := by
        rcases (Nat.div_eq_zero_iff hpos).1 hz with h
        exact h
      obtain ⟨k, h1, h2, h3, h4⟩ := ih f (by omega) hlt'
      refine ⟨k, by omega, h2, h3, ?_⟩
      rw [removeLeadingZeros, if_neg (by omega), if_pos hz]
      have : b ^ (K + 1) / b = b ^ K := by
        rw [pow_succ]
        exact Nat.mul_div_cancel _ (by omega)
      rw [this]
      exact h4
    · refine ⟨K + 1, le_refl _, ?_, hlt, ?_⟩
      · by_contra hc
        exact hz (Nat.div_eq_of_lt (by omega))
      · rw [removeLeadingZeros, if_neg (by omega), if_neg hz]

theorem writeDigits_pow (w b len : Nat) (hb : 1 < b) (hb16 : b ≤ 16) :
    ∀ (k fuel uval : Nat) (out : List Nat), k + 1 ≤ fuel → uval < b ^ (k + 1) →
      uval < 2 ^ w → out.length + k + 1 ≤ len →
      writeDigits w b len fuel uval (b ^ k) out =
        some (out ++ (msdDigits b k uval).map digitChar) := by
  intro k
  induction k with
  | zero =>
    intro fuel uval out hf hlt hw hlen
    obtain ⟨f, rfl⟩ : ∃ f, fuel = f + 1 := ⟨fuel - 1, by omega⟩
    have hu : uval < b := by simpa using hlt
    have hd : digits (uval % 256) = some (digitChar uval) := by
      rw [Nat.mod_eq_of_lt (by omega)]
      exact digits_of_lt uval (by omega)
    simp only [writeDigits, pow_zero, Nat.div_one, one_ne_zero, if_false, hd]
    have hx : 1 / b = 0 := Nat.div_eq_of_lt hb
    simp only [hx, ne_eq, not_true_eq_false, false_and, if_false, ADD_CHAR, msdDigits,
      List.map_cons, List.map_nil]
    rw [if_pos (by omega)]
  | succ k ih =>
    intro fuel uval out hf hlt hw hlen
    obtain ⟨f, rfl⟩ : ∃ f, fuel = f + 1 := ⟨fuel - 1, by omega⟩
    have hpos : 0 < b ^ (k + 1) := Nat.pow_pos (by omega)
    have hdlt : uval / b ^ (k + 1) < b := by
      rw [Nat.div_lt_iff_lt_mul hpos]
      calc uval < b ^ (k + 1 + 1) := hlt
        _ = b * b ^ (k + 1) := by ring
    have hd : digits (uval / b ^ (k + 1) % 256) = some (digitChar (uval / b ^ (k + 1))) := by
      rw [Nat.mod_eq_of_lt (by omega)]
      exact digits_of_lt _ (by omega)
    have hmul : uval / b ^ (k + 1) * b ^ (k + 1) ≤ uval := Nat.div_mul_le_self _ _
    have hsub : (uval + 2 ^ w - (uval / b ^ (k + 1) % 256 * b ^ (k + 1)) % 2 ^ w) % 2 ^ w =
        uval % b ^ (k + 1) := by
      rw [Nat.mod_eq_of_lt (show uval / b ^ (k + 1) < 256 by omega),
        Nat.mod_eq_of_lt (show uval / b ^ (k + 1) * b ^ (k + 1) < 2 ^ w by omega)]
      have h1 := Nat.mod_add_div uval (b ^ (k + 1))
      have h2 : b ^ (k + 1) * (uval / b ^ (k + 1)) = uval / b ^ (k + 1) * b ^ (k + 1) :=
        Nat.mul_comm _ _
      have h3 : uval + 2 ^ w - uval / b ^ (k + 1) * b ^ (k + 1) =
          uval % b ^ (k + 1) + 2 ^ w := by omega
      rw [h3, Nat.add_mod_right]
      exact Nat.mod_eq_of_lt (lt_of_le_of_lt (Nat.mod_le _ _) hw)
    have hx : b ^ (k + 1) / b = b ^ k := by
      rw [pow_succ]
      exact Nat.mul_div_cancel _ (by omega)
    have hxk : b ^ k ≠ 0 := Nat.pos_iff_ne_zero.1 (Nat.pow_pos (by omega))
    rw [writeDigits, if_neg (by omega)]
    simp only [hd, hsub, hx]
    have hadd : ADD_CHAR len out (digitChar (uval / b ^ (k + 1))) =
        out ++ [digitChar (uval / b ^ (k + 1))] := by
      rw [ADD_CHAR, if_pos (by omega)]
    rw [hadd, if_pos ⟨hxk, by simp; omega⟩]
    rw [ih f (uval % b ^ (k + 1)) _ (by omega) (Nat.mod_lt _ hpos)
      (lt_of_le_of_lt (Nat.mod_le _ _) hw) (by simp; omega)]
    simp [msdDigits]
theorem numeral_eq_msdDigits (b k u : Nat) (hb : 1 < b) (hlo : b ^ k ≤ u)
    (hhi : u < b ^ (k + 1)) : numeral b u = (msdDigits b k u).map digitChar := by
  have hu : u ≠ 0 := by
    have : 0 < b ^ k := Nat.pow_pos (by omega)
    omega
  rw [numeral, if_neg hu, digits_eq_msdDigits b k u hb hlo hhi, List.reverse_reverse]

theorem numeral_length_le (b K u : Nat) (hb : 1 < b) (hK : u < b ^ (K + 1)) :
    (numeral b u).length ≤ K + 1 := by
  by_cases hu : u = 0
  · simp [numeral, hu]
  · obtain ⟨k, h1, h2, h3, _⟩ := removeLeadingZeros_pow b u hb (by omega) K (K + 1)
      (le_refl _) hK
    rw [numeral_eq_msdDigits b k u hb h2 h3, List.length_map, msdDigits_length]
    omega

/-- The two loops of the converters, started with the divisor `b ^ K` on a non-zero
value below `b ^ (K + 1)`, append the numeral of the value when the buffer has
room for it. -/
theorem convertLoops_numeral (w b len K uval : Nat) (out : List Nat) (hb : 1 < b)
    (hb16 : b ≤ 16) (hu : 0 < uval) (hw : uval < 2 ^ w) (hK : uval < b ^ (K + 1))
    (hKw : K ≤ w) (hlen : out.length + (numeral b uval).length ≤ len) :
    (match removeLeadingZeros b uval (w + 1) (b ^ K) with
      | none => none
      | some x => writeDigits w b len (w + 1) uval x out) = some (out ++ numeral b uval) := by
  obtain ⟨k, h1, h2, h3, h4⟩ := removeLeadingZeros_pow b uval hb hu K (w + 1) (by omega) hK
  rw [h4]
  simp only
  have hn := numeral_eq_msdDigits b k uval hb h2 h3
  have hl : (numeral b uval).length = k + 1 := by
    rw [hn, List.length_map, msdDigits_length]
  rw [writeDigits_pow w b len hb hb16 k (w + 1) uval out (by omega) h3 hw (by omega), hn]

theorem toStrBaseSign_zero (w : Nat) (start : Int → Nat × Nat) (len : Nat) (base : Int)
    (sign : Bool) (hlen : 1 ≤ len) :
    toStrBaseSign w start 0 len base sign = some (numeral (start base).2 0) := by
  simp [toStrBaseSign, ADD_CHAR, numeral]
  omega

theorem toStrBaseSign_plain (w : Nat) (start : Int → Nat × Nat) (val len : Nat)
    (base : Int) (sign : Bool) (b K : Nat) (hstart : start base = (b ^ K, b)) (hb : 1 < b)
    (hb16 : b ≤ 16) (hw : val < 2 ^ w) (hK : val < b ^ (K + 1)) (hKw : K ≤ w)
    (hlen : (numeral b val).length ≤ len)
    (hpos : sign = false ∨ val < 2 ^ (w - 1) ∨ b ≠ 10) :
    toStrBaseSign w start val len base sign = some (numeral b val) := by
  by_cases h0 : val = 0
  · subst h0
    rw [toStrBaseSign_zero w start len base sign (by simpa [numeral] using hlen), hstart]
  · have hneg : (sign && decide (2 ^ (w - 1) ≤ val) && (b == 10)) = false := by
      rcases hpos with h | h | h
      · simp [h]
      · simp [Nat.not_le.2 h]
      · simp [h]
    rw [toStrBaseSign, if_neg h0]
    simp only [hstart, hneg, Bool.false_eq_true, if_false]
    have := convertLoops_numeral w b len K val [] hb hb16 (by omega) hw hK hKw
      (by simpa using hlen)
    simpa using this

theorem toStrBaseSign_negative (w : Nat) (start : Int → Nat × Nat) (val len : Nat)
    (base : Int) (K : Nat) (hstart : start base = (10 ^ K, 10)) (hw : val < 2 ^ w)
    (hneg : 2 ^ (w - 1) ≤ val) (hK : 2 ^ w - val < 10 ^ (K + 1)) (hKw : K ≤ w)
    (hlen : 1 + (numeral 10 (2 ^ w - val)).length ≤ len) :
    toStrBaseSign w start val len base true = some (45 :: numeral 10 (2 ^ w - val)) := by
  have hpw : 0 < 2 ^ (w - 1) := Nat.pow_pos (by omega)
  have h0 : val ≠ 0 := by omega
  have hn : (true && decide (2 ^ (w - 1) ≤ val) && ((10 : Nat) == 10)) = true := by
    simp [hneg]
  rw [toStrBaseSign, if_neg h0]
  simp only [hstart, hn, if_true]
  have hmod : (2 ^ w - val) % 2 ^ w = 2 ^ w - val := Nat.mod_eq_of_lt (by omega)
  have hadd : ADD_CHAR len [] 45 = [45] := by
    rw [ADD_CHAR, if_pos (by simp; omega)]
    rfl
  rw [hmod, hadd]
  have := convertLoops_numeral w 10 len K (2 ^ w - val) [45] (by omega) (by omega)
    (by omega) (by omega) hK hKw (by simpa using hlen)
  simpa using this
theorem startDivisor32_pow (base : Int) :
    ∃ K, startDivisor32 base = ((startDivisor32 base).2 ^ K, (startDivisor32 base).2) ∧
      1 < (startDivisor32 base).2 ∧ (startDivisor32 base).2 ≤ 16 ∧
      2 ^ 32 ≤ (startDivisor32 base).2 ^ (K + 1) ∧ K ≤ 31 ∧
      ((startDivisor32 base).2 = 10 → K = 9) := by
  unfold startDivisor32
  by_cases h2 : base = 2
  · exact ⟨31, by simp [h2]⟩
  · by_cases h8 : base = 8
    · exact ⟨10, by simp [h8]⟩
    · by_cases h10 : base = 10
      · exact ⟨9, by simp [h10]⟩
      · by_cases h16 : base = 16
        · exact ⟨7, by simp [h16]⟩
        · exact ⟨9, by simp [h2, h8, h10, h16]⟩

theorem startDivisor64_pow (base : Int) :
    ∃ K, startDivisor64 base = ((startDivisor64 base).2 ^ K, (startDivisor64 base).2) ∧
      1 < (startDivisor64 base).2 ∧ (startDivisor64 base).2 ≤ 16 ∧
      2 ^ 64 ≤ (startDivisor64 base).2 ^ (K + 1) ∧ K ≤ 63 ∧
      ((startDivisor64 base).2 = 10 → K = 19) := by
  unfold startDivisor64
  by_cases h2 : base = 2
  · exact ⟨63, by simp [h2]⟩
  · by_cases h8 : base = 8
    · exact ⟨21, by simp [h8]⟩
    · by_cases h10 : base = 10
      · exact ⟨19, by simp [h10]⟩
      · by_cases h16 : base = 16
        · exact ⟨15, by simp [h16]⟩
        · exact ⟨19, by simp [h2, h8, h10, h16]⟩

/-- `UInt32ToStrBaseSign` stores the numeral of the value, in the base it settles on,
whenever no sign is due. -/
theorem UInt32ToStrBaseSign_plain (val len : Nat) (base : Int) (sign : Bool)
    (hv : val < 2 ^ 32) (hlen : (numeral (startDivisor32 base).2 val).length ≤ len)
    (hpos : sign = false ∨ val < 2 ^ 31 ∨ (startDivisor32 base).2 ≠ 10) :
    UInt32ToStrBaseSign val len base sign = some (numeral (startDivisor32 base).2 val) := by
  obtain ⟨K, h1, h2, h3, h4, h5, _⟩ := startDivisor32_pow base
  exact toStrBaseSign_plain 32 startDivisor32 val len base sign _ K h1 h2 h3 hv
    (by omega) (by omega) hlen hpos

theorem numeral32_length_le (val : Nat) (base : Int) (hv : val < 2 ^ 32) :
    (numeral (startDivisor32 base).2 val).length ≤ 32 := by
  obtain ⟨K, h1, h2, h3, h4, h5, _⟩ := startDivisor32_pow base
  have := numeral_length_le (startDivisor32 base).2 K val h2 (by omega)
  omega

theorem UInt64ToStrBaseSign_plain (val len : Nat) (base : Int) (sign : Bool)
    (hv : val < 2 ^ 64) (hlen : (numeral (startDivisor64 base).2 val).length ≤ len)
    (hpos : sign = false ∨ val < 2 ^ 63 ∨ (startDivisor64 base).2 ≠ 10) :
    UInt64ToStrBaseSign val len base sign = some (numeral (startDivisor64 base).2 val) := by
  obtain ⟨K, h1, h2, h3, h4, h5, _⟩ := startDivisor64_pow base
  exact toStrBaseSign_plain 64 startDivisor64 val len base sign _ K h1 h2 h3 hv
    (by omega) (by omega) hlen hpos

theorem numeral64_length_le (val : Nat) (base : Int) (hv : val < 2 ^ 64) :
    (numeral (startDivisor64 base).2 val).length ≤ 64 := by
  obtain ⟨K, h1, h2, h3, h4, h5, _⟩ := startDivisor64_pow base
  have := numeral_length_le (startDivisor64 base).2 K val h2 (by omega)
  omega

theorem SCPI_Int32ToStr_numeral (n : Int) (len : Nat) (hlo : -2147483648 ≤ n)
    (hhi : n < 2147483648) (hlen : 12 ≤ len) :
    SCPI_Int32ToStr n len = some (signedNumeral n) := by
  unfold SCPI_Int32ToStr signedNumeral
  by_cases hn : n < 0
  · rw [if_pos hn]
    have hval : (n % 4294967296).toNat = 4294967296 - n.natAbs := by omega
    rw [hval]
    have hl := numeral_length_le 10 9 (2 ^ 32 - (4294967296 - n.natAbs)) (by omega)
      (by norm_num; omega)
    have := toStrBaseSign_negative 32 startDivisor32 (4294967296 - n.natAbs) len 10 9
      (by rfl) (by omega) (by norm_num; omega) (by norm_num; omega) (by omega) (by omega)
    rw [UInt32ToStrBaseSign, this]
    have e : 2 ^ 32 - (4294967296 - n.natAbs) = n.natAbs := by
      have : n.natAbs ≤ 4294967296 := by omega
      norm_num
      omega
    rw [e]
  · rw [if_neg hn]
    have hval : (n % 4294967296).toNat = n.toNat := by omega
    rw [hval]
    have hl := numeral_length_le 10 9 n.toNat (by omega) (by norm_num; omega)
    have := toStrBaseSign_plain 32 startDivisor32 n.toNat len 10 true 10 9 (by rfl)
      (by omega) (by omega) (by norm_num; omega) (by norm_num; omega) (by omega) (by omega)
      (Or.inr (Or.inl (by norm_num; omega)))
    rw [UInt32ToStrBaseSign, this]

theorem SCPI_Int64ToStr_numeral (n : Int) (len : Nat) (hlo : -9223372036854775808 ≤ n)
    (hhi : n < 9223372036854775808) (hlen : 21 ≤ len) :
    SCPI_Int64ToStr n len = some (signedNumeral n) := by
  unfold SCPI_Int64ToStr signedNumeral
  by_cases hn : n < 0
  · rw [if_pos hn]
    have hval : (n % 18446744073709551616).toNat = 18446744073709551616 - n.natAbs := by omega
    rw [hval]
    have hl := numeral_length_le 10 19 (2 ^ 64 - (18446744073709551616 - n.natAbs)) (by omega)
      (by norm_num; omega)
    have := toStrBaseSign_negative 64 startDivisor64 (18446744073709551616 - n.natAbs) len 10
      19 (by rfl) (by omega) (by norm_num; omega) (by norm_num; omega) (by omega) (by omega)
    rw [UInt64ToStrBaseSign, this]
    have e : 2 ^ 64 - (18446744073709551616 - n.natAbs) = n.natAbs := by
      have : n.natAbs ≤ 18446744073709551616 := by omega
      norm_num
      omega
    rw [e]
  · rw [if_neg hn]
    have hval : (n % 18446744073709551616).toNat = n.toNat := by omega
    rw [hval]
    have hl := numeral_length_le 10 19 n.toNat (by omega) (by norm_num; omega)
    have := toStrBaseSign_plain 64 startDivisor64 n.toNat len 10 true 10 19 (by rfl)
      (by omega) (by omega) (by norm_num; omega) (by norm_num; omega) (by omega) (by omega)
      (Or.inr (Or.inl (by norm_num; omega)))
    rw [UInt64ToStrBaseSign, this]

theorem scpi_t_output_append_nil (c : scpi_t) : { c with output := c.output ++ [] } = c := by
  cases c
  simp

theorem writeData_eq (c : scpi_t) (data : List Nat) (len : Nat) :
    writeData c data len = (len, { c with output := c.output ++ data.take len }) := rfl

theorem writeDelimiter_eq (c : scpi_t) :
    writeDelimiter c = ((if c.output_count > 0 then 1 else 0),
      { c with output := c.output ++ (if c.output_count > 0 then [44] else []) }) := by
  unfold writeDelimiter
  by_cases h : c.output_count > 0
  · simp [h, writeData_eq]
  · simp only [h, if_false]
    rw [scpi_t_output_append_nil]

theorem writeSemicolon_eq (c : scpi_t) :
    writeSemicolon c = ((if c.output_count > 0 then 1 else 0),
      { c with output := c.output ++ (if c.output_count > 0 then [59] else []) }) := by
  unfold writeSemicolon
  by_cases h : c.output_count > 0
  · simp [h, writeData_eq]
  · simp only [h, if_false]
    rw [scpi_t_output_append_nil]

/-- The prefix that `getBasePrefix` gives for a base, empty for NULL. -/
theorem getBasePrefix_cases (base : Int) :
    (getBasePrefix base = some (str "#B") ∧ base = 2) ∨
    (getBasePrefix base = some (str "#Q") ∧ base = 8) ∨
    (getBasePrefix base = some (str "#H") ∧ base = 16) ∨
    (getBasePrefix base = none ∧ base ≠ 2 ∧ base ≠ 8 ∧ base ≠ 16) := by
  unfold getBasePrefix
  by_cases h2 : base = 2
  · simp [h2]
  · by_cases h8 : base = 8
    · simp [h8]
    · by_cases h16 : base = 16
      · simp [h16]
      · simp [h2, h8, h16]

theorem resultBaseSign_eq (c : scpi_t) (buffer : List Nat) (base : Int) :
    resultBaseSign c buffer base =
      ((if c.output_count > 0 then 1 else 0) +
          (match getBasePrefix base with | some _ => 2 | none => 0) + buffer.length,
        { c with
          output := c.output ++ (if c.output_count > 0 then [44] else []) ++
            (getBasePrefix base).getD [] ++ buffer,
          output_count := c.output_count + 1 }) := by
  unfold resultBaseSign
  rw [writeDelimiter_eq]
  rcases getBasePrefix_cases base with h | h | h | h <;>
    simp [h.1, writeData_eq, str]


/-- C13: for every `uint64_t` value `v`, every base `b` among 2, 8, 10 and 16 and a
buffer of at least 65 bytes, `SCPI_UInt64ToStrBase` stores exactly the base-`b`
numeral of `v` (no leading zeros) and returns its length; and `SCPI_Int64ToStr`
stores the canonical signed decimal numeral of every `int64_t`, `-2^63`
included. -/
theorem SCPI_UInt64ToStrBase_numeral (v b len : Nat) (n : Int)
    (hv : v < 18446744073709551616) (hb : b = 2 ∨ b = 8 ∨ b = 10 ∨ b = 16)
    (hlen : 65 ≤ len) (hlo : -9223372036854775808 ≤ n) (hhi : n < 9223372036854775808) :
    SCPI_UInt64ToStrBase v len (b : Int) = some (numeral b v) ∧
    (SCPI_UInt64ToStrBase v len (b : Int)).map List.length = some (numeral b v).length ∧
    SCPI_Int64ToStr n len = some (signedNumeral n) := by
  have hs : (startDivisor64 (b : Int)).2 = b := by
    rcases hb with h | h | h | h <;> subst h <;> rfl
  have hl := numeral64_length_le v (b : Int) (by omega)
  have h := UInt64ToStrBaseSign_plain v len (b : Int) false (by omega) (by omega) (Or.inl rfl)
  rw [hs] at h
  refine ⟨h, ?_, SCPI_Int64ToStr_numeral n len hlo hhi (by omega)⟩
  unfold SCPI_UInt64ToStrBase
  rw [h, Option.map_some']

theorem SCPI_UInt64ToStrBase_numeral_witness :
    SCPI_UInt64ToStrBase 18446744073709551615 65 ((8 : Nat) : Int) =
      some (numeral 8 18446744073709551615) ∧
    (SCPI_UInt64ToStrBase 18446744073709551615 65 ((8 : Nat) : Int)).map List.length =
      some (numeral 8 18446744073709551615).length ∧
    SCPI_Int64ToStr (-9223372036854775808) 65 = some (signedNumeral (-9223372036854775808)) :=
  SCPI_UInt64ToStrBase_numeral 18446744073709551615 8 65 (-9223372036854775808) (by decide)
    (by decide) (by decide) (by decide) (by decide)

/-- C14 (as amended): the initial place-value divisor that `UInt64ToStrBaseSign` uses
for base 8, `0x8000000000000000`, is the power `8^21`, and base-8 conversion of
every 64-bit value into a buffer of at least 22 bytes yields exactly the octal
numeral of the value. -/
theorem UInt64ToStrBaseSign_octal (v len : Nat) (sign : Bool)
    (hv : v < 18446744073709551616) (hlen : 22 ≤ len) :
    (startDivisor64 8).1 = 8 ^ 21 ∧
    UInt64ToStrBaseSign v len 8 sign = some (numeral 8 v) := by
  refine ⟨by rfl, ?_⟩
  have hl := numeral_length_le 8 21 v (by omega) (by norm_num; omega)
  exact toStrBaseSign_plain 64 startDivisor64 v len 8 sign 8 21 (by rfl) (by omega)
    (by omega) (by omega) (by norm_num; omega) (by omega) (by omega)
    (Or.inr (Or.inr (by omega)))

theorem UInt64ToStrBaseSign_octal_witness :
    (startDivisor64 8).1 = 8 ^ 21 ∧
    UInt64ToStrBaseSign 9223372036854775808 22 8 false =
      some (numeral 8 9223372036854775808) :=
  UInt64ToStrBaseSign_octal 9223372036854775808 22 false (by decide) (by decide)

/-- C14, counterexample to the claim as stated: there is a natural `k` with
`8^k = 0x8000000000000000`, namely `k = 21`, and that is the divisor the code
starts from in base 8. -/
theorem startDivisor64_octal_power_counterexample :
    (startDivisor64 8).1 = 0x8000000000000000 ∧
    ∃ k : Nat, 8 ^ k = (startDivisor64 8).1 :=
  ⟨by rfl, 21, by rfl⟩

theorem numeral_ten_digit (d : Nat) (h0 : d ≠ 0) (h : d < 10) : numeral 10 d = [48 + d] := by
  rw [numeral, if_neg h0, Nat.digits_of_lt 10 d h0 h]
  simp [digitChar, h]

theorem numeral_length_pos (b v : Nat) : 1 ≤ (numeral b v).length := by
  by_cases hv : v = 0
  · simp [numeral, hv]
  · rw [numeral, if_neg hv, List.length_map, List.length_reverse]
    have : Nat.digits b v ≠ [] := Nat.digits_ne_nil_iff_ne_zero.2 hv
    exact List.length_pos.2 this

theorem writeBinHeader_small (context : scpi_t) (numElems sizeOfElem : Nat)
    (h : (numElems * sizeOfElem) % 2 ^ 64 ≤ 999999999) :
    writeBinHeader context numElems sizeOfElem =
      some (2 + (numeral 10 ((numElems * sizeOfElem) % 2 ^ 64)).length,
        { context with
          output := context.output ++
            [35, 48 + (numeral 10 ((numElems * sizeOfElem) % 2 ^ 64)).length] ++
            numeral 10 ((numElems * sizeOfElem) % 2 ^ 64) }) ∧
    1 ≤ (numeral 10 ((numElems * sizeOfElem) % 2 ^ 64)).length ∧
    (numeral 10 ((numElems * sizeOfElem) % 2 ^ 64)).length ≤ 9 := by
  generalize hn : (numElems * sizeOfElem) % 2 ^ 64 = n at *
  have hd9 := numeral_length_le 10 8 n (by omega) (by norm_num; omega)
  have hd1 := numeral_length_pos 10 n
  refine ⟨?_, hd1, hd9⟩
  have hmod : n % 2 ^ 32 = n := Nat.mod_eq_of_lt (by norm_num; omega)
  have h1 : SCPI_UInt32ToStrBase n 10 10 = some (numeral 10 n) :=
    UInt32ToStrBaseSign_plain n 10 10 false (by norm_num; omega)
      (by
        have : (startDivisor32 10).2 = 10 := rfl
        rw [this]; omega) (Or.inl rfl)
  generalize hdd : (numeral 10 n).length = d at *
  have hmod2 : d % 2 ^ 32 = d := Nat.mod_eq_of_lt (by norm_num; omega)
  have hnd := numeral_ten_digit d (by omega) (by omega)
  have h2 : SCPI_UInt32ToStrBase d 2 10 = some [48 + d] := by
    rw [← hnd]
    exact UInt32ToStrBaseSign_plain d 2 10 false (by norm_num; omega)
      (by
        have : (startDivisor32 10).2 = 10 := rfl
        rw [this, hnd]; simp) (Or.inl rfl)
  unfold writeBinHeader
  rw [hn, if_neg (by omega), hmod, h1]
  simp only [Option.some_bind, hdd, hmod2, h2, writeData_eq]
  have ht : (numeral 10 n).take d = numeral 10 n := by
    rw [← hdd]; exact List.take_length _
  simp [ht]

theorem writeBinHeader_large (context : scpi_t) (numElems sizeOfElem : Nat)
    (h : (numElems * sizeOfElem) % 2 ^ 64 > 999999999) :
    writeBinHeader context numElems sizeOfElem = some (0, context) := by
  unfold writeBinHeader
  rw [if_pos h]

/-- C15: let `n` be the product `numElems * sizeOfElem` as `writeBinHeader` computes it.
If `n ≤ 999999999`, `writeBinHeader` writes exactly `#`, the single digit `d`,
the number of decimal digits of `n`, and the `d`-digit decimal numeral of `n`, and
returns `2 + d`.  If `n > 999999999` it writes nothing and returns 0, and the
binary buffer writers `resultBufferInt16Bin` and `resultBufferFloatBin` then
return 0 with the context unchanged: no payload, `output_binary_count` as it
was. -/
theorem writeBinHeader_format (context : scpi_t) (numElems sizeOfElem : Nat) :
    ((numElems * sizeOfElem) % 2 ^ 64 ≤ 999999999 →
      writeBinHeader context numElems sizeOfElem =
        some (2 + (numeral 10 ((numElems * sizeOfElem) % 2 ^ 64)).length,
          { context with
            output := context.output ++
              [35, 48 + (numeral 10 ((numElems * sizeOfElem) % 2 ^ 64)).length] ++
              numeral 10 ((numElems * sizeOfElem) % 2 ^ 64) }) ∧
      1 ≤ (numeral 10 ((numElems * sizeOfElem) % 2 ^ 64)).length ∧
      (numeral 10 ((numElems * sizeOfElem) % 2 ^ 64)).length ≤ 9) ∧
    ((numElems * sizeOfElem) % 2 ^ 64 > 999999999 →
      writeBinHeader context numElems sizeOfElem = some (0, context)) ∧
    (∀ (data : List Int) (size : Nat), (size % 2 ^ 32 * 2) % 2 ^ 64 > 999999999 →
      resultBufferInt16Bin context data size = some (0, context)) ∧
    (∀ (F : Type) (_ : Inhabited F) (hton_f : F → List Nat) (data : List F) (size : Nat),
      (size % 2 ^ 32 * 4) % 2 ^ 64 > 999999999 →
      resultBufferFloatBin hton_f context data size = some (0, context)) := by
  refine ⟨writeBinHeader_small context numElems sizeOfElem,
    writeBinHeader_large context numElems sizeOfElem, ?_, ?_⟩
  · intro data size h
    unfold resultBufferInt16Bin
    rw [writeBinHeader_large context _ _ h]
    rfl
  · intro F _ hton_f data size h
    unfold resultBufferFloatBin
    rw [writeBinHeader_large context _ _ h]
    rfl

theorem writeBinHeader_format_witness :
    ((1234 * 2) % 2 ^ 64 ≤ 999999999 ∧
      writeBinHeader ⟨[], false, 0, 0, 0, 0, false, true, [], ⟨[], 0, 0⟩⟩ 1234 2 =
        some (2 + (numeral 10 ((1234 * 2) % 2 ^ 64)).length,
          { (⟨[], false, 0, 0, 0, 0, false, true, [], ⟨[], 0, 0⟩⟩ : scpi_t) with
            output := ([] : List Nat) ++
              [35, 48 + (numeral 10 ((1234 * 2) % 2 ^ 64)).length] ++
              numeral 10 ((1234 * 2) % 2 ^ 64) }) ∧
      1 ≤ (numeral 10 ((1234 * 2) % 2 ^ 64)).length ∧
      (numeral 10 ((1234 * 2) % 2 ^ 64)).length ≤ 9) ∧
    ((600000000 % 2 ^ 32 * 2) % 2 ^ 64 > 999999999 ∧
      resultBufferInt16Bin ⟨[], false, 0, 0, 0, 0, false, true, [], ⟨[], 0, 0⟩⟩ [] 600000000 =
        some (0, ⟨[], false, 0, 0, 0, 0, false, true, [], ⟨[], 0, 0⟩⟩)) :=
  ⟨⟨by decide,
    (writeBinHeader_format ⟨[], false, 0, 0, 0, 0, false, true, [], ⟨[], 0, 0⟩⟩ 1234 2).1
      (by decide)⟩,
   ⟨by decide,
    (writeBinHeader_format ⟨[], false, 0, 0, 0, 0, false, true, [], ⟨[], 0, 0⟩⟩ 0 0).2.2.1
      [] 600000000 (by decide)⟩⟩

theorem SameCounters.refl (c : scpi_t) : SameCounters c c := ⟨rfl, rfl, rfl, rfl⟩

theorem SameCounters.trans {a b c : scpi_t} (h1 : SameCounters a b) (h2 : SameCounters b c) :
    SameCounters a c :=
  ⟨h2.1.trans h1.1, h2.2.1.trans h1.2.1, h2.2.2.1.trans h1.2.2.1, h2.2.2.2.trans h1.2.2.2⟩

theorem writeData_sameCounters (c : scpi_t) (data : List Nat) (len : Nat) :
    SameCounters c (writeData c data len).2 := ⟨rfl, rfl, rfl, rfl⟩

theorem writeDelimiter_sameCounters (c : scpi_t) : SameCounters c (writeDelimiter c).2 := by
  rw [writeDelimiter_eq]
  exact ⟨rfl, rfl, rfl, rfl⟩

theorem foldl_sameCounters {α : Type} (f : Nat × scpi_t → α → Nat × scpi_t)
    (hf : ∀ acc a, SameCounters acc.2 (f acc a).2) :
    ∀ (l : List α) (acc : Nat × scpi_t), SameCounters acc.2 (l.foldl f acc).2 := by
  intro l
  induction l with
  | nil => intro acc; exact SameCounters.refl _
  | cons a l ih => intro acc; exact (hf acc a).trans (ih (f acc a))

theorem SameCounters.countsField {c c' : scpi_t} (h : SameCounters c c') :
    CountsField c { c' with output_count := c'.output_count + 1 } :=
  ⟨by show c'.output_count + 1 = _; rw [h.1], h.2.1, h.2.2.1, h.2.2.2⟩

theorem resultBaseSign_countsField (c : scpi_t) (buffer : List Nat) (base : Int) :
    CountsField c (resultBaseSign c buffer base).2 := by
  rw [resultBaseSign_eq]
  exact ⟨rfl, rfl, rfl, rfl⟩

/-- The 32-bit converter returns for every value, base and sign flag when the buffer
has 33 bytes. -/
theorem UInt32ToStrBaseSign_some (val : Nat) (base : Int) (sign : Bool) (hv : val < 2 ^ 32) :
    ∃ buffer, UInt32ToStrBaseSign val 33 base sign = some buffer := by
  by_cases hpos : sign = false ∨ val < 2 ^ 31 ∨ (startDivisor32 base).2 ≠ 10
  · have hl := numeral32_length_le val base hv
    exact ⟨_, UInt32ToStrBaseSign_plain val 33 base sign hv (by omega) hpos⟩
  · simp only [not_or, Bool.not_eq_false, not_lt, ne_eq, not_not] at hpos
    obtain ⟨hs, hneg, h10⟩ := hpos
    obtain ⟨K, h1, _, _, _, _, h6⟩ := startDivisor32_pow base
    have hK := h6 h10
    subst hK
    rw [h10] at h1
    subst hs
    have hl := numeral_length_le 10 9 (2 ^ 32 - val) (by omega) (by norm_num; omega)
    exact ⟨_, toStrBaseSign_negative 32 startDivisor32 val 33 base 9 h1 hv hneg
      (by norm_num; omega) (by omega) (by omega)⟩

/-- The 64-bit converter returns for every value, base and sign flag when the buffer
has 65 bytes. -/
theorem UInt64ToStrBaseSign_some (val : Nat) (base : Int) (sign : Bool) (hv : val < 2 ^ 64) :
    ∃ buffer, UInt64ToStrBaseSign val 65 base sign = some buffer := by
  by_cases hpos : sign = false ∨ val < 2 ^ 63 ∨ (startDivisor64 base).2 ≠ 10
  · have hl := numeral64_length_le val base hv
    exact ⟨_, UInt64ToStrBaseSign_plain val 65 base sign hv (by omega) hpos⟩
  · simp only [not_or, Bool.not_eq_false, not_lt, ne_eq, not_not] at hpos
    obtain ⟨hs, hneg, h10⟩ := hpos
    obtain ⟨K, h1, _, _, _, _, h6⟩ := startDivisor64_pow base
    have hK := h6 h10
    subst hK
    rw [h10] at h1
    subst hs
    have hl := numeral_length_le 10 19 (2 ^ 64 - val) (by omega) (by norm_num; omega)
    exact ⟨_, toStrBaseSign_negative 64 startDivisor64 val 65 base 19 h1 hv hneg
      (by norm_num; omega) (by omega) (by omega)⟩

theorem resultUInt32BaseSign_countsField (c : scpi_t) (val : Nat) (base : Int) (sign : Bool)
    (hv : val < 2 ^ 32) :
    ∃ r, resultUInt32BaseSign c val base sign = some r ∧ CountsField c r.2 := by
  obtain ⟨buffer, hb⟩ := UInt32ToStrBaseSign_some val base sign hv
  exact ⟨_, by rw [resultUInt32BaseSign, hb, Option.map_some'],
    resultBaseSign_countsField c buffer base⟩

theorem resultUInt64BaseSign_countsField (c : scpi_t) (val : Nat) (base : Int) (sign : Bool)
    (hv : val < 2 ^ 64) :
    ∃ r, resultUInt64BaseSign c val base sign = some r ∧ CountsField c r.2 := by
  obtain ⟨buffer, hb⟩ := UInt64ToStrBaseSign_some val base sign hv
  exact ⟨_, by rw [resultUInt64BaseSign, hb, Option.map_some'],
    resultBaseSign_countsField c buffer base⟩

theorem resultBufferInt16Ascii_countsField (c : scpi_t) (data : List Int) (size : Nat) :
    CountsField c (resultBufferInt16Ascii c data size).2 := by
  unfold resultBufferInt16Ascii
  refine SameCounters.countsField ?_
  refine SameCounters.trans ?_ (writeData_sameCounters _ _ _)
  refine SameCounters.trans ?_ (foldl_sameCounters _ ?_ _ _)
  · exact (writeDelimiter_sameCounters c).trans (writeData_sameCounters _ _ _)
  · intro acc i
    by_cases h : i + 1 < size
    · simp only [h, if_true]
      exact (writeData_sameCounters _ _ _).trans (writeData_sameCounters _ _ _)
    · simp only [h, if_false]
      exact writeData_sameCounters _ _ _

theorem resultBufferFloatAscii_countsField {F : Type} [Inhabited F]
    (SCPI_DoubleToStr : F → Nat → List Nat) (c : scpi_t) (data : List F) (size : Nat) :
    CountsField c (resultBufferFloatAscii SCPI_DoubleToStr c data size).2 := by
  unfold resultBufferFloatAscii
  refine SameCounters.countsField ?_
  refine SameCounters.trans ?_ (writeData_sameCounters _ _ _)
  refine SameCounters.trans ?_ (foldl_sameCounters _ ?_ _ _)
  · exact (writeDelimiter_sameCounters c).trans (writeData_sameCounters _ _ _)
  · intro acc i
    by_cases h : i + 1 < size
    · simp only [h, if_true]
      exact (writeData_sameCounters _ _ _).trans (writeData_sameCounters _ _ _)
    · simp only [h, if_false]
      exact writeData_sameCounters _ _ _

/-- C16: every scalar, text and ASCII-array emission (`SCPI_ResultCharacters`,
`SCPI_ResultInt32`, `SCPI_ResultUInt32Base`, `SCPI_ResultInt64`,
`SCPI_ResultUInt64Base`, `SCPI_ResultFloat`, `SCPI_ResultDouble`,
`SCPI_ResultText`, `SCPI_ResultBool`, and `SCPI_ResultBufferInt16` and
`SCPI_ResultBufferFloat` when `binary_output` is false) returns, increases
`output_count` by exactly one and leaves `output_binary_count`, `input_count`
and `cmd_error` unchanged. -/
theorem result_emission_counts_field (c : scpi_t) :
    (∀ (data : List Nat) (len : Nat), CountsField c (SCPI_ResultCharacters c data len).2) ∧
    (∀ val : Int, ∃ r, SCPI_ResultInt32 c val = some r ∧ CountsField c r.2) ∧
    (∀ (val : Nat) (base : Int), val < 2 ^ 32 →
      ∃ r, SCPI_ResultUInt32Base c val base = some r ∧ CountsField c r.2) ∧
    (∀ val : Int, ∃ r, SCPI_ResultInt64 c val = some r ∧ CountsField c r.2) ∧
    (∀ (val : Nat) (base : Int), val < 2 ^ 64 →
      ∃ r, SCPI_ResultUInt64Base c val base = some r ∧ CountsField c r.2) ∧
    (∀ (F : Type) (SCPI_FloatToStr : F → Nat → List Nat) (val : F),
      CountsField c (SCPI_ResultFloat SCPI_FloatToStr c val).2) ∧
    (∀ (F : Type) (SCPI_DoubleToStr : F → Nat → List Nat) (val : F),
      CountsField c (SCPI_ResultDouble SCPI_DoubleToStr c val).2) ∧
    (∀ data : List Nat, CountsField c (SCPI_ResultText c data).2) ∧
    (∀ val : Bool, ∃ r, SCPI_ResultBool c val = some r ∧ CountsField c r.2) ∧
    (c.binary_output = false → ∀ (data : List Int) (size : Nat),
      ∃ r, SCPI_ResultBufferInt16 c data size = some r ∧ CountsField c r.2) ∧
    (c.binary_output = false → ∀ (F : Type) (_ : Inhabited F) (hton_f : F → List Nat)
      (SCPI_DoubleToStr : F → Nat → List Nat) (data : List F) (size : Nat),
      ∃ r, SCPI_ResultBufferFloat hton_f SCPI_DoubleToStr c data size = some r ∧
        CountsField c r.2) := by
  have field2 : ∀ (d1 : List Nat) (l1 : Nat),
      CountsField c { (writeData (writeDelimiter c).2 d1 l1).2 with
        output_count := (writeData (writeDelimiter c).2 d1 l1).2.output_count + 1 } :=
    fun d1 l1 => SameCounters.countsField
      ((writeDelimiter_sameCounters c).trans (writeData_sameCounters _ _ _))
  refine ⟨fun data len => field2 data len, ?_, ?_, ?_, ?_, ?_, ?_, ?_, ?_, ?_, ?_⟩
  · intro val
    exact resultUInt32BaseSign_countsField c _ 10 true (by norm_num; omega)
  · intro val base hv
    exact resultUInt32BaseSign_countsField c val base false hv
  · intro val
    exact resultUInt64BaseSign_countsField c _ 10 true (by norm_num; omega)
  · intro val base hv
    exact resultUInt64BaseSign_countsField c val base false hv
  · intro F f val
    exact field2 _ _
  · intro F f val
    exact field2 _ _
  · intro data
    exact SameCounters.countsField
      ((((writeDelimiter_sameCounters c).trans (writeData_sameCounters _ _ _)).trans
        (writeData_sameCounters _ _ _)).trans (writeData_sameCounters _ _ _))
  · intro val
    exact resultUInt32BaseSign_countsField c _ 10 false (by cases val <;> norm_num)
  · intro hb data size
    refine ⟨_, by rw [SCPI_ResultBufferInt16, if_neg (by simp [hb])], ?_⟩
    exact resultBufferInt16Ascii_countsField c data size
  · intro hb F _ hton_f dts data size
    refine ⟨_, by rw [SCPI_ResultBufferFloat, if_neg (by simp [hb])], ?_⟩
    exact resultBufferFloatAscii_countsField dts c data size

theorem result_emission_counts_field_witness :
    (∃ r, SCPI_ResultUInt32Base ⟨[], false, 0, 3, 2, 1, true, false, [], ⟨[], 0, 0⟩⟩ 255 16 =
        some r ∧
      CountsField ⟨[], false, 0, 3, 2, 1, true, false, [], ⟨[], 0, 0⟩⟩ r.2) ∧
    (∃ r, SCPI_ResultBufferInt16 ⟨[], false, 0, 3, 2, 1, true, false, [], ⟨[], 0, 0⟩⟩
        [1, -2, 3] 3 = some r ∧
      CountsField ⟨[], false, 0, 3, 2, 1, true, false, [], ⟨[], 0, 0⟩⟩ r.2) :=
  ⟨(result_emission_counts_field
      ⟨[], false, 0, 3, 2, 1, true, false, [], ⟨[], 0, 0⟩⟩).2.2.1 255 16 (by decide),
   (result_emission_counts_field
      ⟨[], false, 0, 3, 2, 1, true, false, [], ⟨[], 0, 0⟩⟩).2.2.2.2.2.2.2.2.2.1 rfl
      [1, -2, 3] 3⟩

theorem resultBufferInt16Bin_countsBlock (c : scpi_t) (data : List Int) (size : Nat)
    (h : size * 2 ≤ 999999999) :
    ∃ r, resultBufferInt16Bin c data size = some r ∧ CountsBlock c r.2 := by
  have hs : size % 2 ^ 32 = size := Nat.mod_eq_of_lt (by norm_num; omega)
  have hn : (size * 2) % 2 ^ 64 = size * 2 := Nat.mod_eq_of_lt (by norm_num; omega)
  obtain ⟨hw, _, _⟩ := writeBinHeader_small c size 2 (by rw [hn]; exact h)
  unfold resultBufferInt16Bin
  rw [hs, hw, Option.map_some']
  refine ⟨_, rfl, ?_⟩
  rw [if_neg (by simp)]
  have hsame := foldl_sameCounters
    (fun (acc : Nat × scpi_t) (i : Nat) =>
      ((acc.1 + (writeData acc.2 (htons ((data.getD i 0) % 65536).toNat) 2).1,
        (writeData acc.2 (htons ((data.getD i 0) % 65536).toNat) 2).2) : Nat × scpi_t))
    (fun acc i => writeData_sameCounters _ _ _) (List.range size)
    (2 + (numeral 10 ((size * 2) % 2 ^ 64)).length,
      { c with
        output := c.output ++ [35, 48 + (numeral 10 ((size * 2) % 2 ^ 64)).length] ++
          numeral 10 ((size * 2) % 2 ^ 64) })
  exact ⟨by show _ + 1 = _; rw [hsame.2.1], hsame.1⟩

theorem resultBufferFloatBin_countsBlock {F : Type} [Inhabited F] (hton_f : F → List Nat)
    (c : scpi_t) (data : List F) (size : Nat) (h : size * 4 ≤ 999999999) :
    ∃ r, resultBufferFloatBin hton_f c data size = some r ∧ CountsBlock c r.2 := by
  have hs : size % 2 ^ 32 = size := Nat.mod_eq_of_lt (by norm_num; omega)
  have hn : (size * 4) % 2 ^ 64 = size * 4 := Nat.mod_eq_of_lt (by norm_num; omega)
  obtain ⟨hw, _, _⟩ := writeBinHeader_small c size 4 (by rw [hn]; exact h)
  unfold resultBufferFloatBin
  rw [hs, hw, Option.map_some']
  refine ⟨_, rfl, ?_⟩
  rw [if_neg (by simp)]
  have hsame := foldl_sameCounters
    (fun (acc : Nat × scpi_t) (i : Nat) =>
      ((acc.1 + (writeData acc.2 (hton_f (data.getD i default)) 4).1,
        (writeData acc.2 (hton_f (data.getD i default)) 4).2) : Nat × scpi_t))
    (fun acc i => writeData_sameCounters _ _ _) (List.range size)
    (2 + (numeral 10 ((size * 4) % 2 ^ 64)).length,
      { c with
        output := c.output ++ [35, 48 + (numeral 10 ((size * 4) % 2 ^ 64)).length] ++
          numeral 10 ((size * 4) % 2 ^ 64) })
  exact ⟨by show _ + 1 = _; rw [hsame.2.1], hsame.1⟩

theorem SCPI_ResultArbitraryBlock_countsField (c : scpi_t) (data : List Nat) (len : Nat)
    (h : len ≤ 999999999) :
    ∃ r, SCPI_ResultArbitraryBlock c data len = some r ∧ CountsField c r.2 := by
  have hmod : len % 2 ^ 32 = len := Nat.mod_eq_of_lt (by norm_num; omega)
  have hl := numeral_length_le 10 8 len (by omega) (by norm_num; omega)
  have h1 : SCPI_UInt32ToStrBase len 10 10 = some (numeral 10 len) :=
    UInt32ToStrBaseSign_plain len 10 10 false (by norm_num; omega)
      (by
        have : (startDivisor32 10).2 = 10 := rfl
        rw [this]; omega) (Or.inl rfl)
  unfold SCPI_ResultArbitraryBlock
  rw [hmod, h1, Option.some_bind, if_pos (by omega)]
  exact ⟨_, rfl, rfl, rfl, rfl, rfl⟩

/-- C17 (as amended): with `binary_output` true and a payload within the nine-digit
limit, `SCPI_ResultBufferInt16` and `SCPI_ResultBufferFloat` return, increase
`output_binary_count` by exactly one and leave `output_count` unchanged;
`SCPI_ResultArbitraryBlock`, for a payload within the nine-digit limit, returns,
increases `output_count` by exactly one and leaves `output_binary_count`
unchanged. -/
theorem binary_emission_counts (c : scpi_t) :
    (c.binary_output = true → ∀ (data : List Int) (size : Nat), size * 2 ≤ 999999999 →
      ∃ r, SCPI_ResultBufferInt16 c data size = some r ∧ CountsBlock c r.2) ∧
    (c.binary_output = true → ∀ (F : Type) (_ : Inhabited F) (hton_f : F → List Nat)
      (SCPI_DoubleToStr : F → Nat → List Nat) (data : List F) (size : Nat),
      size * 4 ≤ 999999999 →
      ∃ r, SCPI_ResultBufferFloat hton_f SCPI_DoubleToStr c data size = some r ∧
        CountsBlock c r.2) ∧
    (∀ (data : List Nat) (len : Nat), len ≤ 999999999 →
      ∃ r, SCPI_ResultArbitraryBlock c data len = some r ∧ CountsField c r.2) := by
  refine ⟨?_, ?_, SCPI_ResultArbitraryBlock_countsField c⟩
  · intro hb data size h
    rw [SCPI_ResultBufferInt16, if_pos hb]
    exact resultBufferInt16Bin_countsBlock c data size h
  · intro hb F _ hton_f dts data size h
    rw [SCPI_ResultBufferFloat, if_pos hb]
    exact resultBufferFloatBin_countsBlock hton_f c data size h

theorem binary_emission_counts_witness :
    (∃ r, SCPI_ResultBufferInt16 ⟨[], false, 0, 0, 0, 0, false, true, [], ⟨[], 0, 0⟩⟩
        [1, -2, 3] 3 = some r ∧
      CountsBlock ⟨[], false, 0, 0, 0, 0, false, true, [], ⟨[], 0, 0⟩⟩ r.2) ∧
    (∃ r, SCPI_ResultArbitraryBlock ⟨[], false, 0, 0, 0, 0, false, true, [], ⟨[], 0, 0⟩⟩
        [97, 98] 2 = some r ∧
      CountsField ⟨[], false, 0, 0, 0, 0, false, true, [], ⟨[], 0, 0⟩⟩ r.2) :=
  ⟨(binary_emission_counts ⟨[], false, 0, 0, 0, 0, false, true, [], ⟨[], 0, 0⟩⟩).1 rfl
      [1, -2, 3] 3 (by decide),
   (binary_emission_counts ⟨[], false, 0, 0, 0, 0, false, true, [], ⟨[], 0, 0⟩⟩).2.2
      [97, 98] 2 (by decide)⟩

/-- C17, counterexample to the claim as stated: `SCPI_ResultArbitraryBlock` on the
two-byte payload `ab`, from a context with all counters 0, writes `#12ab`, leaves
`output_binary_count` at 0 and sets `output_count` to 1. -/
theorem SCPI_ResultArbitraryBlock_counts_counterexample :
    SCPI_ResultArbitraryBlock ⟨[], false, 0, 0, 0, 0, false, true, [], ⟨[], 0, 0⟩⟩
        [97, 98] 2 =
      some (5, ⟨str "#12ab", false, 0, 1, 0, 0, false, true, [], ⟨[], 0, 0⟩⟩) ∧
    ¬ CountsBlock ⟨[], false, 0, 0, 0, 0, false, true, [], ⟨[], 0, 0⟩⟩
      ⟨str "#12ab", false, 0, 1, 0, 0, false, true, [], ⟨[], 0, 0⟩⟩ := by
  constructor
  · decide
  · unfold CountsBlock
    decide

theorem resultBase32_run (c : scpi_t) (val : Nat) (base : Int) (sign : Bool)
    (hv : val < 2 ^ 32) :
    ∃ k, resultUInt32BaseSign c val base sign = some (k,
      { c with
        output := c.output ++ (if c.output_count > 0 then [44] else []) ++
          ((getBasePrefix base).getD [] ++ (UInt32ToStrBaseSign val 33 base sign).getD []),
        output_count := c.output_count + 1 }) := by
  obtain ⟨buffer, hb⟩ := UInt32ToStrBaseSign_some val base sign hv
  rw [resultUInt32BaseSign, hb, Option.map_some', resultBaseSign_eq]
  simp only [Option.getD_some, List.append_assoc]
  exact ⟨_, rfl⟩

theorem resultBase64_run (c : scpi_t) (val : Nat) (base : Int) (sign : Bool)
    (hv : val < 2 ^ 64) :
    ∃ k, resultUInt64BaseSign c val base sign = some (k,
      { c with
        output := c.output ++ (if c.output_count > 0 then [44] else []) ++
          ((getBasePrefix base).getD [] ++ (UInt64ToStrBaseSign val 65 base sign).getD []),
        output_count := c.output_count + 1 }) := by
  obtain ⟨buffer, hb⟩ := UInt64ToStrBaseSign_some val base sign hv
  rw [resultUInt64BaseSign, hb, Option.map_some', resultBaseSign_eq]
  simp only [Option.getD_some, List.append_assoc]
  exact ⟨_, rfl⟩

/-- Every scalar result call writes `,` if `output_count > 0`, then its field, and counts
one field. -/
theorem ResultCall.run_eq {F : Type} (fts dts : F → Nat → List Nat) (call : ResultCall F)
    (hvalid : call.Valid) (c : scpi_t) :
    ∃ k, call.run fts dts c = some (k,
      { c with
        output := c.output ++ (if c.output_count > 0 then [44] else []) ++
          call.field fts dts,
        output_count := c.output_count + 1 }) := by
  have hp : getBasePrefix 10 = none := by decide
  cases call with
  | characters data len =>
    simp only [ResultCall.run, ResultCall.field, SCPI_ResultCharacters, writeDelimiter_eq,
      writeData_eq]
    exact ⟨_, rfl⟩
  | int32 val =>
    obtain ⟨k, hk⟩ := resultBase32_run c (val % 4294967296).toNat 10 true (by norm_num; omega)
    refine ⟨k, ?_⟩
    simp only [ResultCall.run, ResultCall.field, SCPI_ResultInt32, SCPI_Int32ToStr, hk, hp,
      Option.getD_none, List.nil_append]
  | uint32Base val base =>
    obtain ⟨k, hk⟩ := resultBase32_run c val base false hvalid
    refine ⟨k, ?_⟩
    simp only [ResultCall.run, ResultCall.field, SCPI_ResultUInt32Base, SCPI_UInt32ToStrBase, hk]
  | int64 val =>
    obtain ⟨k, hk⟩ := resultBase64_run c (val % 18446744073709551616).toNat 10 true
      (by norm_num; omega)
    refine ⟨k, ?_⟩
    simp only [ResultCall.run, ResultCall.field, SCPI_ResultInt64, SCPI_Int64ToStr, hk, hp,
      Option.getD_none, List.nil_append]
  | uint64Base val base =>
    obtain ⟨k, hk⟩ := resultBase64_run c val base false hvalid
    refine ⟨k, ?_⟩
    simp only [ResultCall.run, ResultCall.field, SCPI_ResultUInt64Base, SCPI_UInt64ToStrBase, hk]
  | float val =>
    simp only [ResultCall.run, ResultCall.field, SCPI_ResultFloat, writeDelimiter_eq,
      writeData_eq, List.take_length]
    exact ⟨_, rfl⟩
  | double val =>
    simp only [ResultCall.run, ResultCall.field, SCPI_ResultDouble, writeDelimiter_eq,
      writeData_eq, List.take_length]
    exact ⟨_, rfl⟩
  | text data =>
    simp only [ResultCall.run, ResultCall.field, SCPI_ResultText, writeDelimiter_eq,
      writeData_eq]
    simp only [List.take_succ_cons, List.take_zero, List.append_assoc]
    exact ⟨_, rfl⟩
  | bool val =>
    obtain ⟨k, hk⟩ := resultBase32_run c (if val then 1 else 0) 10 false
      (by cases val <;> norm_num)
    refine ⟨k, ?_⟩
    simp only [ResultCall.run, ResultCall.field, SCPI_ResultBool, SCPI_UInt32ToStrBase, hk, hp,
      Option.getD_none, List.nil_append]

theorem intercalate_cons_eq (sep : List Nat) (x : List Nat) (xs : List (List Nat)) :
    List.intercalate sep (x :: xs) = x ++ (xs.map (fun y => sep ++ y)).flatten := by
  induction xs generalizing x with
  | nil => simp [List.intercalate]
  | cons y ys ih =>
    have := ih y
    simp only [List.intercalate, List.intersperse, List.flatten_cons, List.map_cons] at this ⊢
    rw [this]
    simp

/-- A sequence of calls entered with `output_count > 0` writes every field behind a
comma. -/
theorem runCalls_pos {F : Type} (fts dts : F → Nat → List Nat) :
    ∀ (calls : List (ResultCall F)) (c : scpi_t), (∀ call ∈ calls, call.Valid) →
      0 < c.output_count →
      runCalls fts dts calls c = some
        { c with
          output := c.output ++
            (calls.map (fun call => [44] ++ call.field fts dts)).flatten,
          output_count := c.output_count + calls.length } := by
  intro calls
  induction calls with
  | nil =>
    intro c _ _
    simp only [runCalls, List.map_nil, List.flatten_nil, List.append_nil, List.length_nil,
      Nat.cast_zero, add_zero]
  | cons call calls ih =>
    intro c hv hc
    obtain ⟨k, hk⟩ := call.run_eq fts dts (hv call (by simp)) c
    rw [runCalls, hk]
    simp only
    rw [ih _ (fun x hx => hv x (by simp [hx])) (by show 0 < c.output_count + 1; omega)]
    simp only [gt_iff_lt, hc, if_true, List.map_cons, List.flatten_cons, List.append_assoc,
      List.length_cons, Nat.cast_add, Nat.cast_one]
    congr 2
    omega

/-- C18: starting from `output_count = 0`, every sequence of `k ≥ 1` scalar result calls
returns and hands to the sink exactly the `k` fields joined by single `,`
characters, with no leading and no trailing comma, leaving `output_count = k`;
and each call on its own writes `,` before its field if and only if
`output_count > 0` on entry. -/
theorem result_calls_comma_joined {F : Type} (SCPI_FloatToStr SCPI_DoubleToStr : F → Nat → List Nat)
    (call : ResultCall F) (calls : List (ResultCall F)) (c : scpi_t)
    (hv : ∀ x ∈ call :: calls, x.Valid) (hc : c.output_count = 0) :
    runCalls SCPI_FloatToStr SCPI_DoubleToStr (call :: calls) c = some
      { c with
        output := c.output ++ List.intercalate [44]
          ((call :: calls).map (ResultCall.field SCPI_FloatToStr SCPI_DoubleToStr)),
        output_count := ((call :: calls).length : Int) } ∧
    ∀ (x : ResultCall F) (d : scpi_t), x.Valid →
      ∃ k, x.run SCPI_FloatToStr SCPI_DoubleToStr d = some (k,
        { d with
          output := d.output ++ (if d.output_count > 0 then [44] else []) ++
            x.field SCPI_FloatToStr SCPI_DoubleToStr,
          output_count := d.output_count + 1 }) := by
  refine ⟨?_, fun x d hx => x.run_eq SCPI_FloatToStr SCPI_DoubleToStr hx d⟩
  obtain ⟨k, hk⟩ := call.run_eq SCPI_FloatToStr SCPI_DoubleToStr (hv call (by simp)) c
  rw [runCalls, hk]
  simp only
  rw [runCalls_pos SCPI_FloatToStr SCPI_DoubleToStr calls _ (fun x hx => hv x (by simp [hx]))
    (by show 0 < c.output_count + 1; omega)]
  rw [List.map_cons, intercalate_cons_eq]
  simp only [hc, gt_iff_lt, lt_self_iff_false, if_false, List.append_nil, List.map_map,
    List.append_assoc, List.length_cons, Nat.cast_add, Nat.cast_one, zero_add]
  congr 2
  omega

theorem result_calls_comma_joined_witness :
    (∀ x ∈ [ResultCall.int32 (F := Unit) 1, ResultCall.int32 (-2), ResultCall.text (str "a")],
      x.Valid) ∧
    runCalls (fun (_ : Unit) _ => []) (fun (_ : Unit) _ => [])
        [ResultCall.int32 1, ResultCall.int32 (-2), ResultCall.text (str "a")]
        ⟨[], false, 0, 0, 0, 0, false, false, [], ⟨[], 0, 0⟩⟩ = some
      { (⟨[], false, 0, 0, 0, 0, false, false, [], ⟨[], 0, 0⟩⟩ : scpi_t) with
        output := ([] : List Nat) ++ List.intercalate [44]
          ([ResultCall.int32 1, ResultCall.int32 (-2), ResultCall.text (str "a")].map
            (ResultCall.field (fun (_ : Unit) _ => []) (fun (_ : Unit) _ => []))),
        output_count :=
          (([ResultCall.int32 (F := Unit) 1, ResultCall.int32 (-2),
            ResultCall.text (str "a")].length : Nat) : Int) } :=
  ⟨by simp [ResultCall.Valid],
   (result_calls_comma_joined (fun (_ : Unit) _ => []) (fun (_ : Unit) _ => [])
      (ResultCall.int32 1) [ResultCall.int32 (-2), ResultCall.text (str "a")]
      ⟨[], false, 0, 0, 0, 0, false, false, [], ⟨[], 0, 0⟩⟩
      (by simp [ResultCall.Valid]) rfl).1⟩

theorem SCPI_ErrorPush_output (c : scpi_t) (e : scpi_error_t) :
    (SCPI_ErrorPush c e).output = c.output ∧
      (SCPI_ErrorPush c e).output_count = c.output_count ∧
      (SCPI_ErrorPush c e).output_binary_count = c.output_binary_count := ⟨rfl, rfl, rfl⟩

theorem processCommand_callback (c : scpi_t) (pattern : List Nat)
    (callback : scpi_t → scpi_result_t × scpi_t) :
    processCommand c ⟨pattern, some callback⟩ =
      processCommandExit (callback (processCommandEntry c)) := rfl

theorem processCommandExit_output (c : scpi_result_t × scpi_t) :
    (processCommandExit c).2.output = c.2.output ∧
      (processCommandExit c).2.output_count = c.2.output_count ∧
      (processCommandExit c).2.output_binary_count = c.2.output_binary_count := by
  unfold processCommandExit
  simp only
  split_ifs <;> exact ⟨rfl, rfl, rfl⟩

theorem processCommandEntry_eq (c : scpi_t) :
    processCommandEntry c =
      { c with
        output := c.output ++ (if c.output_count > 0 then [59] else []),
        cmd_error := false, output_count := 0, output_binary_count := 0, input_count := 0 } := by
  unfold processCommandEntry
  rw [writeSemicolon_eq]

/-- One unit whose callback makes one scalar result call: the output grows by the
conditional `;` and the field, and `output_count` is 1 afterwards. -/
theorem processCommand_emit {F : Type} (fts dts : F → Nat → List Nat) (call : ResultCall F)
    (hv : call.Valid) (pattern : List Nat) (c : scpi_t) :
    (processCommand c ⟨pattern, some (emitCallback fts dts call)⟩).2.output =
        c.output ++ (if c.output_count > 0 then [59] else []) ++ call.field fts dts ∧
      (processCommand c ⟨pattern, some (emitCallback fts dts call)⟩).2.output_count = 1 := by
  rw [processCommand_callback]
  obtain ⟨h1, h2, _⟩ := processCommandExit_output
    (emitCallback fts dts call (processCommandEntry c))
  rw [h1, h2]
  obtain ⟨k, hk⟩ := call.run_eq fts dts hv (processCommandEntry c)
  unfold emitCallback
  rw [hk, processCommandEntry_eq]
  simp

/-- C20: `processCommand` writes `;` to the sink if and only if `output_count > 0` on
entry, and the context it hands to the callback has `cmd_error = FALSE` and
`output_count = output_binary_count = input_count = 0`; so two consecutive
units whose callbacks each emit one field, entered with `output_count = 0`,
hand `f1;f2` to the sink. -/
theorem processCommand_entry_protocol {F : Type}
    (SCPI_FloatToStr SCPI_DoubleToStr : F → Nat → List Nat) (c : scpi_t) :
    (processCommandEntry c).output =
        c.output ++ (if c.output_count > 0 then [59] else []) ∧
    (processCommandEntry c).cmd_error = false ∧
    (processCommandEntry c).output_count = 0 ∧
    (processCommandEntry c).output_binary_count = 0 ∧
    (processCommandEntry c).input_count = 0 ∧
    (∀ (pattern : List Nat) (callback : scpi_t → scpi_result_t × scpi_t),
      processCommand c ⟨pattern, some callback⟩ =
        processCommandExit (callback (processCommandEntry c))) ∧
    (∀ (call1 call2 : ResultCall F) (p1 p2 : List Nat), call1.Valid → call2.Valid →
      c.output_count = 0 →
      (processCommand
          (processCommand c
            ⟨p1, some (emitCallback SCPI_FloatToStr SCPI_DoubleToStr call1)⟩).2
          ⟨p2, some (emitCallback SCPI_FloatToStr SCPI_DoubleToStr call2)⟩).2.output =
        c.output ++ call1.field SCPI_FloatToStr SCPI_DoubleToStr ++ [59] ++
          call2.field SCPI_FloatToStr SCPI_DoubleToStr) := by
  refine ⟨by rw [processCommandEntry_eq], by rw [processCommandEntry_eq],
    by rw [processCommandEntry_eq], by rw [processCommandEntry_eq],
    by rw [processCommandEntry_eq], fun pattern callback => rfl, ?_⟩
  intro call1 call2 p1 p2 h1 h2 hc
  obtain ⟨a1, a2⟩ := processCommand_emit SCPI_FloatToStr SCPI_DoubleToStr call1 h1 p1 c
  obtain ⟨b1, _⟩ := processCommand_emit SCPI_FloatToStr SCPI_DoubleToStr call2 h2 p2
    (processCommand c ⟨p1, some (emitCallback SCPI_FloatToStr SCPI_DoubleToStr call1)⟩).2
  rw [b1, a1, a2, hc]
  simp

theorem processCommand_entry_protocol_witness :
    (ResultCall.int32 (F := Unit) 5).Valid ∧ (ResultCall.text (F := Unit) (str "ab")).Valid ∧
    (⟨[], false, 0, 0, 0, 0, false, false, [], ⟨[], 0, 0⟩⟩ : scpi_t).output_count = 0 ∧
    (processCommand
        (processCommand ⟨[], false, 0, 0, 0, 0, false, false, [], ⟨[], 0, 0⟩⟩
          ⟨str "A?", some (emitCallback (fun (_ : Unit) _ => []) (fun (_ : Unit) _ => [])
            (ResultCall.int32 5))⟩).2
        ⟨str "B?", some (emitCallback (fun (_ : Unit) _ => []) (fun (_ : Unit) _ => [])
          (ResultCall.text (str "ab")))⟩).2.output =
      ([] : List Nat) ++
        (ResultCall.int32 (F := Unit) 5).field (fun (_ : Unit) _ => []) (fun (_ : Unit) _ => [])
        ++ [59] ++
        (ResultCall.text (F := Unit) (str "ab")).field (fun (_ : Unit) _ => [])
          (fun (_ : Unit) _ => []) :=
  ⟨trivial, trivial, rfl,
   (processCommand_entry_protocol (fun (_ : Unit) _ => []) (fun (_ : Unit) _ => [])
      ⟨[], false, 0, 0, 0, 0, false, false, [], ⟨[], 0, 0⟩⟩).2.2.2.2.2.2
      (ResultCall.int32 5) (ResultCall.text (str "ab")) (str "A?") (str "B?") trivial trivial
      rfl⟩


/-- C19, the code at a failing input: the program message `A?;B` with its newline,
where the callback of `A?` emits the field `5` and the callback of `B` emits
nothing, parsed by one `SCPI_Parse` call with `SCPI_LINE_ENDING` = `\n`.  The
unit parser is given by its two results on this message.  The call returns
TRUE having handed `5;` to the sink: `processCommand` has reset `output_count`
for the last unit, so `writeNewLine` writes no line ending. -/
theorem SCPI_Parse_newline_after_silent_unit :
    (SCPI_Parse
      (fun _ data _ =>
        if data = 0 then (3, ⟨⟨19, some 0, 2⟩, ⟨SCPI_TOKEN_UNKNOWN, some 2, 0⟩⟩)
        else (2, ⟨⟨15, some 3, 1⟩, ⟨SCPI_TOKEN_UNKNOWN, some 4, 0⟩⟩))
      [⟨str "A?", some (emitCallback (fun (_ : Unit) _ => []) (fun (_ : Unit) _ => [])
          (ResultCall.int32 5))⟩,
        ⟨str "B", some (fun c => (scpi_result_t.SCPI_RES_OK, c))⟩]
      (str "\n") 3 ⟨[], false, 0, 0, 0, 0, false, false, [], ⟨[], 0, 0⟩⟩
      (str "A?;B\n") 0 5).map (fun r => (r.1, r.2.1.output, r.2.1.output_count)) =
    some (true, str "5;", 0) := by
  decide

/-- For comparison, the one-unit message `A?` with its newline: the field is followed by
the line ending. -/
theorem SCPI_Parse_single_unit_line_ending :
    (SCPI_Parse
      (fun _ _ _ => (3, ⟨⟨19, some 0, 2⟩, ⟨SCPI_TOKEN_UNKNOWN, some 2, 0⟩⟩))
      [⟨str "A?", some (emitCallback (fun (_ : Unit) _ => []) (fun (_ : Unit) _ => [])
          (ResultCall.int32 5))⟩]
      (str "\n") 3 ⟨[], false, 0, 0, 0, 0, false, false, [], ⟨[], 0, 0⟩⟩
      (str "A?\n") 0 3).map (fun r => (r.1, r.2.1.output)) =
    some (true, str "5\n") := by
  decide

theorem processCommandExit_errors (r : scpi_result_t × scpi_t) :
    (processCommandExit r).2.errors =
      r.2.errors ++
        (if r.1 ≠ scpi_result_t.SCPI_RES_OK ∧ r.2.cmd_error = false then
          [scpi_error_t.SCPI_ERROR_EXECUTION_ERROR] else []) ++
        (if r.2.lex_state.pos < r.2.lex_state.len ∧
            r.1 = scpi_result_t.SCPI_RES_OK ∧ r.2.cmd_error = false then
          [scpi_error_t.SCPI_ERROR_PARAMETER_NOT_ALLOWED] else []) := by
  obtain ⟨res, c⟩ := r
  unfold processCommandExit SCPI_ErrorPush
  cases res <;> cases hce : c.cmd_error <;>
    by_cases hp : c.lex_state.pos < c.lex_state.len <;> simp [hce, hp]

theorem processCommandExit_false (r : scpi_result_t × scpi_t)
    (h : r.1 ≠ scpi_result_t.SCPI_RES_OK ∨ r.2.cmd_error = true ∨
      r.2.lex_state.pos < r.2.lex_state.len) :
    (processCommandExit r).1 = false := by
  obtain ⟨res, c⟩ := r
  unfold processCommandExit SCPI_ErrorPush
  cases res <;> cases hce : c.cmd_error <;>
    by_cases hp : c.lex_state.pos < c.lex_state.len <;> simp_all

/-- C21: with `r` what the callback returns on the context `processCommand` hands
it, the errors after `processCommand` are those of `r` followed by
`ExecutionError` exactly when `r` is non-OK with `cmd_error` still FALSE (and
then by `ParameterNotAllowed` exactly when data is left and no error was
pushed); and `processCommand` returns FALSE whenever the callback returned
non-OK or `cmd_error` is TRUE after the callback. -/
theorem processCommand_outcome (c : scpi_t) (pattern : List Nat)
    (callback : scpi_t → scpi_result_t × scpi_t) :
    (processCommand c ⟨pattern, some callback⟩).2.errors =
      (callback (processCommandEntry c)).2.errors ++
        (if (callback (processCommandEntry c)).1 ≠ scpi_result_t.SCPI_RES_OK ∧
            (callback (processCommandEntry c)).2.cmd_error = false then
          [scpi_error_t.SCPI_ERROR_EXECUTION_ERROR] else []) ++
        (if (callback (processCommandEntry c)).2.lex_state.pos <
              (callback (processCommandEntry c)).2.lex_state.len ∧
            (callback (processCommandEntry c)).1 = scpi_result_t.SCPI_RES_OK ∧
            (callback (processCommandEntry c)).2.cmd_error = false then
          [scpi_error_t.SCPI_ERROR_PARAMETER_NOT_ALLOWED] else []) ∧
    (((callback (processCommandEntry c)).1 ≠ scpi_result_t.SCPI_RES_OK ∨
        (callback (processCommandEntry c)).2.cmd_error = true) →
      (processCommand c ⟨pattern, some callback⟩).1 = false) := by
  rw [processCommand_callback]
  refine ⟨processCommandExit_errors _, fun h => processCommandExit_false _ ?_⟩
  rcases h with h | h
  · exact Or.inl h
  · exact Or.inr (Or.inl h)

theorem processCommand_outcome_witness :
    ((fun (c : scpi_t) => (scpi_result_t.SCPI_RES_ERR, c))
        (processCommandEntry ⟨[], false, 0, 0, 0, 0, false, false, [], ⟨[], 0, 0⟩⟩)).1 ≠
      scpi_result_t.SCPI_RES_OK ∧
    (processCommand ⟨[], false, 0, 0, 0, 0, false, false, [], ⟨[], 0, 0⟩⟩
      ⟨str "A", some (fun c => (scpi_result_t.SCPI_RES_ERR, c))⟩).1 = false :=
  ⟨by decide,
   (processCommand_outcome ⟨[], false, 0, 0, 0, 0, false, false, [], ⟨[], 0, 0⟩⟩ (str "A")
      (fun c => (scpi_result_t.SCPI_RES_ERR, c))).2 (Or.inl (by decide))⟩

/-- A callback that fails a parameter on its own: it pushes `DataTypeError` and returns
OK, leaving the data unread. -/
theorem processCommand_unconsumed_after_error_counterexample :
    (processCommandEntry ⟨[], false, 0, 0, 0, 0, false, false, [], ⟨[120], 0, 1⟩⟩).lex_state.pos <
      (processCommandEntry ⟨[], false, 0, 0, 0, 0, false, false, [], ⟨[120], 0, 1⟩⟩).lex_state.len ∧
    (processCommand ⟨[], false, 0, 0, 0, 0, false, false, [], ⟨[120], 0, 1⟩⟩
      ⟨str "A", some (fun c =>
        (scpi_result_t.SCPI_RES_OK,
          SCPI_ErrorPush c scpi_error_t.SCPI_ERROR_DATA_TYPE_ERROR))⟩).2.errors =
      [scpi_error_t.SCPI_ERROR_DATA_TYPE_ERROR] ∧
    scpi_error_t.SCPI_ERROR_PARAMETER_NOT_ALLOWED ∉
      (processCommand ⟨[], false, 0, 0, 0, 0, false, false, [], ⟨[120], 0, 1⟩⟩
        ⟨str "A", some (fun c =>
          (scpi_result_t.SCPI_RES_OK,
            SCPI_ErrorPush c scpi_error_t.SCPI_ERROR_DATA_TYPE_ERROR))⟩).2.errors := by
  decide

/-- C22 (amended): when the callback returns with the data cursor strictly before
the end of the data, `processCommand` returns FALSE; it pushes
`ParameterNotAllowed` (as the last error) when the callback returned OK with
`cmd_error` FALSE, and pushes no `ParameterNotAllowed` otherwise. -/
theorem processCommand_unconsumed_parameters (c : scpi_t) (pattern : List Nat)
    (callback : scpi_t → scpi_result_t × scpi_t)
    (hpos : (callback (processCommandEntry c)).2.lex_state.pos <
      (callback (processCommandEntry c)).2.lex_state.len) :
    (processCommand c ⟨pattern, some callback⟩).1 = false ∧
    (((callback (processCommandEntry c)).1 = scpi_result_t.SCPI_RES_OK ∧
        (callback (processCommandEntry c)).2.cmd_error = false) →
      (processCommand c ⟨pattern, some callback⟩).2.errors =
        (callback (processCommandEntry c)).2.errors ++
          [scpi_error_t.SCPI_ERROR_PARAMETER_NOT_ALLOWED]) ∧
    ((callback (processCommandEntry c)).2.cmd_error = true →
      (processCommand c ⟨pattern, some callback⟩).2.errors =
        (callback (processCommandEntry c)).2.errors) ∧
    (((callback (processCommandEntry c)).1 ≠ scpi_result_t.SCPI_RES_OK ∧
        (callback (processCommandEntry c)).2.cmd_error = false) →
      (processCommand c ⟨pattern, some callback⟩).2.errors =
        (callback (processCommandEntry c)).2.errors ++
          [scpi_error_t.SCPI_ERROR_EXECUTION_ERROR]) := by
  rw [processCommand_callback]
  refine ⟨processCommandExit_false _ (Or.inr (Or.inr hpos)), ?_, ?_, ?_⟩
  · intro h
    rw [processCommandExit_errors]
    simp [h.1, h.2, hpos]
  · intro h
    rw [processCommandExit_errors]
    simp [h]
  · intro h
    rw [processCommandExit_errors]
    simp [h.1, h.2]

theorem processCommand_unconsumed_parameters_witness :
    ((scpi_result_t.SCPI_RES_OK,
        processCommandEntry ⟨[], false, 0, 0, 0, 0, false, false, [], ⟨[120], 0, 1⟩⟩).2.lex_state.pos <
      (scpi_result_t.SCPI_RES_OK,
        processCommandEntry ⟨[], false, 0, 0, 0, 0, false, false, [], ⟨[120], 0, 1⟩⟩).2.lex_state.len) ∧
    (processCommand ⟨[], false, 0, 0, 0, 0, false, false, [], ⟨[120], 0, 1⟩⟩
      ⟨str "A", some (fun c => (scpi_result_t.SCPI_RES_OK, c))⟩).1 = false ∧
    (processCommand ⟨[], false, 0, 0, 0, 0, false, false, [], ⟨[120], 0, 1⟩⟩
      ⟨str "A", some (fun c => (scpi_result_t.SCPI_RES_OK, c))⟩).2.errors =
      [] ++ [scpi_error_t.SCPI_ERROR_PARAMETER_NOT_ALLOWED] :=
  ⟨by decide,
   (processCommand_unconsumed_parameters
      ⟨[], false, 0, 0, 0, 0, false, false, [], ⟨[120], 0, 1⟩⟩ (str "A")
      (fun c => (scpi_result_t.SCPI_RES_OK, c)) (by decide)).1,
   (processCommand_unconsumed_parameters
      ⟨[], false, 0, 0, 0, 0, false, false, [], ⟨[120], 0, 1⟩⟩ (str "A")
      (fun c => (scpi_result_t.SCPI_RES_OK, c)) (by decide)).2.1 ⟨rfl, rfl⟩⟩


/-- C11: for every `n` with `-2^31 ≤ n < 2^31`, `SCPI_Int32ToStr` with a buffer of at
least 12 bytes stores the canonical decimal numeral of `n` (`-` for a negative
value, no leading zeros, also for `n = -2^31`); `SCPI_ResultInt32` writes that
numeral as its field, after a `,` when `output_count > 0`; and the signed base-10
conversion `strBaseToInt32`, which `SCPI_ParamInt32` uses, applied to the numeral
(followed by anything that does not begin with a digit) consumes all of it
and returns `n`. -/
theorem SCPI_ResultInt32_round_trip (context : scpi_t) (n : Int) (len : Nat)
    (crest : List Nat) (hlo : -2147483648 ≤ n) (hhi : n < 2147483648) (hlen : 12 ≤ len)
    (hcrest : crest = [] ∨ ∃ s t, crest = s :: t ∧ isdigit s = false) :
    SCPI_Int32ToStr n len = some (signedNumeral n) ∧
    (∃ k, SCPI_ResultInt32 context n = some (k,
      { context with
        output := context.output ++ (if context.output_count > 0 then [44] else []) ++
          signedNumeral n,
        output_count := context.output_count + 1 })) ∧
    strBaseToInt32 (signedNumeral n ++ crest) = ((signedNumeral n).length, n) := by
  refine ⟨SCPI_Int32ToStr_numeral n len hlo hhi hlen, ?_,
    strBaseToInt32_signedNumeral n crest hlo hhi hcrest⟩
  have h := SCPI_Int32ToStr_numeral n 33 hlo hhi (by omega)
  unfold SCPI_Int32ToStr at h
  unfold SCPI_ResultInt32 resultUInt32BaseSign
  rw [h, Option.map_some', resultBaseSign_eq]
  have hp : getBasePrefix 10 = none := by decide
  simp only [hp, Option.getD_none, List.append_nil]
  exact ⟨_, rfl⟩

theorem SCPI_ResultInt32_round_trip_witness :
    SCPI_Int32ToStr (-2147483648) 12 = some (signedNumeral (-2147483648)) ∧
    (∃ k, SCPI_ResultInt32 ⟨[], false, 0, 1, 0, 0, false, false, [], ⟨[], 0, 0⟩⟩ (-2147483648) =
      some (k,
      { (⟨[], false, 0, 1, 0, 0, false, false, [], ⟨[], 0, 0⟩⟩ : scpi_t) with
        output := ([] : List Nat) ++ (if (1 : Int) > 0 then [44] else []) ++
          signedNumeral (-2147483648),
        output_count := 1 + 1 })) ∧
    strBaseToInt32 (signedNumeral (-2147483648) ++ [59]) =
      ((signedNumeral (-2147483648)).length, -2147483648) :=
  SCPI_ResultInt32_round_trip ⟨[], false, 0, 1, 0, 0, false, false, [], ⟨[], 0, 0⟩⟩
    (-2147483648) 12 [59] (by decide) (by decide) (by decide)
    (Or.inr ⟨59, [], rfl, by decide⟩)

/-- C12: for every `uint32_t` value `v` and base `b` among 2, 8, 16 and 10,
`SCPI_ResultUInt32Base` writes (after a `,` when `output_count > 0`) the prefix
`#B`, `#Q` or `#H` for base 2, 8 or 16 and no prefix for base 10, followed by
exactly the base-`b` numeral of `v`: digits `0-9A-F`, most significant first, no
leading zeros, `0` for zero. -/
theorem SCPI_ResultUInt32Base_prefix_numeral (context : scpi_t) (v b : Nat)
    (hv : v < 4294967296) (hb : b = 2 ∨ b = 8 ∨ b = 16 ∨ b = 10) :
    ∃ k, SCPI_ResultUInt32Base context v (b : Int) = some (k,
      { context with
        output := context.output ++ (if context.output_count > 0 then [44] else []) ++
          (if b = 2 then str "#B" else if b = 8 then str "#Q"
            else if b = 16 then str "#H" else []) ++ numeral b v,
        output_count := context.output_count + 1 }) := by
  have hs : (startDivisor32 (b : Int)).2 = b := by
    rcases hb with h | h | h | h <;> subst h <;> rfl
  have hl := numeral32_length_le v (b : Int) (by omega)
  have h := UInt32ToStrBaseSign_plain v 33 (b : Int) false (by omega) (by omega) (Or.inl rfl)
  rw [hs] at h
  unfold SCPI_ResultUInt32Base resultUInt32BaseSign
  rw [h, Option.map_some', resultBaseSign_eq]
  rcases hb with h | h | h | h <;> subst h
  · exact ⟨_, rfl⟩
  · exact ⟨_, rfl⟩
  · exact ⟨_, rfl⟩
  · exact ⟨_, rfl⟩

theorem SCPI_ResultUInt32Base_prefix_numeral_witness :
    ∃ k, SCPI_ResultUInt32Base ⟨[], false, 0, 0, 0, 0, false, false, [], ⟨[], 0, 0⟩⟩ 255
        ((16 : Nat) : Int) = some (k,
      { (⟨[], false, 0, 0, 0, 0, false, false, [], ⟨[], 0, 0⟩⟩ : scpi_t) with
        output := ([] : List Nat) ++ (if (0 : Int) > 0 then [44] else []) ++
          (if 16 = 2 then str "#B" else if 16 = 8 then str "#Q"
            else if 16 = 16 then str "#H" else []) ++ numeral 16 255,
        output_count := 0 + 1 }) :=
  SCPI_ResultUInt32Base_prefix_numeral ⟨[], false, 0, 0, 0, 0, false, false, [], ⟨[], 0, 0⟩⟩
    255 16 (by decide) (by decide)

/-! ## Theorems: `SCPI_Parameter` -/

/-- C23: when the cursor is at or past the end of the data, `SCPI_Parameter` returns
FALSE, leaves the lexer state (so the cursor) and `input_count` as they were, pushes
`MissingParameter` if `mandatory` is TRUE and nothing otherwise, and returns a token of
length 0. -/
theorem SCPI_Parameter_end_of_data (L : lexer_t) (context : scpi_t)
    (parameter : scpi_token_t) (mandatory : Bool)
    (hend : context.lex_state.pos ≥ context.lex_state.len) :
    (SCPI_Parameter L context (some parameter) mandatory).1 = false ∧
    (SCPI_Parameter L context (some parameter) mandatory).2.1.lex_state = context.lex_state ∧
    (SCPI_Parameter L context (some parameter) mandatory).2.1.input_count =
      context.input_count ∧
    (SCPI_Parameter L context (some parameter) mandatory).2.1.errors =
      context.errors ++
        (if mandatory then [scpi_error_t.SCPI_ERROR_MISSING_PARAMETER] else []) ∧
    ∃ token, (SCPI_Parameter L context (some parameter) mandatory).2.2 = some token ∧
      token.len = 0 := by
  unfold SCPI_Parameter
  simp only [hend, if_true]
  cases mandatory
  · exact ⟨rfl, rfl, rfl, by simp, _, rfl, rfl⟩
  · exact ⟨rfl, rfl, rfl, rfl, _, rfl, rfl⟩

theorem SCPI_Parameter_end_of_data_witness :
    (⟨[], false, 0, 0, 0, 1, false, false, [], ⟨str "1", 1, 1⟩⟩ : scpi_t).lex_state.pos ≥
      (⟨[], false, 0, 0, 0, 1, false, false, [], ⟨str "1", 1, 1⟩⟩ : scpi_t).lex_state.len ∧
    (SCPI_Parameter (restLexer SCPI_TOKEN_PROGRAM_EXPRESSION)
      ⟨[], false, 0, 0, 0, 1, false, false, [], ⟨str "1", 1, 1⟩⟩
      (some ⟨SCPI_TOKEN_UNKNOWN, none, 0⟩) true).2.1.errors =
      [] ++ (if true then [scpi_error_t.SCPI_ERROR_MISSING_PARAMETER] else []) :=
  ⟨by decide,
   (SCPI_Parameter_end_of_data (restLexer SCPI_TOKEN_PROGRAM_EXPRESSION)
      ⟨[], false, 0, 0, 0, 1, false, false, [], ⟨str "1", 1, 1⟩⟩
      ⟨SCPI_TOKEN_UNKNOWN, none, 0⟩ true (by decide)).2.2.2.1⟩

/-- First parameter of a command, data `@`: no separator is needed, no program data is
found; the call returns FALSE, pushes `InvalidStringData`, and `input_count` is 1. -/
theorem SCPI_Parameter_input_count_invalid_data_counterexample :
    (SCPI_Parameter nothingLexer
      ⟨[], false, 0, 0, 0, 0, false, false, [], ⟨str "@", 0, 1⟩⟩
      (some ⟨SCPI_TOKEN_UNKNOWN, none, 0⟩) true).1 = false ∧
    (SCPI_Parameter nothingLexer
      ⟨[], false, 0, 0, 0, 0, false, false, [], ⟨str "@", 0, 1⟩⟩
      (some ⟨SCPI_TOKEN_UNKNOWN, none, 0⟩) true).2.1.errors =
      [scpi_error_t.SCPI_ERROR_INVALID_STRING_DATA] ∧
    (SCPI_Parameter nothingLexer
      ⟨[], false, 0, 0, 0, 0, false, false, [], ⟨str "@", 0, 1⟩⟩
      (some ⟨SCPI_TOKEN_UNKNOWN, none, 0⟩) true).2.1.input_count = 1 ∧
    (⟨[], false, 0, 0, 0, 0, false, false, [], ⟨str "@", 0, 1⟩⟩ : scpi_t).input_count = 0 := by
  decide

/-- C24 (amended): a call of `SCPI_Parameter` increases `input_count` by exactly one if it
returns TRUE or if it returns FALSE having pushed `InvalidStringData` (the counter is
incremented before the program data is parsed), and leaves it unchanged in every other
case. -/
theorem SCPI_Parameter_input_count (L : lexer_t) (context : scpi_t)
    (parameter : Option scpi_token_t) (mandatory : Bool) :
    (((SCPI_Parameter L context parameter mandatory).1 = true ∨
        (SCPI_Parameter L context parameter mandatory).2.1.errors =
          context.errors ++ [scpi_error_t.SCPI_ERROR_INVALID_STRING_DATA]) →
      (SCPI_Parameter L context parameter mandatory).2.1.input_count =
        context.input_count + 1) ∧
    (¬ ((SCPI_Parameter L context parameter mandatory).1 = true ∨
        (SCPI_Parameter L context parameter mandatory).2.1.errors =
          context.errors ++ [scpi_error_t.SCPI_ERROR_INVALID_STRING_DATA]) →
      (SCPI_Parameter L context parameter mandatory).2.1.input_count =
        context.input_count) := by
  unfold SCPI_Parameter
  cases parameter with
  | none => simp [SCPI_ErrorPush]
  | some parameter =>
    simp only
    by_cases hend : context.lex_state.pos ≥ context.lex_state.len
    · rw [if_pos hend]
      cases mandatory <;> simp [SCPI_ErrorPush]
    · rw [if_neg hend]
      by_cases hsep : context.input_count ≠ 0 ∧
          (L.scpiLex_Comma context.lex_state).2.2.type ≠ SCPI_TOKEN_COMMA
      · rw [if_pos hsep]
        simp [SCPI_ErrorPush]
      · rw [if_neg hsep]
        by_cases hk : (scpiParser_parseProgramData L
            (if context.input_count ≠ 0 then (L.scpiLex_Comma context.lex_state).2.1
              else context.lex_state)).2.2.type ∈ parameterKinds
        · rw [if_pos hk]
          simp
        · rw [if_neg hk]
          simp [SCPI_ErrorPush]

theorem SCPI_Parameter_input_count_witness :
    (SCPI_Parameter (restLexer SCPI_TOKEN_DECIMAL_NUMERIC_PROGRAM_DATA)
      ⟨[], false, 0, 0, 0, 0, false, false, [], ⟨str "1", 0, 1⟩⟩
      (some ⟨SCPI_TOKEN_UNKNOWN, none, 0⟩) true).1 = true ∧
    (SCPI_Parameter (restLexer SCPI_TOKEN_DECIMAL_NUMERIC_PROGRAM_DATA)
      ⟨[], false, 0, 0, 0, 0, false, false, [], ⟨str "1", 0, 1⟩⟩
      (some ⟨SCPI_TOKEN_UNKNOWN, none, 0⟩) true).2.1.input_count =
      (⟨[], false, 0, 0, 0, 0, false, false, [], ⟨str "1", 0, 1⟩⟩ : scpi_t).input_count + 1 :=
  ⟨by decide,
   (SCPI_Parameter_input_count (restLexer SCPI_TOKEN_DECIMAL_NUMERIC_PROGRAM_DATA)
      ⟨[], false, 0, 0, 0, 0, false, false, [], ⟨str "1", 0, 1⟩⟩
      (some ⟨SCPI_TOKEN_UNKNOWN, none, 0⟩) true).1 (Or.inl (by decide))⟩


/-! ## Theorems: the numeric extractors -/

theorem SCPI_ParamIsNumber_with_suffix (t : scpi_token_t)
    (h : t.type = SCPI_TOKEN_DECIMAL_NUMERIC_PROGRAM_DATA_WITH_SUFFIX) :
    SCPI_ParamIsNumber t false = false ∧ SCPI_ParamIsNumber t true = true := by
  unfold SCPI_ParamIsNumber
  rw [h]
  decide

theorem SCPI_ParamIsNumber_not_numeric (t : scpi_token_t)
    (h : t.type ∈ [SCPI_TOKEN_PROGRAM_MNEMONIC, SCPI_TOKEN_SINGLE_QUOTE_PROGRAM_DATA,
      SCPI_TOKEN_DOUBLE_QUOTE_PROGRAM_DATA, SCPI_TOKEN_ARBITRARY_BLOCK_PROGRAM_DATA,
      SCPI_TOKEN_PROGRAM_EXPRESSION]) (b : Bool) :
    SCPI_ParamIsNumber t b = false := by
  unfold SCPI_ParamIsNumber
  simp only [List.mem_cons, List.mem_singleton, List.not_mem_nil, or_false] at h
  cases b <;> rcases h with h | h | h | h | h <;> rw [h] <;> decide

/-- C25: let the call of `SCPI_Parameter` made by a numeric extractor return TRUE with
the token `paramAfter`.  If the token has kind `DecimalNumericWithSuffix`, each of
`SCPI_ParamInt32`, `SCPI_ParamUInt32`, `SCPI_ParamInt64`, `SCPI_ParamUInt64`,
`SCPI_ParamFloat` and `SCPI_ParamDouble` pushes `SuffixNotAllowed` and returns FALSE; if
it is a mnemonic, a string, a block or an expression each pushes `DataTypeError` and
returns FALSE; the cell `*value` holds what it held before. -/
theorem numeric_extractors_reject {F D : Type} (lib : libc_t F D) (L : lexer_t)
    (context : scpi_t) (mandatory : Bool) (v : Int) (f : F) (d : D) (e : scpi_error_t)
    (hres : (SCPI_Parameter L context (some ⟨SCPI_TOKEN_UNKNOWN, none, 0⟩) mandatory).1 = true)
    (hkind :
      ((paramAfter (SCPI_Parameter L context (some ⟨SCPI_TOKEN_UNKNOWN, none, 0⟩)
            mandatory)).type = SCPI_TOKEN_DECIMAL_NUMERIC_PROGRAM_DATA_WITH_SUFFIX ∧
          e = scpi_error_t.SCPI_ERROR_SUFFIX_NOT_ALLOWED) ∨
      ((paramAfter (SCPI_Parameter L context (some ⟨SCPI_TOKEN_UNKNOWN, none, 0⟩)
            mandatory)).type ∈
          [SCPI_TOKEN_PROGRAM_MNEMONIC, SCPI_TOKEN_SINGLE_QUOTE_PROGRAM_DATA,
            SCPI_TOKEN_DOUBLE_QUOTE_PROGRAM_DATA, SCPI_TOKEN_ARBITRARY_BLOCK_PROGRAM_DATA,
            SCPI_TOKEN_PROGRAM_EXPRESSION] ∧
          e = scpi_error_t.SCPI_ERROR_DATA_TYPE_ERROR)) :
    SCPI_ParamInt32 lib L context (some v) mandatory =
      (false, SCPI_ErrorPush
        (SCPI_Parameter L context (some ⟨SCPI_TOKEN_UNKNOWN, none, 0⟩) mandatory).2.1 e,
        some v) ∧
    SCPI_ParamUInt32 lib L context (some v) mandatory =
      (false, SCPI_ErrorPush
        (SCPI_Parameter L context (some ⟨SCPI_TOKEN_UNKNOWN, none, 0⟩) mandatory).2.1 e,
        some v) ∧
    SCPI_ParamInt64 lib L context (some v) mandatory =
      (false, SCPI_ErrorPush
        (SCPI_Parameter L context (some ⟨SCPI_TOKEN_UNKNOWN, none, 0⟩) mandatory).2.1 e,
        some v) ∧
    SCPI_ParamUInt64 lib L context (some v) mandatory =
      (false, SCPI_ErrorPush
        (SCPI_Parameter L context (some ⟨SCPI_TOKEN_UNKNOWN, none, 0⟩) mandatory).2.1 e,
        some v) ∧
    SCPI_ParamFloat lib L context (some f) mandatory =
      (false, SCPI_ErrorPush
        (SCPI_Parameter L context (some ⟨SCPI_TOKEN_UNKNOWN, none, 0⟩) mandatory).2.1 e,
        some f) ∧
    SCPI_ParamDouble lib L context (some d) mandatory =
      (false, SCPI_ErrorPush
        (SCPI_Parameter L context (some ⟨SCPI_TOKEN_UNKNOWN, none, 0⟩) mandatory).2.1 e,
        some d) := by
  unfold SCPI_ParamInt32 SCPI_ParamUInt32 SCPI_ParamInt64 SCPI_ParamUInt64 ParamSignUInt32
    ParamSignUInt64 SCPI_ParamFloat SCPI_ParamDouble
  simp only [hres, if_true]
  rcases hkind with ⟨hk, rfl⟩ | ⟨hk, rfl⟩
  · obtain ⟨h1, h2⟩ := SCPI_ParamIsNumber_with_suffix _ hk
    rw [h1, h2]
    simp
  · have h1 := SCPI_ParamIsNumber_not_numeric _ hk false
    have h2 := SCPI_ParamIsNumber_not_numeric _ hk true
    rw [h1, h2]
    simp

theorem numeric_extractors_reject_witness :
    (SCPI_Parameter (restLexer SCPI_TOKEN_DECIMAL_NUMERIC_PROGRAM_DATA_WITH_SUFFIX)
      ⟨[], false, 0, 0, 0, 0, false, false, [], ⟨str "1V", 0, 2⟩⟩
      (some ⟨SCPI_TOKEN_UNKNOWN, none, 0⟩) true).1 = true ∧
    SCPI_ParamFloat nullLibc (restLexer SCPI_TOKEN_DECIMAL_NUMERIC_PROGRAM_DATA_WITH_SUFFIX)
      ⟨[], false, 0, 0, 0, 0, false, false, [], ⟨str "1V", 0, 2⟩⟩ (some ()) true =
      (false, SCPI_ErrorPush
        (SCPI_Parameter (restLexer SCPI_TOKEN_DECIMAL_NUMERIC_PROGRAM_DATA_WITH_SUFFIX)
          ⟨[], false, 0, 0, 0, 0, false, false, [], ⟨str "1V", 0, 2⟩⟩
          (some ⟨SCPI_TOKEN_UNKNOWN, none, 0⟩) true).2.1
        scpi_error_t.SCPI_ERROR_SUFFIX_NOT_ALLOWED, some ()) :=
  ⟨by decide,
   (numeric_extractors_reject nullLibc
      (restLexer SCPI_TOKEN_DECIMAL_NUMERIC_PROGRAM_DATA_WITH_SUFFIX)
      ⟨[], false, 0, 0, 0, 0, false, false, [], ⟨str "1V", 0, 2⟩⟩ true 0 () ()
      scpi_error_t.SCPI_ERROR_SUFFIX_NOT_ALLOWED (by decide)
      (Or.inl ⟨by decide, rfl⟩)).2.2.2.2.1⟩


/-! ## Theorems: choices and booleans -/

theorem choiceLoop_eq_find (str : List Nat) (len : Nat) (options : List scpi_choice_def_t) :
    choiceLoop str len options =
      (options.find? fun o => (matchPattern o.name (strlen o.name) str len none).1).map
        scpi_choice_def_t.tag := by
  induction options with
  | nil => rfl
  | cons o options ih =>
    unfold choiceLoop
    rw [List.find?_cons]
    by_cases h : (matchPattern o.name (strlen o.name) str len none).1 = true
    · simp [h]
    · simp [h, ih]

/-- C26: for a `ProgramMnemonic` token and a choice list, `SCPI_ParamToChoice` returns
TRUE and stores the tag of the first entry whose name matches the token under
`matchPattern`; if no entry matches it returns FALSE, pushes `IllegalParameterValue`
and leaves `*value`; for a token of another kind it returns FALSE and pushes
`DataTypeError`. -/
theorem SCPI_ParamToChoice_first_match (context : scpi_t) (parameter : scpi_token_t)
    (options : List scpi_choice_def_t) (v : Int) :
    (parameter.type = SCPI_TOKEN_PROGRAM_MNEMONIC →
      SCPI_ParamToChoice context parameter (some options) (some v) =
        match options.find? (fun o =>
          (matchPattern o.name (strlen o.name) (paramBytes context parameter) parameter.len
            none).1) with
        | some o => (true, context, some o.tag)
        | none =>
          (false, SCPI_ErrorPush context scpi_error_t.SCPI_ERROR_ILLEGAL_PARAMETER_VALUE,
            some v)) ∧
    (parameter.type ≠ SCPI_TOKEN_PROGRAM_MNEMONIC →
      SCPI_ParamToChoice context parameter (some options) (some v) =
        (false, SCPI_ErrorPush context scpi_error_t.SCPI_ERROR_DATA_TYPE_ERROR, some v)) := by
  unfold SCPI_ParamToChoice
  constructor
  · intro h
    simp only [h, if_true]
    rw [choiceLoop_eq_find]
    cases options.find? (fun o =>
      (matchPattern o.name (strlen o.name) (paramBytes context parameter) parameter.len
        none).1) <;> rfl
  · intro h
    simp only [h, if_false]

theorem SCPI_ParamToChoice_first_match_witness :
    (⟨SCPI_TOKEN_PROGRAM_MNEMONIC, some 0, 3⟩ : scpi_token_t).type =
      SCPI_TOKEN_PROGRAM_MNEMONIC ∧
    SCPI_ParamToChoice ⟨[], false, 0, 0, 0, 1, false, false, [], ⟨str "ext", 3, 3⟩⟩
      ⟨SCPI_TOKEN_PROGRAM_MNEMONIC, some 0, 3⟩
      (some [⟨str "IMMediate", 5⟩, ⟨str "EXTernal", 6⟩, ⟨str "EXT", 7⟩]) (some 0) =
      (true, ⟨[], false, 0, 0, 0, 1, false, false, [], ⟨str "ext", 3, 3⟩⟩, some 6) :=
  ⟨rfl,
   ((SCPI_ParamToChoice_first_match
      ⟨[], false, 0, 0, 0, 1, false, false, [], ⟨str "ext", 3, 3⟩⟩
      ⟨SCPI_TOKEN_PROGRAM_MNEMONIC, some 0, 3⟩
      [⟨str "IMMediate", 5⟩, ⟨str "EXTernal", 6⟩, ⟨str "EXT", 7⟩] 0).1 rfl).trans
    (by decide)⟩


theorem matchPattern_OFF (s : List Nat) (m : Nat) :
    (matchPattern (str "OFF") (strlen (str "OFF")) s m none).1 = true ↔
      m = 3 ∧ 3 ≤ s.length ∧ (s.take 3).map tolower = str "off" := by
  have hs : str "OFF" = [79, 70, 70] := by decide
  have hl : str "off" = [79, 70, 70].map tolower := by decide
  have e : strlen [79, 70, 70] = 3 := by decide
  have q : patternSeparatorShortPos [79, 70, 70] 3 = 3 := by decide
  rw [hs, hl, e]
  unfold matchPattern
  rw [if_neg (by decide)]
  simp only [q, Bool.or_self]
  exact compareStr_eq_true_iff [79, 70, 70] (by decide) [] s m

theorem matchPattern_ON (s : List Nat) (m : Nat) :
    (matchPattern (str "ON") (strlen (str "ON")) s m none).1 = true ↔
      m = 2 ∧ 2 ≤ s.length ∧ (s.take 2).map tolower = str "on" := by
  have hs : str "ON" = [79, 78] := by decide
  have hl : str "on" = [79, 78].map tolower := by decide
  have e : strlen [79, 78] = 2 := by decide
  have q : patternSeparatorShortPos [79, 78] 2 = 2 := by decide
  rw [hs, hl, e]
  unfold matchPattern
  rw [if_neg (by decide)]
  simp only [q, Bool.or_self]
  exact compareStr_eq_true_iff [79, 78] (by decide) [] s m

theorem choiceLoop_bool_options (s : List Nat) (m : Nat) :
    choiceLoop s m bool_options =
      if m = 3 ∧ 3 ≤ s.length ∧ (s.take 3).map tolower = str "off" then some 0
      else if m = 2 ∧ 2 ≤ s.length ∧ (s.take 2).map tolower = str "on" then some 1
      else none := by
  unfold bool_options choiceLoop choiceLoop choiceLoop
  simp only [matchPattern_OFF, matchPattern_ON]

/-- C27, counterexample to the claim as stated.  The decimal token `0.1e1`, which
stands for the number 1, is a decimal numeric token without suffix: `SCPI_ParamBool` returns
TRUE with the value FALSE, because `SCPI_ParamToInt32` reads the token with `strtol`,
which stops at the `.` with the value 0.  The token `1` gives the value TRUE. -/
theorem SCPI_ParamBool_fraction_counterexample :
    (SCPI_Parameter (restLexer SCPI_TOKEN_DECIMAL_NUMERIC_PROGRAM_DATA)
      ⟨[], false, 0, 0, 0, 0, false, false, [], ⟨str "0.1e1", 0, 5⟩⟩
      (some ⟨SCPI_TOKEN_UNKNOWN, none, 0⟩) true).2.2 =
      some ⟨SCPI_TOKEN_DECIMAL_NUMERIC_PROGRAM_DATA, some 0, 5⟩ ∧
    (SCPI_ParamBool nullLibc (restLexer SCPI_TOKEN_DECIMAL_NUMERIC_PROGRAM_DATA)
      ⟨[], false, 0, 0, 0, 0, false, false, [], ⟨str "0.1e1", 0, 5⟩⟩ (some true) true).1 =
      true ∧
    (SCPI_ParamBool nullLibc (restLexer SCPI_TOKEN_DECIMAL_NUMERIC_PROGRAM_DATA)
      ⟨[], false, 0, 0, 0, 0, false, false, [], ⟨str "0.1e1", 0, 5⟩⟩ (some true) true).2.2 =
      some false ∧
    (SCPI_ParamBool nullLibc (restLexer SCPI_TOKEN_DECIMAL_NUMERIC_PROGRAM_DATA)
      ⟨[], false, 0, 0, 0, 0, false, false, [], ⟨str "1", 0, 1⟩⟩ (some false) true).2.2 =
      some true := by
  decide

/-- C27 (amended): let the call of `SCPI_Parameter` made by `SCPI_ParamBool` return TRUE
with the token `paramAfter`, whose bytes are `paramBytes`.  If the token is a mnemonic
spelling `ON` (`OFF`) in any letter case, the call returns TRUE with value TRUE
(FALSE).  If it is a decimal number without suffix, the call returns TRUE, with the
value FALSE when the integer that `strtol` reads at the start of the token (as
`SCPI_ParamToInt32` stores it) is 0 and with the value TRUE otherwise; so for a token
written as the run of digits `ds` with value 1 (0), followed by a non-digit or the end
of the data, the value is TRUE (FALSE).  If it is a mnemonic spelling neither `ON` nor
`OFF`, the call returns FALSE, pushes `IllegalParameterValue` and leaves the value. -/
theorem SCPI_ParamBool_values {F D : Type} (lib : libc_t F D) (L : lexer_t)
    (context : scpi_t) (mandatory : Bool) (b : Bool)
    (hres : (SCPI_Parameter L context (some ⟨SCPI_TOKEN_UNKNOWN, none, 0⟩) mandatory).1 = true) :
    (∀ K, (K = str "on" ∨ K = str "off") →
      (paramAfter (SCPI_Parameter L context (some ⟨SCPI_TOKEN_UNKNOWN, none, 0⟩)
        mandatory)).type = SCPI_TOKEN_PROGRAM_MNEMONIC →
      (paramAfter (SCPI_Parameter L context (some ⟨SCPI_TOKEN_UNKNOWN, none, 0⟩)
        mandatory)).len = K.length →
      ((paramBytes
          (SCPI_Parameter L context (some ⟨SCPI_TOKEN_UNKNOWN, none, 0⟩) mandatory).2.1
          (paramAfter (SCPI_Parameter L context (some ⟨SCPI_TOKEN_UNKNOWN, none, 0⟩)
            mandatory))).take K.length).map tolower = K →
      SCPI_ParamBool lib L context (some b) mandatory =
        (true, (SCPI_Parameter L context (some ⟨SCPI_TOKEN_UNKNOWN, none, 0⟩) mandatory).2.1,
          some (decide (K = str "on")))) ∧
    ((paramAfter (SCPI_Parameter L context (some ⟨SCPI_TOKEN_UNKNOWN, none, 0⟩)
        mandatory)).type = SCPI_TOKEN_DECIMAL_NUMERIC_PROGRAM_DATA →
      SCPI_ParamBool lib L context (some b) mandatory =
        (true, (SCPI_Parameter L context (some ⟨SCPI_TOKEN_UNKNOWN, none, 0⟩) mandatory).2.1,
          some (decide ((strBaseToInt32 (paramBytes
            (SCPI_Parameter L context (some ⟨SCPI_TOKEN_UNKNOWN, none, 0⟩) mandatory).2.1
            (paramAfter (SCPI_Parameter L context (some ⟨SCPI_TOKEN_UNKNOWN, none, 0⟩)
              mandatory)))).2 ≠ 0)))) ∧
    (∀ ds crest : List Nat, (digitsValue ds = 0 ∨ digitsValue ds = 1) →
      (paramAfter (SCPI_Parameter L context (some ⟨SCPI_TOKEN_UNKNOWN, none, 0⟩)
        mandatory)).type = SCPI_TOKEN_DECIMAL_NUMERIC_PROGRAM_DATA →
      paramBytes
          (SCPI_Parameter L context (some ⟨SCPI_TOKEN_UNKNOWN, none, 0⟩) mandatory).2.1
          (paramAfter (SCPI_Parameter L context (some ⟨SCPI_TOKEN_UNKNOWN, none, 0⟩)
            mandatory)) = ds ++ crest →
      (paramAfter (SCPI_Parameter L context (some ⟨SCPI_TOKEN_UNKNOWN, none, 0⟩)
        mandatory)).len = ds.length →
      ds ≠ [] → (∀ d ∈ ds, isdigit d = true) →
      (crest = [] ∨ ∃ s t, crest = s :: t ∧ isdigit s = false) →
      SCPI_ParamBool lib L context (some b) mandatory =
        (true, (SCPI_Parameter L context (some ⟨SCPI_TOKEN_UNKNOWN, none, 0⟩) mandatory).2.1,
          some (decide (digitsValue ds = 1)))) ∧
    ((paramAfter (SCPI_Parameter L context (some ⟨SCPI_TOKEN_UNKNOWN, none, 0⟩)
        mandatory)).type = SCPI_TOKEN_PROGRAM_MNEMONIC →
      (∀ K, (K = str "on" ∨ K = str "off") →
        ¬ ((paramAfter (SCPI_Parameter L context (some ⟨SCPI_TOKEN_UNKNOWN, none, 0⟩)
            mandatory)).len = K.length ∧
          ((paramBytes
            (SCPI_Parameter L context (some ⟨SCPI_TOKEN_UNKNOWN, none, 0⟩) mandatory).2.1
            (paramAfter (SCPI_Parameter L context (some ⟨SCPI_TOKEN_UNKNOWN, none, 0⟩)
              mandatory))).take K.length).map tolower = K)) →
      SCPI_ParamBool lib L context (some b) mandatory =
        (false,
          SCPI_ErrorPush
            (SCPI_Parameter L context (some ⟨SCPI_TOKEN_UNKNOWN, none, 0⟩) mandatory).2.1
            scpi_error_t.SCPI_ERROR_ILLEGAL_PARAMETER_VALUE,
          some b)) := by
  generalize hp : SCPI_Parameter L context (some ⟨SCPI_TOKEN_UNKNOWN, none, 0⟩) mandatory = p
    at hres
  have hB : ∀ (c : Option Int), (paramAfter p).type = SCPI_TOKEN_PROGRAM_MNEMONIC →
      choiceLoop (paramBytes p.2.1 (paramAfter p)) (paramAfter p).len bool_options = c →
      SCPI_ParamBool lib L context (some b) mandatory =
        match c with
        | some tag => (true, p.2.1, some (decide (tag ≠ 0)))
        | none =>
          (false, SCPI_ErrorPush p.2.1 scpi_error_t.SCPI_ERROR_ILLEGAL_PARAMETER_VALUE,
            some b) := by
    intro c ht hc
    unfold SCPI_ParamBool
    simp only [hp, hres, if_true]
    rw [if_neg (by rw [ht]; decide)]
    unfold SCPI_ParamToChoice
    simp only [ht, if_true, hc]
    cases c <;> simp
  have hlen : ∀ (s K : List Nat), (s.take K.length).map tolower = K → K.length ≤ s.length := by
    intro s K h
    have := congrArg List.length h
    simp only [List.length_map, List.length_take] at this
    omega
  refine ⟨?_, ?_, ?_, ?_⟩
  · intro K hK ht hl htxt
    rw [hB _ ht (choiceLoop_bool_options _ _)]
    have h3 := hlen _ _ htxt
    rcases hK with rfl | rfl
    · have e2 : (str "on").length = 2 := by decide
      rw [e2] at hl htxt h3
      rw [if_neg (by omega), if_pos ⟨hl, h3, htxt⟩]
      simp
    · have e3 : (str "off").length = 3 := by decide
      rw [e3] at hl htxt h3
      rw [if_pos ⟨hl, h3, htxt⟩]
      have : str "off" ≠ str "on" := by decide
      simp [this]
  · intro ht
    unfold SCPI_ParamBool
    simp only [hp, hres, if_true]
    rw [if_pos ht]
    unfold SCPI_ParamToInt32 ParamSignToUInt32
    simp only
    rw [if_neg (by rw [ht]; decide), if_neg (by rw [ht]; decide), if_neg (by rw [ht]; decide),
      if_pos (Or.inl ht)]
    simp only [if_true, Option.getD_some]
  · intro ds crest hv ht htxt _ hne hd hcrest
    unfold SCPI_ParamBool
    simp only [hp, hres, if_true]
    rw [if_pos ht]
    unfold SCPI_ParamToInt32 ParamSignToUInt32
    simp only
    rw [if_neg (by rw [ht]; decide), if_neg (by rw [ht]; decide), if_neg (by rw [ht]; decide),
      if_pos (Or.inl ht)]
    simp only [if_true, htxt]
    rw [strBaseToInt32_digits ds crest hd hne hcrest (by omega)]
    rcases hv with hv | hv <;> simp [hv]
  · intro ht hno
    rw [hB _ ht (choiceLoop_bool_options _ _)]
    have e2 : (str "on").length = 2 := by decide
    have e3 : (str "off").length = 3 := by decide
    have n1 := hno (str "on") (Or.inl rfl)
    have n2 := hno (str "off") (Or.inr rfl)
    rw [e2] at n1
    rw [e3] at n2
    rw [if_neg (fun h => n2 ⟨h.1, h.2.2⟩), if_neg (fun h => n1 ⟨h.1, h.2.2⟩)]

theorem SCPI_ParamBool_values_witness :
    (SCPI_Parameter (restLexer SCPI_TOKEN_PROGRAM_MNEMONIC)
      ⟨[], false, 0, 0, 0, 0, false, false, [], ⟨str "On", 0, 2⟩⟩
      (some ⟨SCPI_TOKEN_UNKNOWN, none, 0⟩) true).1 = true ∧
    SCPI_ParamBool nullLibc (restLexer SCPI_TOKEN_PROGRAM_MNEMONIC)
      ⟨[], false, 0, 0, 0, 0, false, false, [], ⟨str "On", 0, 2⟩⟩ (some false) true =
      (true,
        (SCPI_Parameter (restLexer SCPI_TOKEN_PROGRAM_MNEMONIC)
          ⟨[], false, 0, 0, 0, 0, false, false, [], ⟨str "On", 0, 2⟩⟩
          (some ⟨SCPI_TOKEN_UNKNOWN, none, 0⟩) true).2.1,
        some (decide (str "on" = str "on"))) ∧
    SCPI_ParamBool nullLibc (restLexer SCPI_TOKEN_DECIMAL_NUMERIC_PROGRAM_DATA)
      ⟨[], false, 0, 0, 0, 0, false, false, [], ⟨str "0", 0, 1⟩⟩ (some true) true =
      (true,
        (SCPI_Parameter (restLexer SCPI_TOKEN_DECIMAL_NUMERIC_PROGRAM_DATA)
          ⟨[], false, 0, 0, 0, 0, false, false, [], ⟨str "0", 0, 1⟩⟩
          (some ⟨SCPI_TOKEN_UNKNOWN, none, 0⟩) true).2.1,
        some (decide (digitsValue (str "0") = 1))) :=
  ⟨by decide,
   (SCPI_ParamBool_values nullLibc (restLexer SCPI_TOKEN_PROGRAM_MNEMONIC)
      ⟨[], false, 0, 0, 0, 0, false, false, [], ⟨str "On", 0, 2⟩⟩ true false
      (by decide)).1 (str "on") (Or.inl rfl) (by decide) (by decide) (by decide),
   (SCPI_ParamBool_values nullLibc (restLexer SCPI_TOKEN_DECIMAL_NUMERIC_PROGRAM_DATA)
      ⟨[], false, 0, 0, 0, 0, false, false, [], ⟨str "0", 0, 1⟩⟩ true true
      (by decide)).2.2.1 (str "0") [] (Or.inl (by decide)) (by decide) (by decide) (by decide)
      (by decide) (by decide) (Or.inl rfl)⟩


/-! ## Theorems: `SCPI_ParamCopyText` -/

theorem getD_append_length (pre rest : List Nat) (c : Nat) :
    (pre ++ c :: rest).getD pre.length 0 = c := by
  induction pre with
  | nil => rfl
  | cons a pre ih => simpa using ih

theorem set_append_length (out junk : List Nat) (j c : Nat) :
    (out ++ j :: junk).set out.length c = out ++ c :: junk := by
  induction out with
  | nil => rfl
  | cons a out ih => simp [ih]

theorem doubleQuotes_length_ge (quote : Nat) (text : List Nat) :
    text.length ≤ (doubleQuotes quote text).length := by
  induction text with
  | nil => simp [doubleQuotes]
  | cons c cs ih =>
    unfold doubleQuotes
    split <;> simp <;> omega

/-- The copy loop on an escaped interior: with the source cursor at the start of the escape of
`text` and room in the buffer, the loop appends `text`. -/
theorem copyTextLoop_doubleQuotes (quote buffer_len len : Nat) (text : List Nat) :
    ∀ (fuel : Nat) (pre rest out junk : List Nat),
      text.length + 1 ≤ fuel →
      pre.length + (doubleQuotes quote text).length + 1 = len →
      len ≤ buffer_len + 1 →
      text.length ≤ junk.length →
      copyTextLoop (pre ++ (doubleQuotes quote text ++ rest)) len quote buffer_len fuel
          pre.length out.length (out ++ junk) =
        some (out.length + text.length, out ++ (text ++ junk.drop text.length)) := by
  induction text with
  | nil =>
    intro fuel pre rest out junk hf hl _ _
    obtain ⟨f, rfl⟩ : ∃ f, fuel = f + 1 := ⟨fuel - 1, by
      simp only [List.length_nil] at hf
      omega⟩
    unfold copyTextLoop
    have hs : toSizeT ((len : Int) - 1) = pre.length := by
      simp only [doubleQuotes, List.length_nil] at hl
      unfold toSizeT
      rw [if_neg (by omega)]
      omega
    rw [hs, if_neg (by omega)]
    simp
  | cons c cs ih =>
    intro fuel pre rest out junk hf hl hb hj
    obtain ⟨f, rfl⟩ : ∃ f, fuel = f + 1 := ⟨fuel - 1, by
      simp only [List.length_cons] at hf
      omega⟩
    obtain ⟨j, junk, rfl⟩ : ∃ j junk', junk = j :: junk' := by
      cases junk with
      | nil => simp at hj
      | cons j junk' => exact ⟨j, junk', rfl⟩
    simp only [List.length_cons] at hf hj
    have hge := doubleQuotes_length_ge quote cs
    unfold copyTextLoop
    by_cases hq : c = quote
    · have hdq : doubleQuotes quote (c :: cs) = c :: c :: doubleQuotes quote cs := by
        rw [doubleQuotes, if_pos hq]
      rw [hdq] at hl ⊢
      simp only [List.length_cons] at hl
      have hs : toSizeT ((len : Int) - 1) = pre.length + (doubleQuotes quote cs).length + 2 := by
        unfold toSizeT
        rw [if_neg (by omega)]
        omega
      rw [hs, if_pos (by omega), if_neg (by omega)]
      simp only [List.cons_append, getD_append_length, if_pos hq, set_append_length]
      have e1 : pre ++ c :: c :: (doubleQuotes quote cs ++ rest) =
          (pre ++ [c, c]) ++ (doubleQuotes quote cs ++ rest) := by simp
      have e2 : out ++ c :: junk = (out ++ [c]) ++ junk := by simp
      have e3 : pre.length + 1 + 1 = (pre ++ [c, c]).length := by simp
      have e4 : out.length + 1 = (out ++ [c]).length := by simp
      rw [e1, e2, e3, e4, ih f (pre ++ [c, c]) rest (out ++ [c]) junk (by omega)
        (by simp only [List.length_append, List.length_cons, List.length_nil]; omega) hb
        (by omega)]
      simp
      omega
    · have hdq : doubleQuotes quote (c :: cs) = c :: doubleQuotes quote cs := by
        rw [doubleQuotes, if_neg hq]
      rw [hdq] at hl ⊢
      simp only [List.length_cons] at hl
      have hs : toSizeT ((len : Int) - 1) = pre.length + (doubleQuotes quote cs).length + 1 := by
        unfold toSizeT
        rw [if_neg (by omega)]
        omega
      rw [hs, if_pos (by omega), if_neg (by omega)]
      simp only [List.cons_append, getD_append_length, if_neg hq, set_append_length]
      have e1 : pre ++ c :: (doubleQuotes quote cs ++ rest) =
          (pre ++ [c]) ++ (doubleQuotes quote cs ++ rest) := by simp
      have e2 : out ++ c :: junk = (out ++ [c]) ++ junk := by simp
      have e3 : pre.length + 1 = (pre ++ [c]).length := by simp
      have e4 : out.length + 1 = (out ++ [c]).length := by simp
      rw [e1, e2, e3, e4, ih f (pre ++ [c]) rest (out ++ [c]) junk (by omega)
        (by simp only [List.length_append, List.length_cons, List.length_nil]; omega) hb
        (by omega)]
      simp
      omega

/-- The body of `SCPI_ParamCopyText` behind a TRUE `SCPI_Parameter` whose token is a quoted
string with interior `doubleQuotes quote text`. -/
theorem SCPI_ParamCopyText_quoted (L : lexer_t) (context : scpi_t) (mandatory : Bool)
    (buf : List Nat) (buffer_len cl quote o : Nat) (text rest : List Nat)
    (hres : (SCPI_Parameter L context (some ⟨SCPI_TOKEN_UNKNOWN, none, 0⟩) mandatory).1 = true)
    (hkind :
      ((paramAfter (SCPI_Parameter L context (some ⟨SCPI_TOKEN_UNKNOWN, none, 0⟩)
            mandatory)).type = SCPI_TOKEN_SINGLE_QUOTE_PROGRAM_DATA ∧ quote = 39) ∨
      ((paramAfter (SCPI_Parameter L context (some ⟨SCPI_TOKEN_UNKNOWN, none, 0⟩)
            mandatory)).type = SCPI_TOKEN_DOUBLE_QUOTE_PROGRAM_DATA ∧ quote = 34))
    (hbytes :
      paramBytes (SCPI_Parameter L context (some ⟨SCPI_TOKEN_UNKNOWN, none, 0⟩) mandatory).2.1
          (paramAfter (SCPI_Parameter L context (some ⟨SCPI_TOKEN_UNKNOWN, none, 0⟩)
            mandatory)) = o :: (doubleQuotes quote text ++ rest))
    (hlen :
      (paramAfter (SCPI_Parameter L context (some ⟨SCPI_TOKEN_UNKNOWN, none, 0⟩)
        mandatory)).len = (doubleQuotes quote text).length + 2)
    (hroom : (doubleQuotes quote text).length < buffer_len) (hbuf : buffer_len ≤ buf.length) :
    SCPI_ParamCopyText L context (some buf) buffer_len (some cl) mandatory =
      some (true,
        (SCPI_Parameter L context (some ⟨SCPI_TOKEN_UNKNOWN, none, 0⟩) mandatory).2.1,
        some (text ++ 0 :: buf.drop (text.length + 1)), some text.length) := by
  generalize hp : SCPI_Parameter L context (some ⟨SCPI_TOKEN_UNKNOWN, none, 0⟩) mandatory = p
    at hres hkind hbytes hlen
  have hge := doubleQuotes_length_ge quote text
  have hq : (if (paramAfter p).type = SCPI_TOKEN_SINGLE_QUOTE_PROGRAM_DATA then 39 else 34) =
      quote := by
    rcases hkind with ⟨h, rfl⟩ | ⟨h, rfl⟩
    · rw [if_pos h]
    · rw [if_neg (by rw [h]; decide)]
  have hk : (paramAfter p).type = SCPI_TOKEN_SINGLE_QUOTE_PROGRAM_DATA ∨
      (paramAfter p).type = SCPI_TOKEN_DOUBLE_QUOTE_PROGRAM_DATA := by
    rcases hkind with ⟨h, _⟩ | ⟨h, _⟩
    · exact Or.inl h
    · exact Or.inr h
  have hloop := copyTextLoop_doubleQuotes quote buffer_len ((doubleQuotes quote text).length + 2)
    text (buffer_len + 1) [o] rest [] buf (by omega)
    (by simp only [List.length_singleton]; omega) (by omega) (by omega)
  simp only [List.length_singleton, List.length_nil, List.nil_append, List.singleton_append,
    Nat.zero_add] at hloop
  unfold SCPI_ParamCopyText
  simp only [hp, hres, if_true, if_pos hk, hq, hbytes, hlen, hloop]
  rw [if_pos (by omega)]
  have hset : (text ++ List.drop text.length buf).set text.length 0 =
      text ++ 0 :: buf.drop (text.length + 1) := by
    obtain ⟨j, junk, hj⟩ : ∃ j junk, buf.drop text.length = j :: junk := by
      cases hd : buf.drop text.length with
      | nil =>
        have := congrArg List.length hd
        simp only [List.length_drop, List.length_nil] at this
        omega
      | cons j junk => exact ⟨j, junk, rfl⟩
    have hj2 : buf.drop (text.length + 1) = junk := by
      rw [← List.drop_drop, hj]
      rfl
    rw [hj, hj2, set_append_length]
  rw [hset]

/-- C28: for a single- or double-quoted string token whose interior is the escape of
`text` under the own quote (every occurrence of it doubled, every other byte,
the other quote character included, as it is) and a buffer with `buffer_len` greater
than the length of the interior, `SCPI_ParamCopyText` returns TRUE, the buffer
holds `text` followed by a NUL, and `*copy_len` is the length of `text`. -/
theorem SCPI_ParamCopyText_unfolds_escapes (L : lexer_t) (context : scpi_t) (mandatory : Bool)
    (buf : List Nat) (buffer_len cl quote o : Nat) (text rest : List Nat)
    (hres : (SCPI_Parameter L context (some ⟨SCPI_TOKEN_UNKNOWN, none, 0⟩) mandatory).1 = true)
    (hkind :
      ((paramAfter (SCPI_Parameter L context (some ⟨SCPI_TOKEN_UNKNOWN, none, 0⟩)
            mandatory)).type = SCPI_TOKEN_SINGLE_QUOTE_PROGRAM_DATA ∧ quote = 39) ∨
      ((paramAfter (SCPI_Parameter L context (some ⟨SCPI_TOKEN_UNKNOWN, none, 0⟩)
            mandatory)).type = SCPI_TOKEN_DOUBLE_QUOTE_PROGRAM_DATA ∧ quote = 34))
    (hbytes :
      paramBytes (SCPI_Parameter L context (some ⟨SCPI_TOKEN_UNKNOWN, none, 0⟩) mandatory).2.1
          (paramAfter (SCPI_Parameter L context (some ⟨SCPI_TOKEN_UNKNOWN, none, 0⟩)
            mandatory)) = o :: (doubleQuotes quote text ++ rest))
    (hlen :
      (paramAfter (SCPI_Parameter L context (some ⟨SCPI_TOKEN_UNKNOWN, none, 0⟩)
        mandatory)).len = (doubleQuotes quote text).length + 2)
    (hroom : (doubleQuotes quote text).length < buffer_len) (hbuf : buffer_len ≤ buf.length) :
    ∃ c b, SCPI_ParamCopyText L context (some buf) buffer_len (some cl) mandatory =
        some (true, c, some b, some text.length) ∧
      b.take (text.length + 1) = text ++ [0] ∧ b.length = buf.length := by
  refine ⟨_, _, SCPI_ParamCopyText_quoted L context mandatory buf buffer_len cl quote o text
    rest hres hkind hbytes hlen hroom hbuf, ?_, ?_⟩
  · have : (text ++ 0 :: buf.drop (text.length + 1)) =
        (text ++ [0]) ++ buf.drop (text.length + 1) := by simp
    rw [this, List.take_left' (by simp)]
  · have hge := doubleQuotes_length_ge quote text
    simp only [List.length_append, List.length_cons, List.length_drop]
    omega

theorem SCPI_ParamCopyText_unfolds_escapes_witness :
    ∃ c b, SCPI_ParamCopyText (restLexer SCPI_TOKEN_SINGLE_QUOTE_PROGRAM_DATA)
        ⟨[], false, 0, 0, 0, 0, false, false, [], ⟨str "'a''\"b'", 0, 7⟩⟩
        (some [1, 1, 1, 1, 1, 1, 1, 1]) 8 (some 0) true =
        some (true, c, some b, some (str "a'\"b").length) ∧
      b.take ((str "a'\"b").length + 1) = str "a'\"b" ++ [0] ∧
      b.length = [1, 1, 1, 1, 1, 1, 1, 1].length :=
  SCPI_ParamCopyText_unfolds_escapes (restLexer SCPI_TOKEN_SINGLE_QUOTE_PROGRAM_DATA)
    ⟨[], false, 0, 0, 0, 0, false, false, [], ⟨str "'a''\"b'", 0, 7⟩⟩ true
    [1, 1, 1, 1, 1, 1, 1, 1] 8 0 39 39 (str "a'\"b") [39] (by decide)
    (Or.inl ⟨by decide, rfl⟩) (by decide) (by decide) (by decide) (by decide)


/-! ## Theorems: text fields written and read back -/

theorem doubleQuotes_of_not_mem (quote : Nat) (s : List Nat) (h : quote ∉ s) :
    doubleQuotes quote s = s := by
  induction s with
  | nil => rfl
  | cons c cs ih =>
    have hc : c ≠ quote := fun e => h (by simp [e])
    rw [doubleQuotes, if_neg hc, ih (fun e => h (by simp [e]))]

theorem SCPI_ResultText_output (c : scpi_t) (s : List Nat) (h0 : 0 ∉ s) :
    (SCPI_ResultText c s).2.output =
      c.output ++ (if c.output_count > 0 then [44] else []) ++ (34 :: (s ++ [34])) := by
  unfold SCPI_ResultText
  simp only [writeDelimiter_eq, writeData_eq, strlen_of_no_nul s h0, List.take_length]
  simp

/-- C29: for a C string `s` without a `"` byte, `SCPI_ResultText` hands the sink
`"` ++ s ++ `"`, preceded by `,` exactly if `output_count > 0`; and when
`SCPI_ParamCopyText` reads a double-quoted token with these bytes into a buffer
longer than `s`, it returns TRUE, the buffer holds `s` followed by a NUL, and
`*copy_len` is the length of `s`. -/
theorem SCPI_ResultText_round_trip (s : List Nat) (h0 : 0 ∉ s) (hq : 34 ∉ s) (w : scpi_t)
    (L : lexer_t) (context : scpi_t) (mandatory : Bool) (buf : List Nat)
    (buffer_len cl : Nat) (rest : List Nat)
    (hres : (SCPI_Parameter L context (some ⟨SCPI_TOKEN_UNKNOWN, none, 0⟩) mandatory).1 = true)
    (hkind :
      (paramAfter (SCPI_Parameter L context (some ⟨SCPI_TOKEN_UNKNOWN, none, 0⟩)
        mandatory)).type = SCPI_TOKEN_DOUBLE_QUOTE_PROGRAM_DATA)
    (hbytes :
      paramBytes (SCPI_Parameter L context (some ⟨SCPI_TOKEN_UNKNOWN, none, 0⟩) mandatory).2.1
          (paramAfter (SCPI_Parameter L context (some ⟨SCPI_TOKEN_UNKNOWN, none, 0⟩)
            mandatory)) = (34 :: (s ++ [34])) ++ rest)
    (hlen :
      (paramAfter (SCPI_Parameter L context (some ⟨SCPI_TOKEN_UNKNOWN, none, 0⟩)
        mandatory)).len = (34 :: (s ++ [34])).length)
    (hroom : s.length < buffer_len) (hbuf : buffer_len ≤ buf.length) :
    (SCPI_ResultText w s).2.output =
      w.output ++ (if w.output_count > 0 then [44] else []) ++ (34 :: (s ++ [34])) ∧
    ∃ c b, SCPI_ParamCopyText L context (some buf) buffer_len (some cl) mandatory =
        some (true, c, some b, some s.length) ∧
      b.take (s.length + 1) = s ++ [0] := by
  refine ⟨SCPI_ResultText_output w s h0, _, _,
    SCPI_ParamCopyText_quoted L context mandatory buf buffer_len cl 34 34 s (34 :: rest) hres
      (Or.inr ⟨hkind, rfl⟩) ?_ ?_ ?_ hbuf, ?_⟩
  · rw [hbytes, doubleQuotes_of_not_mem 34 s hq]
    simp
  · rw [hlen, doubleQuotes_of_not_mem 34 s hq]
    simp
  · rw [doubleQuotes_of_not_mem 34 s hq]
    exact hroom
  · have : (s ++ 0 :: buf.drop (s.length + 1)) = (s ++ [0]) ++ buf.drop (s.length + 1) := by
      simp
    rw [this, List.take_left' (by simp)]

theorem SCPI_ResultText_round_trip_witness :
    (SCPI_ResultText ⟨[], false, 0, 0, 0, 0, false, false, [], ⟨[], 0, 0⟩⟩ (str "ab")).2.output =
      ([] : List Nat) ++
        (if (⟨[], false, 0, 0, 0, 0, false, false, [], ⟨[], 0, 0⟩⟩ : scpi_t).output_count > 0
          then [44] else []) ++ (34 :: (str "ab" ++ [34])) ∧
    ∃ c b, SCPI_ParamCopyText (restLexer SCPI_TOKEN_DOUBLE_QUOTE_PROGRAM_DATA)
        ⟨[], false, 0, 0, 0, 0, false, false, [], ⟨str "\"ab\"", 0, 4⟩⟩
        (some [1, 1, 1, 1]) 3 (some 0) true =
        some (true, c, some b, some (str "ab").length) ∧
      b.take ((str "ab").length + 1) = str "ab" ++ [0] :=
  SCPI_ResultText_round_trip (str "ab") (by decide) (by decide)
    ⟨[], false, 0, 0, 0, 0, false, false, [], ⟨[], 0, 0⟩⟩
    (restLexer SCPI_TOKEN_DOUBLE_QUOTE_PROGRAM_DATA)
    ⟨[], false, 0, 0, 0, 0, false, false, [], ⟨str "\"ab\"", 0, 4⟩⟩ true [1, 1, 1, 1] 3 0 []
    (by decide) (by decide) (by decide) (by decide) (by decide) (by decide)

/-- C30: on the text `a"b`, `SCPI_ResultText` hands the sink `"a"b"`: the embedded
quote is written once, and the field is not `"` ++ `doubleQuotes` ++ `"`. -/
theorem SCPI_ResultText_embedded_quote_verbatim :
    (SCPI_ResultText ⟨[], false, 0, 0, 0, 0, false, false, [], ⟨[], 0, 0⟩⟩
      (str "a\"b")).2.output = str "\"a\"b\"" ∧
    34 :: (doubleQuotes 34 (str "a\"b") ++ [34]) = str "\"a\"\"b\"" ∧
    (SCPI_ResultText ⟨[], false, 0, 0, 0, 0, false, false, [], ⟨[], 0, 0⟩⟩
      (str "a\"b")).2.output ≠ 34 :: (doubleQuotes 34 (str "a\"b") ++ [34]) := by
  decide


/-! ## Theorems: arbitrary block framing -/

/-- C31: for a payload of `n <= 999999999` bytes, `SCPI_ResultArbitraryBlock` hands the
sink `#`, the digit `d` (the number of digits of the decimal numeral of `n`), the
numeral of `n` and then the `n` payload bytes, and returns `2 + d + n`. -/
theorem SCPI_ResultArbitraryBlock_framing (c : scpi_t) (data : List Nat) (n : Nat)
    (hdata : data.length = n) (hn : n ≤ 999999999) :
    ∃ r, SCPI_ResultArbitraryBlock c data n = some r ∧
      r.1 = 2 + (numeral 10 n).length + n ∧
      r.2.output = c.output ++ 35 :: (48 + (numeral 10 n).length) :: (numeral 10 n ++ data) ∧
      1 ≤ (numeral 10 n).length ∧ (numeral 10 n).length ≤ 9 := by
  have hmod : n % 2 ^ 32 = n := Nat.mod_eq_of_lt (by norm_num; omega)
  have hl := numeral_length_le 10 8 n (by omega) (by norm_num; omega)
  have hp := numeral_length_pos 10 n
  have h1 : SCPI_UInt32ToStrBase n 10 10 = some (numeral 10 n) :=
    UInt32ToStrBaseSign_plain n 10 10 false (by norm_num; omega)
      (by
        have : (startDivisor32 10).2 = 10 := rfl
        rw [this]; omega) (Or.inl rfl)
  unfold SCPI_ResultArbitraryBlock
  rw [hmod, h1, Option.some_bind, if_pos (by omega)]
  refine ⟨_, rfl, ?_, ?_, hp, by omega⟩
  · simp only [writeData_eq]
    omega
  · simp only [writeData_eq]
    have e1 : (35 :: ((numeral 10 n).length + 48) :: numeral 10 n).take
        ((numeral 10 n).length + 2) = 35 :: ((numeral 10 n).length + 48) :: numeral 10 n := by
      apply List.take_of_length_le
      simp
    have e2 : data.take n = data := List.take_of_length_le (by omega)
    rw [e1, e2, Nat.add_comm 48]
    simp

theorem SCPI_ResultArbitraryBlock_framing_witness :
    ∃ r, SCPI_ResultArbitraryBlock ⟨[], false, 0, 0, 0, 0, false, false, [], ⟨[], 0, 0⟩⟩
        [1, 10, 255] 3 = some r ∧
      r.1 = 2 + (numeral 10 3).length + 3 ∧
      r.2.output = ([] : List Nat) ++
        35 :: (48 + (numeral 10 3).length) :: (numeral 10 3 ++ [1, 10, 255]) ∧
      1 ≤ (numeral 10 3).length ∧ (numeral 10 3).length ≤ 9 :=
  SCPI_ResultArbitraryBlock_framing ⟨[], false, 0, 0, 0, 0, false, false, [], ⟨[], 0, 0⟩⟩
    [1, 10, 255] 3 rfl (by decide)


/-! ## Theorems: truncation and safety of the converters -/

theorem writeDigits_pow_take (w b len : Nat) (hb : 1 < b) (hb16 : b ≤ 16) :
    ∀ (k fuel uval : Nat) (out : List Nat), k + 1 ≤ fuel → uval < b ^ (k + 1) →
      uval < 2 ^ w → out.length ≤ len →
      writeDigits w b len fuel uval (b ^ k) out =
        some ((out ++ (msdDigits b k uval).map digitChar).take len) := by
  intro k
  induction k with
  | zero =>
    intro fuel uval out hf hlt hw hlen
    obtain ⟨f, rfl⟩ : ∃ f, fuel = f + 1 := ⟨fuel - 1, by omega⟩
    have hu : uval < b := by simpa using hlt
    have hd : digits (uval % 256) = some (digitChar uval) := by
      rw [Nat.mod_eq_of_lt (by omega)]
      exact digits_of_lt uval (by omega)
    simp only [writeDigits, pow_zero, Nat.div_one, one_ne_zero, if_false, hd]
    have hx : 1 / b = 0 := Nat.div_eq_of_lt hb
    simp only [hx, ne_eq, not_true_eq_false, false_and, if_false, ADD_CHAR, msdDigits,
      List.map_cons, List.map_nil]
    by_cases hl : out.length < len
    · rw [if_pos hl, List.take_of_length_le (by simp; omega)]
    · rw [if_neg hl, List.take_append_of_le_length (by omega),
        List.take_of_length_le (by omega)]
  | succ k ih =>
    intro fuel uval out hf hlt hw hlen
    obtain ⟨f, rfl⟩ : ∃ f, fuel = f + 1 := ⟨fuel - 1, by omega⟩
    have hpos : 0 < b ^ (k + 1) := Nat.pow_pos (by omega)
    have hdlt : uval / b ^ (k + 1) < b := by
      rw [Nat.div_lt_iff_lt_mul hpos]
      calc uval < b ^ (k + 1 + 1) := hlt
        _ = b * b ^ (k + 1) := by ring
    have hd : digits (uval / b ^ (k + 1) % 256) = some (digitChar (uval / b ^ (k + 1))) := by
      rw [Nat.mod_eq_of_lt (by omega)]
      exact digits_of_lt _ (by omega)
    have hmul : uval / b ^ (k + 1) * b ^ (k + 1) ≤ uval := Nat.div_mul_le_self _ _
    have hsub : (uval + 2 ^ w - (uval / b ^ (k + 1) % 256 * b ^ (k + 1)) % 2 ^ w) % 2 ^ w =
        uval % b ^ (k + 1) := by
      rw [Nat.mod_eq_of_lt (show uval / b ^ (k + 1) < 256 by omega),
        Nat.mod_eq_of_lt (show uval / b ^ (k + 1) * b ^ (k + 1) < 2 ^ w by omega)]
      have h1 := Nat.mod_add_div uval (b ^ (k + 1))
      have h2 : b ^ (k + 1) * (uval / b ^ (k + 1)) = uval / b ^ (k + 1) * b ^ (k + 1) :=
        Nat.mul_comm _ _
      have h3 : uval + 2 ^ w - uval / b ^ (k + 1) * b ^ (k + 1) =
          uval % b ^ (k + 1) + 2 ^ w := by omega
      rw [h3, Nat.add_mod_right]
      exact Nat.mod_eq_of_lt (lt_of_le_of_lt (Nat.mod_le _ _) hw)
    have hx : b ^ (k + 1) / b = b ^ k := by
      rw [pow_succ]
      exact Nat.mul_div_cancel _ (by omega)
    have hxk : b ^ k ≠ 0 := Nat.pos_iff_ne_zero.1 (Nat.pow_pos (by omega))
    rw [writeDigits, if_neg (by omega)]
    simp only [hd, hsub, hx]
    by_cases hl : out.length < len
    · have hadd : ADD_CHAR len out (digitChar (uval / b ^ (k + 1))) =
          out ++ [digitChar (uval / b ^ (k + 1))] := by
        rw [ADD_CHAR, if_pos hl]
      rw [hadd]
      by_cases hl2 : (out ++ [digitChar (uval / b ^ (k + 1))]).length < len
      · rw [if_pos ⟨hxk, hl2⟩]
        rw [ih f (uval % b ^ (k + 1)) _ (by omega) (Nat.mod_lt _ hpos)
          (lt_of_le_of_lt (Nat.mod_le _ _) hw) (by omega)]
        simp [msdDigits]
      · rw [if_neg (fun h => hl2 h.2)]
        simp only [List.length_append, List.length_singleton] at hl2
        have e : (out ++ List.map digitChar (msdDigits b (k + 1) uval)) =
            (out ++ [digitChar (uval / b ^ (k + 1))]) ++
              List.map digitChar (msdDigits b k (uval % b ^ (k + 1))) := by
          simp [msdDigits]
        rw [e, List.take_append_of_le_length (by simp; omega),
          List.take_of_length_le (by simp; omega)]
    · have hadd : ADD_CHAR len out (digitChar (uval / b ^ (k + 1))) = out := by
        rw [ADD_CHAR, if_neg hl]
      rw [hadd, if_neg (fun h => hl h.2), List.take_append_of_le_length (by omega),
        List.take_of_length_le (by omega)]

/-- The converters store the first `len` characters of `convertedNumeral`. -/
theorem toStrBaseSign_take (w : Nat) (start : Int → Nat × Nat) (val len : Nat)
    (base : Int) (sign : Bool) (K : Nat)
    (hstart : start base = ((start base).2 ^ K, (start base).2)) (hb : 1 < (start base).2)
    (hb16 : (start base).2 ≤ 16) (hw : val < 2 ^ w) (hK : 2 ^ w ≤ (start base).2 ^ (K + 1))
    (hKw : K ≤ w) (hw0 : 0 < w) :
    toStrBaseSign w start val len base sign =
      some ((convertedNumeral w start val base sign).take len) := by
  unfold toStrBaseSign convertedNumeral
  by_cases h0 : val = 0
  · rw [if_pos h0, if_pos h0, ADD_CHAR]
    by_cases hl : 0 < len
    · simp only [List.length_nil, hl, if_true, List.nil_append]
      rw [List.take_of_length_le (by simp; omega)]
    · have : len = 0 := by omega
      subst this
      simp
  · rw [if_neg h0, if_neg h0]
    simp only
    rw [hstart]
    simp only
    have hpw : 2 ^ (w - 1) < 2 ^ w := Nat.pow_lt_pow_right (by omega) (by omega)
    by_cases hneg : (sign && decide (2 ^ (w - 1) ≤ val) && ((start base).2 == 10)) = true
    · rw [hneg]
      simp only [if_true]
      have hge : 2 ^ (w - 1) ≤ val := by
        simp only [Bool.and_eq_true, decide_eq_true_eq] at hneg
        exact hneg.1.2
      have hu0 : 0 < (2 ^ w - val) % 2 ^ w := by
        rw [Nat.mod_eq_of_lt (by omega)]
        omega
      have hult : (2 ^ w - val) % 2 ^ w < 2 ^ w := Nat.mod_lt _ (by omega)
      obtain ⟨k, h1, h2, h3, h4⟩ := removeLeadingZeros_pow (start base).2
        ((2 ^ w - val) % 2 ^ w) hb hu0 K (w + 1) (by omega) (by omega)
      rw [h4]
      simp only
      rw [writeDigits_pow_take w _ len hb hb16 k (w + 1) _ _ (by omega) h3 hult
        (by
          rw [ADD_CHAR]
          split
          · simp only [List.nil_append, List.length_singleton]
            simp only [List.length_nil] at *
            omega
          · simp),
        numeral_eq_msdDigits _ k _ hb h2 h3]
      rw [ADD_CHAR]
      by_cases hl : 0 < len
      · simp [hl]
      · have : len = 0 := by omega
        subst this
        simp
    · have hneg' : (sign && decide (2 ^ (w - 1) ≤ val) && ((start base).2 == 10)) = false := by
        simpa using hneg
      rw [hneg']
      simp only [Bool.false_eq_true, if_false]
      obtain ⟨k, h1, h2, h3, h4⟩ := removeLeadingZeros_pow (start base).2 val hb
        (by omega) K (w + 1) (by omega) (by omega)
      rw [h4]
      simp only
      rw [writeDigits_pow_take w _ len hb hb16 k (w + 1) _ _ (by omega) h3 hw (by simp),
        numeral_eq_msdDigits _ k _ hb h2 h3]
      simp

theorem convertedNumeral_length_le (w : Nat) (start : Int → Nat × Nat) (val : Nat)
    (base : Int) (sign : Bool) (K : Nat) (hb : 1 < (start base).2) (hw : val < 2 ^ w)
    (hK : 2 ^ w ≤ (start base).2 ^ (K + 1)) :
    (convertedNumeral w start val base sign).length ≤ K + 2 := by
  unfold convertedNumeral
  split
  · simp
  · split
    · have hlt : (2 ^ w - val) % 2 ^ w < 2 ^ w := Nat.mod_lt _ (Nat.pow_pos (by omega))
      have := numeral_length_le (start base).2 K ((2 ^ w - val) % 2 ^ w) hb (by omega)
      simp only [List.length_cons]
      omega
    · have := numeral_length_le (start base).2 K val hb (by omega)
      omega

theorem numeral_mem_digit (b u c : Nat) (hb : 1 < b) (hc : c ∈ numeral b u) :
    ∃ d, d < b ∧ c = digitChar d := by
  unfold numeral at hc
  split at hc
  · simp only [List.mem_singleton] at hc
    exact ⟨0, by omega, by rw [hc]; rfl⟩
  · obtain ⟨d, hd, rfl⟩ := List.mem_map.1 hc
    exact ⟨d, Nat.digits_lt_base hb (List.mem_reverse.1 hd), rfl⟩

theorem convertedNumeral_mem (w : Nat) (start : Int → Nat × Nat) (val : Nat)
    (base : Int) (sign : Bool) (hb : 1 < (start base).2) (c : Nat)
    (hc : c ∈ convertedNumeral w start val base sign) :
    c = 45 ∨ ∃ d, d < (start base).2 ∧ c = digitChar d := by
  unfold convertedNumeral at hc
  split at hc
  · simp only [List.mem_singleton] at hc
    exact Or.inr ⟨0, by omega, by rw [hc]; rfl⟩
  · split at hc
    · rcases List.mem_cons.1 hc with h | h
      · exact Or.inl h
      · exact Or.inr (numeral_mem_digit _ _ c hb h)
    · exact Or.inr (numeral_mem_digit _ _ c hb hc)

theorem UInt32ToStrBaseSign_take (val len : Nat) (base : Int) (sign : Bool)
    (hv : val < 2 ^ 32) :
    UInt32ToStrBaseSign val len base sign =
        some ((convertedNumeral 32 startDivisor32 val base sign).take len) ∧
      (convertedNumeral 32 startDivisor32 val base sign).length ≤ 33 := by
  obtain ⟨K, h1, h2, h3, h4, h5, _⟩ := startDivisor32_pow base
  have := convertedNumeral_length_le 32 startDivisor32 val base sign K h2 hv h4
  exact ⟨toStrBaseSign_take 32 startDivisor32 val len base sign K h1 h2 h3 hv h4 (by omega)
    (by omega), by omega⟩

theorem UInt64ToStrBaseSign_take (val len : Nat) (base : Int) (sign : Bool)
    (hv : val < 2 ^ 64) :
    UInt64ToStrBaseSign val len base sign =
        some ((convertedNumeral 64 startDivisor64 val base sign).take len) ∧
      (convertedNumeral 64 startDivisor64 val base sign).length ≤ 65 := by
  obtain ⟨K, h1, h2, h3, h4, h5, _⟩ := startDivisor64_pow base
  have := convertedNumeral_length_le 64 startDivisor64 val base sign K h2 hv h4
  exact ⟨toStrBaseSign_take 64 startDivisor64 val len base sign K h1 h2 h3 hv h4 (by omega)
    (by omega), by omega⟩

/-- C35: for every value, base, sign flag and buffer length `len` (0 included),
`UInt32ToStrBaseSign` and `UInt64ToStrBaseSign` return; the characters stored, `pos`
of them, satisfy `pos <= len`, and they are the first `pos` characters of what the
same call stores into any buffer of at least 33 (65) bytes, which is
`convertedNumeral`; `pos` is the smaller of `len` and the length of that string. -/
theorem converters_truncate (val len : Nat) (base : Int) (sign : Bool) :
    (val < 2 ^ 32 → ∃ out full,
      UInt32ToStrBaseSign val len base sign = some out ∧
      (∀ L, 33 ≤ L → UInt32ToStrBaseSign val L base sign = some full) ∧
      full = convertedNumeral 32 startDivisor32 val base sign ∧
      out.length ≤ len ∧ out.length = min len full.length ∧ out = full.take out.length) ∧
    (val < 2 ^ 64 → ∃ out full,
      UInt64ToStrBaseSign val len base sign = some out ∧
      (∀ L, 65 ≤ L → UInt64ToStrBaseSign val L base sign = some full) ∧
      full = convertedNumeral 64 startDivisor64 val base sign ∧
      out.length ≤ len ∧ out.length = min len full.length ∧ out = full.take out.length) := by
  constructor
  · intro hv
    obtain ⟨h1, h2⟩ := UInt32ToStrBaseSign_take val len base sign hv
    refine ⟨_, _, h1, ?_, rfl, ?_, ?_, ?_⟩
    · intro L hL
      rw [(UInt32ToStrBaseSign_take val L base sign hv).1, List.take_of_length_le (by omega)]
    · simp only [List.length_take]
      omega
    · simp only [List.length_take]
    · simp only [List.length_take, List.take_take, min_self, Nat.min_assoc]
      rw [List.take_eq_take]
      simp
  · intro hv
    obtain ⟨h1, h2⟩ := UInt64ToStrBaseSign_take val len base sign hv
    refine ⟨_, _, h1, ?_, rfl, ?_, ?_, ?_⟩
    · intro L hL
      rw [(UInt64ToStrBaseSign_take val L base sign hv).1, List.take_of_length_le (by omega)]
    · simp only [List.length_take]
      omega
    · simp only [List.length_take]
    · simp only [List.length_take, List.take_take, min_self, Nat.min_assoc]
      rw [List.take_eq_take]
      simp

theorem converters_truncate_witness :
    (4294967173 : Nat) < 2 ^ 32 ∧
    ∃ out full,
      UInt32ToStrBaseSign 4294967173 2 10 true = some out ∧
      (∀ L, 33 ≤ L → UInt32ToStrBaseSign 4294967173 L 10 true = some full) ∧
      full = convertedNumeral 32 startDivisor32 4294967173 10 true ∧
      out.length ≤ 2 ∧ out.length = min 2 full.length ∧ out = full.take out.length :=
  ⟨by norm_num, (converters_truncate 4294967173 2 10 true).1 (by norm_num)⟩

/-- C36: for every value and every base argument, `UInt32ToStrBaseSign` and
`UInt64ToStrBaseSign` return a result: no division `uval / x` meets `x = 0`, the
leading-zero loop ends, and no lookup leaves the table `digits` (each of these is
`none` in the functions here).  The base used is the argument if it is 2, 8 or
16 and 10 otherwise, and every character stored is the sign or the character of a
digit below that base. -/
theorem converters_arithmetic_safe (val len : Nat) (base : Int) (sign : Bool) :
    (val < 2 ^ 32 → ∃ out, UInt32ToStrBaseSign val len base sign = some out ∧
      ∀ c ∈ out, c = 45 ∨ ∃ d, d < (startDivisor32 base).2 ∧ c = digitChar d ∧
        digits d = some c) ∧
    (val < 2 ^ 64 → ∃ out, UInt64ToStrBaseSign val len base sign = some out ∧
      ∀ c ∈ out, c = 45 ∨ ∃ d, d < (startDivisor64 base).2 ∧ c = digitChar d ∧
        digits d = some c) ∧
    ((startDivisor32 base).2 = if base = 2 ∨ base = 8 ∨ base = 16 then base.toNat else 10) ∧
    ((startDivisor64 base).2 = if base = 2 ∨ base = 8 ∨ base = 16 then base.toNat else 10) ∧
    (startDivisor32 base).1 ≠ 0 ∧ (startDivisor64 base).1 ≠ 0 := by
  refine ⟨?_, ?_, ?_, ?_, ?_, ?_⟩
  · intro hv
    obtain ⟨K, _, h2, h3, _⟩ := startDivisor32_pow base
    refine ⟨_, (UInt32ToStrBaseSign_take val len base sign hv).1, fun c hc => ?_⟩
    rcases convertedNumeral_mem 32 startDivisor32 val base sign h2 c
      (List.mem_of_mem_take hc) with h | ⟨d, hd, rfl⟩
    · exact Or.inl h
    · exact Or.inr ⟨d, hd, rfl, digits_of_lt d (by omega)⟩
  · intro hv
    obtain ⟨K, _, h2, h3, _⟩ := startDivisor64_pow base
    refine ⟨_, (UInt64ToStrBaseSign_take val len base sign hv).1, fun c hc => ?_⟩
    rcases convertedNumeral_mem 64 startDivisor64 val base sign h2 c
      (List.mem_of_mem_take hc) with h | ⟨d, hd, rfl⟩
    · exact Or.inl h
    · exact Or.inr ⟨d, hd, rfl, digits_of_lt d (by omega)⟩
  · unfold startDivisor32
    by_cases h2 : base = 2
    · simp [h2]
    · by_cases h8 : base = 8
      · simp [h8]
      · by_cases h10 : base = 10
        · simp [h10]
        · by_cases h16 : base = 16
          · simp [h16]
          · simp [h2, h8, h10, h16]
  · unfold startDivisor64
    by_cases h2 : base = 2
    · simp [h2]
    · by_cases h8 : base = 8
      · simp [h8]
      · by_cases h10 : base = 10
        · simp [h10]
        · by_cases h16 : base = 16
          · simp [h16]
          · simp [h2, h8, h10, h16]
  · unfold startDivisor32
    split_ifs <;> simp
  · unfold startDivisor64
    split_ifs <;> simp

theorem converters_arithmetic_safe_witness :
    (4294967295 : Nat) < 2 ^ 32 ∧
    ∃ out, UInt32ToStrBaseSign 4294967295 40 7 false = some out ∧
      ∀ c ∈ out, c = 45 ∨ ∃ d, d < (startDivisor32 7).2 ∧ c = digitChar d ∧
        digits d = some c :=
  ⟨by norm_num, (converters_arithmetic_safe 4294967295 40 7 false).1 (by norm_num)⟩


/-! ## Theorems: command lookup -/

theorem findCommandHeader_eq_find (header : List Nat) (len : Nat) :
    ∀ (cmdlist : List scpi_command_t),
      (∀ cmd ∈ cmdlist, (matchCommand cmd.pattern header len none 0 0).isSome) →
      findCommandHeader cmdlist header len =
        some (cmdlist.find? fun cmd =>
          matchCommand cmd.pattern header len none 0 0 == some true) := by
  intro cmdlist
  induction cmdlist with
  | nil => intro _; rfl
  | cons cmd cmdlist ih =>
    intro h
    have h1 := h cmd (by simp)
    have h2 := ih (fun c hc => h c (by simp [hc]))
    unfold findCommandHeader
    rw [List.find?_cons]
    cases hm : matchCommand cmd.pattern header len none 0 0 with
    | none => rw [hm] at h1; cases h1
    | some b =>
      cases b with
      | true => simp
      | false => simpa using h2

/-- C34: when `matchCommand` returns for every pattern of the table, `findCommandHeader`
returns TRUE with the first entry, in table order, whose pattern matches the
header, and FALSE (selecting no entry) exactly if no entry matches; and a unit of
`SCPI_Parse` whose header is found by no entry pushes `UndefinedHeader`, sets the
result to FALSE, calls no callback and goes on with the next unit, if there is one. -/
theorem findCommandHeader_first_match (detect : List Nat → Int → Int → Int × scpi_parser_state_t)
    (cmdlist : List scpi_command_t) (header : List Nat) (len : Nat)
    (hret : ∀ cmd ∈ cmdlist, (matchCommand cmd.pattern header len none 0 0).isSome) :
    findCommandHeader cmdlist header len =
      some (cmdlist.find? fun cmd =>
        matchCommand cmd.pattern header len none 0 0 == some true) ∧
    (findCommandHeader cmdlist header len = some none ↔
      ∀ cmd ∈ cmdlist, matchCommand cmd.pattern header len none 0 0 ≠ some true) ∧
    (∀ (fuel : Nat) (context : scpi_t) (buf : List Nat) (data n : Int)
      (cmd_prev : scpi_token_t) (result : Bool),
      (detect buf data n).2.programHeader.type ≠ SCPI_TOKEN_INVALID →
      (detect buf data n).2.programHeader.len > 0 →
      findCommandHeader cmdlist
        (⟨(composeCompoundCommand buf cmd_prev (some (detect buf data n).2.programHeader)).2.1,
          (((composeCompoundCommand buf cmd_prev
            (some (detect buf data n).2.programHeader)).2.2.getD
              (detect buf data n).2.programHeader).ptr).getD 0⟩ : CPtr).bytes
        ((composeCompoundCommand buf cmd_prev
            (some (detect buf data n).2.programHeader)).2.2.getD
              (detect buf data n).2.programHeader).len = some none →
      SCPI_Parse_loop detect cmdlist (fuel + 1) context buf data n cmd_prev result =
        if (detect buf data n).1 < n then
          SCPI_Parse_loop detect cmdlist fuel
            (SCPI_ErrorPush context scpi_error_t.SCPI_ERROR_UNDEFINED_HEADER)
            (composeCompoundCommand buf cmd_prev
              (some (detect buf data n).2.programHeader)).2.1
            (data + (detect buf data n).1) (n - (detect buf data n).1) cmd_prev false
        else
          some (false, SCPI_ErrorPush context scpi_error_t.SCPI_ERROR_UNDEFINED_HEADER,
            (composeCompoundCommand buf cmd_prev
              (some (detect buf data n).2.programHeader)).2.1)) := by
  have hfind := findCommandHeader_eq_find header len cmdlist hret
  refine ⟨hfind, ?_, ?_⟩
  · rw [hfind]
    simp only [Option.some.injEq, List.find?_eq_none, beq_iff_eq]
  · intro fuel context buf data n cmd_prev result hinv hlen hnone
    rw [SCPI_Parse_loop]
    simp only [hinv, if_false, hlen, if_true, hnone]

theorem findCommandHeader_first_match_witness :
    findCommandHeader
        [⟨str "A", none⟩, ⟨str "SYSTem:ERRor?", none⟩, ⟨str "SYSTem:ERRor[:NEXT]?", none⟩]
        (str "syst:err?") 9 =
      some ([⟨str "A", none⟩, ⟨str "SYSTem:ERRor?", none⟩,
          ⟨str "SYSTem:ERRor[:NEXT]?", none⟩].find? fun cmd =>
        matchCommand cmd.pattern (str "syst:err?") 9 none 0 0 == some true) ∧
    ([⟨str "A", none⟩, ⟨str "SYSTem:ERRor?", none⟩,
          ⟨str "SYSTem:ERRor[:NEXT]?", none⟩].find? fun (cmd : scpi_command_t) =>
        matchCommand cmd.pattern (str "syst:err?") 9 none 0 0 == some true).map
          scpi_command_t.pattern = some (str "SYSTem:ERRor?") :=
  ⟨(findCommandHeader_first_match (fun _ _ _ => (0, ⟨⟨0, none, 0⟩, ⟨0, none, 0⟩⟩))
      [⟨str "A", none⟩, ⟨str "SYSTem:ERRor?", none⟩, ⟨str "SYSTem:ERRor[:NEXT]?", none⟩]
      (str "syst:err?") 9 (by decide)).1, by decide⟩


/-! ## Theorems: the numbers array and the result of `matchCommand` -/

theorem byteAt_memmove_outside (buf : List Nat) (dst src : Int) (n : Nat) (j : Int)
    (h : j < dst ∨ dst + n ≤ j) : byteAt (memmove buf dst src n) j = byteAt buf j := by
  by_cases h0 : 0 ≤ j
  · by_cases h1 : j < buf.length
    · rw [byteAt_memmove buf dst src n j h0 h1, if_neg (by omega)]
    · obtain ⟨k, rfl⟩ := Int.eq_ofNat_of_zero_le h0
      have hk : buf.length ≤ k := by
        have : ¬ ((k : Int) < (buf.length : Int)) := h1
        omega
      simp only [byteAt, memmove]
      rw [if_neg (by omega), if_neg (by omega)]
      simp only [Int.toNat_ofNat]
      rw [List.getD_eq_default _ _ (by simpa using hk), List.getD_eq_default _ _ hk]
  · simp only [byteAt]
    rw [if_pos (by omega), if_pos (by omega)]

/-- The buffer `A:B:C;D` with the previous header `A:B:C` and the current header `D`: the
call copies `A:B:` over the bytes 2..5, so the previous header reads `A:A:B` afterwards
and its colon prefix has become `A:A:`. -/
theorem composeCompoundCommand_previous_header_counterexample :
    tokenBytes (str "A:B:C;D") ⟨15, some 0, 5⟩ = str "A:B:C" ∧
    (composeCompoundCommand (str "A:B:C;D") ⟨15, some 0, 5⟩ (some ⟨15, some 6, 1⟩)).2.1 =
      str "A:A:B:D" ∧
    tokenBytes
      (composeCompoundCommand (str "A:B:C;D") ⟨15, some 0, 5⟩ (some ⟨15, some 6, 1⟩)).2.1
      ⟨15, some 0, 5⟩ = str "A:A:B" ∧
    tokenBytes
      (composeCompoundCommand (str "A:B:C;D") ⟨15, some 0, 5⟩ (some ⟨15, some 6, 1⟩)).2.1
      ⟨15, some 0, 5⟩ ≠ tokenBytes (str "A:B:C;D") ⟨15, some 0, 5⟩ := by
  decide

/-- With `i` the length of the colon prefix of the previous header,
`composeCompoundCommand` changes no byte of the buffer outside the `i` bytes right
before the current header; so the bytes of the previous header that lie before
`current.ptr - i` are the same after the call, and its colon prefix
`prev.ptr[0 .. i)` is the same whenever `2 * i <= current.ptr - prev.ptr`. -/
theorem composeCompoundCommand_overwrites_gap (buf : List Nat) (prev cur : scpi_token_t)
    (pptr cptr : Int) (hp : prev.ptr = some pptr) (hc : cur.ptr = some cptr) :
    (∀ j : Int, (j < cptr - lastColonPos buf pptr prev.len ∨ cptr ≤ j) →
      byteAt (composeCompoundCommand buf prev (some cur)).2.1 j = byteAt buf j) ∧
    (∀ k : Nat, k < prev.len → pptr + k < cptr - lastColonPos buf pptr prev.len →
      byteAt (composeCompoundCommand buf prev (some cur)).2.1 (pptr + k) =
        byteAt buf (pptr + k)) ∧
    (2 * (lastColonPos buf pptr prev.len : Int) ≤ cptr - pptr →
      ∀ k : Nat, k < lastColonPos buf pptr prev.len →
        byteAt (composeCompoundCommand buf prev (some cur)).2.1 (pptr + k) =
          byteAt buf (pptr + k)) := by
  have key : ∀ j : Int, (j < cptr - lastColonPos buf pptr prev.len ∨ cptr ≤ j) →
      byteAt (composeCompoundCommand buf prev (some cur)).2.1 j = byteAt buf j := by
    intro j hj
    unfold composeCompoundCommand
    simp only [hc, hp]
    split_ifs
    · rfl
    · rfl
    · rfl
    · rfl
    · rfl
    · exact byteAt_memmove_outside buf _ _ _ j (by omega)
  refine ⟨key, fun k _ hk => key _ (Or.inl hk), fun h k hk => key _ (Or.inl (by omega))⟩

theorem composeCompoundCommand_overwrites_gap_witness :
    2 * (lastColonPos (str "MEAS:VOLT?;CURR?") 0 (⟨15, some 0, 10⟩ : scpi_token_t).len : Int) ≤
      11 - 0 ∧
    ∀ k : Nat, k < lastColonPos (str "MEAS:VOLT?;CURR?") 0 (⟨15, some 0, 10⟩ : scpi_token_t).len →
      byteAt (composeCompoundCommand (str "MEAS:VOLT?;CURR?") ⟨15, some 0, 10⟩
          (some ⟨15, some 11, 5⟩)).2.1 (0 + k) =
        byteAt (str "MEAS:VOLT?;CURR?") (0 + k) :=
  ⟨by decide,
   (composeCompoundCommand_overwrites_gap (str "MEAS:VOLT?;CURR?") ⟨15, some 0, 10⟩
      ⟨15, some 11, 5⟩ 0 11 rfl rfl).2.2 (by decide)⟩

/-- C40, the code at a failing input: the message `A:B:C;D;E` with its newline, parsed by
one `SCPI_Parse` call for the command table with the patterns `A:B:C` and `A:B:E`,
over the lexer modelled from the specification.  `A:B:C` is found.  For `D` the call
of `composeCompoundCommand` copies the prefix `A:B:` to the four bytes before `D`,
which are bytes of the previous header: that header reads `A:A:B` afterwards.  `D` is
rejected with `UndefinedHeader`, so the previous header stays the token of `A:B:C`,
and `E` inherits the prefix `A:A:` of the rewritten bytes: it is looked up as
`A:A:E` and rejected too, although the table holds `A:B:E`.  In the message
`A:B:C;E` the same unit `E` is looked up as `A:B:E` and found. -/
theorem SCPI_Parse_rejected_header_changes_prefix :
    (SCPI_Parse (fun b p l => ((specDetect b p l).1, (specDetect b p l).2.1))
        [⟨str "A:B:C", none⟩, ⟨str "A:B:E", none⟩] (str "\n") 5
        ⟨[], false, 0, 0, 0, 0, false, false, [], ⟨[], 0, 0⟩⟩
        (str "A:B:C;D;E\n") 0 10).map (fun r => (r.1, r.2.1.errors, r.2.2)) =
      some (false,
        [scpi_error_t.SCPI_ERROR_UNDEFINED_HEADER, scpi_error_t.SCPI_ERROR_UNDEFINED_HEADER],
        str "A:A:A:A:E\n") ∧
    (SCPI_Parse (fun b p l => ((specDetect b p l).1, (specDetect b p l).2.1))
        [⟨str "A:B:C", none⟩, ⟨str "A:B:E", none⟩] (str "\n") 5
        ⟨[], false, 0, 0, 0, 0, false, false, [], ⟨[], 0, 0⟩⟩
        (str "A:B:C;E\n") 0 8).map (fun r => (r.1, r.2.1.errors, r.2.2)) =
      some (true, [], str "A:A:B:E\n") := by
  constructor <;> decide


/-! ## Theorems: a command that stops inside an optional group -/

theorem balanced_keys_cls (Ks : List (List Nat)) (d : Nat) :
    balanced (d + 1) (Ks.map PatItem.key ++ [PatItem.cls]) = (d == 0) ∧
      allOptional (d + 1) (Ks.map PatItem.key ++ [PatItem.cls]) = true := by
  induction Ks with
  | nil => simp [balanced, allOptional]
  | cons K Ks ih => simpa [balanced, allOptional] using ih

/-- The keyword `K0`, the opening `[:` and the keywords `g :: G` of the group spelled by
the command, which ends there: `matchCommand` walks the pieces `toks` that are left
and returns TRUE exactly when none of their keywords stands outside brackets. -/
theorem matchCommandRun_entered_group (K0 g : KeySeg) (G : List KeySeg)
    (toks : List PatItem) (lead query : Bool) (numbers : Option (List Int))
    (numbers_len : Nat) (default_value : Int)
    (hK0 : K0.Valid) (hall : ∀ k ∈ g :: G, k.Valid) (hne : toks ≠ [])
    (hval : ∀ t ∈ toks, t.Valid) (hbal : balanced 1 toks = true)
    (hnum : ∀ nums, numbers = some nums → nums.length = numbers_len) :
    ∃ s, matchCommandRun (enteredGroupPattern K0 (g :: G) toks query)
        (suffixCommand (K0 :: g :: G) lead query)
        (suffixCommand (K0 :: g :: G) lead query).length
        numbers numbers_len default_value = some s ∧
      s.result = allOptional 1 toks := by
  have hallK : ∀ k ∈ [K0], k.Valid := by
    intro k hk
    simp only [List.mem_singleton] at hk
    rw [hk]; exact hK0
  have hJm := keysegs_pattern_mem (g :: G) hall
  have hCm := keysegs_segment_mem (g :: G) hall
  have hJlen := keysegs_pattern_length (g :: G) hall
  have hKm := keysegs_pattern_mem [K0] hallK
  have hKs := keysegs_segment_mem [K0] hallK
  have hRm := residualText_mem toks hval
  have hRlen := residualText_length_ge toks
  obtain ⟨a, t0, hpa, ha91, ha58⟩ := hK0.pattern_props.2
  obtain ⟨b, u0, hsb, hb58, hb42⟩ := hK0.segment_head
  generalize hJ : joinColon ((g :: G).map KeySeg.pattern) = J at *
  generalize hC : joinColon ((g :: G).map KeySeg.segment) = C at *
  simp only [List.map_cons, List.map_nil, joinColon] at hKm hKs
  have hqt : (if query then [63] else ([] : List Nat)) = [] ∨
      (if query then [63] else ([] : List Nat)) = [63] := by
    cases query <;> simp
  generalize hQ : (if query then [63] else ([] : List Nat)) = qt at *
  have hcmd : suffixCommand (K0 :: g :: G) lead query =
      ((if lead then [58] else []) ++ b :: (u0 ++ 58 :: C)) ++ qt := by
    unfold suffixCommand
    have : joinColon ((K0 :: g :: G).map KeySeg.segment) = K0.segment ++ 58 :: C := by
      rw [← hC]; rfl
    rw [this, hsb, hQ]
    simp
  have hpat : enteredGroupPattern K0 (g :: G) toks query =
      (a :: (t0 ++ 91 :: 58 :: (J ++ residualText toks))) ++ qt := by
    unfold enteredGroupPattern
    rw [hJ, hpa, hQ]
    simp
  have hp0 : 0 ∉ a :: (t0 ++ 91 :: 58 :: (J ++ residualText toks)) := by
    intro h
    rw [← List.cons_append, ← hpa] at h
    rcases List.mem_append.1 h with h | h
    · exact (hKm 0 h).1 rfl
    · simp only [List.mem_cons, List.mem_append] at h
      rcases h with h | h | h | h
      · omega
      · omega
      · exact (hJm 0 h).1 rfl
      · exact (hRm 0 h).1 rfl
  have hplast : (a :: (t0 ++ 91 :: 58 :: (J ++ residualText toks))).getLast? ≠ some 63 := by
    apply getLast_ne_of_forall
    intro c h
    rw [← List.cons_append, ← hpa] at h
    rcases List.mem_append.1 h with h | h
    · exact (hKm c h).2
    · simp only [List.mem_cons, List.mem_append] at h
      rcases h with h | h | h | h
      · omega
      · omega
      · exact (hJm c h).2
      · exact (hRm c h).2
  have hc0 : 0 ∉ b :: (u0 ++ 58 :: C) := by
    intro h
    rw [← List.cons_append, ← hsb] at h
    rcases List.mem_append.1 h with h | h
    · exact hKs 0 h rfl
    · simp only [List.mem_cons] at h
      rcases h with h | h
      · omega
      · exact hCm 0 h rfl
  obtain ⟨st2, hat, hbr, hn2, hidx, hrun⟩ := matchCommandRun_start_plain a
    (t0 ++ 91 :: 58 :: (J ++ residualText toks)) lead query b (u0 ++ 58 :: C) numbers
    numbers_len default_value hp0 hc0 hplast ha91 ha58 hb58 hb42
  rw [hQ] at hat hrun
  rw [hcmd, hpat, hrun]
  have hplen : strlen ((a :: (t0 ++ 91 :: 58 :: (J ++ residualText toks))) ++ qt) =
      ((a :: (t0 ++ 91 :: 58 :: (J ++ residualText toks))) ++ qt).length := by
    apply strlen_of_no_nul
    intro h
    rcases List.mem_append.1 h with h | h
    · exact hp0 h
    · rcases hqt with e | e <;> rw [e] at h <;> simp at h
  rw [hplen]
  have hK0len : K0.pattern.length = t0.length + 1 := by rw [hpa]; simp
  have hS0len : K0.segment.length = u0.length + 1 := by rw [hsb]; simp
  -- the keyword K0
  have hat0 : st2.At (joinColon ([K0].map KeySeg.pattern) ++
        (91 :: 58 :: (J ++ residualText toks) ++ qt))
      (((joinColon ([K0].map KeySeg.pattern)).length : Int) +
        ((2 + (J.length + (residualText toks).length) : Nat) : Int))
      (joinColon ([K0].map KeySeg.segment) ++ (58 :: C ++ qt))
      ((joinColon ([K0].map KeySeg.segment)).length + (1 + C.length)) := by
    simp only [List.map_cons, List.map_nil, joinColon]
    obtain ⟨a1, a2, a3, a4, a5⟩ := hat
    refine ⟨a1, ?_, ?_, ?_, ?_⟩
    · rw [a2, hpa]; simp
    · rw [a3, hK0len]
      simp only [List.length_append, List.length_cons]
      push_cast
      omega
    · rw [a4, hsb]; simp
    · rw [a5, hS0len]
      simp only [List.length_append, List.length_cons]
      omega
  generalize hF : ((a :: (t0 ++ 91 :: 58 :: (J ++ residualText toks))) ++ qt).length + 2 = F
  have hFge : J.length + (residualText toks).length + t0.length + 5 ≤ F := by
    rw [← hF]
    simp only [List.length_append, List.length_cons]
    omega
  obtain ⟨f, hf⟩ : ∃ f, F = f + ([] : List KeySeg).length + 1 := ⟨F - 1, by simp; omega⟩
  obtain ⟨st1, h1, h2, h3, h4, h5⟩ := matchLoop_keysegs_prefix numbers_len default_value F
    [] K0 hallK (91 :: 58 :: (J ++ residualText toks) ++ qt) (58 :: C ++ qt)
    (2 + (J.length + (residualText toks).length)) (1 + C.length)
    (Or.inr ⟨91, _, rfl, by simp⟩) (Or.inr ⟨58, _, rfl, by simp⟩) (Or.inr (by simp))
    f st2 hat0 (by intro nums h; rw [hn2] at h; exact hnum nums h)
  have hstep : matchLoop numbers_len default_value F F st2 =
      match loopMatched F st1 with
      | .next s1 => matchLoop numbers_len default_value F f s1
      | .done s1 => some s1
      | .stuck => none := by
    rw [← h5, ← hf]
  rw [hstep]
  -- the opening `[:` against the `:` of the command
  have h1' : st1.At (91 :: 58 :: (J ++ residualText toks ++ qt))
      ((2 + (J.length + (residualText toks).length) : Nat) : Int) (58 :: (C ++ qt))
      (1 + C.length) := by
    simpa using h1
  rw [loopMatched_open F st1 _ _ _ _ h1' (by push_cast; omega) (by omega)]
  simp only
  have hs1 := (h1'.skipPattern 2).skipCmd 1
  simp only [List.drop_succ_cons, List.drop_zero] at hs1
  have hs1' : ({ SKIP_CMD (SKIP_PATTERN st1 2) 1 with brackets := st1.brackets + 1 } :
      MatchState).At (joinColon ((g :: G).map KeySeg.pattern) ++ (residualText toks ++ qt))
      (((joinColon ((g :: G).map KeySeg.pattern)).length : Int) + (residualText toks).length)
      (joinColon ((g :: G).map KeySeg.segment) ++ qt)
      (joinColon ((g :: G).map KeySeg.segment)).length := by
    rw [hJ, hC]
    obtain ⟨a1, a2, a3, a4, a5⟩ := hs1
    refine ⟨a1, a2.trans (by simp), a3.trans (by push_cast; omega), a4, a5.trans (by omega)⟩
  have hlenG : G.length + 1 ≤ J.length := by simpa using hJlen
  exact matchLoop_residual numbers_len default_value F g G hall toks hne hval 1 hbal
    (by omega) qt hqt f (by simp only [List.length_nil] at hf; omega) _ hs1'
    (by show st1.brackets + 1 = ((1 : Nat) : Int); rw [h2, hbr]; rfl)
    (by
      intro nums h
      have hh : st1.numbers = some nums := h
      rw [h4, hn2, hidx] at hh
      exact captureInto_numbers_length default_value [K0] 0 numbers numbers_len hnum nums hh)

/-- The pattern `A[:B:C]` and the command `A:B`, which stops inside the optional group:
`matchCommand` returns TRUE. -/
theorem matchCommand_stops_inside_group_counterexample :
    matchCommand (str "A[:B:C]") (str "A:B") (str "A:B").length none 0 0 = some true := by
  decide

/-- C39 (amended): for a pattern `K0[:G1:...:Gk:H1:...:Hm]` whose optional group has the
keywords `G1..Gk` (`k >= 1`) followed by `H1..Hm` (`m >= 1`), a command that spells
`K0:G1:...:Gk` and stops there, inside the group, is accepted by `matchCommand`: at
the end of the command the rest of the pattern is only checked for keywords outside
brackets. -/
theorem matchCommand_stops_inside_group (K0 g : KeySeg) (G : List KeySeg) (H : List Nat)
    (Hs : List (List Nat)) (lead query : Bool) (numbers : Option (List Int))
    (numbers_len : Nat) (default_value : Int)
    (hK0 : K0.Valid) (hall : ∀ k ∈ g :: G, k.Valid)
    (hH : ∀ K ∈ H :: Hs, (PatItem.key K).Valid)
    (hnum : ∀ nums, numbers = some nums → nums.length = numbers_len) :
    matchCommand
        (enteredGroupPattern K0 (g :: G) ((H :: Hs).map PatItem.key ++ [PatItem.cls]) query)
        (suffixCommand (K0 :: g :: G) lead query)
        (suffixCommand (K0 :: g :: G) lead query).length
        numbers numbers_len default_value = some true := by
  obtain ⟨hb, ho⟩ := balanced_keys_cls (H :: Hs) 0
  obtain ⟨s, hs, hr⟩ := matchCommandRun_entered_group K0 g G
    ((H :: Hs).map PatItem.key ++ [PatItem.cls]) lead query numbers numbers_len default_value
    hK0 hall (by simp)
    (by
      intro t ht
      rcases List.mem_append.1 ht with h | h
      · obtain ⟨K, hK, rfl⟩ := List.mem_map.1 h
        exact hH K hK
      · simp only [List.mem_singleton] at h
        rw [h]
        trivial)
    (by simpa using hb) hnum
  rw [matchCommand, hs, Option.map_some', hr]
  exact congrArg some ho

theorem matchCommand_stops_inside_group_witness :
    enteredGroupPattern ⟨str "SENSe", false, str "SENS", []⟩
        [⟨str "VOLTage", false, str "volt", []⟩]
        ([str "RANGe", str "AUTO"].map PatItem.key ++ [PatItem.cls]) true =
      str "SENSe[:VOLTage:RANGe:AUTO]?" ∧
    suffixCommand [⟨str "SENSe", false, str "SENS", []⟩,
        ⟨str "VOLTage", false, str "volt", []⟩] false true = str "SENS:volt?" ∧
    matchCommand
        (enteredGroupPattern ⟨str "SENSe", false, str "SENS", []⟩
          [⟨str "VOLTage", false, str "volt", []⟩]
          ([str "RANGe", str "AUTO"].map PatItem.key ++ [PatItem.cls]) true)
        (suffixCommand [⟨str "SENSe", false, str "SENS", []⟩,
          ⟨str "VOLTage", false, str "volt", []⟩] false true)
        (suffixCommand [⟨str "SENSe", false, str "SENS", []⟩,
          ⟨str "VOLTage", false, str "volt", []⟩] false true).length none 0 0 = some true :=
  ⟨by decide, by decide,
   matchCommand_stops_inside_group ⟨str "SENSe", false, str "SENS", []⟩
     ⟨str "VOLTage", false, str "volt", []⟩ [] (str "RANGe") [str "AUTO"] false true none 0 0
     (by decide) (by decide) (by decide) (by intro nums h; cases h)⟩


/-! ## Theorems: termination of `matchCommand` -/

theorem netRange_add (p : List Nat) : ∀ (a o b : Nat),
    netRange p o (a + b) = netRange p o a + netRange p (o + a) b := by
  intro a
  induction a with
  | zero => intro o b; simp [netRange]
  | succ a ih =>
    intro o b
    have e : a + 1 + b = (a + b) + 1 := by omega
    rw [e, netRange, netRange, ih (o + 1) b]
    have e2 : o + 1 + a = o + (a + 1) := by omega
    rw [e2]
    ring

theorem netRange_no_sep (p : List Nat) : ∀ (n o : Nat),
    (∀ j, j < n → p.getD (o + j) 0 ∉ [63, 58, 91, 93]) → netRange p o n = 0 := by
  intro n
  induction n with
  | zero => intro o _; rfl
  | succ n ih =>
    intro o h
    have h0 := h 0 (by omega)
    simp only [Nat.add_zero, List.mem_cons, List.mem_singleton, List.not_mem_nil, or_false,
      not_or] at h0
    rw [netRange, ih (o + 1) (fun j hj => by
      have := h (j + 1) (by omega)
      have e : o + 1 + j = o + (j + 1) := by omega
      rw [e]; exact this)]
    rw [bracketValue, if_neg h0.2.2.1, if_neg h0.2.2.2]
    rfl

theorem strnpbrk_some_spec (set : List Nat) : ∀ (q : List Nat) (n i : Nat),
    strnpbrk q n set = some i →
      i < n ∧ q.getD i 0 ∈ set ∧ ∀ j, j < i → q.getD j 0 ∉ set := by
  intro q
  induction q with
  | nil => intro n i h; cases n <;> simp [strnpbrk] at h
  | cons c cs ih =>
    intro n i h
    cases n with
    | zero => simp [strnpbrk] at h
    | succ n =>
      simp only [strnpbrk] at h
      split at h
      · simp at h
      · split at h
        · rename_i hc
          simp only [Option.some.injEq] at h
          subst h
          exact ⟨by omega, by simpa using hc, fun j hj => by omega⟩
        · rename_i hc
          simp only [Option.map_eq_some'] at h
          obtain ⟨j, hj, rfl⟩ := h
          obtain ⟨h1, h2, h3⟩ := ih n j hj
          refine ⟨by omega, by simpa using h2, ?_⟩
          intro m hm
          cases m with
          | zero => simpa using hc
          | succ m => simpa using h3 m (by omega)

theorem strnpbrk_none_spec (set : List Nat) : ∀ (q : List Nat) (n : Nat),
    strnpbrk q n set = none → (∀ j, j < n → q.getD j 0 ≠ 0) →
      ∀ j, j < n → q.getD j 0 ∉ set := by
  intro q
  induction q with
  | nil =>
    intro n _ h0 j hj
    exact absurd (by simp) (h0 j hj)
  | cons c cs ih =>
    intro n h h0 j hj
    cases n with
    | zero => omega
    | succ n =>
      have hc0 : c ≠ 0 := by simpa using h0 0 (by omega)
      simp only [strnpbrk, hc0, if_false] at h
      split at h
      · simp at h
      · rename_i hc
        simp only [Option.map_eq_none'] at h
        cases j with
        | zero => simpa using hc
        | succ j =>
          have := ih n h (fun m hm => by simpa using h0 (m + 1) (by omega)) j (by omega)
          simpa using this

theorem getD_drop_add (p : List Nat) (o j : Nat) : (p.drop o).getD j 0 = p.getD (o + j) 0 := by
  simp [List.getD_eq_getElem?_getD, List.getElem?_drop]

/-- The next separator of the pattern: it lies within the bytes that are left, no byte
before it is a separator, and if it is not at the end it is a separator. -/
theorem patternSeparatorPos_spec (p : List Nat) (o n : Nat)
    (h0 : ∀ j, j < n → p.getD (o + j) 0 ≠ 0) :
    ∃ s : Nat, patternSeparatorPos (p.drop o) (n : Int) = (s : Int) ∧ s ≤ n ∧
      (∀ j, j < s → p.getD (o + j) 0 ∉ [63, 58, 91, 93]) ∧
      (s < n → p.getD (o + s) 0 ∈ [63, 58, 91, 93]) := by
  unfold patternSeparatorPos
  rw [toSizeT_of_nonneg _ (by omega)]
  simp only [Int.toNat_ofNat]
  cases hs : strnpbrk (p.drop o) n [63, 58, 91, 93] with
  | none =>
    refine ⟨n, rfl, le_refl _, ?_, fun h => absurd h (by omega)⟩
    intro j hj
    have := strnpbrk_none_spec _ _ _ hs (fun m hm => by rw [getD_drop_add]; exact h0 m hm) j hj
    rwa [getD_drop_add] at this
  | some i =>
    obtain ⟨h1, h2, h3⟩ := strnpbrk_some_spec _ _ _ _ hs
    refine ⟨i, rfl, by omega, ?_, fun _ => by rwa [getD_drop_add] at h2⟩
    intro j hj
    have := h3 j hj
    rwa [getD_drop_add] at this

theorem CPtr.get_mk (p : List Nat) (o j : Nat) :
    (⟨p, (o : Int)⟩ : CPtr).get (j : Int) = p.getD (o + j) 0 := by
  have h1 : ¬ ((o : Int) + (j : Int) < 0) := by omega
  have h3 : ((o : Int) + (j : Int)).toNat = o + j := by omega
  simp only [CPtr.get, byteAt, h1, if_false, h3]

theorem CPtr.get_mk0 (p : List Nat) (o : Nat) : (⟨p, (o : Int)⟩ : CPtr).get 0 = p.getD o 0 :=
  CPtr.get_mk p o 0

theorem CPtr.get_mk1 (p : List Nat) (o : Nat) :
    (⟨p, (o : Int)⟩ : CPtr).get 1 = p.getD (o + 1) 0 :=
  CPtr.get_mk p o 1

theorem CPtr.get_mk2 (p : List Nat) (o : Nat) :
    (⟨p, (o : Int)⟩ : CPtr).get 2 = p.getD (o + 2) 0 :=
  CPtr.get_mk p o 2

theorem CPtr.bytes_mk (p : List Nat) (o : Nat) : (⟨p, (o : Int)⟩ : CPtr).bytes = p.drop o := by
  have h2 : ¬ ((o : Int) < 0) := by omega
  simp only [CPtr.bytes, h2, if_false, Int.toNat_ofNat]

/-- A byte of the pattern that is neither the terminator nor `?` lies before the end. -/
theorem lt_end_of_getD (p : List Nat) (L o m : Nat) (ho : o ≤ L)
    (hterm : p.getD L 0 = 0 ∨ p.getD L 0 = 63)
    (h : ∀ j, j ≤ m → p.getD (o + j) 0 ≠ 0 ∧ p.getD (o + j) 0 ≠ 63) : o + m < L := by
  by_contra hlt
  have := h (L - o) (by omega)
  have e : o + (L - o) = L := by omega
  rw [e] at this
  rcases hterm with h1 | h1
  · exact this.1 h1
  · exact this.2 h1

/-- The state after `j` bytes of the pattern with bracket count `v` and `c` bytes of the
command have been consumed. -/
theorem CursorInv.advance {pattern cmd : List Nat} {L C : Nat} {st : MatchState}
    (o k j c : Nat) (v : Int) (s : MatchState)
    (hp : st.pattern_ptr = ⟨pattern, (o : Int)⟩) (hl : st.pattern_len = ((L - o : Nat) : Int))
    (hb : st.brackets + netRange pattern o (L - o) = 0) (hcp : st.cmd_ptr = cmd.drop k)
    (hcl : k + st.cmd_len = C)
    (hj : o + j ≤ L) (hv : netRange pattern o j = v) (hc : c ≤ st.cmd_len)
    (sp : s.pattern_ptr = st.pattern_ptr.add (j : Int))
    (sl : s.pattern_len = st.pattern_len - (j : Int))
    (sb : s.brackets = st.brackets + v)
    (scp : s.cmd_ptr = st.cmd_ptr.drop c) (scl : s.cmd_len = st.cmd_len - c) :
    CursorInv pattern cmd L C s := by
  refine ⟨o + j, k + c, ?_, hj, ?_, ?_, ?_, ?_⟩
  · rw [sp, hp]
    simp only [CPtr.add]
    push_cast
    rfl
  · rw [sl, hl]
    rw [Nat.cast_sub hj, Nat.cast_sub (show o ≤ L by omega)]
    push_cast
    omega
  · have e : L - o = j + (L - (o + j)) := by omega
    rw [e, netRange_add, hv] at hb
    rw [sb]
    omega
  · rw [scp, hcp, List.drop_drop]
  · rw [scl]
    omega

theorem netRange_one (p : List Nat) (o : Nat) :
    netRange p o 1 = bracketValue (p.getD o 0) := by
  simp only [netRange, add_zero]

theorem netRange_two (p : List Nat) (o : Nat) :
    netRange p o 2 = bracketValue (p.getD o 0) + bracketValue (p.getD (o + 1) 0) := by
  simp only [netRange, add_zero]

theorem netRange_three (p : List Nat) (o : Nat) :
    netRange p o 3 = bracketValue (p.getD o 0) + bracketValue (p.getD (o + 1) 0) +
      bracketValue (p.getD (o + 2) 0) := by
  simp only [netRange, add_zero, Nat.add_assoc]
  ring

theorem loopUnmatched_inv (pattern cmd : List Nat) (L C : Nat)
    (hterm : pattern.getD L 0 = 0 ∨ pattern.getD L 0 = 63) (st1 : MatchState)
    (h : CursorInv pattern cmd L C st1) :
    (∃ s, loopUnmatched st1 = .done s ∧ CursorInv pattern cmd L C s) ∨
    (∃ s, loopUnmatched st1 = .next s ∧ CursorInv pattern cmd L C s ∧
      s.pattern_len < st1.pattern_len) := by
  obtain ⟨o, k, hp, ho, hl, hb, hcp, hcl⟩ := h
  unfold loopUnmatched
  rw [hp, CPtr.get_mk0, CPtr.get_mk1, CPtr.get_mk2]
  by_cases c1 : pattern.getD o 0 = 93 ∧ pattern.getD (o + 1) 0 = 58
  · right
    rw [if_pos c1]
    have hlt : o + 1 < L := lt_end_of_getD pattern L o 1 ho hterm (by
      intro j hj
      have : j = 0 ∨ j = 1 := by omega
      rcases this with rfl | rfl
      · rw [Nat.add_zero, c1.1]; decide
      · rw [c1.2]; decide)
    refine ⟨_, rfl, ?_, ?_⟩
    · refine CursorInv.advance o k 2 0 (-1) _ (by rw [← hp]) hl hb hcp hcl (by omega) ?_
        (by omega) rfl rfl rfl rfl rfl
      rw [netRange_two, c1.1, c1.2]
      decide
    · simp only [SKIP_PATTERN]
      omega
  · rw [if_neg c1]
    by_cases c2 : 2 < st1.pattern_len ∧ pattern.getD o 0 = 93 ∧ pattern.getD (o + 1) 0 = 91 ∧
        pattern.getD (o + 2) 0 = 58
    · right
      rw [if_pos c2]
      have hlt : o + 2 < L := by
        have := c2.1
        rw [hl] at this
        omega
      refine ⟨_, rfl, ?_, ?_⟩
      · refine CursorInv.advance o k 3 0 0 _ (by rw [← hp]) hl hb hcp hcl (by omega) ?_
          (by omega) rfl rfl (by simp [SKIP_PATTERN]) rfl rfl
        rw [netRange_three, c2.2.1, c2.2.2.1, c2.2.2.2]
        decide
      · simp only [SKIP_PATTERN]
        omega
    · left
      rw [if_neg c2]
      exact ⟨_, rfl, o, k, rfl, ho, hl, hb, hcp, hcl⟩

theorem bracketValue_update (b : Int) (c : Nat) :
    (if c = 91 then b + 1 else if c = 93 then b - 1 else b) = b + bracketValue c := by
  unfold bracketValue
  split
  · rfl
  · split
    · rfl
    · omega

/-- One step of the inner loop: it consumes the bytes up to and including the next
separator, which exists because the brackets that are left balance the depth. -/
theorem residualStep_inv (pattern cmd : List Nat) (L C : Nat)
    (hL0 : ∀ j, j < L → pattern.getD j 0 ≠ 0) (st : MatchState)
    (h : CursorInv pattern cmd L C st) (hne : st.pattern_len ≠ 0)
    (hhead : st.pattern_ptr.get 0 ∈ [63, 58, 91, 93] ∨ st.brackets ≠ 0) :
    CursorInv pattern cmd L C (residualStep st) ∧
      (residualStep st).pattern_len < st.pattern_len := by
  obtain ⟨o, k, hp, ho, hl, hb, hcp, hcl⟩ := h
  have hlt : o < L := by
    rw [hl] at hne
    by_contra hc
    have : L - o = 0 := by omega
    rw [this] at hne
    exact hne rfl
  obtain ⟨s, hs, hsle, hnosep, hsep⟩ := patternSeparatorPos_spec pattern o (L - o)
    (fun j hj => hL0 (o + j) (by omega))
  have hslt : s < L - o := by
    by_contra hc
    have hs' : s = L - o := by omega
    subst hs'
    have hnet := netRange_no_sep pattern (L - o) o hnosep
    rw [hnet] at hb
    rcases hhead with hh | hh
    · rw [hp, CPtr.get_mk0] at hh
      have := hnosep 0 (by omega)
      rw [Nat.add_zero] at this
      exact this hh
    · exact hh (by omega)
  have hbytes : st.pattern_ptr.bytes = pattern.drop o := by rw [hp, CPtr.bytes_mk]
  have hpos : patternSeparatorPos st.pattern_ptr.bytes st.pattern_len = (s : Int) := by
    rw [hbytes, hl, hs]
  have hget : st.pattern_ptr.get (s : Int) = pattern.getD (o + s) 0 := by
    rw [hp, CPtr.get_mk]
  constructor
  · refine CursorInv.advance o k (s + 1) 0 (bracketValue (pattern.getD (o + s) 0)) _ hp hl hb
      hcp hcl (by omega) ?_ (by omega) ?_ ?_ ?_ rfl rfl
    · rw [netRange_add, netRange_no_sep pattern s o hnosep, netRange_one]
      omega
    · simp only [residualStep, SKIP_PATTERN, hpos]
      push_cast
      rfl
    · simp only [residualStep, SKIP_PATTERN, hpos]
      push_cast
      rfl
    · simp only [residualStep, SKIP_PATTERN, hpos, hget]
      exact bracketValue_update _ _
  · simp only [residualStep, SKIP_PATTERN, hpos]
    omega

theorem residualLoop_inv (pattern cmd : List Nat) (L C : Nat)
    (hL0 : ∀ j, j < L → pattern.getD j 0 ≠ 0) :
    ∀ (fuel : Nat) (st : MatchState), CursorInv pattern cmd L C st →
      (st.pattern_len = 0 ∨ st.pattern_ptr.get 0 ∈ [63, 58, 91, 93] ∨ st.brackets ≠ 0) →
      st.pattern_len < fuel →
      ∃ s, residualLoop fuel st = some s ∧ CursorInv pattern cmd L C s := by
  intro fuel
  induction fuel with
  | zero =>
    intro st h _ hf
    obtain ⟨o, k, hp, ho, hl, _⟩ := h
    rw [hl] at hf
    exact absurd hf (by simp)
  | succ fuel ih =>
    intro st h hhead hf
    unfold residualLoop
    by_cases h0 : st.pattern_len = 0
    · rw [if_pos h0]
      exact ⟨st, rfl, h⟩
    · rw [if_neg h0]
      have hh : st.pattern_ptr.get 0 ∈ [63, 58, 91, 93] ∨ st.brackets ≠ 0 := by
        rcases hhead with h1 | h1 | h1
        · exact absurd h1 h0
        · exact Or.inl h1
        · exact Or.inr h1
      obtain ⟨hinv, hdec⟩ := residualStep_inv pattern cmd L C hL0 st h h0 hh
      simp only
      by_cases hb : (residualStep st).brackets = 0
      · rw [if_pos hb]
        by_cases hc : 0 < (residualStep st).pattern_len ∧ (residualStep st).pattern_ptr.get 0 = 91
        · rw [if_pos hc]
          exact ih _ hinv (Or.inr (Or.inl (by rw [hc.2]; decide))) (by omega)
        · rw [if_neg hc]
          exact ⟨_, rfl, hinv⟩
      · rw [if_neg hb]
        exact ih _ hinv (Or.inr (Or.inr hb)) (by omega)

theorem CursorInv.set_result {pattern cmd : List Nat} {L C : Nat} {st : MatchState}
    (h : CursorInv pattern cmd L C st) (r : Bool) :
    CursorInv pattern cmd L C { st with result := r } := by
  obtain ⟨o, k, hp, ho, hl, hb, hcp, hcl⟩ := h
  exact ⟨o, k, hp, ho, hl, hb, hcp, hcl⟩

theorem loopMatched_inv (pattern cmd : List Nat) (L C : Nat)
    (hL0 : ∀ j, j < L → pattern.getD j 0 ≠ 0) (fuel : Nat) (st1 : MatchState)
    (h : CursorInv pattern cmd L C st1)
    (hhead : st1.pattern_len = 0 ∨ st1.pattern_ptr.get 0 ∈ [63, 58, 91, 93])
    (hf : st1.pattern_len < fuel) :
    (∃ s, loopMatched fuel st1 = .done s ∧ CursorInv pattern cmd L C s) ∨
    (∃ s, loopMatched fuel st1 = .next s ∧ CursorInv pattern cmd L C s ∧
      s.pattern_len < st1.pattern_len) := by
  have h' := h
  obtain ⟨o, k, hp, ho, hl, hb, hcp, hcl⟩ := h
  unfold loopMatched
  by_cases c1 : st1.pattern_len = 0 ∧ st1.cmd_len = 0
  · left; rw [if_pos c1]; exact ⟨_, rfl, h'⟩
  rw [if_neg c1]
  by_cases c2 : st1.pattern_len = 0 ∧ 0 < st1.cmd_len
  · left; rw [if_pos c2]; exact ⟨_, rfl, h'.set_result false⟩
  rw [if_neg c2]
  by_cases c3 : st1.cmd_len = 0
  · left
    rw [if_pos c3]
    obtain ⟨s2, hs2, hinv2⟩ := residualLoop_inv pattern cmd L C hL0 fuel st1 h'
      (by rcases hhead with h1 | h1
          · exact Or.inl h1
          · exact Or.inr (Or.inl h1)) hf
    rw [hs2]
    simp only
    split
    · exact ⟨_, rfl, hinv2.set_result false⟩
    · exact ⟨_, rfl, hinv2⟩
  rw [if_neg c3]
  have hcl1 : 1 ≤ st1.cmd_len := by omega
  rw [hp, CPtr.get_mk0, CPtr.get_mk1, CPtr.get_mk2]
  by_cases c4 : 0 < st1.pattern_len ∧ pattern.getD o 0 = st1.cmd_ptr.headD 0 ∧
      pattern.getD o 0 = 58
  · right
    rw [if_pos c4]
    have hlt : o < L := by
      have := c4.1
      rw [hl] at this
      omega
    refine ⟨_, rfl, ?_, ?_⟩
    · refine CursorInv.advance o k 1 1 0 _ (by rw [← hp]) hl hb hcp hcl (by omega) ?_
        hcl1 rfl rfl (by simp [SKIP_PATTERN, SKIP_CMD]) rfl rfl
      rw [netRange_one, c4.2.2]
      decide
    · simp only [SKIP_PATTERN, SKIP_CMD]
      omega
  rw [if_neg c4]
  by_cases c5 : 1 < st1.pattern_len ∧ pattern.getD (o + 1) 0 = st1.cmd_ptr.headD 0 ∧
      pattern.getD o 0 = 91 ∧ pattern.getD (o + 1) 0 = 58
  · right
    rw [if_pos c5]
    have hlt : o + 1 < L := by
      have := c5.1
      rw [hl] at this
      omega
    refine ⟨_, rfl, ?_, ?_⟩
    · refine CursorInv.advance o k 2 1 1 _ (by rw [← hp]) hl hb hcp hcl (by omega) ?_
        hcl1 rfl rfl rfl rfl rfl
      rw [netRange_two, c5.2.2.1, c5.2.2.2]
      decide
    · simp only [SKIP_PATTERN, SKIP_CMD]
      omega
  rw [if_neg c5]
  by_cases c6 : 1 < st1.pattern_len ∧ pattern.getD (o + 1) 0 = st1.cmd_ptr.headD 0 ∧
      pattern.getD o 0 = 93 ∧ pattern.getD (o + 1) 0 = 58
  · right
    rw [if_pos c6]
    have hlt : o + 1 < L := by
      have := c6.1
      rw [hl] at this
      omega
    refine ⟨_, rfl, ?_, ?_⟩
    · refine CursorInv.advance o k 2 1 (-1) _ (by rw [← hp]) hl hb hcp hcl (by omega) ?_
        hcl1 rfl rfl rfl rfl rfl
      rw [netRange_two, c6.2.2.1, c6.2.2.2]
      decide
    · simp only [SKIP_PATTERN, SKIP_CMD]
      omega
  rw [if_neg c6]
  by_cases c7 : 2 < st1.pattern_len ∧ pattern.getD (o + 2) 0 = st1.cmd_ptr.headD 0 ∧
      pattern.getD o 0 = 93 ∧ pattern.getD (o + 1) 0 = 91 ∧ pattern.getD (o + 2) 0 = 58
  · right
    rw [if_pos c7]
    have hlt : o + 2 < L := by
      have := c7.1
      rw [hl] at this
      omega
    refine ⟨_, rfl, ?_, ?_⟩
    · refine CursorInv.advance o k 3 1 0 _ (by rw [← hp]) hl hb hcp hcl (by omega) ?_
        hcl1 rfl rfl (by simp [SKIP_PATTERN, SKIP_CMD]) rfl rfl
      rw [netRange_three, c7.2.2.1, c7.2.2.2.1, c7.2.2.2.2]
      decide
    · simp only [SKIP_PATTERN, SKIP_CMD]
      omega
  · left
    rw [if_neg c7]
    exact ⟨_, rfl, o, k, rfl, ho, hl, hb, hcp, hcl⟩

/-- One pass through the body of the main loop keeps the invariant, and a pass that
goes round again has consumed at least one byte of the pattern. -/
theorem loopBody_inv (pattern cmd : List Nat) (L C : Nat)
    (hL0 : ∀ j, j < L → pattern.getD j 0 ≠ 0)
    (hterm : pattern.getD L 0 = 0 ∨ pattern.getD L 0 = 63)
    (numbers_len : Nat) (default_value : Int) (fuel : Nat) (st : MatchState)
    (h : CursorInv pattern cmd L C st) (hf : st.pattern_len < fuel) :
    (∃ s, loopBody numbers_len default_value fuel st = .done s ∧
      CursorInv pattern cmd L C s) ∨
    (∃ s, loopBody numbers_len default_value fuel st = .next s ∧
      CursorInv pattern cmd L C s ∧ s.pattern_len < st.pattern_len) := by
  obtain ⟨o, k, hp, ho, hl, hb, hcp, hcl⟩ := h
  obtain ⟨s, hs, hsle, hnosep, hsep⟩ := patternSeparatorPos_spec pattern o (L - o)
    (fun j hj => hL0 (o + j) (by omega))
  have hbytes : st.pattern_ptr.bytes = pattern.drop o := by rw [hp, CPtr.bytes_mk]
  have hpos : patternSeparatorPos st.pattern_ptr.bytes st.pattern_len = (s : Int) := by
    rw [hbytes, hl, hs]
  obtain ⟨st1, e1, e2, e3, hcase⟩ := loopBody_cases numbers_len default_value fuel st
  rw [hpos] at e1 e2
  have hle1 : st1.pattern_len ≤ st.pattern_len := by omega
  have hnet : netRange pattern o s = 0 := netRange_no_sep pattern s o hnosep
  rcases hcase with ⟨hbody, c1, c2, _⟩ | ⟨hbody, c1, c2⟩
  · have hcs := cmdSeparatorPos_le st.cmd_ptr st.cmd_len
    have hinv1 : CursorInv pattern cmd L C st1 :=
      CursorInv.advance o k s (cmdSeparatorPos st.cmd_ptr st.cmd_len) 0 st1 hp hl hb hcp hcl
        (by omega) hnet hcs e1 e2 (by rw [e3]; omega) c1 c2
    have hhead : st1.pattern_len = 0 ∨ st1.pattern_ptr.get 0 ∈ [63, 58, 91, 93] := by
      by_cases hlt : s < L - o
      · right
        rw [e1, hp]
        simp only [CPtr.add]
        have : (⟨pattern, (o : Int) + (s : Int)⟩ : CPtr) = ⟨pattern, ((o + s : Nat) : Int)⟩ := by
          push_cast
          rfl
        rw [this, CPtr.get_mk0]
        exact hsep hlt
      · left
        rw [e2, hl]
        have : s = L - o := by omega
        omega
    rw [hbody]
    rcases loopMatched_inv pattern cmd L C hL0 fuel st1 hinv1 hhead (by omega) with
      ⟨r, hr, hi⟩ | ⟨r, hr, hi, hd⟩
    · exact Or.inl ⟨r, hr, hi⟩
    · exact Or.inr ⟨r, hr, hi, by omega⟩
  · have hinv1 : CursorInv pattern cmd L C st1 :=
      CursorInv.advance o k s 0 0 st1 hp hl hb hcp hcl (by omega) hnet (by omega) e1 e2
        (by rw [e3]; omega) (by rw [c1]; rfl) (by rw [c2]; rfl)
    rw [hbody]
    rcases loopUnmatched_inv pattern cmd L C hterm st1 hinv1 with ⟨r, hr, hi⟩ | ⟨r, hr, hi, hd⟩
    · exact Or.inl ⟨r, hr, hi⟩
    · exact Or.inr ⟨r, hr, hi, by omega⟩

theorem matchLoop_inv (pattern cmd : List Nat) (L C : Nat)
    (hL0 : ∀ j, j < L → pattern.getD j 0 ≠ 0)
    (hterm : pattern.getD L 0 = 0 ∨ pattern.getD L 0 = 63)
    (numbers_len : Nat) (default_value : Int) (ifuel : Nat) :
    ∀ (fuel : Nat) (st : MatchState), CursorInv pattern cmd L C st →
      st.pattern_len < ifuel → st.pattern_len < fuel →
      ∃ s, matchLoop numbers_len default_value ifuel fuel st = some s ∧
        CursorInv pattern cmd L C s := by
  intro fuel
  induction fuel with
  | zero =>
    intro st h _ hf
    obtain ⟨o, k, hp, ho, hl, _⟩ := h
    rw [hl] at hf
    exact absurd hf (by simp)
  | succ fuel ih =>
    intro st h hi hf
    unfold matchLoop
    rcases loopBody_inv pattern cmd L C hL0 hterm numbers_len default_value ifuel st h hi with
      ⟨s, hs, hinv⟩ | ⟨s, hs, hinv, hd⟩
    · rw [hs]
      exact ⟨s, rfl, hinv⟩
    · rw [hs]
      exact ih s hinv (by omega) (by omega)

theorem strlen_spec : ∀ (p : List Nat),
    (∀ j, j < strlen p → p.getD j 0 ≠ 0) ∧ p.getD (strlen p) 0 = 0 := by
  intro p
  induction p with
  | nil => exact ⟨fun j hj => absurd hj (by simp [strlen]), rfl⟩
  | cons c cs ih =>
    by_cases hc : c = 0
    · subst hc
      exact ⟨fun j hj => absurd hj (by simp [strlen]), by simp [strlen]⟩
    · have e : strlen (c :: cs) = strlen cs + 1 := by simp [strlen, hc]
      rw [e]
      refine ⟨fun j hj => ?_, by simpa using ih.2⟩
      cases j with
      | zero => simpa using hc
      | succ j => simpa using ih.1 j (by omega)

theorem skipPatternStart_inv (pattern cmd : List Nat) (L C : Nat)
    (hterm : pattern.getD L 0 = 0 ∨ pattern.getD L 0 = 63) (st : MatchState)
    (h : CursorInv pattern cmd L C st) :
    CursorInv pattern cmd L C (skipPatternStart st) ∧
      (skipPatternStart st).pattern_len ≤ st.pattern_len := by
  have colon : ∀ s : MatchState, CursorInv pattern cmd L C s →
      CursorInv pattern cmd L C (if s.pattern_ptr.get 0 = 58 then SKIP_PATTERN s 1 else s) ∧
        (if s.pattern_ptr.get 0 = 58 then SKIP_PATTERN s 1 else s).pattern_len ≤
          s.pattern_len := by
    intro s hs
    by_cases h58 : s.pattern_ptr.get 0 = 58
    · rw [if_pos h58]
      obtain ⟨o, k, hp, ho, hl, hb, hcp, hcl⟩ := hs
      rw [hp, CPtr.get_mk0] at h58
      have hlt : o + 0 < L := lt_end_of_getD pattern L o 0 ho hterm (by
        intro j hj
        have : j = 0 := by omega
        subst this
        rw [Nat.add_zero, h58]; decide)
      refine ⟨CursorInv.advance o k 1 0 0 _ hp hl hb hcp hcl (by omega) ?_ (by omega) rfl rfl
        (by simp [SKIP_PATTERN]) rfl rfl, ?_⟩
      · rw [netRange_one, h58]
        decide
      · simp only [SKIP_PATTERN]
        omega
    · rw [if_neg h58]
      exact ⟨hs, le_refl _⟩
  unfold skipPatternStart
  by_cases h91 : st.pattern_ptr.get 0 = 91
  · simp only [h91, if_true]
    have h' := h
    obtain ⟨o, k, hp, ho, hl, hb, hcp, hcl⟩ := h
    rw [hp, CPtr.get_mk0] at h91
    have hlt : o + 0 < L := lt_end_of_getD pattern L o 0 ho hterm (by
      intro j hj
      have : j = 0 := by omega
      subst this
      rw [Nat.add_zero, h91]; decide)
    have h1 : CursorInv pattern cmd L C { SKIP_PATTERN st 1 with brackets := st.brackets + 1 } := by
      refine CursorInv.advance o k 1 0 1 _ hp hl hb hcp hcl (by omega) ?_ (by omega) rfl rfl
        rfl rfl rfl
      rw [netRange_one, h91]
      decide
    obtain ⟨k1, k2⟩ := colon _ h1
    refine ⟨k1, le_trans k2 ?_⟩
    simp only [SKIP_PATTERN]
    omega
  · simp only [h91, if_false]
    exact colon st h

/-- The run of `matchCommand` on a pattern whose brackets balance ends with both
cursors inside their strings. -/
theorem matchCommandRun_inv (pattern cmd : List Nat) (len : Nat) (numbers : Option (List Int))
    (numbers_len : Nat) (default_value : Int) (hbal : netBrackets pattern = 0) :
    ∃ (st : MatchState) (L C : Nat),
      matchCommandRun pattern cmd len numbers numbers_len default_value = some st ∧
      L ≤ strlen pattern ∧ C ≤ strnlen cmd len ∧ CursorInv pattern cmd L C st := by
  obtain ⟨hnz, hz⟩ := strlen_spec pattern
  unfold netBrackets at hbal
  have hinit : CursorInv pattern cmd (strlen pattern) (strnlen cmd len)
      (matchCommandInit pattern cmd len numbers) :=
    ⟨0, 0, rfl, by omega, rfl, by simpa [matchCommandInit] using hbal, rfl,
      by simp [matchCommandInit]⟩
  unfold matchCommandRun
  simp only
  by_cases hq1 : (matchCommandInit pattern cmd len numbers).pattern_ptr.get
      ((matchCommandInit pattern cmd len numbers).pattern_len - 1) = 63 ∧
      byteAt cmd (((matchCommandInit pattern cmd len numbers).cmd_len : Int) - 1) ≠ 63
  · rw [if_pos hq1]
    exact ⟨_, _, _, rfl, le_refl _, le_refl _, hinit⟩
  · rw [if_neg hq1]
    -- the state and the end of the pattern after the query check
    obtain ⟨st', L, C, hL, hC, hinv, hLterm, hfuel, hst'⟩ :
        ∃ (st' : MatchState) (L C : Nat), L ≤ strlen pattern ∧ C ≤ strnlen cmd len ∧
          CursorInv pattern cmd L C st' ∧ (pattern.getD L 0 = 0 ∨ pattern.getD L 0 = 63) ∧
          st'.pattern_len < ((strlen pattern + 2 : Nat) : Int) ∧
          st' = (if (matchCommandInit pattern cmd len numbers).pattern_ptr.get
              ((matchCommandInit pattern cmd len numbers).pattern_len - 1) = 63
            then { matchCommandInit pattern cmd len numbers with
              cmd_len := (matchCommandInit pattern cmd len numbers).cmd_len - 1,
              pattern_len := (matchCommandInit pattern cmd len numbers).pattern_len - 1 }
            else matchCommandInit pattern cmd len numbers) := by
      by_cases hq : (matchCommandInit pattern cmd len numbers).pattern_ptr.get
          ((matchCommandInit pattern cmd len numbers).pattern_len - 1) = 63
      · rw [if_pos hq]
        have hpos : 1 ≤ strlen pattern := by
          by_contra hc
          have h0 : strlen pattern = 0 := by omega
          simp only [matchCommandInit, h0, CPtr.get, byteAt] at hq
          simp at hq
        have hlast : pattern.getD (strlen pattern - 1) 0 = 63 := by
          have e : ((strlen pattern : Nat) : Int) - 1 = ((strlen pattern - 1 : Nat) : Int) := by
            omega
          simp only [matchCommandInit] at hq
          rw [e] at hq
          have := CPtr.get_mk pattern 0 (strlen pattern - 1)
          simp only [Nat.cast_zero, Nat.zero_add] at this
          rw [this] at hq
          exact hq
        refine ⟨_, strlen pattern - 1, strnlen cmd len - 1, by omega, by omega, ?_,
          Or.inr hlast, ?_, rfl⟩
        · refine ⟨0, 0, rfl, by omega, ?_, ?_, rfl, by simp [matchCommandInit]⟩
          · simp only [matchCommandInit, Nat.sub_zero]
            omega
          · have e : strlen pattern = (strlen pattern - 1) + 1 := by omega
            rw [e, netRange_add, netRange_one] at hbal
            simp only [Nat.zero_add] at hbal
            rw [hlast] at hbal
            simp only [matchCommandInit, Nat.sub_zero]
            have : bracketValue 63 = 0 := by decide
            rw [this] at hbal
            omega
        · simp only [matchCommandInit]
          omega
      · rw [if_neg hq]
        refine ⟨_, strlen pattern, strnlen cmd len, le_refl _, le_refl _, hinit, Or.inl hz, ?_,
          rfl⟩
        simp only [matchCommandInit]
        omega
    rw [← hst']
    have hL0 : ∀ j, j < L → pattern.getD j 0 ≠ 0 := fun j hj => hnz j (by omega)
    obtain ⟨hinv1, hle1⟩ := skipPatternStart_inv pattern cmd L C hLterm st' hinv
    unfold matchCommandRest
    simp only
    split
    · exact ⟨_, L, C, rfl, hL, hC, hinv1⟩
    · have hinv2 : CursorInv pattern cmd L C
          (if (skipPatternStart st').cmd_ptr.headD 0 = 58 ∧ 2 ≤ (skipPatternStart st').cmd_len
            then SKIP_CMD (skipPatternStart st') 1 else skipPatternStart st') := by
        split
        · rename_i hc
          obtain ⟨o, k, hp, ho, hl, hb, hcp, hcl⟩ := hinv1
          refine ⟨o, k + 1, hp, ho, hl, hb, ?_, ?_⟩
          · simp only [SKIP_CMD]
            rw [hcp, List.drop_drop]
          · simp only [SKIP_CMD]
            omega
        · exact hinv1
      have hlen2 : (if (skipPatternStart st').cmd_ptr.headD 0 = 58 ∧
            2 ≤ (skipPatternStart st').cmd_len
          then SKIP_CMD (skipPatternStart st') 1 else skipPatternStart st').pattern_len ≤
            st'.pattern_len := by
        split
        · exact hle1
        · exact hle1
      obtain ⟨s, hs, hi⟩ := matchLoop_inv pattern cmd L C hL0 hLterm numbers_len default_value
        (strlen pattern + 2) (strlen pattern + 2) _ hinv2 (by omega) (by omega)
      exact ⟨s, L, C, hs, hL, hC, hi⟩

/-- C37: for every non-empty pattern whose `[` and `]` balance and every non-empty
command, `matchCommand` returns: its main loop and its residual-pattern loop both end
within `strlen pattern + 2` rounds, and in the final state `pattern_len` is not
negative, the pattern cursor plus `pattern_len` is within the pattern, and the command
cursor plus `cmd_len` is within the command. -/
theorem matchCommand_terminates (pattern cmd : List Nat) (len : Nat)
    (numbers : Option (List Int)) (numbers_len : Nat) (default_value : Int)
    (_hp : 0 < strlen pattern) (_hc : 0 < strnlen cmd len)
    (hbal : netBrackets pattern = 0) :
    (matchCommand pattern cmd len numbers numbers_len default_value).isSome = true ∧
    ∃ st : MatchState,
      matchCommandRun pattern cmd len numbers numbers_len default_value = some st ∧
      0 ≤ st.pattern_len ∧
      (∃ o : Nat, st.pattern_ptr = ⟨pattern, (o : Int)⟩ ∧
        (o : Int) + st.pattern_len ≤ (strlen pattern : Int)) ∧
      (∃ k : Nat, st.cmd_ptr = cmd.drop k ∧ k + st.cmd_len ≤ strnlen cmd len) := by
  obtain ⟨st, L, C, hrun, hL, hC, o, k, hp, ho, hl, _, hcp, hcl⟩ :=
    matchCommandRun_inv pattern cmd len numbers numbers_len default_value hbal
  refine ⟨by rw [matchCommand, hrun]; rfl, st, hrun, by rw [hl]; omega, ⟨o, hp, ?_⟩,
    ⟨k, hcp, by omega⟩⟩
  rw [hl]
  omega

/-- C37 at the pattern `A[:B]?` and the command `A?`. -/
theorem matchCommand_terminates_witness :
    (matchCommand [65, 91, 58, 66, 93, 63] [65, 63] 2 none 0 0).isSome = true ∧
    ∃ st : MatchState,
      matchCommandRun [65, 91, 58, 66, 93, 63] [65, 63] 2 none 0 0 = some st ∧
      0 ≤ st.pattern_len ∧
      (∃ o : Nat, st.pattern_ptr = ⟨[65, 91, 58, 66, 93, 63], (o : Int)⟩ ∧
        (o : Int) + st.pattern_len ≤ (strlen [65, 91, 58, 66, 93, 63] : Int)) ∧
      (∃ k : Nat, st.cmd_ptr = [65, 63].drop k ∧ k + st.cmd_len ≤ strnlen [65, 63] 2) :=
  matchCommand_terminates [65, 91, 58, 66, 93, 63] [65, 63] 2 none 0 0 (by decide) (by decide)
    (by decide)


theorem overruns_push (c : scpi_t) (e : scpi_error_t)
    (he : e ≠ scpi_error_t.SCPI_ERROR_INPUT_BUFFER_OVERRUN) :
    overruns (SCPI_ErrorPush c e) = overruns c := by
  simp [overruns, SCPI_ErrorPush, List.count_append, List.count_singleton, he]

theorem overruns_congr (c c' : scpi_t) (h : c'.errors = c.errors) :
    overruns c' = overruns c := by
  simp [overruns, h]

theorem writeSemicolon_errors (c : scpi_t) : (writeSemicolon c).2.errors = c.errors := by
  unfold writeSemicolon writeData interface_write
  split <;> rfl

theorem writeNewLine_errors (e : List Nat) (c : scpi_t) :
    (writeNewLine e c).2.errors = c.errors := by
  unfold writeNewLine writeData interface_write flushData
  simp only
  split
  · split <;> rfl
  · split
    · split <;> rfl
    · rfl

theorem processCommand_overruns (c : scpi_t) (cmd : scpi_command_t)
    (hcb : ∀ cb, cmd.callback = some cb → ∀ c, overruns (cb c).2 = overruns c) :
    overruns (processCommand c cmd).2 = overruns c := by
  have hstart : overruns
      { (writeSemicolon c).2 with
        cmd_error := false, output_count := 0, output_binary_count := 0, input_count := 0 } =
      overruns c := overruns_congr _ _ (writeSemicolon_errors c)
  unfold processCommand
  simp only
  split
  · rw [overruns_push _ _ (by decide)]
    cases hc : cmd.callback with
    | none => simpa using hstart
    | some cb =>
      simp only
      split
      · simp only
        split
        · rw [overruns_push _ _ (by decide), hcb cb hc, hstart]
        · rw [hcb cb hc, hstart]
      · simp only
        rw [hcb cb hc, hstart]
  · cases hc : cmd.callback with
    | none => simpa using hstart
    | some cb =>
      simp only
      split
      · simp only
        split
        · rw [overruns_push _ _ (by decide), hcb cb hc, hstart]
        · rw [hcb cb hc, hstart]
      · simp only
        rw [hcb cb hc, hstart]

theorem findCommandHeader_mem (header : List Nat) (len : Nat) (cmd : scpi_command_t) :
    ∀ cmdlist : List scpi_command_t,
      findCommandHeader cmdlist header len = some (some cmd) → cmd ∈ cmdlist := by
  intro cmdlist
  induction cmdlist with
  | nil => intro h; simp [findCommandHeader] at h
  | cons c cs ih =>
    intro h
    unfold findCommandHeader at h
    split at h
    · exact absurd h (by simp)
    · simp only [Option.some.injEq] at h
      subst h
      exact List.mem_cons_self _ _
    · exact List.mem_cons_of_mem _ (ih h)

theorem SCPI_Parse_loop_overruns (detect : List Nat → Int → Int → Int × scpi_parser_state_t)
    (cmdlist : List scpi_command_t)
    (hcb : ∀ cmd ∈ cmdlist, ∀ cb, cmd.callback = some cb →
      ∀ c, overruns (cb c).2 = overruns c) :
    ∀ (fuel : Nat) (context : scpi_t) (buf : List Nat) (data len : Int)
      (cmd_prev : scpi_token_t) (result : Bool) (r : Bool × scpi_t × List Nat),
      SCPI_Parse_loop detect cmdlist fuel context buf data len cmd_prev result = some r →
      overruns r.2.1 = overruns context := by
  intro fuel
  induction fuel with
  | zero => intro context buf data len cmd_prev result r h; simp [SCPI_Parse_loop] at h
  | succ fuel ih =>
    intro context buf data len cmd_prev result r h
    unfold SCPI_Parse_loop at h
    simp only at h
    -- the step keeps the count
    have tail : ∀ (res : Bool) (c : scpi_t) (b : List Nat) (cp : scpi_token_t),
        overruns c = overruns context →
        (if (detect buf data len).1 < len then
          SCPI_Parse_loop detect cmdlist fuel c b (data + (detect buf data len).1)
            (len - (detect buf data len).1) cp res
        else some (res, c, b)) = some r → overruns r.2.1 = overruns context := by
      intro res c b cp hc hr
      split at hr
      · rw [ih _ _ _ _ _ _ _ hr, hc]
      · simp only [Option.some.injEq] at hr
        subst hr
        exact hc
    split at h
    · exact absurd h (by simp)
    · rename_i res c b cp hstep
      refine tail res c b cp ?_ h
      split at hstep
      · simp only [Option.some.injEq, Prod.mk.injEq] at hstep
        obtain ⟨-, hc, -, -⟩ := hstep
        rw [← hc, overruns_push _ _ (by decide)]
      · split at hstep
        · split at hstep
          · exact absurd hstep (by simp)
          · rename_i cmd hfind
            simp only [Option.some.injEq, Prod.mk.injEq] at hstep
            obtain ⟨-, hc, -, -⟩ := hstep
            rw [← hc, processCommand_overruns _ _ (hcb cmd (findCommandHeader_mem _ _ _ _ hfind))]
            exact overruns_congr _ _ rfl
          · simp only [Option.some.injEq, Prod.mk.injEq] at hstep
            obtain ⟨-, hc, -, -⟩ := hstep
            rw [← hc, overruns_push _ _ (by decide)]
        · simp only [Option.some.injEq, Prod.mk.injEq] at hstep
          obtain ⟨-, hc, -, -⟩ := hstep
          rw [← hc]

theorem SCPI_Parse_overruns (detect : List Nat → Int → Int → Int × scpi_parser_state_t)
    (cmdlist : List scpi_command_t)
    (hcb : ∀ cmd ∈ cmdlist, ∀ cb, cmd.callback = some cb →
      ∀ c, overruns (cb c).2 = overruns c)
    (e : List Nat) (fuel : Nat) (context : scpi_t) (buf : List Nat) (data len : Int)
    (r : Bool × scpi_t × List Nat)
    (h : SCPI_Parse detect cmdlist e fuel context buf data len = some r) :
    overruns r.2.1 = overruns context := by
  unfold SCPI_Parse at h
  simp only at h
  split at h
  · exact absurd h (by simp)
  · rename_i res c b hloop
    simp only [Option.some.injEq] at h
    subst h
    have := SCPI_Parse_loop_overruns detect cmdlist hcb _ _ _ _ _ _ _ _ hloop
    simp only at this ⊢
    rw [overruns_congr _ _ (writeNewLine_errors e c), this]
    exact overruns_congr _ _ rfl

theorem SCPI_Input_loop_overruns
    (detect : List Nat → Int → Int → Int × scpi_parser_state_t × scpi_message_termination_t)
    (cmdlist : List scpi_command_t)
    (hcb : ∀ cmd ∈ cmdlist, ∀ cb, cmd.callback = some cb →
      ∀ c, overruns (cb c).2 = overruns c)
    (e : List Nat) (pfuel : Nat) :
    ∀ (fuel : Nat) (context : scpi_t) (buffer : scpi_buffer_t) (totcmdlen : Nat)
      (result : Bool) (r : Bool × scpi_t × scpi_buffer_t),
      SCPI_Input_loop detect cmdlist e pfuel fuel context buffer totcmdlen result = some r →
      overruns r.2.1 = overruns context := by
  intro fuel
  induction fuel with
  | zero => intro context buffer totcmdlen result r h; simp [SCPI_Input_loop] at h
  | succ fuel ih =>
    intro context buffer totcmdlen result r h
    unfold SCPI_Input_loop at h
    simp only at h
    split at h
    · split at h
      · exact absurd h (by simp)
      · rename_i res c b hparse
        rw [ih _ _ _ _ _ h]
        exact SCPI_Parse_overruns _ cmdlist hcb e _ _ _ _ _ _ hparse
    · split at h
      · simp only [Option.some.injEq] at h
        subst h
        rfl
      · split at h
        · simp only [Option.some.injEq] at h
          subst h
          rfl
        · exact ih _ _ _ _ _ h

theorem buffer_free_eq (length position : Nat) (hpos : position ≤ length)
    (hint : length ≤ 2147483647) :
    toInt32 (toSize ((length : Int) - (position : Int)) : Int) =
      (length : Int) - (position : Int) := by
  unfold toInt32 toSize
  omega

theorem toSize_small (v : Int) (h0 : 0 ≤ v) (h1 : v < 18446744073709551616) :
    toSize v = v.toNat := by
  unfold toSize
  congr 1
  omega

/-- C32: for a context whose buffer holds `position ≤ length` bytes, with a `length`
that a C `int` can hold (`buffer_free` is an `int`), and a call of `SCPI_Input` with
`len > 0`:
if `len > length - position - 1` the call returns FALSE with `InputBufferOverrun`
pushed on the context it was given (nothing else of the context changes, so no
command is dispatched), `position` set to 0, and the buffer memory changed only by
the NUL stored at its start (none of the new bytes is copied); if
`len ≤ length - position - 1` the call copies the bytes behind the buffered ones,
stores a NUL behind them and runs the scan loop, and the number of
`InputBufferOverrun` errors stays what it was, provided no callback pushes one. -/
theorem SCPI_Input_buffer_overrun
    (detect : List Nat → Int → Int → Int × scpi_parser_state_t × scpi_message_termination_t)
    (cmdlist : List scpi_command_t) (e : List Nat) (fuel : Nat) (context : scpi_t)
    (buffer : scpi_buffer_t) (data : List Nat) (len : Int)
    (hpos : buffer.position ≤ buffer.length)
    (hint : buffer.length ≤ 2147483647)
    (hlen : 0 < len)
    (hcb : ∀ cmd ∈ cmdlist, ∀ cb, cmd.callback = some cb →
      ∀ c, overruns (cb c).2 = overruns c) :
    (len > (buffer.length : Int) - (buffer.position : Int) - 1 →
      SCPI_Input detect cmdlist e fuel context buffer data len =
        some (false,
          { context with
            errors := context.errors ++ [scpi_error_t.SCPI_ERROR_INPUT_BUFFER_OVERRUN]
            cmd_error := true },
          { buffer with position := 0, data := buffer.data.set 0 0 })) ∧
    (len ≤ (buffer.length : Int) - (buffer.position : Int) - 1 →
      SCPI_Input detect cmdlist e fuel context buffer data len =
        SCPI_Input_loop detect cmdlist e fuel fuel context
          { buffer with
            data := (memcpy buffer.data buffer.position data len.toNat).set
              (buffer.position + len.toNat) 0
            position := buffer.position + len.toNat } 0 true ∧
      ∀ r, SCPI_Input detect cmdlist e fuel context buffer data len = some r →
        overruns r.2.1 = overruns context) := by
  have hfree := buffer_free_eq buffer.length buffer.position hpos hint
  constructor
  · intro h
    unfold SCPI_Input
    rw [if_neg (by omega)]
    simp only
    rw [hfree, if_pos h]
    rfl
  · intro h
    have hsize : toSize ((buffer.position : Int) + len) = buffer.position + len.toNat := by
      rw [toSize_small _ (by omega) (by omega)]
      omega
    have heq : SCPI_Input detect cmdlist e fuel context buffer data len =
        SCPI_Input_loop detect cmdlist e fuel fuel context
          { buffer with
            data := (memcpy buffer.data buffer.position data len.toNat).set
              (buffer.position + len.toNat) 0
            position := buffer.position + len.toNat } 0 true := by
      unfold SCPI_Input
      rw [if_neg (by omega)]
      simp only
      rw [hfree, if_neg (by omega), if_neg (by omega), hsize]
    refine ⟨heq, fun r hr => ?_⟩
    rw [heq] at hr
    exact SCPI_Input_loop_overruns detect cmdlist hcb e fuel fuel _ _ _ _ r hr

/-- C32 at a buffer of four bytes: four new bytes overrun it, three fit. -/
theorem SCPI_Input_buffer_overrun_witness :
    SCPI_Input specDetect [⟨str "A", some echoCallback⟩] (str "\n") 5
        ⟨[], false, 0, 0, 0, 0, false, false, [], ⟨[], 0, 0⟩⟩ ⟨4, 0, [7, 7, 7, 7]⟩
        (str "A 1\n") 4 =
      some (false,
        ⟨[], false, 0, 0, 0, 0, true, false, [scpi_error_t.SCPI_ERROR_INPUT_BUFFER_OVERRUN],
          ⟨[], 0, 0⟩⟩,
        ⟨4, 0, [0, 7, 7, 7]⟩) ∧
    ∀ r, SCPI_Input specDetect [⟨str "A", some echoCallback⟩] (str "\n") 5
        ⟨[], false, 0, 0, 0, 0, false, false, [], ⟨[], 0, 0⟩⟩ ⟨4, 0, [7, 7, 7, 7]⟩
        (str "A 1") 3 = some r →
      overruns r.2.1 = overruns ⟨[], false, 0, 0, 0, 0, false, false, [], ⟨[], 0, 0⟩⟩ :=
  ⟨(SCPI_Input_buffer_overrun specDetect [⟨str "A", some echoCallback⟩] (str "\n") 5
      ⟨[], false, 0, 0, 0, 0, false, false, [], ⟨[], 0, 0⟩⟩ ⟨4, 0, [7, 7, 7, 7]⟩
      (str "A 1\n") 4 (by decide) (by decide) (by decide)
      (by
        intro cmd hm cb hc c
        rw [List.mem_singleton] at hm
        subst hm
        cases hc
        rfl)).1 (by decide),
    ((SCPI_Input_buffer_overrun specDetect [⟨str "A", some echoCallback⟩] (str "\n") 5
      ⟨[], false, 0, 0, 0, 0, false, false, [], ⟨[], 0, 0⟩⟩ ⟨4, 0, [7, 7, 7, 7]⟩
      (str "A 1") 3 (by decide) (by decide) (by decide)
      (by
        intro cmd hm cb hc c
        rw [List.mem_singleton] at hm
        subst hm
        cases hc
        rfl)).2 (by decide)).2⟩


theorem lexNothing_mono : LexMono lexNothing := fun _ => ⟨rfl, le_refl _⟩

theorem lexAccept_mono (kind n : Nat) (s : lex_state_t) :
    (lexAccept kind n s).2.1.len = s.len ∧ s.pos ≤ (lexAccept kind n s).2.1.pos := by
  unfold lexAccept
  split
  · exact ⟨rfl, le_refl _⟩
  · exact ⟨rfl, Nat.le_add_right _ _⟩

theorem lexAccept_pos (kind n : Nat) (s : lex_state_t) (h : (lexAccept kind n s).1 ≠ 0) :
    (lexAccept kind n s).2.1.pos = s.pos + n ∧ n ≠ 0 := by
  unfold lexAccept at h ⊢
  split
  · rename_i h0
    rw [if_pos h0] at h
    exact absurd rfl h
  · rename_i h0
    exact ⟨rfl, h0⟩

theorem lexWindow_length (s : lex_state_t) : (lexWindow s).length ≤ s.len - s.pos := by
  unfold lexWindow
  rw [List.length_take]
  exact Nat.min_le_left _ _

theorem parseProgramData_mono (L : lexer_t)
    (h1 : LexMono L.scpiLex_WhiteSpace) (h2 : LexMono L.scpiLex_NondecimalNumericData)
    (h3 : LexMono L.scpiLex_CharacterProgramData)
    (h4 : LexMono L.scpiLex_DecimalNumericProgramData)
    (h5 : LexMono L.scpiLex_SuffixProgramData) (h6 : LexMono L.scpiLex_StringProgramData)
    (h7 : LexMono L.scpiLex_ArbitraryBlockProgramData)
    (h8 : LexMono L.scpiLex_ProgramExpression) (s : lex_state_t) :
    (scpiParser_parseProgramData L s).2.1.len = s.len ∧
      s.pos ≤ (scpiParser_parseProgramData L s).2.1.pos := by
  have comp : ∀ (f : lex_state_t → Nat × lex_state_t × scpi_token_t), LexMono f →
      ∀ t : lex_state_t, (t.len = s.len ∧ s.pos ≤ t.pos) →
        ((f t).2.1.len = s.len ∧ s.pos ≤ (f t).2.1.pos) := by
    intro f hf t ht
    exact ⟨(hf t).1.trans ht.1, le_trans ht.2 (hf t).2⟩
  generalize hR : scpiParser_parseProgramData L s = R
  unfold scpiParser_parseProgramData at hR
  lift_lets at hR
  extract_lets w realLen r1 r2 d ws sf len src r3 r4 r5 r6 w2 at hR
  subst hR
  have a1 : w.2.1.len = s.len ∧ s.pos ≤ w.2.1.pos := comp _ h1 s ⟨rfl, le_refl _⟩
  have a2 : r1.2.1.len = s.len ∧ s.pos ≤ r1.2.1.pos := comp _ h2 _ a1
  have a3 : r2.2.1.len = s.len ∧ s.pos ≤ r2.2.1.pos := by
    dsimp only [r2]
    split
    · exact comp _ h3 _ a2
    · exact a2
  have b1 : d.2.1.len = s.len ∧ s.pos ≤ d.2.1.pos := comp _ h4 _ a3
  have b2 : sf.2.1.len = s.len ∧ s.pos ≤ sf.2.1.pos := comp _ h5 _ (comp _ h1 _ b1)
  have a4 : r3.2.1.len = s.len ∧ s.pos ≤ r3.2.1.pos := by
    dsimp only [r3]
    split
    · split
      · split
        · exact b2
        · exact b2
      · exact b1
    · exact a3
  have a5 : r4.2.1.len = s.len ∧ s.pos ≤ r4.2.1.pos := by
    dsimp only [r4]
    split
    · exact comp _ h6 _ a4
    · exact a4
  have a6 : r5.2.1.len = s.len ∧ s.pos ≤ r5.2.1.pos := by
    dsimp only [r5]
    split
    · exact comp _ h7 _ a5
    · exact a5
  have a7 : r6.2.1.len = s.len ∧ s.pos ≤ r6.2.1.pos := by
    dsimp only [r6]
    split
    · exact comp _ h8 _ a6
    · exact a6
  exact comp _ h1 _ a7

theorem parseAllProgramData_loop_some (L : lexer_t)
    (hp : ∀ s, (scpiParser_parseProgramData L s).2.1.len = s.len ∧
      s.pos ≤ (scpiParser_parseProgramData L s).2.1.pos)
    (hc : ∀ s, (L.scpiLex_Comma s).1 ≠ 0 →
      s.pos < s.len ∧ (L.scpiLex_Comma s).2.1.pos = s.pos + 1 ∧
        (L.scpiLex_Comma s).2.1.len = s.len) :
    ∀ (fuel result : Nat) (state : lex_state_t) (len paramCount : Int),
      (result = 0 → 1 ≤ fuel) → (result ≠ 0 → state.len - state.pos + 2 ≤ fuel) →
      (parseAllProgramData_loop L fuel result state len paramCount).isSome = true := by
  intro fuel
  induction fuel with
  | zero =>
    intro result state len paramCount h0 h1
    by_cases hr : result = 0
    · exact absurd (h0 hr) (by omega)
    · exact absurd (h1 hr) (by omega)
  | succ fuel ih =>
    intro result state len paramCount h0 h1
    unfold parseAllProgramData_loop
    by_cases hr : result = 0
    · rw [if_pos hr]
      rfl
    · rw [if_neg hr]
      simp only
      have hf := h1 hr
      obtain ⟨dl, dp⟩ := hp state
      split
      · apply ih
        · intro _
          omega
        · intro hne
          obtain ⟨c1, c2, c3⟩ := hc _ hne
          rw [c2, c3, dl]
          rw [dl] at c1
          omega
      · rfl

theorem specLexer_parseProgramData_mono (s : lex_state_t) :
    (scpiParser_parseProgramData specLexer s).2.1.len = s.len ∧
      s.pos ≤ (scpiParser_parseProgramData specLexer s).2.1.pos := by
  apply parseProgramData_mono
  · exact fun s => lexAccept_mono _ _ s
  · exact fun s => lexAccept_mono _ _ s
  · exact fun s => lexAccept_mono _ _ s
  · exact fun s => lexAccept_mono _ _ s
  · exact fun s => lexAccept_mono _ _ s
  · exact fun s => lexAccept_mono _ _ s
  · intro s
    have e : specLexer.scpiLex_ArbitraryBlockProgramData s =
        (match blockLen (lexWindow s) with
        | some (h, n) =>
          (h + n, { s with pos := s.pos + (h + n) },
            (⟨SCPI_TOKEN_ARBITRARY_BLOCK_PROGRAM_DATA, some ((s.pos + h : Nat) : Int), n⟩ :
              scpi_token_t))
        | none => lexNothing s) := rfl
    rw [e]
    split
    · exact ⟨rfl, Nat.le_add_right _ _⟩
    · exact ⟨rfl, le_refl _⟩
  · exact fun s => lexAccept_mono _ _ s

theorem takeWhile_length_le (p : Nat → Bool) (l : List Nat) :
    (l.takeWhile p).length ≤ l.length := by
  induction l with
  | nil => exact Nat.le_refl _
  | cons a l ih =>
    rw [List.takeWhile_cons]
    split
    · simp only [List.length_cons]
      omega
    · exact Nat.zero_le _

theorem literalLen_le (c : Nat) (w : List Nat) :
    literalLen c w ≤ 1 ∧ literalLen c w ≤ w.length := by
  cases w with
  | nil => exact ⟨Nat.zero_le _, Nat.zero_le _⟩
  | cons x xs =>
    unfold literalLen
    simp only [List.length_cons]
    split <;> omega

theorem specLexer_comma (s : lex_state_t) (h : (specLexer.scpiLex_Comma s).1 ≠ 0) :
    s.pos < s.len ∧ (specLexer.scpiLex_Comma s).2.1.pos = s.pos + 1 ∧
      (specLexer.scpiLex_Comma s).2.1.len = s.len := by
  have hw := lexWindow_length s
  have := lexAccept_pos SCPI_TOKEN_COMMA (literalLen 44 (lexWindow s)) s h
  have hl := literalLen_le 44 (lexWindow s)
  refine ⟨by omega, ?_, (lexAccept_mono _ _ s).1⟩
  show (lexAccept SCPI_TOKEN_COMMA (literalLen 44 (lexWindow s)) s).2.1.pos = s.pos + 1
  rw [this.1]
  omega

theorem detectProgramMessageUnit_spec_isSome (buffer : List Nat) (len : Int) :
    (scpiParser_detectProgramMessageUnit specLexer specUnitLexer (len.toNat + 1) buffer
      len).isSome = true := by
  unfold scpiParser_detectProgramMessageUnit
  simp only
  have key : ∀ s : lex_state_t, s.len = len.toNat →
      (specLexer.scpiLex_WhiteSpace s).1 > 0 →
      (scpiParser_parseAllProgramData specLexer (len.toNat + 1)
        (specLexer.scpiLex_WhiteSpace s).2.1).isSome = true := by
    intro s hs hpos
    have hw := lexWindow_length s
    have ha := lexAccept_pos SCPI_TOKEN_WS
      ((lexWindow s).takeWhile fun x => x == 32 || x == 9).length s (by
        show (specLexer.scpiLex_WhiteSpace s).1 ≠ 0
        omega)
    have hm := lexAccept_mono SCPI_TOKEN_WS
      ((lexWindow s).takeWhile fun x => x == 32 || x == 9).length s
    have hle : ((lexWindow s).takeWhile fun x => x == 32 || x == 9).length ≤
        (lexWindow s).length := takeWhile_length_le _ _
    have hsome := parseAllProgramData_loop_some specLexer specLexer_parseProgramData_mono
      specLexer_comma (len.toNat + 1) 1 (specLexer.scpiLex_WhiteSpace s).2.1 (-1) 0
      (by intro h; exact absurd h (by decide)) (by
        intro _
        show (lexAccept SCPI_TOKEN_WS _ s).2.1.len - (lexAccept SCPI_TOKEN_WS _ s).2.1.pos + 2 ≤ _
        rw [hm.1, ha.1]
        omega)
    unfold scpiParser_parseAllProgramData
    cases hloop : parseAllProgramData_loop specLexer (len.toNat + 1) 1
        (specLexer.scpiLex_WhiteSpace s).2.1 (-1) 0 with
    | none => rw [hloop] at hsome; exact absurd hsome (by simp)
    | some v => rfl
  split
  · rename_i hparsed
    split at hparsed
    · split at hparsed
      · rename_i hpos
        split at hparsed
        · rename_i hnone
          have := key _ (by
            show (lexAccept SCPI_TOKEN_COMPOUND_PROGRAM_HEADER _ _).2.1.len = _
            rw [(lexAccept_mono _ _ _).1]
            show (lexAccept SCPI_TOKEN_WS _ _).2.1.len = _
            rw [(lexAccept_mono _ _ _).1]) hpos
          rw [hnone] at this
          exact absurd this (by simp)
        · exact absurd hparsed (by simp)
      · exact absurd hparsed (by simp)
    · exact absurd hparsed (by simp)
  · rfl

/-- The parameter loop of the unit parser over the lexer `specLexer` ends within its
fuel: `specDetect` never takes its default value. -/
theorem detectUnit_spec_isSome (buf : List Nat) (data len : Int) :
    (detectUnit specLexer specUnitLexer buf data len).isSome = true := by
  unfold detectUnit
  have := detectProgramMessageUnit_spec_isSome (⟨buf, data⟩ : CPtr).bytes len
  cases h : scpiParser_detectProgramMessageUnit specLexer specUnitLexer (len.toNat + 1)
      (⟨buf, data⟩ : CPtr).bytes len with
  | none => rw [h] at this; exact absurd this (by simp)
  | some v => rfl

/-- C33, the code at two failing inputs, for the command table with the pattern `A`
whose callback hands its parameter data to the sink, over the lexer modelled from the
specification.  The message `A "x\ny"` with its newline, whose string parameter
holds a newline: delivered in one `SCPI_Input` call the command is dispatched with
the parameter `"x\ny"` and no error is pushed; delivered as the fragments `A "x\n`
and `y"\n`, the first call already finds a newline-terminated unit and pushes
`InvalidCharacter` and `UndefinedHeader`, the second call pushes `InvalidCharacter`,
and `A` is never dispatched.  The message `A #13x\ny` with its newline, whose
arbitrary block holds a newline: in one call `A` is dispatched with the block;
as the fragments `A #13x\n` and `y\n` five errors are pushed and `A` is never
dispatched. -/
theorem SCPI_Input_fragment_inside_string :
    ((SCPI_Input specDetect [⟨str "A", some echoCallback⟩] (str "\n") 9
        ⟨[], false, 0, 0, 0, 0, false, false, [], ⟨[], 0, 0⟩⟩ ⟨16, 0, List.replicate 16 0⟩
        (str "A \"x\ny\"\n") 8).map (fun r => (r.1, r.2.1.output, r.2.1.errors, r.2.2.position)) =
      some (true, str "\"x\ny\"", [], 0) ∧
    ((SCPI_Input specDetect [⟨str "A", some echoCallback⟩] (str "\n") 9
        ⟨[], false, 0, 0, 0, 0, false, false, [], ⟨[], 0, 0⟩⟩ ⟨16, 0, List.replicate 16 0⟩
        (str "A \"x\n") 5).bind fun r =>
      SCPI_Input specDetect [⟨str "A", some echoCallback⟩] (str "\n") 9 r.2.1 r.2.2
        (str "y\"\n") 3).map (fun r => (r.1, r.2.1.output, r.2.1.errors, r.2.2.position)) =
      some (false, [],
        [scpi_error_t.SCPI_ERROR_INVALID_CHARACTER, scpi_error_t.SCPI_ERROR_UNDEFINED_HEADER,
          scpi_error_t.SCPI_ERROR_INVALID_CHARACTER], 0)) ∧
    ((SCPI_Input specDetect [⟨str "A", some echoCallback⟩] (str "\n") 9
        ⟨[], false, 0, 0, 0, 0, false, false, [], ⟨[], 0, 0⟩⟩ ⟨16, 0, List.replicate 16 0⟩
        (str "A #13x\ny\n") 9).map (fun r => (r.1, r.2.1.output, r.2.1.errors, r.2.2.position)) =
      some (true, str "#13x\ny", [], 0) ∧
    ((SCPI_Input specDetect [⟨str "A", some echoCallback⟩] (str "\n") 9
        ⟨[], false, 0, 0, 0, 0, false, false, [], ⟨[], 0, 0⟩⟩ ⟨16, 0, List.replicate 16 0⟩
        (str "A #13x\n") 7).bind fun r =>
      SCPI_Input specDetect [⟨str "A", some echoCallback⟩] (str "\n") 9 r.2.1 r.2.2
        (str "y\n") 2).map (fun r => (r.1, r.2.1.output, r.2.1.errors, r.2.2.position)) =
      some (false, [],
        [scpi_error_t.SCPI_ERROR_INVALID_CHARACTER, scpi_error_t.SCPI_ERROR_INVALID_CHARACTER,
          scpi_error_t.SCPI_ERROR_INVALID_CHARACTER, scpi_error_t.SCPI_ERROR_UNDEFINED_HEADER,
          scpi_error_t.SCPI_ERROR_UNDEFINED_HEADER], 0)) := by
  refine ⟨⟨?_, ?_⟩, ⟨?_, ?_⟩⟩ <;> decide


/-! ## Theorems: the passes of the main loop -/

theorem matchCommandRun_of_entry (pattern cmd : List Nat) (len : Nat)
    (numbers : Option (List Int)) (numbers_len : Nat) (default_value : Int) (st : MatchState)
    (h : matchCommandEntry pattern cmd len numbers = some st) :
    matchCommandRun pattern cmd len numbers numbers_len default_value =
      matchLoop numbers_len default_value (strlen pattern + 2) (strlen pattern + 2) st := by
  unfold matchCommandEntry at h
  unfold matchCommandRun
  simp only at h ⊢
  by_cases hq : (matchCommandInit pattern cmd len numbers).pattern_ptr.get
      ((matchCommandInit pattern cmd len numbers).pattern_len - 1) = 63 ∧
      byteAt cmd (((matchCommandInit pattern cmd len numbers).cmd_len : Int) - 1) ≠ 63
  · rw [if_pos hq] at h
    exact absurd h (by simp)
  · rw [if_neg hq] at h ⊢
    generalize (if (matchCommandInit pattern cmd len numbers).pattern_ptr.get
        ((matchCommandInit pattern cmd len numbers).pattern_len - 1) = 63
      then { matchCommandInit pattern cmd len numbers with
        cmd_len := (matchCommandInit pattern cmd len numbers).cmd_len - 1,
        pattern_len := (matchCommandInit pattern cmd len numbers).pattern_len - 1 }
      else matchCommandInit pattern cmd len numbers) = st1 at h ⊢
    unfold matchCommandRest
    simp only
    by_cases hs : (skipPatternStart st1).cmd_ptr.headD 0 = 58 ∧
        2 ≤ (skipPatternStart st1).cmd_len ∧ (skipPatternStart st1).cmd_ptr.getD 1 0 = 42
    · rw [if_pos hs] at h
      exact absurd h (by simp)
    · rw [if_neg hs] at h ⊢
      simp only [Option.some.injEq] at h
      rw [h]

theorem loopPasses_run (numbers_len : Nat) (default_value : Int) (ifuel : Nat) :
    ∀ (fuel : Nat) (st0 st : MatchState),
      st ∈ loopPasses numbers_len default_value ifuel fuel st0 →
      ∃ f, matchLoop numbers_len default_value ifuel (f + 1) st =
        matchLoop numbers_len default_value ifuel fuel st0 := by
  intro fuel
  induction fuel with
  | zero => intro st0 st h; simp [loopPasses] at h
  | succ fuel ih =>
    intro st0 st h
    unfold loopPasses at h
    rcases List.mem_cons.1 h with h | h
    · subst h
      exact ⟨fuel, rfl⟩
    · cases hb : loopBody numbers_len default_value ifuel st0 with
      | next st1 =>
        rw [hb] at h
        obtain ⟨f, hf⟩ := ih st1 st h
        refine ⟨f, ?_⟩
        rw [hf]
        conv_rhs => rw [matchLoop, hb]
      | done s => rw [hb] at h; simp at h
      | stuck => rw [hb] at h; simp at h

theorem loopPasses_induction (numbers_len : Nat) (default_value : Int) (ifuel : Nat)
    (P : MatchState → Prop)
    (hstep : ∀ st st1, P st → loopBody numbers_len default_value ifuel st = .next st1 → P st1) :
    ∀ (fuel : Nat) (st0 st : MatchState), P st0 →
      st ∈ loopPasses numbers_len default_value ifuel fuel st0 → P st := by
  intro fuel
  induction fuel with
  | zero => intro st0 st _ h; simp [loopPasses] at h
  | succ fuel ih =>
    intro st0 st h0 h
    unfold loopPasses at h
    rcases List.mem_cons.1 h with h | h
    · subst h
      exact h0
    · cases hb : loopBody numbers_len default_value ifuel st0 with
      | next st1 =>
        rw [hb] at h
        exact ih st1 st (hstep st0 st1 h0 hb) h
      | done s => rw [hb] at h; simp at h
      | stuck => rw [hb] at h; simp at h

theorem loopBody_of_matched (numbers_len : Nat) (default_value : Int) (fuel : Nat)
    (st : MatchState) (hm : (matchStep numbers_len default_value st).1 = true) :
    loopBody numbers_len default_value fuel st =
      loopMatched fuel (afterMatch numbers_len default_value st) := by
  unfold loopBody afterMatch
  simp only
  rw [if_pos hm]

theorem matchCommandEntry_inv (pattern cmd : List Nat) (len : Nat)
    (numbers : Option (List Int)) (st0 : MatchState) (hbal : netBrackets pattern = 0)
    (h : matchCommandEntry pattern cmd len numbers = some st0) :
    ∃ (L C : Nat), L ≤ strlen pattern ∧ C ≤ strnlen cmd len ∧
      CursorInv pattern cmd L C st0 ∧ (∀ j, j < L → pattern.getD j 0 ≠ 0) ∧
      (pattern.getD L 0 = 0 ∨ pattern.getD L 0 = 63) ∧
      st0.pattern_len < ((strlen pattern + 2 : Nat) : Int) := by
  obtain ⟨hnz, hz⟩ := strlen_spec pattern
  unfold netBrackets at hbal
  have hinit : CursorInv pattern cmd (strlen pattern) (strnlen cmd len)
      (matchCommandInit pattern cmd len numbers) :=
    ⟨0, 0, rfl, by omega, rfl, by simpa [matchCommandInit] using hbal, rfl,
      by simp [matchCommandInit]⟩
  unfold matchCommandEntry at h
  simp only at h
  by_cases hq1 : (matchCommandInit pattern cmd len numbers).pattern_ptr.get
      ((matchCommandInit pattern cmd len numbers).pattern_len - 1) = 63 ∧
      byteAt cmd (((matchCommandInit pattern cmd len numbers).cmd_len : Int) - 1) ≠ 63
  · rw [if_pos hq1] at h
    exact absurd h (by simp)
  · rw [if_neg hq1] at h
    obtain ⟨st', L, C, hL, hC, hinv, hLterm, hfuel, hst'⟩ :
        ∃ (st' : MatchState) (L C : Nat), L ≤ strlen pattern ∧ C ≤ strnlen cmd len ∧
          CursorInv pattern cmd L C st' ∧ (pattern.getD L 0 = 0 ∨ pattern.getD L 0 = 63) ∧
          st'.pattern_len < ((strlen pattern + 2 : Nat) : Int) ∧
          st' = (if (matchCommandInit pattern cmd len numbers).pattern_ptr.get
              ((matchCommandInit pattern cmd len numbers).pattern_len - 1) = 63
            then { matchCommandInit pattern cmd len numbers with
              cmd_len := (matchCommandInit pattern cmd len numbers).cmd_len - 1,
              pattern_len := (matchCommandInit pattern cmd len numbers).pattern_len - 1 }
            else matchCommandInit pattern cmd len numbers) := by
      by_cases hq : (matchCommandInit pattern cmd len numbers).pattern_ptr.get
          ((matchCommandInit pattern cmd len numbers).pattern_len - 1) = 63
      · rw [if_pos hq]
        have hpos : 1 ≤ strlen pattern := by
          by_contra hc
          have h0 : strlen pattern = 0 := by omega
          simp only [matchCommandInit, h0, CPtr.get, byteAt] at hq
          simp at hq
        have hlast : pattern.getD (strlen pattern - 1) 0 = 63 := by
          have e : ((strlen pattern : Nat) : Int) - 1 = ((strlen pattern - 1 : Nat) : Int) := by
            omega
          simp only [matchCommandInit] at hq
          rw [e] at hq
          have := CPtr.get_mk pattern 0 (strlen pattern - 1)
          simp only [Nat.cast_zero, Nat.zero_add] at this
          rw [this] at hq
          exact hq
        refine ⟨_, strlen pattern - 1, strnlen cmd len - 1, by omega, by omega, ?_,
          Or.inr hlast, ?_, rfl⟩
        · refine ⟨0, 0, rfl, by omega, ?_, ?_, rfl, by simp [matchCommandInit]⟩
          · simp only [matchCommandInit, Nat.sub_zero]
            omega
          · have e : strlen pattern = (strlen pattern - 1) + 1 := by omega
            rw [e, netRange_add, netRange_one] at hbal
            simp only [Nat.zero_add] at hbal
            rw [hlast] at hbal
            simp only [matchCommandInit, Nat.sub_zero]
            have : bracketValue 63 = 0 := by decide
            rw [this] at hbal
            omega
        · simp only [matchCommandInit]
          omega
      · rw [if_neg hq]
        refine ⟨_, strlen pattern, strnlen cmd len, le_refl _, le_refl _, hinit, Or.inl hz, ?_,
          rfl⟩
        simp only [matchCommandInit]
        omega
    rw [← hst'] at h
    have hL0 : ∀ j, j < L → pattern.getD j 0 ≠ 0 := fun j hj => hnz j (by omega)
    obtain ⟨hinv1, hle1⟩ := skipPatternStart_inv pattern cmd L C hLterm st' hinv
    by_cases hs : (skipPatternStart st').cmd_ptr.headD 0 = 58 ∧
        2 ≤ (skipPatternStart st').cmd_len ∧ (skipPatternStart st').cmd_ptr.getD 1 0 = 42
    · rw [if_pos hs] at h
      exact absurd h (by simp)
    · rw [if_neg hs] at h
      simp only [Option.some.injEq] at h
      subst h
      refine ⟨L, C, hL, hC, ?_, hL0, hLterm, ?_⟩
      · split
        · rename_i hc
          obtain ⟨o, k, hp, ho, hl, hb, hcp, hcl⟩ := hinv1
          refine ⟨o, k + 1, hp, ho, hl, hb, ?_, ?_⟩
          · simp only [SKIP_CMD]
            rw [hcp, List.drop_drop]
          · simp only [SKIP_CMD]
            omega
        · exact hinv1
      · have : (if (skipPatternStart st').cmd_ptr.headD 0 = 58 ∧
              2 ≤ (skipPatternStart st').cmd_len
            then SKIP_CMD (skipPatternStart st') 1 else skipPatternStart st').pattern_len ≤
              st'.pattern_len := by
          split
          · exact hle1
          · exact hle1
        omega

theorem afterMatch_inv (pattern cmd : List Nat) (L C : Nat)
    (hL0 : ∀ j, j < L → pattern.getD j 0 ≠ 0)
    (numbers_len : Nat) (default_value : Int) (st : MatchState)
    (h : CursorInv pattern cmd L C st) :
    CursorInv pattern cmd L C (afterMatch numbers_len default_value st) := by
  obtain ⟨o, k, hp, ho, hl, hb, hcp, hcl⟩ := h
  obtain ⟨s, hs, hsle, hnosep, _⟩ := patternSeparatorPos_spec pattern o (L - o)
    (fun j hj => hL0 (o + j) (by omega))
  have hbytes : st.pattern_ptr.bytes = pattern.drop o := by rw [hp, CPtr.bytes_mk]
  have hpos : patternSeparatorPos st.pattern_ptr.bytes st.pattern_len = (s : Int) := by
    rw [hbytes, hl, hs]
  have hnet : netRange pattern o s = 0 := netRange_no_sep pattern s o hnosep
  have hcs := cmdSeparatorPos_le st.cmd_ptr st.cmd_len
  refine CursorInv.advance o k s (cmdSeparatorPos st.cmd_ptr st.cmd_len) 0 _ hp hl hb hcp hcl
    (by omega) hnet hcs ?_ ?_ ?_ rfl rfl
  · simp only [afterMatch, SKIP_CMD, SKIP_PATTERN, matchStep, hpos]
  · simp only [afterMatch, SKIP_CMD, SKIP_PATTERN, matchStep, hpos]
  · simp only [afterMatch, SKIP_CMD, SKIP_PATTERN, matchStep]
    omega

theorem passes_inv (pattern cmd : List Nat) (len : Nat) (numbers : Option (List Int))
    (numbers_len : Nat) (default_value : Int) (st : MatchState)
    (hbal : netBrackets pattern = 0)
    (hpass : st ∈ matchCommandPasses pattern cmd len numbers numbers_len default_value) :
    ∃ (L C : Nat), L ≤ strlen pattern ∧ C ≤ strnlen cmd len ∧
      CursorInv pattern cmd L C st ∧ (∀ j, j < L → pattern.getD j 0 ≠ 0) ∧
      (pattern.getD L 0 = 0 ∨ pattern.getD L 0 = 63) ∧
      st.pattern_len < ((strlen pattern + 2 : Nat) : Int) ∧
      ∃ f, matchLoop numbers_len default_value (strlen pattern + 2) (f + 1) st =
        matchCommandRun pattern cmd len numbers numbers_len default_value := by
  unfold matchCommandPasses at hpass
  cases he : matchCommandEntry pattern cmd len numbers with
  | none => rw [he] at hpass; simp at hpass
  | some st0 =>
    rw [he] at hpass
    simp only at hpass
    obtain ⟨L, C, hL, hC, hinv, hL0, hterm, hlt⟩ :=
      matchCommandEntry_inv pattern cmd len numbers st0 hbal he
    have hP := loopPasses_induction numbers_len default_value (strlen pattern + 2)
      (fun s => CursorInv pattern cmd L C s ∧ s.pattern_len < ((strlen pattern + 2 : Nat) : Int))
      (by
        intro s s1 hs hb
        rcases loopBody_inv pattern cmd L C hL0 hterm numbers_len default_value
          (strlen pattern + 2) s hs.1 hs.2 with ⟨r, hr, _⟩ | ⟨r, hr, hi, hd⟩
        · rw [hr] at hb
          exact absurd hb (by simp)
        · rw [hr] at hb
          simp only [LoopStep.next.injEq] at hb
          subst hb
          exact ⟨hi, by omega⟩)
      (strlen pattern + 2) st0 st ⟨hinv, hlt⟩ hpass
    obtain ⟨f, hf⟩ := loopPasses_run numbers_len default_value (strlen pattern + 2)
      (strlen pattern + 2) st0 st hpass
    refine ⟨L, C, hL, hC, hP.1, hL0, hterm, hP.2, f, ?_⟩
    rw [hf, matchCommandRun_of_entry pattern cmd len numbers numbers_len default_value st0 he]

/-! ## Theorems: the rest of the pattern at the end of the command -/

theorem strlen_le_length (p : List Nat) : strlen p ≤ p.length := by
  induction p with
  | nil => exact Nat.le_refl _
  | cons c cs ih =>
    unfold strlen
    split
    · exact Nat.zero_le _
    · simp only [List.length_cons]
      omega

theorem netList_append (a b : List Nat) : netList (a ++ b) = netList a + netList b := by
  induction a with
  | nil => simp [netList]
  | cons c cs ih =>
    rw [List.cons_append, netList, netList, ih]
    omega

theorem netRange_eq_netList (p : List Nat) :
    ∀ (n o : Nat), netRange p o n = netList ((p.drop o).take n) := by
  intro n
  induction n with
  | zero => intro o; simp [netRange, netList]
  | succ n ih =>
    intro o
    rw [netRange, ih (o + 1)]
    by_cases ho : o < p.length
    · rw [List.drop_eq_getElem_cons ho, List.take_succ_cons, netList,
        List.getD_eq_getElem _ _ ho]
    · have e1 : p.drop o = [] := List.drop_eq_nil_of_le (by omega)
      have e2 : p.drop (o + 1) = [] := List.drop_eq_nil_of_le (by omega)
      rw [e1, e2, List.getD_eq_default _ _ (by omega)]
      simp [netList, bracketValue]

theorem netList_no_bracket (K : List Nat) (h : ∀ c ∈ K, c ≠ 91 ∧ c ≠ 93) : netList K = 0 := by
  induction K with
  | nil => rfl
  | cons c cs ih =>
    have hc := h c (List.mem_cons_self _ _)
    rw [netList, ih (fun x hx => h x (List.mem_cons_of_mem _ hx)), bracketValue,
      if_neg hc.1, if_neg hc.2]
    rfl

theorem netList_residualText :
    ∀ (toks : List PatItem) (d : Nat), (∀ t ∈ toks, t.Valid) → balanced d toks = true →
      netList (residualText toks) = -(d : Int) := by
  intro toks
  induction toks with
  | nil =>
    intro d _ hb
    simp only [balanced, beq_iff_eq] at hb
    subst hb
    rfl
  | cons t ts ih =>
    intro d hval hb
    have hts : ∀ t ∈ ts, t.Valid := fun x hx => hval x (List.mem_cons_of_mem _ hx)
    cases t with
    | key K =>
      have hK := hval (.key K) (List.mem_cons_self _ _)
      simp only [PatItem.Valid] at hK
      simp only [balanced] at hb
      rw [residualText, netList_append, ih d hts hb]
      have : netList (PatItem.key K).text = 0 := by
        simp only [PatItem.text]
        apply netList_no_bracket
        intro c hc
        rcases List.mem_cons.1 hc with rfl | hc
        · decide
        · have := (hK.2 c hc).2
          simp only [List.mem_cons, List.mem_singleton, not_or, List.not_mem_nil,
            or_false] at this
          exact ⟨this.2.2.1, this.2.2.2⟩
      rw [this]
      omega
    | opn =>
      simp only [balanced] at hb
      rw [residualText, netList_append, ih (d + 1) hts hb]
      have : netList PatItem.opn.text = 1 := by decide
      rw [this]
      push_cast
      omega
    | cls =>
      cases d with
      | zero => simp [balanced] at hb
      | succ d =>
        simp only [balanced] at hb
        rw [residualText, netList_append, ih d hts hb]
        have : netList PatItem.cls.text = -1 := by decide
        rw [this]
        push_cast
        omega

/-- C7: for every pattern whose brackets balance and every command, take a pass of the
main loop of `matchCommand` in which the command segment matched the pattern keyword
and after which the command is used up ("command complete, but pattern not") while
the rest of the pattern is made of the pieces `toks`: further keywords `:K`, opening
brackets and closing brackets, not empty, closing the `d` groups that are open at
this point.  Then `matchCommand` returns, and it returns TRUE if and only if every
keyword of the rest lies inside an optional `[...]` group. -/
theorem matchCommand_residual_balanced (pattern cmd : List Nat) (len : Nat)
    (numbers : Option (List Int)) (numbers_len : Nat) (default_value : Int)
    (st : MatchState) (toks : List PatItem) (d : Nat)
    (hbal0 : netBrackets pattern = 0)
    (hpass : st ∈ matchCommandPasses pattern cmd len numbers numbers_len default_value)
    (hm : (matchStep numbers_len default_value st).1 = true)
    (hc : (afterMatch numbers_len default_value st).cmd_len = 0)
    (hrest : remainingPattern (afterMatch numbers_len default_value st) = residualText toks)
    (hne : toks ≠ []) (hval : ∀ t ∈ toks, t.Valid) (hbal : balanced d toks = true) :
    matchCommand pattern cmd len numbers numbers_len default_value =
      some (allOptional d toks) := by
  obtain ⟨L, C, hL, _, hinv, hL0, _, _, f, hrun⟩ :=
    passes_inv pattern cmd len numbers numbers_len default_value st hbal0 hpass
  have hinv1 := afterMatch_inv pattern cmd L C hL0 numbers_len default_value st hinv
  generalize hs : afterMatch numbers_len default_value st = s at hc hrest hinv1
  have hres : s.result = true := by rw [← hs]; rfl
  obtain ⟨o, k, hp, ho, hl, hb, _, _⟩ := hinv1
  have hbytes : s.pattern_ptr.bytes = pattern.drop o := by rw [hp, CPtr.bytes_mk]
  have hLp := strlen_le_length pattern
  unfold remainingPattern at hrest
  rw [hbytes, hl, Int.toNat_ofNat] at hrest
  have hlen : (residualText toks).length = L - o := by
    rw [← hrest, List.length_take, List.length_drop]
    omega
  have hpos : 1 ≤ (residualText toks).length := by
    have := residualText_length_ge toks
    have : 0 < toks.length := List.length_pos.2 hne
    omega
  have hsplit : pattern.drop o = residualText toks ++ (pattern.drop o).drop (L - o) := by
    rw [← hrest, List.take_append_drop]
  have hbr : s.brackets = (d : Int) := by
    rw [netRange_eq_netList, hrest, netList_residualText toks d hval hbal] at hb
    omega
  have hAt : s.At ([] ++ (residualText toks ++ (pattern.drop o).drop (L - o)))
      ((([] : List Nat).length : Int) + (residualText toks).length) s.cmd_ptr s.cmd_len := by
    refine ⟨by rw [hp]; exact Int.natCast_nonneg _, ?_, ?_, rfl, rfl⟩
    · rw [hbytes, List.nil_append, ← hsplit]
    · rw [hl, hlen]
      simp
  obtain ⟨s2, hs2, hiff, _, hr2⟩ := residualLoop_items toks d [] ((pattern.drop o).drop (L - o))
    s.cmd_ptr s.cmd_len (strlen pattern + 2) s hne hval hbal (by simp) (fun _ => rfl)
    (by
      have := residualText_length_ge toks
      omega) hAt (by exact_mod_cast hbr)
  have hbody : loopBody numbers_len default_value (strlen pattern + 2) st =
      .done (if s2.pattern_len ≠ 0 then { s2 with result := false } else s2) := by
    rw [loopBody_of_matched _ _ _ _ hm, hs]
    unfold loopMatched
    have hpl : s.pattern_len ≠ 0 := by rw [hl]; omega
    rw [if_neg (fun h => hpl h.1), if_neg (fun h => hpl h.1), if_pos hc, hs2]
  rw [matchCommand, ← hrun, matchLoop, hbody]
  simp only [Option.map_some', Option.some.injEq]
  by_cases h0 : s2.pattern_len = 0
  · rw [if_neg (by simpa using h0), hr2, hres]
    exact (hiff.1 h0).symm
  · rw [if_pos h0]
    have : allOptional d toks ≠ true := fun h => h0 (hiff.2 h)
    simpa using this

/-- C7 at patterns that skip an optional group before the matched keyword: the pattern
`[:SOURce]:VOLTage[:LEVel]` with the command `VOLT`, `A[:B]:C[:D]` with `A:C`, and
`A[:B]:C` with `A`, where the keyword `C` of the rest stands outside the brackets. -/
theorem matchCommand_residual_balanced_witness :
    (matchCommand (str "[:SOURce]:VOLTage[:LEVel]") (str "VOLT") (str "VOLT").length none 0 0 =
        some (allOptional 0 [.opn, .key (str "LEVel"), .cls]) ∧
      allOptional 0 [.opn, .key (str "LEVel"), .cls] = true) ∧
    (matchCommand (str "A[:B]:C[:D]") (str "A:C") (str "A:C").length none 0 0 =
        some (allOptional 0 [.opn, .key (str "D"), .cls]) ∧
      allOptional 0 [.opn, .key (str "D"), .cls] = true) ∧
    (matchCommand (str "A[:B]:C") (str "A") (str "A").length none 0 0 =
        some (allOptional 0 [.opn, .key (str "B"), .cls, .key (str "C")]) ∧
      allOptional 0 [.opn, .key (str "B"), .cls, .key (str "C")] = false) :=
  ⟨⟨matchCommand_residual_balanced (str "[:SOURce]:VOLTage[:LEVel]") (str "VOLT")
      (str "VOLT").length none 0 0
      ⟨⟨str "[:SOURce]:VOLTage[:LEVel]", 10⟩, 15, str "VOLT", 4, 0, 0, none, false⟩
      [.opn, .key (str "LEVel"), .cls] 0 (by decide) (by decide) (by decide) (by decide)
      (by decide) (by decide) (by decide) (by decide), by decide⟩,
   ⟨matchCommand_residual_balanced (str "A[:B]:C[:D]") (str "A:C") (str "A:C").length none 0 0
      ⟨⟨str "A[:B]:C[:D]", 6⟩, 5, str "C", 1, 0, 0, none, true⟩
      [.opn, .key (str "D"), .cls] 0 (by decide) (by decide) (by decide) (by decide)
      (by decide) (by decide) (by decide) (by decide), by decide⟩,
   ⟨matchCommand_residual_balanced (str "A[:B]:C") (str "A") (str "A").length none 0 0
      ⟨⟨str "A[:B]:C", 0⟩, 7, str "A", 1, 0, 0, none, false⟩
      [.opn, .key (str "B"), .cls, .key (str "C")] 0 (by decide) (by decide) (by decide)
      (by decide) (by decide) (by decide) (by decide) (by decide), by decide⟩⟩


/-! ## Theorems: the result of `matchCommand` with and without a numbers array -/

theorem compareStrAndNum_snd_some (s1 : List Nat) (l1 : Nat) (s2 : List Nat) (l2 : Nat)
    (v : Int) : ∃ w, (compareStrAndNum s1 l1 s2 l2 (some v)).2 = some w := by
  unfold compareStrAndNum
  split
  · exact ⟨v, rfl⟩
  · split
    · simp only
      split
      · exact ⟨v, rfl⟩
      · split
        · exact ⟨v, rfl⟩
        · exact ⟨_, rfl⟩
    · exact ⟨v, rfl⟩

theorem strncasecmp_zero_getD : ∀ (n : Nat) (s1 s2 : List Nat),
    strncasecmp s1 s2 n = 0 → (∀ i, i < n → s2.getD i 0 ≠ 0) →
      ∀ i, i < n → tolower (s1.getD i 0) = tolower (s2.getD i 0) := by
  intro n
  induction n with
  | zero => intro s1 s2 _ _ i hi; omega
  | succ n ih =>
    intro s1 s2 h h0 i hi
    unfold strncasecmp at h
    simp only at h
    by_cases hc : tolower (s1.headD 0) ≠ tolower (s2.headD 0)
    · rw [if_pos hc] at h
      exfalso; apply hc; omega
    · rw [if_neg hc] at h
      have hc' : tolower (s1.headD 0) = tolower (s2.headD 0) := by
        by_contra hx; exact hc hx
      have h20 : s2.headD 0 ≠ 0 := by
        have := h0 0 (by omega)
        cases s2 with
        | nil => simp at this
        | cons a t => simpa using this
      have hne : ¬ tolower (s1.headD 0) = 0 := by
        rw [hc']
        exact tolower_ne_zero_of_ne_zero h20
      rw [if_neg hne] at h
      cases i with
      | zero =>
        have e1 : s1.getD 0 0 = s1.headD 0 := by cases s1 <;> rfl
        have e2 : s2.getD 0 0 = s2.headD 0 := by cases s2 <;> rfl
        rw [e1, e2]; exact hc'
      | succ i =>
        have e1 : s1.getD (i + 1) 0 = s1.tail.getD i 0 := by cases s1 <;> simp
        have e2 : s2.getD (i + 1) 0 = s2.tail.getD i 0 := by cases s2 <;> simp
        rw [e1, e2]
        apply ih s1.tail s2.tail h _ i (by omega)
        intro j hj
        have := h0 (j + 1) (by omega)
        cases s2 with
        | nil => simp at this
        | cons a t => simpa using this

theorem trailingDigits_append (X ds : List Nat) (hds : ∀ d ∈ ds, isdigit d = true)
    (hX : ∀ c ∈ X, isdigit c = false) :
    trailingDigits (X ++ ds) = ds ∧ beforeDigits (X ++ ds) = X := by
  have hr : X.reverse = [] ∨ ∃ s t, X.reverse = s :: t ∧ isdigit s = false := by
    cases hx : X.reverse with
    | nil => exact Or.inl rfl
    | cons s t =>
      refine Or.inr ⟨s, t, rfl, hX s ?_⟩
      have : s ∈ X.reverse := by rw [hx]; exact List.mem_cons_self _ _
      exact List.mem_reverse.1 this
  have hd : ∀ a ∈ ds.reverse, isdigit a = true := fun a ha => hds a (List.mem_reverse.1 ha)
  have h1 : (ds.reverse ++ X.reverse).takeWhile isdigit = ds.reverse :=
    takeWhile_append_stop isdigit ds.reverse X.reverse hd hr
  have h2 : (ds.reverse ++ X.reverse).dropWhile isdigit = X.reverse := by
    have hsplit := List.takeWhile_append_dropWhile isdigit (ds.reverse ++ X.reverse)
    rw [h1] at hsplit
    exact List.append_cancel_left hsplit
  constructor
  · unfold trailingDigits
    rw [List.reverse_append, h1, List.reverse_reverse]
  · unfold beforeDigits
    rw [List.reverse_append, h2, List.reverse_reverse]

theorem strtol_consumed (l : List Nat) (h : 0 < (strtol l).2) :
    ∃ W S ds, l.take (strtol l).2 = W ++ (S ++ ds) ∧ (∀ c ∈ W, isspace c = true) ∧
      (S = [] ∨ S = [43] ∨ S = [45]) ∧ ds ≠ [] ∧ (∀ d ∈ ds, isdigit d = true) ∧
      (strtol l).1 = max (-9223372036854775808) (min 9223372036854775807
        (if S = [45] then -(digitsValue ds : Int) else (digitsValue ds : Int))) := by
  generalize hR : strtol l = R at h ⊢
  unfold strtol at hR
  lift_lets at hR
  extract_lets ws s1 neg sg ds v at hR
  by_cases h0 : ds.length = 0
  · rw [if_pos h0] at hR
    subst hR
    simp at h
  rw [if_neg h0] at hR
  subst hR
  simp only
  have hW : l = l.takeWhile isspace ++ s1 := by
    have : s1 = l.dropWhile isspace := by
      show l.drop (l.takeWhile isspace).length = _
      have e := List.takeWhile_append_dropWhile isspace l
      have := List.drop_left (l.takeWhile isspace) (l.dropWhile isspace)
      rw [e] at this
      exact this
    rw [this, List.takeWhile_append_dropWhile]
  have hS : s1 = s1.take sg ++ s1.drop sg := (List.take_append_drop sg s1).symm
  have hD : s1.drop sg = ds ++ (s1.drop sg).dropWhile isdigit :=
    (List.takeWhile_append_dropWhile isdigit (s1.drop sg)).symm
  have hsgl : (s1.take sg).length = sg := by
    rw [List.length_take]
    have : ds.length ≤ (s1.drop sg).length := by
      show ((s1.drop sg).takeWhile isdigit).length ≤ _
      exact (List.takeWhile_sublist _).length_le
    rw [List.length_drop] at this
    omega
  have hl : l = l.takeWhile isspace ++ (s1.take sg ++ (ds ++ (s1.drop sg).dropWhile isdigit)) := by
    rw [← hD, ← hS]; exact hW
  refine ⟨l.takeWhile isspace, s1.take sg, ds, ?_, ?_, ?_, ?_, ?_, ?_⟩
  · conv_lhs => rw [hl]
    have e : ws + sg + ds.length =
        (l.takeWhile isspace ++ (s1.take sg ++ ds)).length := by
      simp only [List.length_append, hsgl]
      show (l.takeWhile isspace).length + sg + ds.length = _
      omega
    rw [e]
    have : l.takeWhile isspace ++ (s1.take sg ++ (ds ++ (s1.drop sg).dropWhile isdigit)) =
        (l.takeWhile isspace ++ (s1.take sg ++ ds)) ++ (s1.drop sg).dropWhile isdigit := by
      simp
    rw [this, List.take_left]
  · intro c hc
    exact (List.mem_takeWhile_imp hc)
  · by_cases hs : (s1.headD 0 == 45 || s1.headD 0 == 43) = true
    · have hsg1 : sg = 1 := by
        show (if (s1.headD 0 == 45 || s1.headD 0 == 43) = true then 1 else 0) = 1
        rw [if_pos hs]
      rw [hsg1]
      cases hs1 : s1 with
      | nil => rw [hs1] at hs; simp at hs
      | cons a t =>
        rw [hs1] at hs
        simp only [List.headD_cons, Bool.or_eq_true, beq_iff_eq] at hs
        simp only [List.take_succ_cons, List.take_zero]
        rcases hs with hs | hs
        · right; right; rw [hs]
        · right; left; rw [hs]
    · have hsg0 : sg = 0 := by
        show (if (s1.headD 0 == 45 || s1.headD 0 == 43) = true then 1 else 0) = 0
        rw [if_neg hs]
      left
      rw [hsg0]; rfl
  · intro hnil
    apply h0
    rw [hnil]; rfl
  · intro d hd
    exact List.mem_takeWhile_imp hd
  · have hv : v = if s1.take sg = [45] then -(digitsValue ds : Int) else (digitsValue ds : Int) := by
      show (if neg = true then -(digitsValue ds : Int) else (digitsValue ds : Int)) = _
      by_cases hn : (s1.headD 0 == 45) = true
      · have hsg1 : sg = 1 := by
          show (if (s1.headD 0 == 45 || s1.headD 0 == 43) = true then 1 else 0) = 1
          rw [if_pos (by rw [hn]; rfl)]
        have : s1.take sg = [45] := by
          rw [hsg1]
          cases hs1 : s1 with
          | nil => rw [hs1] at hn; simp at hn
          | cons a t =>
            rw [hs1] at hn
            simp only [List.headD_cons, beq_iff_eq] at hn
            simp [hn]
        rw [if_pos this]
        have : neg = true := hn
        rw [if_pos this]
      · have hneg : ¬ neg = true := hn
        rw [if_neg hneg]
        have : ¬ s1.take sg = [45] := by
          intro hc
          apply hn
          cases hs1 : s1 with
          | nil => rw [hs1] at hc; simp at hc
          | cons a t =>
            rw [hs1] at hc
            cases hsg : sg with
            | zero => rw [hsg] at hc; simp at hc
            | succ k =>
              rw [hsg] at hc
              simp only [List.take_succ_cons, List.cons.injEq] at hc
              simp [hc.1]
        rw [if_neg this]
    rw [← hv]

theorem isspace_not_digit {c : Nat} (h : isspace c = true) : isdigit c = false := by
  cases hd : isdigit c with
  | false => rfl
  | true =>
    have := (isdigit_props hd).1
    rw [h] at this
    exact absurd this (by decide)

theorem compareStrAndNum_capture (P : List Nat) (l1 : Nat) (s : List Nat) (slen : Nat)
    (dv w : Int)
    (hP : ∀ j, j < l1 → isdigit (P.getD j 0) = false)
    (hs0 : ∀ j, j < slen → s.getD j 0 ≠ 0)
    (hlen : slen ≤ s.length)
    (hsign : (beforeDigits (s.take slen)).getLast? ≠ some 45)
    (hval : digitsValue (trailingDigits (s.take slen)) < 2147483648)
    (h : compareStrAndNum P l1 s slen (some dv) = (true, some w)) :
    w = if trailingDigits (s.take slen) = [] then dv
      else (digitsValue (trailingDigits (s.take slen)) : Int) := by
  unfold compareStrAndNum at h
  by_cases h1 : slen < l1
  · rw [if_pos h1] at h; simp at h
  rw [if_neg h1] at h
  by_cases h2 : strncasecmp P s l1 = 0
  swap
  · rw [if_neg h2] at h; simp at h
  rw [if_pos h2] at h
  simp only at h
  have hcmp := strncasecmp_zero_getD l1 P s h2 (fun i hi => hs0 i (by omega))
  have htext : ∀ c ∈ s.take l1, isdigit c = false := by
    intro c hc
    obtain ⟨i, hi, rfl⟩ := List.getElem_of_mem hc
    rw [List.length_take] at hi
    have hil : i < l1 := by omega
    have hg : (s.take l1)[i] = s.getD i 0 := by
      rw [List.getElem_take, List.getD_eq_getElem?_getD, List.getElem?_eq_getElem (by omega)]
      rfl
    rw [hg, ← isdigit_tolower, ← hcmp i hil, isdigit_tolower]
    exact hP i hil
  by_cases h3 : l1 = slen
  · rw [if_pos h3] at h
    simp only [Prod.mk.injEq, true_and, Option.some.injEq] at h
    subst h3
    have := (trailingDigits_append (s.take l1) [] (by simp) htext).1
    rw [List.append_nil] at this
    rw [this, if_pos rfl, h]
  rw [if_neg h3] at h
  by_cases h4 : l1 + (strBaseToInt32 (s.drop l1)).1 ≠ slen
  · rw [if_pos h4] at h; simp at h
  rw [if_neg h4] at h
  simp only [Prod.mk.injEq, true_and, Option.some.injEq] at h
  have h4' : l1 + (strtol (s.drop l1)).2 = slen := by
    by_contra hx; exact h4 hx
  have hpos : 0 < (strtol (s.drop l1)).2 := by omega
  obtain ⟨W, S, ds, hsplit, hW, hS, hne, hds, hv⟩ := strtol_consumed (s.drop l1) hpos
  have hseg : s.take slen = (s.take l1 ++ (W ++ S)) ++ ds := by
    rw [← h4', List.take_add, hsplit]
    simp
  have hX : ∀ c ∈ s.take l1 ++ (W ++ S), isdigit c = false := by
    intro c hc
    rw [List.mem_append, List.mem_append] at hc
    rcases hc with hc | hc | hc
    · exact htext c hc
    · exact isspace_not_digit (hW c hc)
    · rcases hS with rfl | rfl | rfl
      · simp at hc
      · simp only [List.mem_singleton] at hc; subst hc; decide
      · simp only [List.mem_singleton] at hc; subst hc; decide
  obtain ⟨ht, hb⟩ := trailingDigits_append (s.take l1 ++ (W ++ S)) ds hds hX
  rw [← hseg] at ht hb
  rw [ht] at hval ⊢
  rw [hb] at hsign
  have hS45 : ¬ S = [45] := by
    intro hc
    apply hsign
    rw [hc, ← List.append_assoc, List.getLast?_append]
    rfl
  rw [if_neg hne, ← h]
  unfold strBaseToInt32
  simp only
  rw [hv, if_neg hS45]
  exact toInt32_clamp _ hval

theorem compareStrAndNum_false_snd (P : List Nat) (l1 : Nat) (s : List Nat) (slen : Nat)
    (dv : Int) (h : (compareStrAndNum P l1 s slen (some dv)).1 = false) :
    (compareStrAndNum P l1 s slen (some dv)).2 = some dv := by
  unfold compareStrAndNum at h ⊢
  split
  · rfl
  · rename_i h1
    rw [if_neg h1] at h
    split
    · rename_i h2
      rw [if_pos h2] at h
      simp only at h ⊢
      split
      · rfl
      · rename_i h3
        rw [if_neg h3] at h
        split
        · rfl
        · rename_i h4
          rw [if_neg h4] at h
          simp at h
    · rfl

theorem matchPattern_capture (P : List Nat) (plen : Nat) (s : List Nat) (slen : Nat)
    (dv w : Int)
    (hhash : 0 < plen ∧ P.getD (plen - 1) 0 = 35)
    (hP : ∀ j, j < plen - 1 → isdigit (P.getD j 0) = false)
    (hs0 : ∀ j, j < slen → s.getD j 0 ≠ 0)
    (hlen : slen ≤ s.length)
    (hsign : (beforeDigits (s.take slen)).getLast? ≠ some 45)
    (hval : digitsValue (trailingDigits (s.take slen)) < 2147483648)
    (h : matchPattern P plen s slen (some dv) = (true, some w)) :
    w = if trailingDigits (s.take slen) = [] then dv
      else (digitsValue (trailingDigits (s.take slen)) : Int) := by
  unfold matchPattern at h
  rw [if_pos hhash] at h
  simp only at h
  by_cases hr : (compareStrAndNum P (plen - 1) s slen (some dv)).1 = true
  · rw [if_pos hr] at h
    exact compareStrAndNum_capture P (plen - 1) s slen dv w hP hs0 hlen hsign hval h
  · rw [if_neg hr] at h
    have hf : (compareStrAndNum P (plen - 1) s slen (some dv)).1 = false := by
      simpa using hr
    rw [compareStrAndNum_false_snd P (plen - 1) s slen dv hf] at h
    have hle := patternSeparatorShortPos_le P (plen - 1)
    exact compareStrAndNum_capture P _ s slen dv w (fun j hj => hP j (by omega)) hs0 hlen
      hsign hval h

theorem matchStep_numbers_idx (numbers_len : Nat) (default_value : Int) (st : MatchState) :
    (matchStep numbers_len default_value st).2.numbers_idx =
      st.numbers_idx + (if passHash st = true then 1 else 0) := by
  unfold matchStep passHash
  dsimp only
  split <;> rfl

theorem matchPattern_snd_some (P : List Nat) (plen : Nat) (s : List Nat) (slen : Nat)
    (dv : Int) : ∃ w, (matchPattern P plen s slen (some dv)).2 = some w := by
  unfold matchPattern
  split
  · dsimp only
    split
    · exact compareStrAndNum_snd_some _ _ _ _ _
    · obtain ⟨v, hv⟩ := compareStrAndNum_snd_some P (plen - 1) s slen dv
      rw [hv]
      exact compareStrAndNum_snd_some _ _ _ _ _
  · exact ⟨dv, rfl⟩

theorem matchStep_frame (numbers_len : Nat) (default_value : Int) (st : MatchState)
    (a : List Int) (hnum : st.numbers = some a) :
    ∃ b, (matchStep numbers_len default_value st).2.numbers = some b ∧ b.length = a.length ∧
      ∀ j, j ≠ st.numbers_idx → b.getD j 0 = a.getD j 0 := by
  unfold matchStep
  dsimp only
  rw [hnum]
  by_cases hc : (decide (0 < patternSeparatorPos st.pattern_ptr.bytes st.pattern_len) &&
      (st.pattern_ptr.get (patternSeparatorPos st.pattern_ptr.bytes st.pattern_len - 1) == 35) &&
      (some a).isSome && decide (st.numbers_idx < numbers_len)) = true
  · simp only [if_pos hc, Option.map_some']
    obtain ⟨w, hw⟩ := matchPattern_snd_some st.pattern_ptr.bytes
      (toSizeT (patternSeparatorPos st.pattern_ptr.bytes st.pattern_len)) st.cmd_ptr
      (cmdSeparatorPos st.cmd_ptr st.cmd_len) default_value
    rw [hw]
    refine ⟨_, rfl, by simp, ?_⟩
    intro j hj
    simp only [List.getD_eq_getElem?_getD]
    rw [List.getElem?_set_ne (Ne.symm hj), List.getElem?_set_ne (Ne.symm hj)]
  · simp only [if_neg hc]
    exact ⟨a, rfl, rfl, fun _ _ => rfl⟩

theorem matchStep_capture (numbers_len : Nat) (default_value : Int) (st : MatchState)
    (a : List Int) (hnum : st.numbers = some a) (halen : a.length = numbers_len)
    (hhash : passHash st = true) (hi : st.numbers_idx < numbers_len)
    (hm : (matchStep numbers_len default_value st).1 = true)
    (hplen : 0 ≤ st.pattern_len) (hoff : 0 ≤ st.pattern_ptr.off)
    (hkw : ∀ c ∈ passKeyword st, isdigit c = false)
    (hcl : st.cmd_len ≤ st.cmd_ptr.length)
    (hs0 : ∀ j, j < st.cmd_len → st.cmd_ptr.getD j 0 ≠ 0)
    (hsign : (beforeDigits (passSegment st)).getLast? ≠ some 45)
    (hval : digitsValue (trailingDigits (passSegment st)) < 2147483648) :
    ∃ b, (matchStep numbers_len default_value st).2.numbers = some b ∧
      b.getD st.numbers_idx 0 =
        (if trailingDigits (passSegment st) = [] then default_value
          else (digitsValue (trailingDigits (passSegment st)) : Int)) := by
  have hh : (decide (0 < patternSeparatorPos st.pattern_ptr.bytes st.pattern_len) &&
      (st.pattern_ptr.get (patternSeparatorPos st.pattern_ptr.bytes st.pattern_len - 1) == 35)) =
      true := hhash
  have hb := patternSeparatorPos_bounds st.pattern_ptr.bytes st.pattern_len hplen
  obtain ⟨n, hn⟩ : ∃ n : Nat, patternSeparatorPos st.pattern_ptr.bytes st.pattern_len = (n : Int) :=
    ⟨(patternSeparatorPos st.pattern_ptr.bytes st.pattern_len).toNat, by omega⟩
  have hts : toSizeT (patternSeparatorPos st.pattern_ptr.bytes st.pattern_len) = n := by
    rw [toSizeT_of_nonneg _ hb.1, hn]; rfl
  unfold passHash at hhash
  simp only [Bool.and_eq_true, decide_eq_true_eq, beq_iff_eq] at hhash
  have hn0 : 0 < n := by omega
  obtain ⟨w, hw⟩ := matchPattern_snd_some st.pattern_ptr.bytes n st.cmd_ptr
    (cmdSeparatorPos st.cmd_ptr st.cmd_len) default_value
  have hcs := cmdSeparatorPos_le st.cmd_ptr st.cmd_len
  unfold matchStep at hm ⊢
  dsimp only at hm ⊢
  rw [hh, hnum, hts] at hm ⊢
  simp only [Option.isSome_some, Bool.and_self, decide_eq_true hi, if_true, Option.map_some']
    at hm ⊢
  rw [hw]
  refine ⟨_, rfl, ?_⟩
  simp only [List.getD_eq_getElem?_getD]
  rw [List.getElem?_set_self (by simp; omega)]
  simp only [Option.getD_some]
  have hmp : matchPattern st.pattern_ptr.bytes n st.cmd_ptr
      (cmdSeparatorPos st.cmd_ptr st.cmd_len) (some default_value) = (true, some w) := by
    rw [← hw, ← hm]
  have hget : st.pattern_ptr.bytes.getD (n - 1) 0 = 35 := by
    rw [← hhash.2, hn, ← CPtr.get_of_nonneg _ hoff]
    congr 1
    omega
  apply matchPattern_capture st.pattern_ptr.bytes n st.cmd_ptr _ default_value w ⟨hn0, hget⟩
    ?_ (fun j hj => hs0 j (by omega)) (by omega) hsign hval hmp
  intro j hj
  by_cases hjl : j < st.pattern_ptr.bytes.length
  · apply hkw
    unfold passKeyword
    rw [hts]
    rw [List.getD_eq_getElem?_getD, List.getElem?_eq_getElem hjl]
    simp only [Option.getD_some]
    rw [List.mem_take_iff_getElem]
    exact ⟨j, by omega, rfl⟩
  · rw [List.getD_eq_getElem?_getD, List.getElem?_eq_none (by omega)]
    rfl

theorem hashCount_none (p : List Nat) (o : Nat) : ∀ n,
    (∀ j, j < n → ¬ (p.getD (o + j) 0 = 35 ∧ p.getD (o + j + 1) 0 ∈ [0, 63, 58, 91, 93])) →
      hashCount p (o + n) = hashCount p o := by
  intro n
  induction n with
  | zero => intro _; rfl
  | succ n ih =>
    intro h
    have e : o + (n + 1) = (o + n) + 1 := by omega
    rw [e, hashCount, if_neg (h n (by omega)), Nat.add_zero]
    exact ih (fun j hj => h j (by omega))

theorem hashCount_keyword (p : List Nat) (o sp : Nat)
    (hmid : ∀ j, j < sp → p.getD (o + j) 0 ∉ [0, 63, 58, 91, 93])
    (hend : p.getD (o + sp) 0 ∈ [0, 63, 58, 91, 93]) :
    hashCount p (o + sp) =
      hashCount p o + (if 0 < sp ∧ p.getD (o + (sp - 1)) 0 = 35 then 1 else 0) := by
  cases sp with
  | zero => simp
  | succ n =>
    have e : o + (n + 1) = (o + n) + 1 := by omega
    have hn : hashCount p (o + n) = hashCount p o := by
      apply hashCount_none
      intro j hj hc
      exact hmid (j + 1) (by omega) (by rw [← Nat.add_assoc]; exact hc.2)
    rw [e] at hend ⊢
    rw [hashCount, hn]
    congr 1
    have e2 : n + 1 - 1 = n := by omega
    rw [e2]
    by_cases h35 : p.getD (o + n) 0 = 35
    · rw [if_pos ⟨h35, hend⟩, if_pos ⟨by omega, h35⟩]
    · rw [if_neg (fun hc => h35 hc.1), if_neg (fun hc => h35 hc.2)]

theorem cmd_drop_ok (l : List Nat) (n c : Nat) (hcl : n ≤ l.length)
    (hs0 : ∀ j, j < n → l.getD j 0 ≠ 0) :
    n - c ≤ (l.drop c).length ∧ ∀ j, j < n - c → (l.drop c).getD j 0 ≠ 0 := by
  constructor
  · rw [List.length_drop]; omega
  · intro j hj
    rw [getD_drop_add]
    exact hs0 _ (by omega)

theorem SuffixInv.afterStep {pattern : List Nat} {L : Nat}
    (hL0 : ∀ j, j < L → pattern.getD j 0 ≠ 0)
    (hterm : pattern.getD L 0 = 0 ∨ pattern.getD L 0 = 63)
    (numbers_len : Nat) (default_value : Int) {st : MatchState}
    (h : SuffixInv pattern L st) (c : Nat) (s : MatchState)
    (sp : s.pattern_ptr =
      st.pattern_ptr.add (patternSeparatorPos st.pattern_ptr.bytes st.pattern_len))
    (sl : s.pattern_len =
      st.pattern_len - patternSeparatorPos st.pattern_ptr.bytes st.pattern_len)
    (si : s.numbers_idx = (matchStep numbers_len default_value st).2.numbers_idx)
    (scp : s.cmd_ptr = st.cmd_ptr.drop c) (scl : s.cmd_len = st.cmd_len - c) :
    SuffixInv pattern L s := by
  obtain ⟨o, hp, ho, hl, hidx, hcl, hs0⟩ := h
  obtain ⟨n, hn, hnle, hmid, hsep⟩ := patternSeparatorPos_spec pattern o (L - o)
    (fun j hj => hL0 _ (by omega))
  have hpsp : patternSeparatorPos st.pattern_ptr.bytes st.pattern_len = (n : Int) := by
    rw [hp, CPtr.bytes_mk, hl]; exact hn
  have hend : pattern.getD (o + n) 0 ∈ [0, 63, 58, 91, 93] := by
    by_cases hlt : n < L - o
    · have := hsep hlt
      simp only [List.mem_cons, List.mem_singleton, List.not_mem_nil, or_false] at this ⊢
      omega
    · have e : o + n = L := by omega
      rw [e]
      simp only [List.mem_cons, List.mem_singleton, List.not_mem_nil, or_false]
      omega
  have hmid' : ∀ j, j < n → pattern.getD (o + j) 0 ∉ [0, 63, 58, 91, 93] := by
    intro j hj hc
    have h1 := hmid j hj
    have h2 := hL0 (o + j) (by omega)
    simp only [List.mem_cons, List.mem_singleton, List.not_mem_nil, or_false] at h1 hc
    omega
  have hcmd := cmd_drop_ok st.cmd_ptr st.cmd_len c hcl hs0
  refine ⟨o + n, ?_, by omega, ?_, ?_, ?_, ?_⟩
  · rw [sp, hpsp, hp]
    simp only [CPtr.add]
    push_cast
    rfl
  · rw [sl, hpsp, hl]
    omega
  · have hph : (passHash st = true) ↔ (0 < n ∧ pattern.getD (o + (n - 1)) 0 = 35) := by
      unfold passHash
      rw [hpsp]
      simp only [Bool.and_eq_true, decide_eq_true_eq, beq_iff_eq]
      constructor
      · rintro ⟨a, b⟩
        have hn0 : 0 < n := by omega
        have e : ((n : Nat) : Int) - 1 = ((n - 1 : Nat) : Int) := by omega
        rw [e, hp, CPtr.get_mk] at b
        exact ⟨hn0, b⟩
      · rintro ⟨a, b⟩
        have e : ((n : Nat) : Int) - 1 = ((n - 1 : Nat) : Int) := by omega
        rw [e, hp, CPtr.get_mk]
        exact ⟨by omega, b⟩
    rw [si, matchStep_numbers_idx, hidx, hashCount_keyword pattern o n hmid' hend]
    congr 1
    by_cases hc : 0 < n ∧ pattern.getD (o + (n - 1)) 0 = 35
    · rw [if_pos hc, if_pos (hph.2 hc)]
    · rw [if_neg hc, if_neg (fun hx => hc (hph.1 hx))]
  · rw [scp, scl]; exact hcmd.1
  · rw [scp, scl]; exact hcmd.2

theorem SuffixInv.skip_separators {pattern : List Nat} {L : Nat}
    (hterm : pattern.getD L 0 = 0 ∨ pattern.getD L 0 = 63) {st : MatchState}
    (h : SuffixInv pattern L st) (k c : Nat) (hk : k ≤ 3)
    (h0 : 0 < k → st.pattern_ptr.get 0 ∈ [58, 91, 93])
    (h1 : 1 < k → st.pattern_ptr.get 1 ∈ [58, 91, 93])
    (h2 : 2 < k → st.pattern_ptr.get 2 ∈ [58, 91, 93])
    (s : MatchState) (sp : s.pattern_ptr = st.pattern_ptr.add (k : Int))
    (sl : s.pattern_len = st.pattern_len - (k : Int))
    (si : s.numbers_idx = st.numbers_idx)
    (scp : s.cmd_ptr = st.cmd_ptr.drop c) (scl : s.cmd_len = st.cmd_len - c) :
    SuffixInv pattern L s := by
  obtain ⟨o, hp, ho, hl, hidx, hcl, hs0⟩ := h
  rw [hp, CPtr.get_mk0] at h0
  rw [hp, CPtr.get_mk1] at h1
  rw [hp, CPtr.get_mk2] at h2
  have hsep : ∀ j, j < k → pattern.getD (o + j) 0 ∈ [58, 91, 93] := by
    intro j hj
    have : j = 0 ∨ j = 1 ∨ j = 2 := by omega
    rcases this with rfl | rfl | rfl
    · exact h0 hj
    · exact h1 hj
    · exact h2 hj
  have hle : o + k ≤ L := by
    by_cases hk0 : k = 0
    · omega
    · have := lt_end_of_getD pattern L o (k - 1) ho hterm (by
        intro j hj
        have := hsep j (by omega)
        simp only [List.mem_cons, List.mem_singleton, List.not_mem_nil, or_false] at this
        omega)
      omega
  have hcmd := cmd_drop_ok st.cmd_ptr st.cmd_len c hcl hs0
  refine ⟨o + k, ?_, hle, ?_, ?_, ?_, ?_⟩
  · rw [sp, hp]
    simp only [CPtr.add]
    push_cast
    rfl
  · rw [sl, hl]
    omega
  · rw [si, hidx]
    symm
    apply hashCount_none
    intro j hj hc
    have := hsep j hj
    simp only [List.mem_cons, List.mem_singleton, List.not_mem_nil, or_false] at this
    omega
  · rw [scp, scl]; exact hcmd.1
  · rw [scp, scl]; exact hcmd.2

theorem loopMatched_next_suffix {pattern : List Nat} {L : Nat}
    (hterm : pattern.getD L 0 = 0 ∨ pattern.getD L 0 = 63) (fuel : Nat)
    (st1 s : MatchState) (hinv : SuffixInv pattern L st1)
    (h : loopMatched fuel st1 = .next s) :
    SuffixInv pattern L s ∧ s.numbers = st1.numbers ∧ s.numbers_idx = st1.numbers_idx := by
  unfold loopMatched at h
  by_cases c1 : st1.pattern_len = 0 ∧ st1.cmd_len = 0
  · rw [if_pos c1] at h
    exact absurd h (by simp)
  rw [if_neg c1] at h
  by_cases c2 : st1.pattern_len = 0 ∧ 0 < st1.cmd_len
  · rw [if_pos c2] at h
    exact absurd h (by simp)
  rw [if_neg c2] at h
  by_cases c3 : st1.cmd_len = 0
  · rw [if_pos c3] at h
    cases hr : residualLoop fuel st1 with
    | none => rw [hr] at h; exact absurd h (by simp)
    | some s2 => rw [hr] at h; exact absurd h (by simp)
  rw [if_neg c3] at h
  by_cases c4 : 0 < st1.pattern_len ∧ st1.pattern_ptr.get 0 = st1.cmd_ptr.headD 0
      ∧ st1.pattern_ptr.get 0 = 58
  · rw [if_pos c4] at h
    simp only [LoopStep.next.injEq] at h
    subst h
    refine ⟨SuffixInv.skip_separators hterm hinv 1 1 (by omega) ?_ ?_ ?_ _ rfl rfl rfl rfl rfl, rfl, rfl⟩
    · intro _; rw [c4.2.2]; decide
    · intro hc; omega
    · intro hc; omega
  rw [if_neg c4] at h
  by_cases c5 : 1 < st1.pattern_len ∧ st1.pattern_ptr.get 1 = st1.cmd_ptr.headD 0
      ∧ st1.pattern_ptr.get 0 = 91 ∧ st1.pattern_ptr.get 1 = 58
  · rw [if_pos c5] at h
    simp only [LoopStep.next.injEq] at h
    subst h
    refine ⟨SuffixInv.skip_separators hterm hinv 2 1 (by omega) ?_ ?_ ?_ _ rfl rfl rfl rfl rfl, rfl, rfl⟩
    · intro _; rw [c5.2.2.1]; decide
    · intro _; rw [c5.2.2.2]; decide
    · intro hc; omega
  rw [if_neg c5] at h
  by_cases c6 : 1 < st1.pattern_len ∧ st1.pattern_ptr.get 1 = st1.cmd_ptr.headD 0
      ∧ st1.pattern_ptr.get 0 = 93 ∧ st1.pattern_ptr.get 1 = 58
  · rw [if_pos c6] at h
    simp only [LoopStep.next.injEq] at h
    subst h
    refine ⟨SuffixInv.skip_separators hterm hinv 2 1 (by omega) ?_ ?_ ?_ _ rfl rfl rfl rfl rfl, rfl, rfl⟩
    · intro _; rw [c6.2.2.1]; decide
    · intro _; rw [c6.2.2.2]; decide
    · intro hc; omega
  rw [if_neg c6] at h
  by_cases c7 : 2 < st1.pattern_len ∧ st1.pattern_ptr.get 2 = st1.cmd_ptr.headD 0
      ∧ st1.pattern_ptr.get 0 = 93 ∧ st1.pattern_ptr.get 1 = 91
      ∧ st1.pattern_ptr.get 2 = 58
  · rw [if_pos c7] at h
    simp only [LoopStep.next.injEq] at h
    subst h
    refine ⟨SuffixInv.skip_separators hterm hinv 3 1 (by omega) ?_ ?_ ?_ _ rfl rfl rfl rfl rfl, rfl, rfl⟩
    · intro _; rw [c7.2.2.1]; decide
    · intro _; rw [c7.2.2.2.1]; decide
    · intro _; rw [c7.2.2.2.2]; decide
  rw [if_neg c7] at h
  exact absurd h (by simp)

theorem loopUnmatched_next_suffix {pattern : List Nat} {L : Nat}
    (hterm : pattern.getD L 0 = 0 ∨ pattern.getD L 0 = 63)
    (st1 s : MatchState) (hinv : SuffixInv pattern L st1)
    (h : loopUnmatched st1 = .next s) :
    SuffixInv pattern L s ∧ s.numbers = st1.numbers ∧ s.numbers_idx = st1.numbers_idx := by
  unfold loopUnmatched at h
  by_cases c1 : st1.pattern_ptr.get 0 = 93 ∧ st1.pattern_ptr.get 1 = 58
  · rw [if_pos c1] at h
    simp only [LoopStep.next.injEq] at h
    subst h
    refine ⟨SuffixInv.skip_separators hterm hinv 2 0 (by omega) ?_ ?_ ?_ _ rfl rfl rfl rfl rfl, rfl, rfl⟩
    · intro _; rw [c1.1]; decide
    · intro _; rw [c1.2]; decide
    · intro hc; omega
  rw [if_neg c1] at h
  by_cases c2 : 2 < st1.pattern_len ∧ st1.pattern_ptr.get 0 = 93 ∧ st1.pattern_ptr.get 1 = 91
      ∧ st1.pattern_ptr.get 2 = 58
  · rw [if_pos c2] at h
    simp only [LoopStep.next.injEq] at h
    subst h
    refine ⟨SuffixInv.skip_separators hterm hinv 3 0 (by omega) ?_ ?_ ?_ _ rfl rfl rfl rfl rfl, rfl, rfl⟩
    · intro _; rw [c2.2.1]; decide
    · intro _; rw [c2.2.2.1]; decide
    · intro _; rw [c2.2.2.2]; decide
  rw [if_neg c2] at h
  exact absurd h (by simp)

theorem loopBody_next_suffix {pattern : List Nat} {L : Nat}
    (hL0 : ∀ j, j < L → pattern.getD j 0 ≠ 0)
    (hterm : pattern.getD L 0 = 0 ∨ pattern.getD L 0 = 63)
    (numbers_len : Nat) (default_value : Int) (fuel : Nat) (st s : MatchState)
    (hinv : SuffixInv pattern L st)
    (h : loopBody numbers_len default_value fuel st = .next s) :
    SuffixInv pattern L s ∧ s.numbers = (matchStep numbers_len default_value st).2.numbers ∧
      s.numbers_idx = (matchStep numbers_len default_value st).2.numbers_idx := by
  by_cases hm : (matchStep numbers_len default_value st).1 = true
  · rw [loopBody_of_matched numbers_len default_value fuel st hm] at h
    have h1 : SuffixInv pattern L (afterMatch numbers_len default_value st) :=
      SuffixInv.afterStep hL0 hterm numbers_len default_value hinv
        (cmdSeparatorPos st.cmd_ptr st.cmd_len) _ rfl rfl rfl rfl rfl
    obtain ⟨k1, k2, k3⟩ := loopMatched_next_suffix hterm fuel
      (afterMatch numbers_len default_value st) s h1 h
    exact ⟨k1, k2, k3⟩
  · have hb : loopBody numbers_len default_value fuel st =
        loopUnmatched (SKIP_PATTERN (matchStep numbers_len default_value st).2
          (patternSeparatorPos st.pattern_ptr.bytes st.pattern_len)) := if_neg hm
    rw [hb] at h
    have h1 : SuffixInv pattern L
        (SKIP_PATTERN (matchStep numbers_len default_value st).2
          (patternSeparatorPos st.pattern_ptr.bytes st.pattern_len)) :=
      SuffixInv.afterStep hL0 hterm numbers_len default_value hinv 0 _ rfl rfl rfl
        (by simp [SKIP_PATTERN, matchStep]) (by simp [SKIP_PATTERN, matchStep])
    obtain ⟨k1, k2, k3⟩ := loopUnmatched_next_suffix hterm
      (SKIP_PATTERN (matchStep numbers_len default_value st).2
        (patternSeparatorPos st.pattern_ptr.bytes st.pattern_len)) s h1 h
    exact ⟨k1, k2, k3⟩

theorem residualLoop_numbers : ∀ (fuel : Nat) (st s : MatchState),
    residualLoop fuel st = some s → s.numbers = st.numbers := by
  intro fuel
  induction fuel with
  | zero => intro st s h; simp [residualLoop] at h
  | succ fuel ih =>
    intro st s h
    unfold residualLoop at h
    by_cases h0 : st.pattern_len = 0
    · rw [if_pos h0] at h
      simp only [Option.some.injEq] at h
      rw [← h]
    · rw [if_neg h0] at h
      dsimp only at h
      have hrs : (residualStep st).numbers = st.numbers := rfl
      by_cases hb : (residualStep st).brackets = 0
      · rw [if_pos hb] at h
        by_cases hc : 0 < (residualStep st).pattern_len ∧ (residualStep st).pattern_ptr.get 0 = 91
        · rw [if_pos hc] at h
          rw [ih _ _ h, hrs]
        · rw [if_neg hc] at h
          simp only [Option.some.injEq] at h
          rw [← h, hrs]
      · rw [if_neg hb] at h
        rw [ih _ _ h, hrs]

theorem loopMatched_done_numbers (fuel : Nat) (st1 s : MatchState)
    (h : loopMatched fuel st1 = .done s) : s.numbers = st1.numbers := by
  unfold loopMatched at h
  by_cases c1 : st1.pattern_len = 0 ∧ st1.cmd_len = 0
  · rw [if_pos c1] at h
    simp only [LoopStep.done.injEq] at h
    rw [← h]
  rw [if_neg c1] at h
  by_cases c2 : st1.pattern_len = 0 ∧ 0 < st1.cmd_len
  · rw [if_pos c2] at h
    simp only [LoopStep.done.injEq] at h
    rw [← h]
  rw [if_neg c2] at h
  by_cases c3 : st1.cmd_len = 0
  · rw [if_pos c3] at h
    cases hr : residualLoop fuel st1 with
    | none => rw [hr] at h; exact absurd h (by simp)
    | some s2 =>
      rw [hr] at h
      simp only [LoopStep.done.injEq] at h
      have h2 := residualLoop_numbers fuel st1 s2 hr
      rw [← h, ← h2]
      split <;> rfl
  rw [if_neg c3] at h
  by_cases c4 : 0 < st1.pattern_len ∧ st1.pattern_ptr.get 0 = st1.cmd_ptr.headD 0
      ∧ st1.pattern_ptr.get 0 = 58
  · rw [if_pos c4] at h
    exact absurd h (by simp)
  rw [if_neg c4] at h
  by_cases c5 : 1 < st1.pattern_len ∧ st1.pattern_ptr.get 1 = st1.cmd_ptr.headD 0
      ∧ st1.pattern_ptr.get 0 = 91 ∧ st1.pattern_ptr.get 1 = 58
  · rw [if_pos c5] at h
    exact absurd h (by simp)
  rw [if_neg c5] at h
  by_cases c6 : 1 < st1.pattern_len ∧ st1.pattern_ptr.get 1 = st1.cmd_ptr.headD 0
      ∧ st1.pattern_ptr.get 0 = 93 ∧ st1.pattern_ptr.get 1 = 58
  · rw [if_pos c6] at h
    exact absurd h (by simp)
  rw [if_neg c6] at h
  by_cases c7 : 2 < st1.pattern_len ∧ st1.pattern_ptr.get 2 = st1.cmd_ptr.headD 0
      ∧ st1.pattern_ptr.get 0 = 93 ∧ st1.pattern_ptr.get 1 = 91
      ∧ st1.pattern_ptr.get 2 = 58
  · rw [if_pos c7] at h
    exact absurd h (by simp)
  rw [if_neg c7] at h
  simp only [LoopStep.done.injEq] at h
  rw [← h]

theorem loopUnmatched_done_numbers (st1 s : MatchState)
    (h : loopUnmatched st1 = .done s) : s.numbers = st1.numbers := by
  unfold loopUnmatched at h
  by_cases c1 : st1.pattern_ptr.get 0 = 93 ∧ st1.pattern_ptr.get 1 = 58
  · rw [if_pos c1] at h
    exact absurd h (by simp)
  rw [if_neg c1] at h
  by_cases c2 : 2 < st1.pattern_len ∧ st1.pattern_ptr.get 0 = 93 ∧ st1.pattern_ptr.get 1 = 91
      ∧ st1.pattern_ptr.get 2 = 58
  · rw [if_pos c2] at h
    exact absurd h (by simp)
  rw [if_neg c2] at h
  simp only [LoopStep.done.injEq] at h
  rw [← h]

theorem loopBody_done_numbers (numbers_len : Nat) (default_value : Int) (fuel : Nat)
    (st s : MatchState) (h : loopBody numbers_len default_value fuel st = .done s) :
    s.numbers = (matchStep numbers_len default_value st).2.numbers := by
  by_cases hm : (matchStep numbers_len default_value st).1 = true
  · rw [loopBody_of_matched numbers_len default_value fuel st hm] at h
    exact loopMatched_done_numbers fuel (afterMatch numbers_len default_value st) s h
  · have hb : loopBody numbers_len default_value fuel st =
        loopUnmatched (SKIP_PATTERN (matchStep numbers_len default_value st).2
          (patternSeparatorPos st.pattern_ptr.bytes st.pattern_len)) := if_neg hm
    rw [hb] at h
    exact loopUnmatched_done_numbers
      (SKIP_PATTERN (matchStep numbers_len default_value st).2
        (patternSeparatorPos st.pattern_ptr.bytes st.pattern_len)) s h

theorem matchLoop_frame {pattern : List Nat} {L : Nat}
    (hL0 : ∀ j, j < L → pattern.getD j 0 ≠ 0)
    (hterm : pattern.getD L 0 = 0 ∨ pattern.getD L 0 = 63)
    (numbers_len : Nat) (default_value : Int) (ifuel : Nat) :
    ∀ (fuel : Nat) (st s : MatchState) (a : List Int), SuffixInv pattern L st →
      st.numbers = some a →
      matchLoop numbers_len default_value ifuel fuel st = some s →
      ∃ b, s.numbers = some b ∧ b.length = a.length ∧
        ∀ j, j < st.numbers_idx → b.getD j 0 = a.getD j 0 := by
  intro fuel
  induction fuel with
  | zero => intro st s a _ _ h; simp [matchLoop] at h
  | succ fuel ih =>
    intro st s a hinv hnum h
    obtain ⟨b1, hb1, hlen1, hfr1⟩ := matchStep_frame numbers_len default_value st a hnum
    unfold matchLoop at h
    cases hb : loopBody numbers_len default_value ifuel st with
    | next st1 =>
      rw [hb] at h
      obtain ⟨hinv1, hn1, hi1⟩ := loopBody_next_suffix hL0 hterm numbers_len default_value
        ifuel st st1 hinv hb
      obtain ⟨b, hbs, hlen, hfr⟩ := ih st1 s b1 hinv1 (hn1.trans hb1) h
      refine ⟨b, hbs, hlen.trans hlen1, ?_⟩
      intro j hj
      have hmono : st.numbers_idx ≤ st1.numbers_idx := by
        rw [hi1, matchStep_numbers_idx]; omega
      rw [hfr j (by omega), hfr1 j (by omega)]
    | done s1 =>
      rw [hb] at h
      simp only [Option.some.injEq] at h
      subst h
      have := loopBody_done_numbers numbers_len default_value ifuel st s1 hb
      exact ⟨b1, this.trans hb1, hlen1, fun j hj => hfr1 j (by omega)⟩
    | stuck => rw [hb] at h; simp at h

theorem matchLoop_capture {pattern : List Nat} {L : Nat}
    (hL0 : ∀ j, j < L → pattern.getD j 0 ≠ 0)
    (hterm : pattern.getD L 0 = 0 ∨ pattern.getD L 0 = 63)
    (numbers_len : Nat) (default_value : Int) (ifuel fuel : Nat) (st s : MatchState)
    (b1 : List Int) (hinv : SuffixInv pattern L st)
    (hb1 : (matchStep numbers_len default_value st).2.numbers = some b1)
    (hhash : passHash st = true)
    (h : matchLoop numbers_len default_value ifuel (fuel + 1) st = some s) :
    ∃ b, s.numbers = some b ∧ b.length = b1.length ∧
      b.getD st.numbers_idx 0 = b1.getD st.numbers_idx 0 := by
  unfold matchLoop at h
  cases hb : loopBody numbers_len default_value ifuel st with
  | next st1 =>
    rw [hb] at h
    obtain ⟨hinv1, hn1, hi1⟩ := loopBody_next_suffix hL0 hterm numbers_len default_value
      ifuel st st1 hinv hb
    obtain ⟨b, hbs, hlen, hfr⟩ := matchLoop_frame hL0 hterm numbers_len default_value ifuel
      fuel st1 s b1 hinv1 (hn1.trans hb1) h
    refine ⟨b, hbs, hlen, hfr _ ?_⟩
    rw [hi1, matchStep_numbers_idx, if_pos hhash]
    omega
  | done s1 =>
    rw [hb] at h
    simp only [Option.some.injEq] at h
    subst h
    have := loopBody_done_numbers numbers_len default_value ifuel st s1 hb
    exact ⟨b1, this.trans hb1, rfl, rfl⟩
  | stuck => rw [hb] at h; simp at h

theorem strnlen_bytes : ∀ (cmd : List Nat) (n : Nat),
    strnlen cmd n ≤ cmd.length ∧ ∀ j, j < strnlen cmd n → cmd.getD j 0 ≠ 0 := by
  intro cmd
  induction cmd with
  | nil => intro n; cases n <;> simp [strnlen]
  | cons c cs ih =>
    intro n
    cases n with
    | zero => simp [strnlen]
    | succ n =>
      unfold strnlen
      by_cases hc : c = 0
      · rw [if_pos hc]; simp
      · rw [if_neg hc]
        obtain ⟨h1, h2⟩ := ih n
        refine ⟨by simp; omega, ?_⟩
        intro j hj
        cases j with
        | zero => simpa using hc
        | succ j => simpa using h2 j (by omega)

theorem skipPatternStart_suffix {pattern : List Nat} {L : Nat}
    (hterm : pattern.getD L 0 = 0 ∨ pattern.getD L 0 = 63) (st : MatchState)
    (h : SuffixInv pattern L st) :
    SuffixInv pattern L (skipPatternStart st) ∧ (skipPatternStart st).numbers = st.numbers := by
  have colon : ∀ s : MatchState, SuffixInv pattern L s →
      SuffixInv pattern L (if s.pattern_ptr.get 0 = 58 then SKIP_PATTERN s 1 else s) ∧
        (if s.pattern_ptr.get 0 = 58 then SKIP_PATTERN s 1 else s).numbers = s.numbers := by
    intro s hs
    by_cases h58 : s.pattern_ptr.get 0 = 58
    · rw [if_pos h58]
      refine ⟨SuffixInv.skip_separators hterm hs 1 0 (by omega) ?_ ?_ ?_ _ rfl rfl rfl rfl rfl, rfl⟩
      · intro _; rw [h58]; decide
      · intro hc; omega
      · intro hc; omega
    · rw [if_neg h58]
      exact ⟨hs, rfl⟩
  unfold skipPatternStart
  by_cases h91 : st.pattern_ptr.get 0 = 91
  · simp only [h91, if_true]
    have h1 : SuffixInv pattern L { SKIP_PATTERN st 1 with brackets := st.brackets + 1 } := by
      refine SuffixInv.skip_separators hterm h 1 0 (by omega) ?_ ?_ ?_ _ rfl rfl rfl rfl rfl
      · intro _; rw [h91]; decide
      · intro hc; omega
      · intro hc; omega
    obtain ⟨k1, k2⟩ := colon _ h1
    exact ⟨k1, k2⟩
  · simp only [h91, if_false]
    exact colon st h

theorem matchCommandEntry_suffix (pattern cmd : List Nat) (len : Nat)
    (numbers : Option (List Int)) (st0 : MatchState)
    (h : matchCommandEntry pattern cmd len numbers = some st0) :
    ∃ L : Nat, SuffixInv pattern L st0 ∧ (∀ j, j < L → pattern.getD j 0 ≠ 0) ∧
      (pattern.getD L 0 = 0 ∨ pattern.getD L 0 = 63) ∧ st0.numbers = numbers := by
  obtain ⟨hnz, hz⟩ := strlen_spec pattern
  obtain ⟨hc1, hc2⟩ := strnlen_bytes cmd len
  have hinit : SuffixInv pattern (strlen pattern) (matchCommandInit pattern cmd len numbers) :=
    ⟨0, rfl, by omega, rfl, rfl, hc1, hc2⟩
  unfold matchCommandEntry at h
  simp only at h
  by_cases hq1 : (matchCommandInit pattern cmd len numbers).pattern_ptr.get
      ((matchCommandInit pattern cmd len numbers).pattern_len - 1) = 63 ∧
      byteAt cmd (((matchCommandInit pattern cmd len numbers).cmd_len : Int) - 1) ≠ 63
  · rw [if_pos hq1] at h
    exact absurd h (by simp)
  · rw [if_neg hq1] at h
    obtain ⟨st', L, hL, hinv, hLterm, hnum, hst'⟩ :
        ∃ (st' : MatchState) (L : Nat), L ≤ strlen pattern ∧
          SuffixInv pattern L st' ∧ (pattern.getD L 0 = 0 ∨ pattern.getD L 0 = 63) ∧
          st'.numbers = numbers ∧
          st' = (if (matchCommandInit pattern cmd len numbers).pattern_ptr.get
              ((matchCommandInit pattern cmd len numbers).pattern_len - 1) = 63
            then { matchCommandInit pattern cmd len numbers with
              cmd_len := (matchCommandInit pattern cmd len numbers).cmd_len - 1,
              pattern_len := (matchCommandInit pattern cmd len numbers).pattern_len - 1 }
            else matchCommandInit pattern cmd len numbers) := by
      by_cases hq : (matchCommandInit pattern cmd len numbers).pattern_ptr.get
          ((matchCommandInit pattern cmd len numbers).pattern_len - 1) = 63
      · rw [if_pos hq]
        have hpos : 1 ≤ strlen pattern := by
          by_contra hc
          have h0 : strlen pattern = 0 := by omega
          simp only [matchCommandInit, h0, CPtr.get, byteAt] at hq
          simp at hq
        have hlast : pattern.getD (strlen pattern - 1) 0 = 63 := by
          have e : ((strlen pattern : Nat) : Int) - 1 = ((strlen pattern - 1 : Nat) : Int) := by
            omega
          simp only [matchCommandInit] at hq
          rw [e] at hq
          have := CPtr.get_mk pattern 0 (strlen pattern - 1)
          simp only [Nat.cast_zero, Nat.zero_add] at this
          rw [this] at hq
          exact hq
        refine ⟨_, strlen pattern - 1, by omega, ?_, Or.inr hlast, rfl, rfl⟩
        refine ⟨0, rfl, by omega, ?_, rfl, ?_, ?_⟩
        · simp only [matchCommandInit, Nat.sub_zero]
          omega
        · simp only [matchCommandInit]
          omega
        · intro j hj
          simp only [matchCommandInit] at hj ⊢
          exact hc2 j (by omega)
      · rw [if_neg hq]
        exact ⟨_, strlen pattern, le_refl _, hinit, Or.inl hz, rfl, rfl⟩
    rw [← hst'] at h
    have hL0 : ∀ j, j < L → pattern.getD j 0 ≠ 0 := fun j hj => hnz j (by omega)
    obtain ⟨hinv1, hnum1⟩ := skipPatternStart_suffix hLterm st' hinv
    by_cases hs : (skipPatternStart st').cmd_ptr.headD 0 = 58 ∧
        2 ≤ (skipPatternStart st').cmd_len ∧ (skipPatternStart st').cmd_ptr.getD 1 0 = 42
    · rw [if_pos hs] at h
      exact absurd h (by simp)
    · rw [if_neg hs] at h
      simp only [Option.some.injEq] at h
      subst h
      refine ⟨L, ?_, hL0, hLterm, ?_⟩
      · split
        · refine SuffixInv.skip_separators hLterm hinv1 0 1 (by omega) ?_ ?_ ?_ _ ?_ ?_ rfl rfl rfl
          · intro hc; omega
          · intro hc; omega
          · intro hc; omega
          · simp [SKIP_CMD, CPtr.add]
          · simp [SKIP_CMD]
        · exact hinv1
      · split
        · exact hnum1.trans hnum
        · exact hnum1.trans hnum

/-- C8 (amended): take any pattern, command, numbers array and default value for which
`matchCommand` returns TRUE, and any pass `st` of its main loop whose pattern keyword
ends in `#` (`passHash`) and is matched by `matchPattern` against the command segment
of the pass (`passSegment`, the command bytes up to the next `:` or `?`).  Let `i` be
the value of `numbers_idx` at the pass.  Then `i` is the number of keywords ending in
`#` in front of this keyword in the pattern (`hashCount`).  If `i` is below the array
length, the keyword in front of its `#` holds no digit, the byte in front of the
trailing digit run of the segment is not `-`, and the value of the run is below
`2^31`, then the call leaves `numbers[i]` equal to the decimal value of the trailing
digit run of the segment when the run is not empty, and equal to `default_value` when
it is empty (the segment holds no digit); the array keeps its length.  Nothing is
asked of the brackets, of the letter case or of the other keywords of the pattern. -/
theorem matchCommand_numeric_suffix_pass (pattern cmd : List Nat) (len : Nat)
    (nums : List Int) (default_value : Int) (st : MatchState)
    (hsucc : matchCommand pattern cmd len (some nums) nums.length default_value = some true)
    (hpass : st ∈ matchCommandPasses pattern cmd len (some nums) nums.length default_value)
    (hhash : passHash st = true)
    (hm : (matchStep nums.length default_value st).1 = true)
    (hi : st.numbers_idx < nums.length)
    (hkw : ∀ c ∈ passKeyword st, isdigit c = false)
    (hsign : (beforeDigits (passSegment st)).getLast? ≠ some 45)
    (hval : digitsValue (trailingDigits (passSegment st)) < 2147483648) :
    st.numbers_idx = hashCount pattern st.pattern_ptr.off.toNat ∧
    ∃ out, matchCommandNumbers pattern cmd len (some nums) nums.length default_value =
        some out ∧ out.length = nums.length ∧
      out.getD st.numbers_idx 0 =
        (if trailingDigits (passSegment st) = [] then default_value
          else (digitsValue (trailingDigits (passSegment st)) : Int)) := by
  unfold matchCommandPasses at hpass
  cases he : matchCommandEntry pattern cmd len (some nums) with
  | none => rw [he] at hpass; simp at hpass
  | some st0 =>
    rw [he] at hpass
    simp only at hpass
    obtain ⟨L, hinv0, hL0, hterm, hnum0⟩ :=
      matchCommandEntry_suffix pattern cmd len (some nums) st0 he
    have hP := loopPasses_induction nums.length default_value (strlen pattern + 2)
      (fun s => SuffixInv pattern L s ∧ ∃ a, s.numbers = some a ∧ a.length = nums.length)
      (by
        intro s s1 hs hb
        obtain ⟨hs1, a, ha, hal⟩ := hs
        obtain ⟨hinv1, hn1, _⟩ := loopBody_next_suffix hL0 hterm nums.length default_value
          (strlen pattern + 2) s s1 hs1 hb
        obtain ⟨b1, hb1, hlen1, _⟩ := matchStep_frame nums.length default_value s a ha
        exact ⟨hinv1, b1, hn1.trans hb1, hlen1.trans hal⟩)
      (strlen pattern + 2) st0 st ⟨hinv0, nums, hnum0, rfl⟩ hpass
    obtain ⟨hinv, a, ha, hal⟩ := hP
    obtain ⟨f, hf⟩ := loopPasses_run nums.length default_value (strlen pattern + 2)
      (strlen pattern + 2) st0 st hpass
    have hrun := matchCommandRun_of_entry pattern cmd len (some nums) nums.length
      default_value st0 he
    rw [← hf] at hrun
    obtain ⟨s, hs⟩ : ∃ s, matchCommandRun pattern cmd len (some nums) nums.length
        default_value = some s := by
      unfold matchCommand at hsucc
      cases hr : matchCommandRun pattern cmd len (some nums) nums.length default_value with
      | none => rw [hr] at hsucc; simp at hsucc
      | some s => exact ⟨s, rfl⟩
    rw [hs] at hrun
    have hinv' := hinv
    obtain ⟨o, hp, ho, hl, hidx, hcl, hs0⟩ := hinv'
    obtain ⟨b1, hb1, hcap⟩ := matchStep_capture nums.length default_value st a ha hal hhash hi
      hm (by rw [hl]; exact Int.natCast_nonneg _) (by rw [hp]; exact Int.natCast_nonneg _)
      hkw hcl hs0 hsign hval
    obtain ⟨b1', hb1', hlen1, _⟩ := matchStep_frame nums.length default_value st a ha
    have hbb : b1' = b1 := by
      rw [hb1] at hb1'
      exact (Option.some.inj hb1').symm
    subst hbb
    obtain ⟨b, hbs, hlen, hget⟩ := matchLoop_capture hL0 hterm nums.length default_value
      (strlen pattern + 2) f st s b1' hinv hb1 hhash hrun.symm
    refine ⟨?_, b, ?_, ?_, ?_⟩
    · rw [hidx, hp]
      simp
    · unfold matchCommandNumbers
      rw [hs]
      exact hbs
    · rw [hlen, hlen1, hal]
    · rw [hget, hcap]

/-- C8 at patterns with optional groups and short forms: `SOURce#[:VOLTage#]:LEVel#`
with the command `SOUR2:LEV4` (the passes of `SOURce#` and of `LEVel#`, suffixes 0 and
2; the call leaves `[2, -1, 4]`), and `CONFigure:CHANnel#?` with `CONF:CHAN5?` (5 is
stored) and with `CONF:CHAN?` (the default value is left). -/
theorem matchCommand_numeric_suffix_pass_witness :
    ((0 : Nat) = hashCount (str "SOURce#[:VOLTage#]:LEVel#") 0 ∧
      ∃ out, matchCommandNumbers (str "SOURce#[:VOLTage#]:LEVel#") (str "SOUR2:LEV4") 10
          (some [0, 0, 0]) 3 (-1) = some out ∧ out.length = 3 ∧
        out.getD 0 0 = (if trailingDigits (str "SOUR2") = [] then (-1 : Int)
          else (digitsValue (trailingDigits (str "SOUR2")) : Int))) ∧
    ((2 : Nat) = hashCount (str "SOURce#[:VOLTage#]:LEVel#") 19 ∧
      ∃ out, matchCommandNumbers (str "SOURce#[:VOLTage#]:LEVel#") (str "SOUR2:LEV4") 10
          (some [0, 0, 0]) 3 (-1) = some out ∧ out.length = 3 ∧
        out.getD 2 0 = (if trailingDigits (str "LEV4") = [] then (-1 : Int)
          else (digitsValue (trailingDigits (str "LEV4")) : Int))) ∧
    ((0 : Nat) = hashCount (str "CONFigure:CHANnel#?") 10 ∧
      ∃ out, matchCommandNumbers (str "CONFigure:CHANnel#?") (str "CONF:CHAN5?") 11
          (some [0]) 1 7 = some out ∧ out.length = 1 ∧
        out.getD 0 0 = (if trailingDigits (str "CHAN5") = [] then (7 : Int)
          else (digitsValue (trailingDigits (str "CHAN5")) : Int))) ∧
    ((0 : Nat) = hashCount (str "CONFigure:CHANnel#?") 10 ∧
      ∃ out, matchCommandNumbers (str "CONFigure:CHANnel#?") (str "CONF:CHAN?") 10
          (some [0]) 1 7 = some out ∧ out.length = 1 ∧
        out.getD 0 0 = (if trailingDigits (str "CHAN") = [] then (7 : Int)
          else (digitsValue (trailingDigits (str "CHAN")) : Int))) ∧
    matchCommandNumbers (str "SOURce#[:VOLTage#]:LEVel#") (str "SOUR2:LEV4") 10
      (some [0, 0, 0]) 3 (-1) = some [2, -1, 4] ∧
    matchCommandNumbers (str "CONFigure:CHANnel#?") (str "CONF:CHAN5?") 11 (some [0]) 1 7 =
      some [5] ∧
    matchCommandNumbers (str "CONFigure:CHANnel#?") (str "CONF:CHAN?") 10 (some [0]) 1 7 =
      some [7] :=
  ⟨matchCommand_numeric_suffix_pass (str "SOURce#[:VOLTage#]:LEVel#") (str "SOUR2:LEV4") 10
      [0, 0, 0] (-1)
      ⟨⟨str "SOURce#[:VOLTage#]:LEVel#", 0⟩, 25, str "SOUR2:LEV4", 10, 0, 0, some [0, 0, 0],
        false⟩
      (by decide) (by decide) (by decide) (by decide) (by decide) (by decide) (by decide)
      (by decide),
   matchCommand_numeric_suffix_pass (str "SOURce#[:VOLTage#]:LEVel#") (str "SOUR2:LEV4") 10
      [0, 0, 0] (-1)
      ⟨⟨str "SOURce#[:VOLTage#]:LEVel#", 19⟩, 6, str "LEV4", 4, 0, 2, some [2, -1, 0], true⟩
      (by decide) (by decide) (by decide) (by decide) (by decide) (by decide) (by decide)
      (by decide),
   matchCommand_numeric_suffix_pass (str "CONFigure:CHANnel#?") (str "CONF:CHAN5?") 11
      [0] 7
      ⟨⟨str "CONFigure:CHANnel#?", 10⟩, 8, str "CHAN5?", 5, 0, 0, some [0], true⟩
      (by decide) (by decide) (by decide) (by decide) (by decide) (by decide) (by decide)
      (by decide),
   matchCommand_numeric_suffix_pass (str "CONFigure:CHANnel#?") (str "CONF:CHAN?") 10
      [0] 7
      ⟨⟨str "CONFigure:CHANnel#?", 10⟩, 8, str "CHAN?", 4, 0, 0, some [0], true⟩
      (by decide) (by decide) (by decide) (by decide) (by decide) (by decide) (by decide)
      (by decide),
   by decide, by decide, by decide⟩

/-- C8, counterexamples to the claim as stated, each a successful call on a one-cell
array with default value 7.  (1) `CHANnel#` with `CHAN4294967296`: the trailing digit
run has the value `2^32` and the cell, an `int32_t`, is left holding `0`.  (2)
`CHANnel#` with `CHAN-5`: the trailing digit run is `5` and the cell is left holding
`-5`, since `strtol` takes the sign.  (3) `A1#` with `A12`: the trailing digit run is
`12` and the cell is left holding `2`, since the digit `1` is matched by the keyword.
(4) `A1#` with `A1`: the trailing digit run is `1` and the cell is left holding the
default value. -/
theorem matchCommand_numeric_suffix_counterexample :
    (matchCommand (str "CHANnel#") (str "CHAN4294967296") 14 (some [7]) 1 7 = some true ∧
      matchCommandNumbers (str "CHANnel#") (str "CHAN4294967296") 14 (some [7]) 1 7 =
        some [0] ∧
      digitsValue (trailingDigits (str "CHAN4294967296")) = 4294967296) ∧
    (matchCommand (str "CHANnel#") (str "CHAN-5") 6 (some [7]) 1 7 = some true ∧
      matchCommandNumbers (str "CHANnel#") (str "CHAN-5") 6 (some [7]) 1 7 = some [-5] ∧
      trailingDigits (str "CHAN-5") = str "5" ∧ digitsValue (str "5") = 5) ∧
    (matchCommand (str "A1#") (str "A12") 3 (some [7]) 1 7 = some true ∧
      matchCommandNumbers (str "A1#") (str "A12") 3 (some [7]) 1 7 = some [2] ∧
      trailingDigits (str "A12") = str "12" ∧ digitsValue (str "12") = 12) ∧
    (matchCommand (str "A1#") (str "A1") 2 (some [7]) 1 7 = some true ∧
      matchCommandNumbers (str "A1#") (str "A1") 2 (some [7]) 1 7 = some [7] ∧
      trailingDigits (str "A1") = str "1" ∧ digitsValue (str "1") = 1) := by
  decide

end Scpi
